import Mathlib

/-!
# OpenDiablo2 `Map/Region.go`: tile decoding, tile caches and render dispatch

A shallow embedding of `Map/Region.go`.

* Values of Go's `int32` and `uint32` are integers; every arithmetic operation
  of the source at those types is followed by an explicit reduction into the
  type (`toInt32`, `toUint32`).
* Values of Go's `int` (screen offsets, `idx`) are unbounded integers.
* A run-time panic (index out of range, nil dereference, negative `make`
  length) and `log.Fatal` are results of type `Failure`.
* Slices are lists, the three caches are finite maps seen as functions from
  the key to an optional entry; an entry is an optional record because the
  source stores `*TileCacheRecord` pointers, which may be nil.
-/

namespace OpenDiablo2

/-! ## Machine integers -/

/-- Conversion to Go `int32`: the representative of `i` modulo `2^32` in `[-2^31, 2^31)`. -/
def toInt32 (i : Int) : Int := (i + 2147483648) % 4294967296 - 2147483648

/-- Conversion to Go `uint32`: the representative of `i` modulo `2^32` in `[0, 2^32)`. -/
def toUint32 (i : Int) : Nat := (i % 4294967296).toNat

/-- Addition at type `int32`. -/
def addInt32 (a b : Int) : Int := toInt32 (a + b)

/-- Subtraction at type `int32`. -/
def subInt32 (a b : Int) : Int := toInt32 (a - b)

/-- Multiplication at type `int32`. -/
def mulInt32 (a b : Int) : Int := toInt32 (a * b)

/-- Negation at type `int32`. -/
def negInt32 (a : Int) : Int := toInt32 (-a)

/-- Left shift at type `uint32`. -/
def shlUint32 (a k : Nat) : Nat := (a <<< k) % 4294967296

/-- Addition at type `uint32`. -/
def addUint32 (a b : Nat) : Nat := (a + b) % 4294967296

/-- Conversion to Go `int`, 64 bits wide: the representative of `i` modulo `2^64`
in `[-2^63, 2^63)`. -/
def toInt64 (i : Int) : Int :=
  (i + 9223372036854775808) % 18446744073709551616 - 9223372036854775808

/-- Addition at type `int`. -/
def addInt (a b : Int) : Int := toInt64 (a + b)

/-- The conversion `float64(i)` of a Go `int`: the nearest value with a
significand of 53 bits, ties going to the even significand. Every such value is
an integer, and is given as an integer. With `e` the number of bits of `|i|`
beyond 53, `|i|` is rounded to a multiple of `2^e`. -/
def toFloat64 (i : Int) : Int :=
  let e := ((List.range 11).filter (fun k => 2 ^ (53 + k) ≤ i.natAbs)).length
  let m := i.natAbs / 2 ^ e
  let r := i.natAbs % 2 ^ e
  let rounded := if 2 * r > 2 ^ e ∨ (2 * r = 2 ^ e ∧ m % 2 = 1) then m + 1 else m
  Int.sign i * ((rounded * 2 ^ e : Nat) : Int)

/-- Modelled from the spec: `Common.MinInt32` is declared outside `Region.go`; the spec
writes it `min`. -/
def MinInt32 (a b : Int) : Int := if a < b then a else b

/-- Modelled from the spec: `Common.MaxInt32` is declared outside `Region.go`; the spec
writes it `max`. -/
def MaxInt32 (a b : Int) : Int := if a > b then a else b

/-- Modelled from the spec: `Common.AbsInt32` is declared outside `Region.go`; the spec
writes it `|a|`. The result has type `int32`. -/
def AbsInt32 (a : Int) : Int := if a < 0 then negInt32 a else a

/-! ## Data model -/

/-- A Go `byte`. -/
abbrev Byte := Fin 256

/-- How an operation of the source can stop without returning. -/
inductive FatalSite where
  | locateTile
  | loadFloorTile
  | generateWall
  | loadShadowTile
  deriving DecidableEq, Repr

/-- The run-time panics of the embedded code. -/
inductive PanicKind where
  | indexOutOfRange
  | nilDereference
  | makeLenOutOfRange
  deriving DecidableEq, Repr

/-- A `log.Fatal` call at a site of `Region.go`, a run-time panic, or the
exhaustion of the fuel of a loop of the embedding. -/
inductive Failure where
  | fatal (site : FatalSite)
  | panic (kind : PanicKind)
  | fuel
  deriving DecidableEq, Repr

/-- Modelled from the spec: `Common.PaletteRec` is declared outside `Region.go`; one RGB
triple of the palette. -/
structure PaletteRGB where
  R : Byte
  G : Byte
  B : Byte
  deriving DecidableEq, Repr

/-- Modelled from the spec: `Common.PaletteRec` is declared outside `Region.go`; a
256-entry mapping from colour index to RGB triple. -/
structure PaletteRec where
  Colors : Byte → PaletteRGB

/-- Modelled from the spec: `BlockDataFormat` is declared outside `Region.go`; the
decoder only tests a block's format against `BlockFormatIsometric`. -/
inductive BlockDataFormat where
  | BlockFormatRLE
  | BlockFormatIsometric
  deriving DecidableEq, Repr

/-- Modelled from the spec: `Block` is declared outside `Region.go`. `Length` has type
`int32` (it initialises the `int32` loop variable); `X` and `Y` are values of
an integer type that `Region.go` does not show. -/
structure Block where
  X : Int
  Y : Int
  Format : BlockDataFormat
  EncodedData : List Byte
  Length : Int
  deriving DecidableEq, Repr

/-- Modelled from the spec: `Tile` is declared outside `Region.go`. `MainIndex`,
`SubIndex`, `Orientation`, `Width` and `Height` have type `int32` (they are
compared with, or passed as, `int32` values); `RoofHeight` is a value of an
integer type that `Region.go` does not show. -/
structure Tile where
  MainIndex : Int
  SubIndex : Int
  Orientation : Int
  Width : Int
  Height : Int
  RoofHeight : Int
  Blocks : List Block
  deriving DecidableEq, Repr

/-- Modelled from the spec: `FloorShadowRecord` is declared outside `Region.go`; a
reference to a tile by main and sub index, plus per-cell data (`Meta`) that
`Region.go` never reads. -/
structure FloorShadowRecord where
  MainIndex : Int
  SubIndex : Int
  Meta : Int
  deriving DecidableEq, Repr

/-- Modelled from the spec: `WallRecord` is declared outside `Region.go`; a reference to
a tile by main index, sub index and orientation, plus per-cell data (`Meta`)
that `Region.go` never reads. -/
structure WallRecord where
  MainIndex : Int
  SubIndex : Int
  Orientation : Int
  Meta : Int
  deriving DecidableEq, Repr

/-- Modelled from the spec: `ebiten.Image` is an opaque 2D surface with image upload
and blit; a surface is the size it was created with and the pixels uploaded to
it. -/
structure Image where
  Width : Int
  Height : Int
  Pixels : List Byte
  deriving DecidableEq, Repr

/-- The struct `TileCacheRecord`. -/
structure TileCacheRecord where
  Image : Image
  XOffset : Int
  YOffset : Int
  deriving DecidableEq, Repr

/-- A `map[uint32]*TileCacheRecord`: `none` when the key has no entry,
`some none` when the entry is a nil pointer. -/
abbrev TileCache := Nat → Option (Option TileCacheRecord)

/-- A map read `m[k]`: the zero value (nil) when the key has no entry. -/
def TileCache.read (m : TileCache) (k : Nat) : Option TileCacheRecord := (m k).join

/-- A map write `m[k] = p`. -/
def TileCache.write (m : TileCache) (k : Nat) (p : Option TileCacheRecord) : TileCache :=
  fun j => if j = k then some p else m j

/-- Modelled from the spec: the DS1 region grid is declared outside `Region.go`; the
layer records of one cell. -/
structure TileRecord where
  Floors : List FloorShadowRecord
  Walls : List WallRecord
  Shadows : List FloorShadowRecord
  deriving DecidableEq, Repr

/-- Modelled from the spec: the DS1 region grid is declared outside `Region.go`; a 2D
arrangement of cells, indexed `Tiles[tileY][tileX]`. -/
structure DS1 where
  Tiles : List (List TileRecord)
  deriving DecidableEq, Repr

/-- The struct `Region`, with the fields the rendering code reads or writes. -/
structure Region where
  Tiles : List Tile
  DS1 : DS1
  Palette : PaletteRec
  FloorCache : TileCache
  ShadowCache : TileCache
  WallCache : TileCache

/-- The constants of type `RegionLayerType`. -/
def RegionLayerTypeFloors : Int := 0

/-- The wall layer. -/
def RegionLayerTypeWalls : Int := 1

/-- The shadow layer. -/
def RegionLayerTypeShadows : Int := 2

/-- Modelled from the spec: the colour argument of the blit; the shadow tint is RGBA
(255,255,255,160). -/
structure RGBA where
  R : Byte
  G : Byte
  B : Byte
  A : Byte
  deriving DecidableEq, Repr

/-- One `target.DrawImage` call: the surface, the translation `(X, Y)` of the
options, two `float64` values (integers, see `toFloat64`), and the colour matrix
of the options, if one was set. -/
structure DrawCall where
  Image : Image
  X : Int
  Y : Int
  ColorM : Option RGBA
  deriving DecidableEq, Repr

/-- The target surface, as the sequence of draw calls made on it. -/
abbrev Target := List DrawCall

/-- A slice read `xs[i]` with an integer index; panics out of range. -/
def indexSlice {α : Type} (xs : List α) (i : Int) : Except Failure α :=
  if 0 ≤ i then
    match xs[i.toNat]? with
    | some a => .ok a
    | none => .error (.panic .indexOutOfRange)
  else .error (.panic .indexOutOfRange)

/-- A slice write `pixels[i] = b` with an integer index; panics out of range. -/
def storeByte (pixels : List Byte) (i : Int) (b : Byte) : Except Failure (List Byte) :=
  if 0 ≤ i ∧ i < pixels.length then .ok (pixels.set i.toNat b)
  else .error (.panic .indexOutOfRange)

/-- The allocation `make([]byte, n)`: `n` zero bytes; panics when `n` is negative. -/
def makeBytes (n : Int) : Except Failure (List Byte) :=
  if n < 0 then .error (.panic .makeLenOutOfRange) else .ok (List.replicate n.toNat 0)

/-! ## `getTile` -/

/-- The method `Region.getTile`: the first tile with the given identity, `none` for nil. -/
def getTile (v : Region) (mainIndex subIndex orientation : Int) : Option Tile :=
  v.Tiles.find? (fun tile =>
    !(decide (tile.MainIndex ≠ mainIndex) || decide (tile.SubIndex ≠ subIndex)
      || decide (tile.Orientation ≠ orientation)))

/-! ## `decodeTileGfxData` -/

/-- The table `xjump` of the isometric decoder. -/
def xjump : List Int := [14, 12, 10, 8, 6, 4, 2, 0, 2, 4, 6, 8, 10, 12, 14]

/-- The table `nbpix` of the isometric decoder. -/
def nbpix : List Int := [4, 8, 12, 16, 20, 24, 28, 32, 28, 24, 20, 16, 12, 8, 4]

/-- The expression `4 * (((blockY + y + tileYOffset) * tileWidth) + (blockX + x))`
at type `int32`. -/
def pixelOffset (blockX blockY x y tileYOffset tileWidth : Int) : Int :=
  mulInt32 4 (addInt32 (mulInt32 (addInt32 (addInt32 blockY y) tileYOffset) tileWidth)
    (addInt32 blockX x))

/-- The four stores `pixels[offset] = R`, `pixels[offset+1] = G`,
`pixels[offset+2] = B`, `pixels[offset+3] = 255`. -/
def storePixel (pixels : List Byte) (offset : Int) (pixelColor : PaletteRGB) :
    Except Failure (List Byte) := do
  let pixels ← storeByte pixels offset pixelColor.R
  let pixels ← storeByte pixels (addInt32 offset 1) pixelColor.G
  let pixels ← storeByte pixels (addInt32 offset 2) pixelColor.B
  storeByte pixels (addInt32 offset 3) 255

/-- The body shared by the two inner loops: `if colorIndex != 0 { ... }`. -/
def plotPixel (pal : PaletteRec) (pixels : List Byte) (colorIndex : Byte)
    (blockX blockY x y tileYOffset tileWidth : Int) : Except Failure (List Byte) :=
  if colorIndex ≠ 0 then
    storePixel pixels (pixelOffset blockX blockY x y tileYOffset tileWidth)
      (pal.Colors colorIndex)
  else .ok pixels

/-- The variables of a block's decoding loops. -/
structure DecodeState where
  length : Int
  x : Int
  y : Int
  idx : Nat
  pixels : List Byte
  deriving DecidableEq, Repr

/-- The inner loop `for n > 0` of the isometric decoder, by recursion on `n`. -/
def isoInnerLoop (pal : PaletteRec) (data : List Byte)
    (blockX blockY tileYOffset tileWidth y : Int) :
    Nat → Int → Nat → List Byte → Except Failure (Int × Nat × List Byte)
  | 0, x, idx, pixels => .ok (x, idx, pixels)
  | n + 1, x, idx, pixels => do
    let colorIndex ← indexSlice data idx
    let pixels ← plotPixel pal pixels colorIndex blockX blockY x y tileYOffset tileWidth
    isoInnerLoop pal data blockX blockY tileYOffset tileWidth y n (addInt32 x 1) (idx + 1) pixels

/-- The outer loop `for length > 0` of the isometric decoder. Each iteration
takes one unit of fuel. -/
def isoOuterLoop (pal : PaletteRec) (data : List Byte)
    (blockX blockY tileYOffset tileWidth : Int) :
    Nat → DecodeState → Except Failure DecodeState
  | 0, s => if s.length > 0 then .error .fuel else .ok s
  | fuel + 1, s =>
    if s.length > 0 then do
      let x ← indexSlice xjump s.y
      let n ← indexSlice nbpix s.y
      let length := subInt32 s.length n
      let (x, idx, pixels) ←
        isoInnerLoop pal data blockX blockY tileYOffset tileWidth s.y n.toNat x s.idx s.pixels
      isoOuterLoop pal data blockX blockY tileYOffset tileWidth fuel
        ⟨length, x, addInt32 s.y 1, idx, pixels⟩
    else .ok s

/-- The inner loop `for b2 > 0` of the run-length decoder, by recursion on `b2`. -/
def rleInnerLoop (pal : PaletteRec) (data : List Byte)
    (blockX blockY tileYOffset tileWidth y : Int) :
    Nat → Int → Nat → List Byte → Except Failure (Int × Nat × List Byte)
  | 0, x, idx, pixels => .ok (x, idx, pixels)
  | b2 + 1, x, idx, pixels => do
    let colorIndex ← indexSlice data idx
    let pixels ← plotPixel pal pixels colorIndex blockX blockY x y tileYOffset tileWidth
    rleInnerLoop pal data blockX blockY tileYOffset tileWidth y b2 (addInt32 x 1) (idx + 1) pixels

/-- The outer loop `for length > 0` of the run-length decoder. Each iteration
takes one unit of fuel. -/
def rleOuterLoop (pal : PaletteRec) (data : List Byte)
    (blockX blockY tileYOffset tileWidth : Int) :
    Nat → DecodeState → Except Failure DecodeState
  | 0, s => if s.length > 0 then .error .fuel else .ok s
  | fuel + 1, s =>
    if s.length > 0 then do
      let b1 ← indexSlice data s.idx
      let b2 ← indexSlice data (s.idx + 1)
      let idx := s.idx + 2
      let length := subInt32 s.length 2
      if (b1.val ||| b2.val) = 0 then
        rleOuterLoop pal data blockX blockY tileYOffset tileWidth fuel
          ⟨length, 0, addInt32 s.y 1, idx, s.pixels⟩
      else do
        let x := addInt32 s.x b1.val
        let length := subInt32 length b2.val
        let (x, idx, pixels) ←
          rleInnerLoop pal data blockX blockY tileYOffset tileWidth s.y b2.val x idx s.pixels
        rleOuterLoop pal data blockX blockY tileYOffset tileWidth fuel
          ⟨length, x, s.y, idx, pixels⟩
    else .ok s

/-- The body of `for _, block := range blocks`: the final loop variables of the
block's decoder. The fuel is the initial value of `length`, which every
iteration of either outer loop decreases. -/
def decodeBlock (pal : PaletteRec) (block : Block) (pixels : List Byte)
    (tileYOffset tileWidth : Int) : Except Failure DecodeState :=
  if block.Format = .BlockFormatIsometric then
    isoOuterLoop pal block.EncodedData (toInt32 block.X) (toInt32 block.Y) tileYOffset tileWidth
      256 ⟨256, 0, 0, 0, pixels⟩
  else
    rleOuterLoop pal block.EncodedData (toInt32 block.X) (toInt32 block.Y) tileYOffset tileWidth
      block.Length.toNat ⟨block.Length, 0, 0, 0, pixels⟩

/-- The method `Region.decodeTileGfxData`: the contents of `pixels` afterwards. -/
def decodeTileGfxData (v : Region) :
    List Block → List Byte → Int → Int → Except Failure (List Byte)
  | [], pixels, _, _ => .ok pixels
  | block :: blocks, pixels, tileYOffset, tileWidth => do
    let s ← decodeBlock v.Palette block pixels tileYOffset tileWidth
    decodeTileGfxData v blocks s.pixels tileYOffset tileWidth

/-! ## Cache generators -/

/-- Conversion to a signed integer type of `bits` bits. -/
def toSigned (bits : Nat) (i : Int) : Int :=
  (i + 2 ^ (bits - 1)) % 2 ^ bits - 2 ^ (bits - 1)

/-- Modelled from the spec: `ebiten.NewImage` is declared outside this repository; a
new surface of the requested size, without pixels. -/
def NewImage (width height : Int) : Image := ⟨width, height, []⟩

/-- Modelled from the spec: `ebiten.Image.ReplacePixels` is declared outside this
repository; the image upload of an opaque 2D surface. -/
def Image.ReplacePixels (image : Image) (pixels : List Byte) : Image :=
  { image with Pixels := pixels }

/-- The method `Region.generateFloorCache`. -/
def generateFloorCache (v : Region) (tile : FloorShadowRecord) :
    Except Failure (Option TileCacheRecord) :=
  match getTile v (toInt32 tile.MainIndex) (toInt32 tile.SubIndex) 0 with
  | none => .error (.fatal .locateTile)
  | some tileData =>
    let tileYMinimum :=
      tileData.Blocks.foldl (fun tileYMinimum block => MinInt32 tileYMinimum (toInt32 block.Y)) 0
    let tileYOffset := AbsInt32 tileYMinimum
    let tileHeight := AbsInt32 tileData.Height
    let image := NewImage tileData.Width tileHeight
    do
      let pixels ← makeBytes (mulInt32 (mulInt32 4 tileData.Width) tileHeight)
      let pixels ← decodeTileGfxData v tileData.Blocks pixels tileYOffset tileData.Width
      pure (some ⟨image.ReplacePixels pixels, 0, 0⟩)

/-- The loop `for _, block := range blocks` of the shadow and wall generators:
the final `(tileMinY, tileMaxY)`. The sum `block.Y+32` is taken at the type of
`block.Y`, a signed integer type of `coordBits` bits. -/
def blockExtents (coordBits : Nat) (blocks : List Block) : Int × Int :=
  blocks.foldl (fun ext block =>
    (MinInt32 ext.1 (toInt32 block.Y),
     MaxInt32 ext.2 (toInt32 (toSigned coordBits (block.Y + 32))))) (0, 0)

/-- The method `Region.generateShadowCache`; `coordBits` is the width of the
integer type of `Block.Y`. -/
def generateShadowCache (coordBits : Nat) (v : Region) (tile : FloorShadowRecord) :
    Except Failure (Option TileCacheRecord) :=
  match getTile v (toInt32 tile.MainIndex) (toInt32 tile.SubIndex) 13 with
  | none => .ok none
  | some tileData =>
    let tileMinY := (blockExtents coordBits tileData.Blocks).1
    let tileMaxY := (blockExtents coordBits tileData.Blocks).2
    let tileYOffset := negInt32 tileMinY
    let tileHeight := subInt32 tileMaxY tileMinY
    let image := NewImage tileData.Width tileHeight
    do
      let pixels ← makeBytes (mulInt32 (mulInt32 4 tileData.Width) (toInt32 tileHeight))
      let pixels ← decodeTileGfxData v tileData.Blocks pixels tileYOffset tileData.Width
      pure (some ⟨image.ReplacePixels pixels, 0, tileMinY + 80⟩)

/-- The method `Region.generateWallCache`; `coordBits` is the width of the
integer type of `Block.Y`. -/
def generateWallCache (coordBits : Nat) (v : Region) (tile : WallRecord) :
    Except Failure (Option TileCacheRecord) :=
  match getTile v (toInt32 tile.MainIndex) (toInt32 tile.SubIndex) (toInt32 tile.Orientation) with
  | none => .ok none
  | some tileData =>
    let newTileData : Option Tile :=
      if tile.Orientation = 3 then
        getTile v (toInt32 tile.MainIndex) (toInt32 tile.SubIndex) (toInt32 4)
      else none
    let target : Tile :=
      match newTileData with
      | some newTile => if newTile.Height < tileData.Height then newTile else tileData
      | none => tileData
    let tileMinY := (blockExtents coordBits target.Blocks).1
    let tileMaxY := (blockExtents coordBits target.Blocks).2
    let realHeight := MaxInt32 (AbsInt32 tileData.Height) (subInt32 tileMaxY tileMinY)
    let tileYOffset := negInt32 tileMinY
    let image := NewImage 160 realHeight
    do
      let pixels ← makeBytes (mulInt32 (mulInt32 4 160) realHeight)
      let pixels ← decodeTileGfxData v tileData.Blocks pixels tileYOffset 160
      let pixels ←
        match newTileData with
        | some newTile => decodeTileGfxData v newTile.Blocks pixels tileYOffset 160
        | none => .ok pixels
      let yAdjust : Int :=
        if tile.Orientation > 15 then 80
        else if tile.Orientation = 15 then -tileData.RoofHeight
        else tileMinY + 80
      pure (some ⟨image.ReplacePixels pixels, 0, yAdjust⟩)

/-! ## Render dispatch -/

/-- What a render call leaves behind: the failure it stopped with, if any, the
region (with its caches) and the target. -/
structure RenderResult where
  failure : Option Failure
  region : Region
  target : Target

/-- The tail of the three render methods: `opts.GeoM.Translate` with
`float64(offsetX+tileCache.XOffset)` and `float64(offsetY+tileCache.YOffset)`,
the sums taken at type `int`, an optional `opts.ColorM`, and `target.DrawImage`.
A nil `tileCache` panics at the read of `tileCache.XOffset`. -/
def drawTileCache (v : Region) (tileCache : Option TileCacheRecord) (offsetX offsetY : Int)
    (colorM : Option RGBA) (target : Target) : RenderResult :=
  match tileCache with
  | none => ⟨some (.panic .nilDereference), v, target⟩
  | some record =>
    ⟨none, v, target ++ [⟨record.Image, toFloat64 (addInt offsetX record.XOffset),
      toFloat64 (addInt offsetY record.YOffset), colorM⟩]⟩

/-- The cache key of `renderFloor`. -/
def floorCacheIndex (tile : FloorShadowRecord) : Nat :=
  shlUint32 (toUint32 tile.MainIndex) 16 ||| shlUint32 (toUint32 tile.SubIndex) 8

/-- The cache key of `renderWall`. -/
def wallCacheIndex (tile : WallRecord) : Nat :=
  shlUint32 (toUint32 tile.MainIndex) 16 ||| shlUint32 (toUint32 tile.SubIndex) 8
    ||| toUint32 tile.Orientation

/-- The cache key of `renderShadow`. -/
def shadowCacheIndex (tile : FloorShadowRecord) : Nat :=
  addUint32 (addUint32 (shlUint32 (toUint32 tile.MainIndex) 16)
    (shlUint32 (toUint32 tile.SubIndex) 8)) 0

/-- The method `Region.renderFloor`. -/
def renderFloor (v : Region) (tile : FloorShadowRecord) (offsetX offsetY : Int)
    (target : Target) : RenderResult :=
  let tileCacheIndex := floorCacheIndex tile
  match v.FloorCache tileCacheIndex with
  | some tileCache => drawTileCache v tileCache offsetX offsetY none target
  | none =>
    match generateFloorCache v tile with
    | .error e => ⟨some e, v, target⟩
    | .ok generated =>
      let v := { v with FloorCache := v.FloorCache.write tileCacheIndex generated }
      let tileCache := v.FloorCache.read tileCacheIndex
      if tileCache = none then ⟨some (.fatal .loadFloorTile), v, target⟩
      else drawTileCache v tileCache offsetX offsetY none target

/-- The method `Region.renderWall`; `coordBits` is the width of the integer
type of `Block.Y`. -/
def renderWall (coordBits : Nat) (v : Region) (tile : WallRecord) (offsetX offsetY : Int)
    (target : Target) : RenderResult :=
  let tileCacheIndex := wallCacheIndex tile
  match v.WallCache tileCacheIndex with
  | some tileCache => drawTileCache v tileCache offsetX offsetY none target
  | none =>
    match generateWallCache coordBits v tile with
    | .error e => ⟨some e, v, target⟩
    | .ok generated =>
      let v := { v with WallCache := v.WallCache.write tileCacheIndex generated }
      if v.WallCache.read tileCacheIndex = none then ⟨some (.fatal .generateWall), v, target⟩
      else
        let tileCache := v.WallCache.read tileCacheIndex
        drawTileCache v tileCache offsetX offsetY none target

/-- The method `Region.renderShadow`; `coordBits` is the width of the integer
type of `Block.Y`. -/
def renderShadow (coordBits : Nat) (v : Region) (tile : FloorShadowRecord)
    (offsetX offsetY : Int) (target : Target) : RenderResult :=
  let tileCacheIndex := shadowCacheIndex tile
  match v.ShadowCache tileCacheIndex with
  | some tileCache =>
    drawTileCache v tileCache offsetX offsetY (some ⟨255, 255, 255, 160⟩) target
  | none =>
    match generateShadowCache coordBits v tile with
    | .error e => ⟨some e, v, target⟩
    | .ok generated =>
      let v := { v with ShadowCache := v.ShadowCache.write tileCacheIndex generated }
      let tileCache := v.ShadowCache.read tileCacheIndex
      if tileCache = none then ⟨some (.fatal .loadShadowTile), v, target⟩
      else drawTileCache v tileCache offsetX offsetY (some ⟨255, 255, 255, 160⟩) target

/-- The layer record `v.DS1.Tiles[tileY][tileX]`. -/
def cellAt (v : Region) (tileX tileY : Int) : Except Failure TileRecord := do
  let row ← indexSlice v.DS1.Tiles tileY
  indexSlice row tileX

/-- The method `Region.RenderTile`; `coordBits` is the width of the integer
type of `Block.Y`. -/
def RenderTile (coordBits : Nat) (v : Region) (offsetX offsetY tileX tileY : Int)
    (layerType : Int) (layerIndex : Int) (target : Target) : RenderResult :=
  if layerType = RegionLayerTypeFloors then
    match (cellAt v tileX tileY).bind (fun cell => indexSlice cell.Floors layerIndex) with
    | .error e => ⟨some e, v, target⟩
    | .ok tile => renderFloor v tile offsetX offsetY target
  else if layerType = RegionLayerTypeWalls then
    match (cellAt v tileX tileY).bind (fun cell => indexSlice cell.Walls layerIndex) with
    | .error e => ⟨some e, v, target⟩
    | .ok tile => renderWall coordBits v tile offsetX offsetY target
  else if layerType = RegionLayerTypeShadows then
    match (cellAt v tileX tileY).bind (fun cell => indexSlice cell.Shadows layerIndex) with
    | .error e => ⟨some e, v, target⟩
    | .ok tile => renderShadow coordBits v tile offsetX offsetY target
  else ⟨none, v, target⟩

/-! ## Properties used in the statements -/

/-- A computation that, when it fails, fails by a run-time panic: it never calls
`log.Fatal` and its loops never run out of fuel. -/
def PanicOnly {α : Type} (x : Except Failure α) : Prop :=
  ∀ e, x = .error e → ∃ kind, e = .panic kind

/-! ## Concrete inputs -/

/-- A cache without entries. -/
def emptyCache : TileCache := fun _ => none

/-- A palette whose entry `c` is `(c, c, c)`. -/
def greyPalette : PaletteRec := ⟨fun c => ⟨c, c, c⟩⟩

/-- A run-length block at `(x, y)` that writes the colour `c` at its origin. -/
def dotBlock (x y : Int) (c : Byte) : Block := ⟨x, y, .BlockFormatRLE, [0, 1, c], 3⟩

/-- A shadow tile (identity 3/4, orientation 13) of width 2 whose blocks have
minimum `Y` -10 and maximum `Y + 32` 40. -/
def sampleShadowTile : Tile := ⟨3, 4, 13, 2, 50, 0, [dotBlock 0 (-10) 5, dotBlock 1 8 7]⟩

/-- A floor tile (identity 1/2, orientation 0) of width 2 and height -1 with one
block. -/
def sampleFloorTile : Tile := ⟨1, 2, 0, 2, -1, 0, [dotBlock 0 0 9]⟩

/-- A wall tile (identity 1/2, orientation 3) of height 1 without blocks. -/
def sampleWallTile : Tile := ⟨1, 2, 3, 160, 1, 7, []⟩

/-- A wall tile (identity 1/2, orientation 4) of height 1 with one block. -/
def sampleSecondTile : Tile := ⟨1, 2, 4, 160, 1, 0, [dotBlock 3 0 6]⟩

/-- A region with the floor tile `sampleFloorTile`, the wall tiles
`sampleWallTile` and `sampleSecondTile`, the shadow tile `sampleShadowTile`, no
shadow tile of identity 1/2, and empty caches. -/
def sampleRegion : Region where
  Tiles := [sampleFloorTile, sampleWallTile, sampleSecondTile, sampleShadowTile]
  DS1 := ⟨[[⟨[⟨1, 2, 0⟩], [⟨1, 2, 3, 0⟩], [⟨1, 2, 0⟩]⟩]]⟩
  Palette := greyPalette
  FloorCache := emptyCache
  ShadowCache := emptyCache
  WallCache := emptyCache

/-- The secondary tile of a wall record (`newTileData` in `generateWallCache`):
the orientation-4 tile of the same identity when the record's orientation is 3. -/
def wallSecondTile (v : Region) (tile : WallRecord) : Option Tile :=
  if tile.Orientation = 3 then
    getTile v (toInt32 tile.MainIndex) (toInt32 tile.SubIndex) (toInt32 4)
  else none

/-- The tile whose blocks give the extents of a wall (`target` in
`generateWallCache`). -/
def wallExtentTile (tileData : Tile) (newTileData : Option Tile) : Tile :=
  match newTileData with
  | some newTile => if newTile.Height < tileData.Height then newTile else tileData
  | none => tileData

/-- The height of a wall surface (`realHeight` in `generateWallCache`). -/
def wallRealHeight (coordBits : Nat) (tileData : Tile) (newTileData : Option Tile) : Int :=
  MaxInt32 (AbsInt32 tileData.Height)
    (subInt32 (blockExtents coordBits (wallExtentTile tileData newTileData).Blocks).2
      (blockExtents coordBits (wallExtentTile tileData newTileData).Blocks).1)

/-- The vertical draw offset of a wall (`yAdjust` in `generateWallCache`). -/
def wallYAdjust (tile : WallRecord) (tileData : Tile) (tileMinY : Int) : Int :=
  if tile.Orientation > 15 then 80
  else if tile.Orientation = 15 then -tileData.RoofHeight
  else tileMinY + 80

/-- The two decoding passes of `generateWallCache`: the primary tile's blocks,
then the secondary tile's blocks if there is a secondary tile. -/
def wallPixels (v : Region) (tileData : Tile) (newTileData : Option Tile)
    (pixels : List Byte) (tileYOffset : Int) : Except Failure (List Byte) :=
  (decodeTileGfxData v tileData.Blocks pixels tileYOffset 160).bind (fun pixels =>
    match newTileData with
    | some newTile => decodeTileGfxData v newTile.Blocks pixels tileYOffset 160
    | none => .ok pixels)

/-- The value `int32(block.Y)` that the generators read from a block. -/
def blockTop (block : Block) : Int := toInt32 block.Y

/-- The value `int32(block.Y+32)` that the shadow and wall generators read from
a block; the sum is taken at the type of `block.Y`, of `coordBits` bits. -/
def blockBottom (coordBits : Nat) (block : Block) : Int :=
  toInt32 (toSigned coordBits (block.Y + 32))

/-- The integer `m` is the minimum of 0 and of the values `f block` over `blocks`. -/
def IsMinWithZero (f : Block → Int) (blocks : List Block) (m : Int) : Prop :=
  m ≤ 0 ∧ (∀ block ∈ blocks, m ≤ f block) ∧ (m = 0 ∨ ∃ block ∈ blocks, m = f block)

/-- The integer `m` is the maximum of 0 and of the values `f block` over `blocks`. -/
def IsMaxWithZero (f : Block → Int) (blocks : List Block) (m : Int) : Prop :=
  0 ≤ m ∧ (∀ block ∈ blocks, f block ≤ m) ∧ (m = 0 ∨ ∃ block ∈ blocks, m = f block)

/-! ## The effect of the decoder, without bounds checks -/

/-- The four stores of one pixel at byte offset `offset`, without bounds checks. -/
def paintPixel (pixels : List Byte) (offset : Nat) (c : PaletteRGB) : List Byte :=
  (((pixels.set offset c.R).set (offset + 1) c.G).set (offset + 2) c.B).set (offset + 3) 255

/-- A sequence of pixel stores, in order. -/
def paintAll (pixels : List Byte) (writes : List (Nat × PaletteRGB)) : List Byte :=
  writes.foldl (fun p w => paintPixel p w.1 w.2) pixels

/-- The stores of a run of `n` encoded bytes read from `idx` on, plotted on row
`y` from column `x` on: one store for each non-zero byte. -/
def runWrites (pal : PaletteRec) (data : List Byte)
    (blockX blockY tileYOffset tileWidth y : Int) (n : Nat) (x : Int) (idx : Nat) :
    List (Nat × PaletteRGB) :=
  (List.range n).filterMap (fun i =>
    if data.getD (idx + i) 0 ≠ 0 then
      some ((pixelOffset blockX blockY (x + i) y tileYOffset tileWidth).toNat,
        pal.Colors (data.getD (idx + i) 0))
    else none)

/-- The number of encoded bytes before row `y` of the diamond:
`nbpix[0] + ... + nbpix[y-1]`. -/
def isoRowStart (y : Nat) : Nat := ((nbpix.take y).sum).toNat

/-- The number of pixels of row `y` of the diamond, `nbpix[y]`. -/
def isoRowLength (y : Nat) : Nat := (nbpix.getD y 0).toNat

/-- The column of the first pixel of row `y` of the diamond, `xjump[y]`. -/
def isoRowJump (y : Nat) : Int := xjump.getD y 0

/-- The index `k = nbpix[0] + ... + nbpix[y-1] + i` of the encoded byte of pixel
`i` of row `y`. -/
def isoIndex (y i : Nat) : Nat := isoRowStart y + i

/-- The colour index of pixel `i` of row `y` of an isometric block. -/
def isoColor (block : Block) (y i : Nat) : Byte := block.EncodedData.getD (isoIndex y i) 0

/-- The destination offset of pixel `i` of row `y` of an isometric block, as
the decoder computes it:
`4 * ((block.Y + y + tileYOffset) * tileWidth + (block.X + xjump[y] + i))`
at `int32`. -/
def isoOffset (block : Block) (tileYOffset tileWidth : Int) (y i : Nat) : Int :=
  pixelOffset (toInt32 block.X) (toInt32 block.Y) (isoRowJump y + i) y tileYOffset tileWidth

/-- The stores of rows `y`, ..., `y + k - 1` of an isometric block. -/
def isoWritesFrom (pal : PaletteRec) (block : Block) (tileYOffset tileWidth : Int) :
    Nat → Nat → List (Nat × PaletteRGB)
  | 0, _ => []
  | k + 1, y =>
    runWrites pal block.EncodedData (toInt32 block.X) (toInt32 block.Y) tileYOffset tileWidth y
      (isoRowLength y) (isoRowJump y) (isoRowStart y)
      ++ isoWritesFrom pal block tileYOffset tileWidth k (y + 1)

/-- The pixels `(y, i)` of the diamond: rows 0 to 14, `nbpix[y]` pixels in row `y`. -/
def isoDiamond : Finset (Nat × Nat) :=
  (Finset.range 15 ×ˢ Finset.range 32).filter (fun q => q.2 < isoRowLength q.1)

/-- An isometric block at (0, 0) whose 256 encoded bytes are all 1. -/
def onesBlock : Block := ⟨0, 0, .BlockFormatIsometric, List.replicate 256 1, 0⟩

/-- A region without tiles whose palette has entry 1 equal to (10, 20, 30). -/
def onesRegion : Region where
  Tiles := []
  DS1 := ⟨[]⟩
  Palette := ⟨fun c => if c = 1 then ⟨10, 20, 30⟩ else ⟨c, c, c⟩⟩
  FloorCache := emptyCache
  ShadowCache := emptyCache
  WallCache := emptyCache

/-! ## The run-length stream, pair by pair -/

/-- One `(countA, countB)` pair of a run-length stream with the payload bytes
that follow it. -/
structure RLEPair where
  countA : Byte
  countB : Byte
  payload : List Byte
  deriving DecidableEq, Repr

/-- The encoded stream of a sequence of pairs: each pair, then its payload. -/
def encodePairs : List RLEPair → List Byte
  | [] => []
  | p :: ps => p.countA :: p.countB :: (p.payload ++ encodePairs ps)

/-- The cursor of the run-length process and the buffer. -/
structure RLECursor where
  x : Int
  y : Int
  pixels : List Byte
  deriving DecidableEq, Repr

/-- The payload of a pair, byte by byte: a non-zero byte `c` is written at the
cursor, a zero byte writes nothing, and `x` increases by 1 either way. -/
def plotPayload (pal : PaletteRec) (blockX blockY tileYOffset tileWidth y : Int) :
    List Byte → Int → List Byte → Except Failure (Int × List Byte)
  | [], x, pixels => .ok (x, pixels)
  | c :: cs, x, pixels => do
    let pixels ← plotPixel pal pixels c blockX blockY x y tileYOffset tileWidth
    plotPayload pal blockX blockY tileYOffset tileWidth y cs (addInt32 x 1) pixels

/-- The pairs in order: a pair `(0, 0)` sets `x` to 0 and increases `y` by 1;
any other pair adds `countA` to `x` and then plots its payload. -/
def runPairs (pal : PaletteRec) (blockX blockY tileYOffset tileWidth : Int) :
    List RLEPair → RLECursor → Except Failure RLECursor
  | [], s => .ok s
  | p :: ps, s =>
    if p.countA = 0 ∧ p.countB = 0 then
      runPairs pal blockX blockY tileYOffset tileWidth ps ⟨0, addInt32 s.y 1, s.pixels⟩
    else do
      let r ← plotPayload pal blockX blockY tileYOffset tileWidth s.y p.payload
        (addInt32 s.x p.countA.val) s.pixels
      runPairs pal blockX blockY tileYOffset tileWidth ps ⟨r.1, s.y, r.2⟩

/-- The destination offsets of the non-zero bytes of a payload plotted from
column `x` on. -/
def payloadOffsets (blockX blockY tileYOffset tileWidth y : Int) : List Byte → Int → List Int
  | [], _ => []
  | c :: cs, x =>
    (if c ≠ 0 then [pixelOffset blockX blockY x y tileYOffset tileWidth] else [])
      ++ payloadOffsets blockX blockY tileYOffset tileWidth y cs (addInt32 x 1)

/-- The column after a payload plotted from column `x` on. -/
def payloadEnd : List Byte → Int → Int
  | [], x => x
  | _ :: cs, x => payloadEnd cs (addInt32 x 1)

/-- The destination offsets of all non-zero payload bytes of a sequence of
pairs processed from the cursor `(x, y)` on. -/
def pairsOffsets (blockX blockY tileYOffset tileWidth : Int) : List RLEPair → Int → Int → List Int
  | [], _, _ => []
  | p :: ps, x, y =>
    if p.countA = 0 ∧ p.countB = 0 then
      pairsOffsets blockX blockY tileYOffset tileWidth ps 0 (addInt32 y 1)
    else
      payloadOffsets blockX blockY tileYOffset tileWidth y p.payload (addInt32 x p.countA.val)
        ++ pairsOffsets blockX blockY tileYOffset tileWidth ps
            (payloadEnd p.payload (addInt32 x p.countA.val)) y

/-- The run-length block of the spec: stream `[2,3, 5,6,7, 0,0]`, `Length` 7, at (0, 0). -/
def sampleRLEBlock : Block := ⟨0, 0, .BlockFormatRLE, [2, 3, 5, 6, 7, 0, 0], 7⟩

/-- The pairs of `sampleRLEBlock`: `(2, 3)` with payload `5, 6, 7`, then `(0, 0)`. -/
def sampleRLEPairs : List RLEPair := [⟨2, 3, [5, 6, 7]⟩, ⟨0, 0, []⟩]

/-- A cache record used in examples: a one-pixel surface drawn 7 rows down. -/
def sampleRecord : TileCacheRecord := ⟨⟨1, 1, [5, 5, 5, 255]⟩, 0, 7⟩

/-- The region `sampleRegion` after `sampleRecord` was stored under the floor key
of (1, 2), the wall key of (1, 2, 3) and the shadow key of (3, 4). -/
def cachedRegion : Region :=
  { sampleRegion with
    FloorCache := emptyCache.write (floorCacheIndex ⟨1, 2, 0⟩) (some sampleRecord)
    WallCache := emptyCache.write (wallCacheIndex ⟨1, 2, 3, 0⟩) (some sampleRecord)
    ShadowCache := emptyCache.write (shadowCacheIndex ⟨3, 4, 0⟩) (some sampleRecord) }

/-! ## The decoder with a log of its steps -/

/-- One step of a block's decoding loops, as it is attempted. -/
inductive DecodeEvent
  /-- The test `length > 0` of the outer loop held, with these values of `idx`
  and `length`: an iteration of the outer loop starts. -/
  | iteration (idx : Nat) (length : Int)
  /-- The table entry `xjump[index]` or `nbpix[index]` is evaluated. -/
  | table (index : Int)
  /-- The byte `block.EncodedData[index]` is evaluated. -/
  | read (index : Nat)
  /-- The body of the inner loop handles the pixel at local position `(x, y)`. -/
  | visit (x y : Int)
  /-- The four stores `pixels[offset] = R`, ..., `pixels[offset+3] = 255` of the
  palette entry `color` are attempted. -/
  | store (offset : Int) (color : PaletteRGB)
  /-- The test `length > 0` of the outer loop failed, with these values of `idx`
  and `length`: the loop ends. -/
  | exit (idx : Nat) (length : Int)
  deriving DecidableEq, Repr

/-- The events of the body `if colorIndex != 0 { ... }`. -/
def plotEvents (pal : PaletteRec) (colorIndex : Byte)
    (blockX blockY x y tileYOffset tileWidth : Int) : List DecodeEvent :=
  if colorIndex ≠ 0 then
    [.store (pixelOffset blockX blockY x y tileYOffset tileWidth) (pal.Colors colorIndex)]
  else []

/-- The inner loop of the isometric decoder, `isoInnerLoop`, with the log of
its steps up to its end or to the panic. -/
def isoInnerLog (pal : PaletteRec) (data : List Byte)
    (blockX blockY tileYOffset tileWidth y : Int) :
    Nat → Int → Nat → List Byte →
      List DecodeEvent × Except Failure (Int × Nat × List Byte)
  | 0, x, idx, pixels => ([], .ok (x, idx, pixels))
  | n + 1, x, idx, pixels =>
    match indexSlice data idx with
    | .error e => ([.read idx], .error e)
    | .ok colorIndex =>
      match plotPixel pal pixels colorIndex blockX blockY x y tileYOffset tileWidth with
      | .error e =>
        (.read idx :: .visit x y ::
          plotEvents pal colorIndex blockX blockY x y tileYOffset tileWidth, .error e)
      | .ok pixels =>
        (.read idx :: .visit x y ::
          (plotEvents pal colorIndex blockX blockY x y tileYOffset tileWidth
            ++ (isoInnerLog pal data blockX blockY tileYOffset tileWidth y n (addInt32 x 1)
                (idx + 1) pixels).1),
          (isoInnerLog pal data blockX blockY tileYOffset tileWidth y n (addInt32 x 1)
            (idx + 1) pixels).2)

/-- The outer loop of the isometric decoder, `isoOuterLoop`, with the log of
its steps. -/
def isoOuterLog (pal : PaletteRec) (data : List Byte)
    (blockX blockY tileYOffset tileWidth : Int) :
    Nat → DecodeState → List DecodeEvent × Except Failure DecodeState
  | 0, s => if s.length > 0 then ([], .error .fuel) else ([.exit s.idx s.length], .ok s)
  | fuel + 1, s =>
    if s.length > 0 then
      match indexSlice xjump s.y with
      | .error e => ([.iteration s.idx s.length, .table s.y], .error e)
      | .ok x =>
        match indexSlice nbpix s.y with
        | .error e => ([.iteration s.idx s.length, .table s.y, .table s.y], .error e)
        | .ok n =>
          match (isoInnerLog pal data blockX blockY tileYOffset tileWidth s.y n.toNat x s.idx
              s.pixels).2 with
          | .error e =>
            (.iteration s.idx s.length :: .table s.y :: .table s.y ::
              (isoInnerLog pal data blockX blockY tileYOffset tileWidth s.y n.toNat x s.idx
                s.pixels).1, .error e)
          | .ok r =>
            (.iteration s.idx s.length :: .table s.y :: .table s.y ::
              ((isoInnerLog pal data blockX blockY tileYOffset tileWidth s.y n.toNat x s.idx
                  s.pixels).1
                ++ (isoOuterLog pal data blockX blockY tileYOffset tileWidth fuel
                      ⟨subInt32 s.length n, r.1, addInt32 s.y 1, r.2.1, r.2.2⟩).1),
              (isoOuterLog pal data blockX blockY tileYOffset tileWidth fuel
                ⟨subInt32 s.length n, r.1, addInt32 s.y 1, r.2.1, r.2.2⟩).2)
    else ([.exit s.idx s.length], .ok s)

/-- The inner loop of the run-length decoder, `rleInnerLoop`, with the log of
its steps up to its end or to the panic. -/
def rleInnerLog (pal : PaletteRec) (data : List Byte)
    (blockX blockY tileYOffset tileWidth y : Int) :
    Nat → Int → Nat → List Byte →
      List DecodeEvent × Except Failure (Int × Nat × List Byte)
  | 0, x, idx, pixels => ([], .ok (x, idx, pixels))
  | b2 + 1, x, idx, pixels =>
    match indexSlice data idx with
    | .error e => ([.read idx], .error e)
    | .ok colorIndex =>
      match plotPixel pal pixels colorIndex blockX blockY x y tileYOffset tileWidth with
      | .error e =>
        (.read idx :: .visit x y ::
          plotEvents pal colorIndex blockX blockY x y tileYOffset tileWidth, .error e)
      | .ok pixels =>
        (.read idx :: .visit x y ::
          (plotEvents pal colorIndex blockX blockY x y tileYOffset tileWidth
            ++ (rleInnerLog pal data blockX blockY tileYOffset tileWidth y b2 (addInt32 x 1)
                (idx + 1) pixels).1),
          (rleInnerLog pal data blockX blockY tileYOffset tileWidth y b2 (addInt32 x 1)
            (idx + 1) pixels).2)

/-- The outer loop of the run-length decoder, `rleOuterLoop`, with the log of
its steps. -/
def rleOuterLog (pal : PaletteRec) (data : List Byte)
    (blockX blockY tileYOffset tileWidth : Int) :
    Nat → DecodeState → List DecodeEvent × Except Failure DecodeState
  | 0, s => if s.length > 0 then ([], .error .fuel) else ([.exit s.idx s.length], .ok s)
  | fuel + 1, s =>
    if s.length > 0 then
      match indexSlice data s.idx with
      | .error e => ([.iteration s.idx s.length, .read s.idx], .error e)
      | .ok b1 =>
        match indexSlice data (s.idx + 1) with
        | .error e =>
          ([.iteration s.idx s.length, .read s.idx, .read (s.idx + 1)], .error e)
        | .ok b2 =>
          if (b1.val ||| b2.val) = 0 then
            (.iteration s.idx s.length :: .read s.idx :: .read (s.idx + 1) ::
              (rleOuterLog pal data blockX blockY tileYOffset tileWidth fuel
                ⟨subInt32 s.length 2, 0, addInt32 s.y 1, s.idx + 2, s.pixels⟩).1,
              (rleOuterLog pal data blockX blockY tileYOffset tileWidth fuel
                ⟨subInt32 s.length 2, 0, addInt32 s.y 1, s.idx + 2, s.pixels⟩).2)
          else
            match (rleInnerLog pal data blockX blockY tileYOffset tileWidth s.y b2.val
                (addInt32 s.x b1.val) (s.idx + 2) s.pixels).2 with
            | .error e =>
              (.iteration s.idx s.length :: .read s.idx :: .read (s.idx + 1) ::
                (rleInnerLog pal data blockX blockY tileYOffset tileWidth s.y b2.val
                  (addInt32 s.x b1.val) (s.idx + 2) s.pixels).1, .error e)
            | .ok r =>
              (.iteration s.idx s.length :: .read s.idx :: .read (s.idx + 1) ::
                ((rleInnerLog pal data blockX blockY tileYOffset tileWidth s.y b2.val
                    (addInt32 s.x b1.val) (s.idx + 2) s.pixels).1
                  ++ (rleOuterLog pal data blockX blockY tileYOffset tileWidth fuel
                        ⟨subInt32 (subInt32 s.length 2) b2.val, r.1, s.y, r.2.1, r.2.2⟩).1),
                (rleOuterLog pal data blockX blockY tileYOffset tileWidth fuel
                  ⟨subInt32 (subInt32 s.length 2) b2.val, r.1, s.y, r.2.1, r.2.2⟩).2)
    else ([.exit s.idx s.length], .ok s)

/-- The decoding of one block, `decodeBlock`, with the log of its steps. -/
def decodeBlockLog (pal : PaletteRec) (block : Block) (pixels : List Byte)
    (tileYOffset tileWidth : Int) : List DecodeEvent × Except Failure DecodeState :=
  if block.Format = .BlockFormatIsometric then
    isoOuterLog pal block.EncodedData (toInt32 block.X) (toInt32 block.Y) tileYOffset tileWidth
      256 ⟨256, 0, 0, 0, pixels⟩
  else
    rleOuterLog pal block.EncodedData (toInt32 block.X) (toInt32 block.Y) tileYOffset tileWidth
      block.Length.toNat ⟨block.Length, 0, 0, 0, pixels⟩

/-- The started iterations of the outer loop in a log, each with the values of
`idx` and `length` at its start. -/
def iterations (log : List DecodeEvent) : List (Nat × Int) :=
  log.filterMap (fun e => match e with
    | .iteration idx length => some (idx, length)
    | _ => none)

/-- The indices at which a log evaluates `xjump` or `nbpix`. -/
def tableIndices (log : List DecodeEvent) : List Int :=
  log.filterMap (fun e => match e with
    | .table index => some index
    | _ => none)

/-- The indices at which a log evaluates `block.EncodedData`, in order. -/
def dataReads (log : List DecodeEvent) : List Nat :=
  log.filterMap (fun e => match e with
    | .read index => some index
    | _ => none)

/-- The local positions that the inner loop handles in a log, in order. -/
def visits (log : List DecodeEvent) : List (Int × Int) :=
  log.filterMap (fun e => match e with
    | .visit x y => some (x, y)
    | _ => none)

/-- The offsets of the pixel stores of a log, in order. -/
def stores (log : List DecodeEvent) : List Int :=
  log.filterMap (fun e => match e with
    | .store offset _ => some offset
    | _ => none)

/-- The values of `idx` and `length` with which the outer loop ended in a log. -/
def exits (log : List DecodeEvent) : List (Nat × Int) :=
  log.filterMap (fun e => match e with
    | .exit idx length => some (idx, length)
    | _ => none)

/-- A log without its store events: the steps that do not depend on the values
of the encoded bytes. -/
def skeleton (log : List DecodeEvent) : List DecodeEvent :=
  log.filter (fun e => match e with
    | .store _ _ => false
    | _ => true)

/-- The steps of an inner loop of `n` iterations from column `x` and index `idx`
on, without the stores. -/
def innerSkeleton (y : Int) : Nat → Int → Nat → List DecodeEvent
  | 0, _, _ => []
  | n + 1, x, idx => .read idx :: .visit x y :: innerSkeleton y n (addInt32 x 1) (idx + 1)

/-- The steps of row `y` of the isometric decoder, without the stores. -/
def isoRowSkeleton (y : Nat) : List DecodeEvent :=
  .iteration (isoRowStart y) (256 - (isoRowStart y : Int)) :: .table y :: .table y ::
    innerSkeleton y (isoRowLength y) (isoRowJump y) (isoRowStart y)

/-- The steps of rows `y`, ..., `y + k - 1` of the isometric decoder and of the
end of its outer loop, without the stores. -/
def isoSkeletonFrom : Nat → Nat → List DecodeEvent
  | 0, _ => [.exit 256 0]
  | k + 1, y => isoRowSkeleton y ++ isoSkeletonFrom k (y + 1)

/-- The steps of the isometric decoder on a block that it decodes to the end,
without the stores. -/
def isoSkeleton : List DecodeEvent := isoSkeletonFrom 15 0

/-- The destination row `blockY + y + tileYOffset` that the decoder computes for
row `y` of a block, at `int32`. -/
def destRow (block : Block) (y tileYOffset : Int) : Int :=
  addInt32 (addInt32 (toInt32 block.Y) y) tileYOffset

/-- A run-length block at (0, 0) with two pairs `(0, 1)`, of payloads 5 and 6:
stream `[0,1,5, 0,1,6]`, `Length` 6. -/
def twoDotsBlock : Block := ⟨0, 0, .BlockFormatRLE, [0, 1, 5, 0, 1, 6], 6⟩

/-- The pairs of `twoDotsBlock`. -/
def twoDotsPairs : List RLEPair := [⟨0, 1, [5]⟩, ⟨0, 1, [6]⟩]

/-- The pixel stores of a log, in order: the byte offset and the palette entry
of each. -/
def logWrites (log : List DecodeEvent) : List (Nat × PaletteRGB) :=
  log.filterMap (fun e => match e with
    | .store offset color => some (offset.toNat, color)
    | _ => none)

/-- The method `Region.decodeTileGfxData`, `decodeTileGfxData`, with the log of
its steps: the logs of the blocks, in order, up to the end or to the panic. -/
def decodeTileLog (v : Region) :
    List Block → List Byte → Int → Int → List DecodeEvent × Except Failure (List Byte)
  | [], pixels, _, _ => ([], .ok pixels)
  | block :: blocks, pixels, tileYOffset, tileWidth =>
    match (decodeBlockLog v.Palette block pixels tileYOffset tileWidth).2 with
    | .error e => ((decodeBlockLog v.Palette block pixels tileYOffset tileWidth).1, .error e)
    | .ok s =>
      ((decodeBlockLog v.Palette block pixels tileYOffset tileWidth).1
        ++ (decodeTileLog v blocks s.pixels tileYOffset tileWidth).1,
        (decodeTileLog v blocks s.pixels tileYOffset tileWidth).2)

/-- A sequence of byte stores, in order, without bounds checks. -/
def applySets (pixels : List Byte) (ops : List (Nat × Byte)) : List Byte :=
  ops.foldl (fun p op => p.set op.1 op.2) pixels

/-- The four byte stores of a pixel store. -/
def pixelBytes (w : Nat × PaletteRGB) : List (Nat × Byte) :=
  [(w.1, w.2.R), (w.1 + 1, w.2.G), (w.1 + 2, w.2.B), (w.1 + 3, 255)]

/-- An isometric block at (0, 0) whose only non-zero encoded byte is byte 254,
the byte of the local position (16, 14): column 16 of the last row. -/
def lastRowBlock : Block :=
  ⟨0, 0, .BlockFormatIsometric, List.replicate 254 0 ++ [1, 0], 0⟩

/-! ## Theorems -/

/-! ### The decoder fails only by a run-time panic -/

theorem panicOnly_ok {α : Type} (a : α) : PanicOnly (Except.ok a : Except Failure α) := by
  intro e h; cases h

theorem panicOnly_bind {α β : Type} (x : Except Failure α) (f : α → Except Failure β)
    (hx : PanicOnly x) (hf : ∀ a, x = .ok a → PanicOnly (f a)) : PanicOnly (x >>= f) := by
  intro e h
  cases x with
  | error e0 => exact hx e (by simpa [bind, Except.bind] using h)
  | ok a => exact hf a rfl e (by simpa [bind, Except.bind] using h)

theorem panicOnly_indexSlice {α : Type} (xs : List α) (i : Int) :
    PanicOnly (indexSlice xs i) := by
  intro e h
  unfold indexSlice at h
  split at h
  · split at h
    · cases h
    · cases h; exact ⟨_, rfl⟩
  · cases h; exact ⟨_, rfl⟩

theorem indexSlice_mem {α : Type} (xs : List α) (i : Int) (a : α)
    (h : indexSlice xs i = .ok a) : a ∈ xs := by
  unfold indexSlice at h
  split at h
  · split at h
    · rename_i b hb
      cases h
      exact List.getElem?_mem hb
    · cases h
  · cases h

theorem panicOnly_storeByte (pixels : List Byte) (i : Int) (b : Byte) :
    PanicOnly (storeByte pixels i b) := by
  intro e h
  unfold storeByte at h
  split at h
  · cases h
  · cases h; exact ⟨_, rfl⟩

theorem panicOnly_makeBytes (n : Int) : PanicOnly (makeBytes n) := by
  intro e h
  unfold makeBytes at h
  split at h
  · cases h; exact ⟨_, rfl⟩
  · cases h

theorem panicOnly_storePixel (pixels : List Byte) (offset : Int) (c : PaletteRGB) :
    PanicOnly (storePixel pixels offset c) := by
  unfold storePixel
  refine panicOnly_bind _ _ (panicOnly_storeByte _ _ _) fun _ _ => ?_
  refine panicOnly_bind _ _ (panicOnly_storeByte _ _ _) fun _ _ => ?_
  exact panicOnly_bind _ _ (panicOnly_storeByte _ _ _) fun _ _ => panicOnly_storeByte _ _ _

theorem panicOnly_plotPixel (pal : PaletteRec) (pixels : List Byte) (c : Byte)
    (blockX blockY x y tileYOffset tileWidth : Int) :
    PanicOnly (plotPixel pal pixels c blockX blockY x y tileYOffset tileWidth) := by
  unfold plotPixel
  split
  · exact panicOnly_storePixel _ _ _
  · exact panicOnly_ok _

theorem panicOnly_isoInnerLoop (pal : PaletteRec) (data : List Byte)
    (blockX blockY tileYOffset tileWidth y : Int) (n : Nat) :
    ∀ (x : Int) (idx : Nat) (pixels : List Byte),
      PanicOnly (isoInnerLoop pal data blockX blockY tileYOffset tileWidth y n x idx pixels) := by
  induction n with
  | zero => intro x idx pixels; exact panicOnly_ok _
  | succ n ih =>
    intro x idx pixels
    unfold isoInnerLoop
    refine panicOnly_bind _ _ (panicOnly_indexSlice _ _) fun _ _ => ?_
    exact panicOnly_bind _ _ (panicOnly_plotPixel _ _ _ _ _ _ _ _ _) fun _ _ => ih _ _ _

theorem panicOnly_rleInnerLoop (pal : PaletteRec) (data : List Byte)
    (blockX blockY tileYOffset tileWidth y : Int) (n : Nat) :
    ∀ (x : Int) (idx : Nat) (pixels : List Byte),
      PanicOnly (rleInnerLoop pal data blockX blockY tileYOffset tileWidth y n x idx pixels) := by
  induction n with
  | zero => intro x idx pixels; exact panicOnly_ok _
  | succ n ih =>
    intro x idx pixels
    unfold rleInnerLoop
    refine panicOnly_bind _ _ (panicOnly_indexSlice _ _) fun _ _ => ?_
    exact panicOnly_bind _ _ (panicOnly_plotPixel _ _ _ _ _ _ _ _ _) fun _ _ => ih _ _ _

theorem nbpix_entry_pos (n : Int) (h : n ∈ nbpix) : 4 ≤ n ∧ n ≤ 32 := by
  simp only [nbpix, List.mem_cons, List.mem_singleton, List.not_mem_nil, or_false] at h
  omega

/-- The isometric outer loop never runs out of fuel when the fuel is at least
`length`. -/
theorem panicOnly_isoOuterLoop (pal : PaletteRec) (data : List Byte)
    (blockX blockY tileYOffset tileWidth : Int) (fuel : Nat) :
    ∀ s : DecodeState, s.length ≤ fuel →
      PanicOnly (isoOuterLoop pal data blockX blockY tileYOffset tileWidth fuel s) := by
  induction fuel with
  | zero =>
    intro s hs e h
    unfold isoOuterLoop at h
    split at h
    · simp at hs; omega
    · cases h
  | succ fuel ih =>
    intro s hs
    unfold isoOuterLoop
    split
    · rename_i hpos
      refine panicOnly_bind _ _ (panicOnly_indexSlice _ _) fun _ _ => ?_
      refine panicOnly_bind _ _ (panicOnly_indexSlice _ _) fun n hn => ?_
      refine panicOnly_bind _ _ (panicOnly_isoInnerLoop _ _ _ _ _ _ _ _ _ _ _) fun r _ => ?_
      apply ih
      have hn4 := nbpix_entry_pos n (indexSlice_mem _ _ _ hn)
      simp only [subInt32, toInt32]
      push_cast at hs
      omega
    · exact panicOnly_ok _

/-- The run-length outer loop never runs out of fuel when the fuel is at least
`length`. -/
theorem panicOnly_rleOuterLoop (pal : PaletteRec) (data : List Byte)
    (blockX blockY tileYOffset tileWidth : Int) (fuel : Nat) :
    ∀ s : DecodeState, s.length ≤ fuel →
      PanicOnly (rleOuterLoop pal data blockX blockY tileYOffset tileWidth fuel s) := by
  induction fuel with
  | zero =>
    intro s hs e h
    unfold rleOuterLoop at h
    split at h
    · simp at hs; omega
    · cases h
  | succ fuel ih =>
    intro s hs
    unfold rleOuterLoop
    split
    · rename_i hpos
      refine panicOnly_bind _ _ (panicOnly_indexSlice _ _) fun b1 _ => ?_
      refine panicOnly_bind _ _ (panicOnly_indexSlice _ _) fun b2 _ => ?_
      have hb2 := b2.isLt
      push_cast at hs
      split
      · apply ih
        simp only [subInt32, toInt32]
        omega
      · refine panicOnly_bind _ _ (panicOnly_rleInnerLoop _ _ _ _ _ _ _ _ _ _ _) fun r _ => ?_
        apply ih
        simp only [subInt32, toInt32]
        omega
    · exact panicOnly_ok _

theorem panicOnly_decodeBlock (pal : PaletteRec) (block : Block) (pixels : List Byte)
    (tileYOffset tileWidth : Int) :
    PanicOnly (decodeBlock pal block pixels tileYOffset tileWidth) := by
  unfold decodeBlock
  split
  · exact panicOnly_isoOuterLoop _ _ _ _ _ _ _ _ (by simp)
  · apply panicOnly_rleOuterLoop
    simp only
    omega

theorem panicOnly_decodeTileGfxData (v : Region) (blocks : List Block) :
    ∀ (pixels : List Byte) (tileYOffset tileWidth : Int),
      PanicOnly (decodeTileGfxData v blocks pixels tileYOffset tileWidth) := by
  induction blocks with
  | nil => intro pixels _ _; exact panicOnly_ok _
  | cons b bs ih =>
    intro pixels tileYOffset tileWidth
    unfold decodeTileGfxData
    exact panicOnly_bind _ _ (panicOnly_decodeBlock _ _ _ _ _) fun _ _ => ih _ _ _

/-! ### Tile lookup -/

theorem getTile_eq_none_iff (v : Region) (m s o : Int) :
    getTile v m s o = none ↔
      ∀ t ∈ v.Tiles, ¬ (t.MainIndex = m ∧ t.SubIndex = s ∧ t.Orientation = o) := by
  unfold getTile
  rw [List.find?_eq_none]
  constructor
  · intro h t ht hm
    apply h t ht
    simp [hm.1, hm.2.1, hm.2.2]
  · intro h t ht hp
    apply h t ht
    simpa [and_assoc] using hp

/-! ### The generators, once the tile is found -/

theorem generateFloorCache_found (v : Region) (tile : FloorShadowRecord) (tileData : Tile)
    (h : getTile v (toInt32 tile.MainIndex) (toInt32 tile.SubIndex) 0 = some tileData) :
    generateFloorCache v tile =
      (makeBytes (mulInt32 (mulInt32 4 tileData.Width) (AbsInt32 tileData.Height))).bind
        (fun zeroed =>
          (decodeTileGfxData v tileData.Blocks zeroed
            (AbsInt32 (tileData.Blocks.foldl (fun m block => MinInt32 m (toInt32 block.Y)) 0))
            tileData.Width).bind
          (fun pixels => .ok (some
            ⟨⟨tileData.Width, AbsInt32 tileData.Height, pixels⟩, 0, 0⟩))) := by
  unfold generateFloorCache
  rw [h]
  rfl

theorem generateFloorCache_missing (v : Region) (tile : FloorShadowRecord)
    (h : getTile v (toInt32 tile.MainIndex) (toInt32 tile.SubIndex) 0 = none) :
    generateFloorCache v tile = .error (.fatal .locateTile) := by
  unfold generateFloorCache
  rw [h]

theorem generateShadowCache_missing (coordBits : Nat) (v : Region) (tile : FloorShadowRecord)
    (h : getTile v (toInt32 tile.MainIndex) (toInt32 tile.SubIndex) 13 = none) :
    generateShadowCache coordBits v tile = .ok none := by
  unfold generateShadowCache
  rw [h]

theorem generateWallCache_missing (coordBits : Nat) (v : Region) (tile : WallRecord)
    (h : getTile v (toInt32 tile.MainIndex) (toInt32 tile.SubIndex)
      (toInt32 tile.Orientation) = none) :
    generateWallCache coordBits v tile = .ok none := by
  unfold generateWallCache
  rw [h]

/-! ### Missing tiles (C3, C4) -/

/-- C3, as the claim states it, fails: on `sampleRegion`, which has no tile
(1, 2, 13) and empty caches, rendering the shadow record (1, 2) stops with
`log.Fatal("Could not load shadow tile")` and leaves a nil entry under the
record's key in the shadow cache. -/
theorem renderShadow_missing_tile_is_fatal :
    (∀ t ∈ sampleRegion.Tiles,
        ¬ (t.MainIndex = toInt32 1 ∧ t.SubIndex = toInt32 2 ∧ t.Orientation = 13)) ∧
      (renderShadow 16 sampleRegion ⟨1, 2, 0⟩ 0 0 []).failure = some (.fatal .loadShadowTile) ∧
      (RenderTile 16 sampleRegion 0 0 0 0 RegionLayerTypeShadows 0 []).failure
        = some (.fatal .loadShadowTile) ∧
      sampleRegion.ShadowCache (shadowCacheIndex ⟨1, 2, 0⟩) = none ∧
      (renderShadow 16 sampleRegion ⟨1, 2, 0⟩ 0 0 []).region.ShadowCache
        (shadowCacheIndex ⟨1, 2, 0⟩) = some none := by
  refine ⟨by decide, by decide, by decide, by decide, by decide⟩

/-- C3 (amended): when no tile (mainIndex, subIndex, 13) exists and the shadow
cache has no entry for the record's key, `generateShadowCache` returns nil
without an error, and `renderShadow` (and `RenderTile` on a cell holding the
record) stops with `log.Fatal("Could not load shadow tile")`: nothing is drawn
on the target, the floor and wall caches are unchanged, and the shadow cache
changes only under the record's key, where a nil entry is stored. -/
theorem renderShadow_missing_tile (coordBits : Nat) (v : Region) (tile : FloorShadowRecord)
    (offsetX offsetY : Int) (target : Target)
    (hmiss : ∀ t ∈ v.Tiles,
      ¬ (t.MainIndex = toInt32 tile.MainIndex ∧ t.SubIndex = toInt32 tile.SubIndex
        ∧ t.Orientation = 13))
    (hcache : v.ShadowCache (shadowCacheIndex tile) = none) :
    generateShadowCache coordBits v tile = .ok none ∧
      (renderShadow coordBits v tile offsetX offsetY target).failure
        = some (.fatal .loadShadowTile) ∧
      (renderShadow coordBits v tile offsetX offsetY target).target = target ∧
      (renderShadow coordBits v tile offsetX offsetY target).region.FloorCache = v.FloorCache ∧
      (renderShadow coordBits v tile offsetX offsetY target).region.WallCache = v.WallCache ∧
      (renderShadow coordBits v tile offsetX offsetY target).region.ShadowCache
        = v.ShadowCache.write (shadowCacheIndex tile) none ∧
      (∀ k, k ≠ shadowCacheIndex tile →
        (renderShadow coordBits v tile offsetX offsetY target).region.ShadowCache k
          = v.ShadowCache k) ∧
      (∀ tileX tileY layerIndex : Int,
        (cellAt v tileX tileY).bind (fun cell => indexSlice cell.Shadows layerIndex) = .ok tile →
        RenderTile coordBits v offsetX offsetY tileX tileY RegionLayerTypeShadows layerIndex target
          = renderShadow coordBits v tile offsetX offsetY target) := by
  have hgen := generateShadowCache_missing coordBits v tile
    ((getTile_eq_none_iff _ _ _ _).2 hmiss)
  have hr : renderShadow coordBits v tile offsetX offsetY target
      = ⟨some (.fatal .loadShadowTile),
          { v with ShadowCache := v.ShadowCache.write (shadowCacheIndex tile) none }, target⟩ := by
    unfold renderShadow
    simp only [hcache, hgen]
    simp [TileCache.read, TileCache.write]
  refine ⟨hgen, ?_, ?_, ?_, ?_, ?_, ?_, ?_⟩
  · rw [hr]
  · rw [hr]
  · rw [hr]
  · rw [hr]
  · rw [hr]
  · intro k hk
    rw [hr]
    simp [TileCache.write, hk]
  · intro tileX tileY layerIndex hcell
    unfold RenderTile
    simp [RegionLayerTypeFloors, RegionLayerTypeWalls, RegionLayerTypeShadows, hcell]

/-- Witness of C3 (amended) on `sampleRegion` and the shadow record (1, 2). -/
theorem renderShadow_missing_tile_witness :
    (renderShadow 16 sampleRegion ⟨1, 2, 0⟩ 5 7 []).failure = some (.fatal .loadShadowTile) ∧
      (renderShadow 16 sampleRegion ⟨1, 2, 0⟩ 5 7 []).target = [] :=
  have h := renderShadow_missing_tile 16 sampleRegion ⟨1, 2, 0⟩ 5 7 [] (by decide) (by decide)
  ⟨h.2.1, h.2.2.1⟩

theorem generateShadowCache_found (coordBits : Nat) (v : Region) (tile : FloorShadowRecord)
    (tileData : Tile)
    (h : getTile v (toInt32 tile.MainIndex) (toInt32 tile.SubIndex) 13 = some tileData) :
    generateShadowCache coordBits v tile =
      (makeBytes (mulInt32 (mulInt32 4 tileData.Width)
          (toInt32 (subInt32 (blockExtents coordBits tileData.Blocks).2
            (blockExtents coordBits tileData.Blocks).1)))).bind
        (fun zeroed =>
          (decodeTileGfxData v tileData.Blocks zeroed
            (negInt32 (blockExtents coordBits tileData.Blocks).1) tileData.Width).bind
          (fun pixels => .ok (some
            ⟨⟨tileData.Width, subInt32 (blockExtents coordBits tileData.Blocks).2
                (blockExtents coordBits tileData.Blocks).1, pixels⟩,
              0, (blockExtents coordBits tileData.Blocks).1 + 80⟩))) := by
  unfold generateShadowCache
  rw [h]
  rfl

theorem generateWallCache_found (coordBits : Nat) (v : Region) (tile : WallRecord)
    (tileData : Tile)
    (h : getTile v (toInt32 tile.MainIndex) (toInt32 tile.SubIndex)
      (toInt32 tile.Orientation) = some tileData) :
    generateWallCache coordBits v tile =
      (makeBytes (mulInt32 (mulInt32 4 160)
          (wallRealHeight coordBits tileData (wallSecondTile v tile)))).bind
        (fun zeroed =>
          (wallPixels v tileData (wallSecondTile v tile) zeroed
            (negInt32 (blockExtents coordBits
              (wallExtentTile tileData (wallSecondTile v tile)).Blocks).1)).bind
          (fun pixels => .ok (some
            ⟨⟨160, wallRealHeight coordBits tileData (wallSecondTile v tile), pixels⟩, 0,
              wallYAdjust tile tileData (blockExtents coordBits
                (wallExtentTile tileData (wallSecondTile v tile)).Blocks).1⟩))) := by
  unfold generateWallCache
  rw [h]
  simp only [wallRealHeight, wallSecondTile, wallExtentTile, wallYAdjust, wallPixels]
  cases hm : makeBytes (mulInt32 (mulInt32 4 160) _) with
  | error e => rfl
  | ok zeroed =>
    simp only [bind, Except.bind, hm, pure, Except.pure]
    cases hd : decodeTileGfxData v tileData.Blocks zeroed _ 160 with
    | error e => rfl
    | ok p1 =>
      simp only
      split <;> rfl

/-- The shape shared by the three generators once the tile is found: allocate,
decode, wrap the pixels in a record. Such a computation returns a record
exactly when allocation and decoding succeed, never returns nil, and fails
only by a run-time panic. -/
theorem record_pipeline {α : Type} (alloc : Except Failure α)
    (decode : α → Except Failure (List Byte)) (mk : List Byte → TileCacheRecord)
    (halloc : PanicOnly alloc) (hdecode : ∀ z, PanicOnly (decode z)) :
    PanicOnly (alloc.bind (fun z => (decode z).bind (fun p => .ok (some (mk p))))) ∧
      alloc.bind (fun z => (decode z).bind (fun p => .ok (some (mk p)))) ≠ .ok none ∧
      ∀ c, alloc.bind (fun z => (decode z).bind (fun p => .ok (some (mk p)))) = .ok (some c) ↔
        ∃ z p, alloc = .ok z ∧ decode z = .ok p ∧ c = mk p := by
  cases alloc with
  | error e =>
    refine ⟨fun e1 h => halloc e1 (by simpa [Except.bind] using h), by simp [Except.bind],
      fun c => by simp [Except.bind]⟩
  | ok z =>
    cases hd : decode z with
    | error e =>
      refine ⟨fun e1 h => hdecode z e1 (by simpa [Except.bind, hd] using h),
        by simp [Except.bind, hd], fun c => by simp [Except.bind, hd]⟩
    | ok p =>
      refine ⟨fun e1 h => by simp [Except.bind, hd] at h, by simp [Except.bind, hd],
        fun c => ?_⟩
      simp only [Except.bind, hd, Except.ok.injEq, Option.some.injEq]
      constructor
      · intro h; exact ⟨z, p, rfl, hd, h.symm⟩
      · rintro ⟨z1, p1, hz, hp, hc⟩
        cases hz
        rw [hd] at hp
        cases hp
        exact hc.symm

theorem panicOnly_wallPixels (v : Region) (tileData : Tile) (newTileData : Option Tile)
    (pixels : List Byte) (tileYOffset : Int) :
    PanicOnly (wallPixels v tileData newTileData pixels tileYOffset) := by
  unfold wallPixels
  refine panicOnly_bind _ _ (panicOnly_decodeTileGfxData _ _ _ _ _) fun p _ => ?_
  cases newTileData with
  | none => exact panicOnly_ok _
  | some n => exact panicOnly_decodeTileGfxData _ _ _ _ _

theorem generateFloorCache_pipeline (v : Region) (tile : FloorShadowRecord) (tileData : Tile)
    (h : getTile v (toInt32 tile.MainIndex) (toInt32 tile.SubIndex) 0 = some tileData) :
    PanicOnly (generateFloorCache v tile) ∧ generateFloorCache v tile ≠ .ok none ∧
      ∀ c, generateFloorCache v tile = .ok (some c) ↔
        ∃ zeroed pixels,
          makeBytes (mulInt32 (mulInt32 4 tileData.Width) (AbsInt32 tileData.Height))
            = .ok zeroed ∧
          decodeTileGfxData v tileData.Blocks zeroed
            (AbsInt32 (tileData.Blocks.foldl (fun m block => MinInt32 m (toInt32 block.Y)) 0))
            tileData.Width = .ok pixels ∧
          c = ⟨⟨tileData.Width, AbsInt32 tileData.Height, pixels⟩, 0, 0⟩ := by
  rw [generateFloorCache_found v tile tileData h]
  have h2 := record_pipeline
    (makeBytes (mulInt32 (mulInt32 4 tileData.Width) (AbsInt32 tileData.Height)))
    (fun zeroed => decodeTileGfxData v tileData.Blocks zeroed
      (AbsInt32 (tileData.Blocks.foldl (fun m block => MinInt32 m (toInt32 block.Y)) 0))
      tileData.Width)
    (fun pixels => ⟨⟨tileData.Width, AbsInt32 tileData.Height, pixels⟩, 0, 0⟩)
    (panicOnly_makeBytes _) (fun z => panicOnly_decodeTileGfxData v tileData.Blocks z _ _)
  beta_reduce at h2
  exact h2

theorem generateShadowCache_pipeline (coordBits : Nat) (v : Region) (tile : FloorShadowRecord)
    (tileData : Tile)
    (h : getTile v (toInt32 tile.MainIndex) (toInt32 tile.SubIndex) 13 = some tileData) :
    PanicOnly (generateShadowCache coordBits v tile) ∧
      generateShadowCache coordBits v tile ≠ .ok none ∧
      ∀ c, generateShadowCache coordBits v tile = .ok (some c) ↔
        ∃ zeroed pixels,
          makeBytes (mulInt32 (mulInt32 4 tileData.Width)
            (toInt32 (subInt32 (blockExtents coordBits tileData.Blocks).2
              (blockExtents coordBits tileData.Blocks).1))) = .ok zeroed ∧
          decodeTileGfxData v tileData.Blocks zeroed
            (negInt32 (blockExtents coordBits tileData.Blocks).1) tileData.Width = .ok pixels ∧
          c = ⟨⟨tileData.Width, subInt32 (blockExtents coordBits tileData.Blocks).2
                (blockExtents coordBits tileData.Blocks).1, pixels⟩,
              0, (blockExtents coordBits tileData.Blocks).1 + 80⟩ := by
  rw [generateShadowCache_found coordBits v tile tileData h]
  have h2 := record_pipeline
    (makeBytes (mulInt32 (mulInt32 4 tileData.Width)
      (toInt32 (subInt32 (blockExtents coordBits tileData.Blocks).2
        (blockExtents coordBits tileData.Blocks).1))))
    (fun zeroed => decodeTileGfxData v tileData.Blocks zeroed
      (negInt32 (blockExtents coordBits tileData.Blocks).1) tileData.Width)
    (fun pixels => ⟨⟨tileData.Width, subInt32 (blockExtents coordBits tileData.Blocks).2
        (blockExtents coordBits tileData.Blocks).1, pixels⟩,
      0, (blockExtents coordBits tileData.Blocks).1 + 80⟩)
    (panicOnly_makeBytes _) (fun z => panicOnly_decodeTileGfxData v tileData.Blocks z _ _)
  beta_reduce at h2
  exact h2

theorem generateWallCache_pipeline (coordBits : Nat) (v : Region) (tile : WallRecord)
    (tileData : Tile)
    (h : getTile v (toInt32 tile.MainIndex) (toInt32 tile.SubIndex)
      (toInt32 tile.Orientation) = some tileData) :
    PanicOnly (generateWallCache coordBits v tile) ∧
      generateWallCache coordBits v tile ≠ .ok none ∧
      ∀ c, generateWallCache coordBits v tile = .ok (some c) ↔
        ∃ zeroed pixels,
          makeBytes (mulInt32 (mulInt32 4 160)
            (wallRealHeight coordBits tileData (wallSecondTile v tile))) = .ok zeroed ∧
          wallPixels v tileData (wallSecondTile v tile) zeroed
            (negInt32 (blockExtents coordBits
              (wallExtentTile tileData (wallSecondTile v tile)).Blocks).1) = .ok pixels ∧
          c = ⟨⟨160, wallRealHeight coordBits tileData (wallSecondTile v tile), pixels⟩, 0,
              wallYAdjust tile tileData (blockExtents coordBits
                (wallExtentTile tileData (wallSecondTile v tile)).Blocks).1⟩ := by
  rw [generateWallCache_found coordBits v tile tileData h]
  have h2 := record_pipeline
    (makeBytes (mulInt32 (mulInt32 4 160)
      (wallRealHeight coordBits tileData (wallSecondTile v tile))))
    (fun zeroed => wallPixels v tileData (wallSecondTile v tile) zeroed
      (negInt32 (blockExtents coordBits
        (wallExtentTile tileData (wallSecondTile v tile)).Blocks).1))
    (fun pixels => ⟨⟨160, wallRealHeight coordBits tileData (wallSecondTile v tile), pixels⟩, 0,
      wallYAdjust tile tileData (blockExtents coordBits
        (wallExtentTile tileData (wallSecondTile v tile)).Blocks).1⟩)
    (panicOnly_makeBytes _) (fun z => panicOnly_wallPixels v tileData _ z _)
  beta_reduce at h2
  exact h2

/-- C4: with no cache entry under the record's key, `renderFloor` stops with
`log.Fatal` exactly when no tile (mainIndex, subIndex, 0) exists, `renderWall`
stops with `log.Fatal` exactly when no tile (mainIndex, subIndex, orientation)
exists, and a render that stops with `log.Fatal` draws nothing on the target. -/
theorem render_missing_floor_or_wall_tile (coordBits : Nat) (v : Region)
    (offsetX offsetY : Int) (target : Target) :
    (∀ tile : FloorShadowRecord, v.FloorCache (floorCacheIndex tile) = none →
      ((∃ site, (renderFloor v tile offsetX offsetY target).failure = some (.fatal site)) ↔
        ∀ t ∈ v.Tiles, ¬ (t.MainIndex = toInt32 tile.MainIndex ∧
          t.SubIndex = toInt32 tile.SubIndex ∧ t.Orientation = 0)) ∧
      ((∃ site, (renderFloor v tile offsetX offsetY target).failure = some (.fatal site)) →
        (renderFloor v tile offsetX offsetY target).target = target)) ∧
    (∀ tile : WallRecord, v.WallCache (wallCacheIndex tile) = none →
      ((∃ site, (renderWall coordBits v tile offsetX offsetY target).failure
          = some (.fatal site)) ↔
        ∀ t ∈ v.Tiles, ¬ (t.MainIndex = toInt32 tile.MainIndex ∧
          t.SubIndex = toInt32 tile.SubIndex ∧ t.Orientation = toInt32 tile.Orientation)) ∧
      ((∃ site, (renderWall coordBits v tile offsetX offsetY target).failure
          = some (.fatal site)) →
        (renderWall coordBits v tile offsetX offsetY target).target = target)) := by
  constructor
  · intro tile hcache
    rw [← getTile_eq_none_iff]
    cases hget : getTile v (toInt32 tile.MainIndex) (toInt32 tile.SubIndex) 0 with
    | none =>
      have hr : renderFloor v tile offsetX offsetY target
          = ⟨some (.fatal .locateTile), v, target⟩ := by
        unfold renderFloor
        simp only [hcache, generateFloorCache_missing v tile hget]
      rw [hr]
      exact ⟨⟨fun _ => rfl, fun _ => ⟨_, rfl⟩⟩, fun _ => rfl⟩
    | some tileData =>
      have hpipe := generateFloorCache_pipeline v tile tileData hget
      have hno : ¬ ∃ site, (renderFloor v tile offsetX offsetY target).failure
          = some (.fatal site) := by
        rintro ⟨site, hs⟩
        unfold renderFloor at hs
        simp only [hcache] at hs
        cases hg : generateFloorCache v tile with
        | error e =>
          simp only [hg] at hs
          obtain ⟨k, hk⟩ := hpipe.1 e hg
          rw [hk] at hs
          cases hs
        | ok g =>
          cases g with
          | none => exact hpipe.2.1 hg
          | some c =>
            simp [hg, TileCache.read, TileCache.write, drawTileCache] at hs
      exact ⟨⟨fun h => absurd h hno, fun h => by cases h⟩, fun h => absurd h hno⟩
  · intro tile hcache
    rw [← getTile_eq_none_iff]
    cases hget : getTile v (toInt32 tile.MainIndex) (toInt32 tile.SubIndex)
        (toInt32 tile.Orientation) with
    | none =>
      have hr : renderWall coordBits v tile offsetX offsetY target
          = ⟨some (.fatal .generateWall),
              { v with WallCache := v.WallCache.write (wallCacheIndex tile) none }, target⟩ := by
        unfold renderWall
        simp only [hcache, generateWallCache_missing coordBits v tile hget]
        simp [TileCache.read, TileCache.write]
      rw [hr]
      exact ⟨⟨fun _ => rfl, fun _ => ⟨_, rfl⟩⟩, fun _ => rfl⟩
    | some tileData =>
      have hpipe := generateWallCache_pipeline coordBits v tile tileData hget
      have hno : ¬ ∃ site, (renderWall coordBits v tile offsetX offsetY target).failure
          = some (.fatal site) := by
        rintro ⟨site, hs⟩
        unfold renderWall at hs
        simp only [hcache] at hs
        cases hg : generateWallCache coordBits v tile with
        | error e =>
          simp only [hg] at hs
          obtain ⟨k, hk⟩ := hpipe.1 e hg
          rw [hk] at hs
          cases hs
        | ok g =>
          cases g with
          | none => exact hpipe.2.1 hg
          | some c =>
            simp [hg, TileCache.read, TileCache.write, drawTileCache] at hs
      exact ⟨⟨fun h => absurd h hno, fun h => by cases h⟩, fun h => absurd h hno⟩

/-- Witness of C4 on `sampleRegion`: the floor record (9, 9) and the wall record
(1, 2, 5) have no tile, and their renders stop with `log.Fatal`. -/
theorem render_missing_floor_or_wall_tile_witness :
    (∃ site, (renderFloor sampleRegion ⟨9, 9, 0⟩ 0 0 []).failure = some (.fatal site)) ∧
      (∃ site, (renderWall 16 sampleRegion ⟨1, 2, 5, 0⟩ 0 0 []).failure
        = some (.fatal site)) :=
  have h := render_missing_floor_or_wall_tile 16 sampleRegion 0 0 []
  ⟨((h.1 ⟨9, 9, 0⟩ (by decide)).1).2 (by decide),
    ((h.2 ⟨1, 2, 5, 0⟩ (by decide)).1).2 (by decide)⟩

/-! ### Cache keys (C10) -/

theorem toUint32_of_lt (i : Int) (h0 : 0 ≤ i) (h1 : i < 4294967296) :
    toUint32 i = i.toNat := by
  unfold toUint32
  rw [Int.emod_eq_of_lt h0 h1]

theorem shlUint32_sixteen (m : Nat) (h : m < 65536) : shlUint32 m 16 = 2 ^ 16 * m := by
  unfold shlUint32
  rw [Nat.shiftLeft_eq, Nat.mod_eq_of_lt (by omega)]
  omega

theorem shlUint32_eight (s : Nat) (h : s < 256) : shlUint32 s 8 = 2 ^ 8 * s := by
  unfold shlUint32
  rw [Nat.shiftLeft_eq, Nat.mod_eq_of_lt (by omega)]
  omega

/-- The floor key of in-range indices, as a sum. -/
theorem floorCacheIndex_eq (tile : FloorShadowRecord)
    (hm0 : 0 ≤ tile.MainIndex) (hm : tile.MainIndex < 65536)
    (hs0 : 0 ≤ tile.SubIndex) (hs : tile.SubIndex < 256) :
    floorCacheIndex tile = 65536 * tile.MainIndex.toNat + 256 * tile.SubIndex.toNat := by
  unfold floorCacheIndex
  rw [toUint32_of_lt _ hm0 (by omega), toUint32_of_lt _ hs0 (by omega),
    shlUint32_sixteen _ (by omega), shlUint32_eight _ (by omega),
    ← Nat.mul_add_lt_is_or (by omega)]
  omega

/-- The shadow key of in-range indices, as a sum. -/
theorem shadowCacheIndex_eq (tile : FloorShadowRecord)
    (hm0 : 0 ≤ tile.MainIndex) (hm : tile.MainIndex < 65536)
    (hs0 : 0 ≤ tile.SubIndex) (hs : tile.SubIndex < 256) :
    shadowCacheIndex tile = 65536 * tile.MainIndex.toNat + 256 * tile.SubIndex.toNat := by
  unfold shadowCacheIndex addUint32
  rw [toUint32_of_lt _ hm0 (by omega), toUint32_of_lt _ hs0 (by omega),
    shlUint32_sixteen _ (by omega), shlUint32_eight _ (by omega)]
  omega

/-- The wall key of in-range indices, as a sum. -/
theorem wallCacheIndex_eq (tile : WallRecord)
    (hm0 : 0 ≤ tile.MainIndex) (hm : tile.MainIndex < 65536)
    (hs0 : 0 ≤ tile.SubIndex) (hs : tile.SubIndex < 256)
    (ho0 : 0 ≤ tile.Orientation) (ho : tile.Orientation < 256) :
    wallCacheIndex tile
      = 65536 * tile.MainIndex.toNat + 256 * tile.SubIndex.toNat + tile.Orientation.toNat := by
  unfold wallCacheIndex
  rw [toUint32_of_lt _ hm0 (by omega), toUint32_of_lt _ hs0 (by omega),
    toUint32_of_lt _ ho0 (by omega),
    shlUint32_sixteen _ (by omega), shlUint32_eight _ (by omega),
    ← Nat.mul_add_lt_is_or (by omega)]
  have hsum : 2 ^ 16 * tile.MainIndex.toNat + 2 ^ 8 * tile.SubIndex.toNat
      = 2 ^ 8 * (256 * tile.MainIndex.toNat + tile.SubIndex.toNat) := by omega
  rw [hsum, ← Nat.mul_add_lt_is_or (by omega)]
  omega

theorem shlUint32_lt (a k : Nat) : shlUint32 a k < 2 ^ 32 := by
  unfold shlUint32
  omega

theorem toUint32_lt (i : Int) : toUint32 i < 2 ^ 32 := by
  unfold toUint32
  omega

/-- C10: each cache key is a 32-bit value computed from the record's tile
identity alone (records that agree on main index, sub index and, for walls,
orientation have the same key, whatever their other data), and on records with
`0 ≤ MainIndex < 65536`, `0 ≤ SubIndex < 256` and `0 ≤ Orientation < 256` two
wall keys are equal exactly when the records have the same (main index, sub
index, orientation), two floor keys and two shadow keys exactly when the
records have the same (main index, sub index). -/
theorem cache_index_unique :
    (∀ r1 r2 : WallRecord, r1.MainIndex = r2.MainIndex → r1.SubIndex = r2.SubIndex →
      r1.Orientation = r2.Orientation → wallCacheIndex r1 = wallCacheIndex r2) ∧
    (∀ r1 r2 : FloorShadowRecord, r1.MainIndex = r2.MainIndex → r1.SubIndex = r2.SubIndex →
      floorCacheIndex r1 = floorCacheIndex r2 ∧ shadowCacheIndex r1 = shadowCacheIndex r2) ∧
    (∀ r : WallRecord, wallCacheIndex r < 2 ^ 32) ∧
    (∀ r : FloorShadowRecord, floorCacheIndex r < 2 ^ 32 ∧ shadowCacheIndex r < 2 ^ 32) ∧
    (∀ r1 r2 : WallRecord,
      (0 ≤ r1.MainIndex ∧ r1.MainIndex < 65536 ∧ 0 ≤ r1.SubIndex ∧ r1.SubIndex < 256 ∧
        0 ≤ r1.Orientation ∧ r1.Orientation < 256) →
      (0 ≤ r2.MainIndex ∧ r2.MainIndex < 65536 ∧ 0 ≤ r2.SubIndex ∧ r2.SubIndex < 256 ∧
        0 ≤ r2.Orientation ∧ r2.Orientation < 256) →
      (wallCacheIndex r1 = wallCacheIndex r2 ↔
        r1.MainIndex = r2.MainIndex ∧ r1.SubIndex = r2.SubIndex ∧
          r1.Orientation = r2.Orientation)) ∧
    (∀ r1 r2 : FloorShadowRecord,
      (0 ≤ r1.MainIndex ∧ r1.MainIndex < 65536 ∧ 0 ≤ r1.SubIndex ∧ r1.SubIndex < 256) →
      (0 ≤ r2.MainIndex ∧ r2.MainIndex < 65536 ∧ 0 ≤ r2.SubIndex ∧ r2.SubIndex < 256) →
      (floorCacheIndex r1 = floorCacheIndex r2 ↔
        r1.MainIndex = r2.MainIndex ∧ r1.SubIndex = r2.SubIndex) ∧
      (shadowCacheIndex r1 = shadowCacheIndex r2 ↔
        r1.MainIndex = r2.MainIndex ∧ r1.SubIndex = r2.SubIndex)) := by
  refine ⟨?_, ?_, ?_, ?_, ?_, ?_⟩
  · intro r1 r2 hm hs ho
    simp only [wallCacheIndex, hm, hs, ho]
  · intro r1 r2 hm hs
    simp only [floorCacheIndex, shadowCacheIndex, hm, hs, and_self]
  · intro r
    unfold wallCacheIndex
    exact Nat.or_lt_two_pow (Nat.or_lt_two_pow (shlUint32_lt _ _) (shlUint32_lt _ _))
      (toUint32_lt _)
  · intro r
    constructor
    · unfold floorCacheIndex
      exact Nat.or_lt_two_pow (shlUint32_lt _ _) (shlUint32_lt _ _)
    · unfold shadowCacheIndex addUint32
      omega
  · rintro r1 r2 ⟨a1, a2, a3, a4, a5, a6⟩ ⟨b1, b2, b3, b4, b5, b6⟩
    rw [wallCacheIndex_eq r1 a1 a2 a3 a4 a5 a6, wallCacheIndex_eq r2 b1 b2 b3 b4 b5 b6]
    omega
  · rintro r1 r2 ⟨a1, a2, a3, a4⟩ ⟨b1, b2, b3, b4⟩
    rw [floorCacheIndex_eq r1 a1 a2 a3 a4, floorCacheIndex_eq r2 b1 b2 b3 b4,
      shadowCacheIndex_eq r1 a1 a2 a3 a4, shadowCacheIndex_eq r2 b1 b2 b3 b4]
    omega

/-- Witness of C10: the wall records (1, 2, 3) and (1, 3, 2) are in range and
have different keys; the wall records (1, 2, 3) with different per-cell data
have the same key. -/
theorem cache_index_unique_witness :
    wallCacheIndex ⟨1, 2, 3, 0⟩ ≠ wallCacheIndex ⟨1, 3, 2, 0⟩ ∧
      wallCacheIndex ⟨1, 2, 3, 0⟩ = wallCacheIndex ⟨1, 2, 3, 7⟩ :=
  ⟨fun h => absurd
      ((cache_index_unique.2.2.2.2.1 ⟨1, 2, 3, 0⟩ ⟨1, 3, 2, 0⟩ (by decide) (by decide)).1 h)
      (by decide),
    cache_index_unique.1 ⟨1, 2, 3, 0⟩ ⟨1, 2, 3, 7⟩ rfl rfl rfl⟩

/-! ### The decoder preserves the length of the buffer -/

theorem storeByte_length (pixels : List Byte) (i : Int) (b : Byte) (out : List Byte)
    (h : storeByte pixels i b = .ok out) : out.length = pixels.length := by
  unfold storeByte at h
  split at h
  · cases h; simp
  · cases h

theorem storePixel_length (pixels : List Byte) (offset : Int) (c : PaletteRGB)
    (out : List Byte) (h : storePixel pixels offset c = .ok out) :
    out.length = pixels.length := by
  unfold storePixel at h
  cases h1 : storeByte pixels offset c.R with
  | error e => simp [h1, bind, Except.bind] at h
  | ok p1 =>
    cases h2 : storeByte p1 (addInt32 offset 1) c.G with
    | error e => simp [h1, h2, bind, Except.bind] at h
    | ok p2 =>
      cases h3 : storeByte p2 (addInt32 offset 2) c.B with
      | error e => simp [h1, h2, h3, bind, Except.bind] at h
      | ok p3 =>
        simp only [h1, h2, h3, bind, Except.bind] at h
        rw [storeByte_length _ _ _ _ h, storeByte_length _ _ _ _ h3,
          storeByte_length _ _ _ _ h2, storeByte_length _ _ _ _ h1]

theorem plotPixel_length (pal : PaletteRec) (pixels : List Byte) (c : Byte)
    (blockX blockY x y tileYOffset tileWidth : Int) (out : List Byte)
    (h : plotPixel pal pixels c blockX blockY x y tileYOffset tileWidth = .ok out) :
    out.length = pixels.length := by
  unfold plotPixel at h
  split at h
  · exact storePixel_length _ _ _ _ h
  · cases h; rfl

theorem isoInnerLoop_length (pal : PaletteRec) (data : List Byte)
    (blockX blockY tileYOffset tileWidth y : Int) (n : Nat) :
    ∀ (x : Int) (idx : Nat) (pixels : List Byte) (r : Int × Nat × List Byte),
      isoInnerLoop pal data blockX blockY tileYOffset tileWidth y n x idx pixels = .ok r →
      r.2.2.length = pixels.length := by
  induction n with
  | zero =>
    intro x idx pixels r h
    unfold isoInnerLoop at h
    cases h; rfl
  | succ n ih =>
    intro x idx pixels r h
    unfold isoInnerLoop at h
    cases h1 : indexSlice data idx with
    | error e => simp [h1, bind, Except.bind] at h
    | ok c =>
      cases h2 : plotPixel pal pixels c blockX blockY x y tileYOffset tileWidth with
      | error e => simp [h1, h2, bind, Except.bind] at h
      | ok p =>
        simp only [h1, h2, bind, Except.bind] at h
        rw [ih _ _ _ _ h, plotPixel_length _ _ _ _ _ _ _ _ _ _ h2]

theorem rleInnerLoop_eq_isoInnerLoop (pal : PaletteRec) (data : List Byte)
    (blockX blockY tileYOffset tileWidth y : Int) (n : Nat) :
    ∀ (x : Int) (idx : Nat) (pixels : List Byte),
      rleInnerLoop pal data blockX blockY tileYOffset tileWidth y n x idx pixels
        = isoInnerLoop pal data blockX blockY tileYOffset tileWidth y n x idx pixels := by
  induction n with
  | zero => intro x idx pixels; rfl
  | succ n ih =>
    intro x idx pixels
    unfold rleInnerLoop isoInnerLoop
    simp only [ih]

theorem isoOuterLoop_length (pal : PaletteRec) (data : List Byte)
    (blockX blockY tileYOffset tileWidth : Int) (fuel : Nat) :
    ∀ (s r : DecodeState),
      isoOuterLoop pal data blockX blockY tileYOffset tileWidth fuel s = .ok r →
      r.pixels.length = s.pixels.length := by
  induction fuel with
  | zero =>
    intro s r h
    unfold isoOuterLoop at h
    split at h
    · cases h
    · cases h; rfl
  | succ fuel ih =>
    intro s r h
    unfold isoOuterLoop at h
    split at h
    · cases h1 : indexSlice xjump s.y with
      | error e => simp [h1, bind, Except.bind] at h
      | ok x =>
        cases h2 : indexSlice nbpix s.y with
        | error e => simp [h1, h2, bind, Except.bind] at h
        | ok n =>
          cases h3 : isoInnerLoop pal data blockX blockY tileYOffset tileWidth s.y n.toNat
              x s.idx s.pixels with
          | error e => simp [h1, h2, h3, bind, Except.bind] at h
          | ok q =>
            simp only [h1, h2, h3, bind, Except.bind] at h
            rw [ih _ _ h]
            exact isoInnerLoop_length _ _ _ _ _ _ _ _ _ _ _ _ h3
    · cases h; rfl

theorem rleOuterLoop_length (pal : PaletteRec) (data : List Byte)
    (blockX blockY tileYOffset tileWidth : Int) (fuel : Nat) :
    ∀ (s r : DecodeState),
      rleOuterLoop pal data blockX blockY tileYOffset tileWidth fuel s = .ok r →
      r.pixels.length = s.pixels.length := by
  induction fuel with
  | zero =>
    intro s r h
    unfold rleOuterLoop at h
    split at h
    · cases h
    · cases h; rfl
  | succ fuel ih =>
    intro s r h
    unfold rleOuterLoop at h
    split at h
    · cases h1 : indexSlice data s.idx with
      | error e => simp [h1, bind, Except.bind] at h
      | ok b1 =>
        cases h2 : indexSlice data (s.idx + 1) with
        | error e => simp [h1, h2, bind, Except.bind] at h
        | ok b2 =>
          simp only [h1, h2, bind, Except.bind] at h
          split at h
          · rw [ih _ _ h]
          · rw [rleInnerLoop_eq_isoInnerLoop] at h
            cases h3 : isoInnerLoop pal data blockX blockY tileYOffset tileWidth s.y b2.val
                (addInt32 s.x b1.val) (s.idx + 2) s.pixels with
            | error e => simp [h3] at h
            | ok q =>
              simp only [h3] at h
              rw [ih _ _ h]
              exact isoInnerLoop_length _ _ _ _ _ _ _ _ _ _ _ _ h3
    · cases h; rfl

theorem decodeBlock_length (pal : PaletteRec) (block : Block) (pixels : List Byte)
    (tileYOffset tileWidth : Int) (r : DecodeState)
    (h : decodeBlock pal block pixels tileYOffset tileWidth = .ok r) :
    r.pixels.length = pixels.length := by
  unfold decodeBlock at h
  split at h
  · exact isoOuterLoop_length _ _ _ _ _ _ _ _ _ h
  · exact rleOuterLoop_length _ _ _ _ _ _ _ _ _ h

theorem decodeTileGfxData_length (v : Region) (blocks : List Block) :
    ∀ (pixels : List Byte) (tileYOffset tileWidth : Int) (out : List Byte),
      decodeTileGfxData v blocks pixels tileYOffset tileWidth = .ok out →
      out.length = pixels.length := by
  induction blocks with
  | nil =>
    intro pixels _ _ out h
    unfold decodeTileGfxData at h
    cases h; rfl
  | cons b bs ih =>
    intro pixels tileYOffset tileWidth out h
    unfold decodeTileGfxData at h
    cases h1 : decodeBlock v.Palette b pixels tileYOffset tileWidth with
    | error e => simp [h1, bind, Except.bind] at h
    | ok s =>
      simp only [h1, bind, Except.bind] at h
      rw [ih _ _ _ _ h, decodeBlock_length _ _ _ _ _ _ h1]

/-! ### Block extents -/

theorem isMinWithZero_unique (f : Block → Int) (blocks : List Block) (m1 m2 : Int)
    (h1 : IsMinWithZero f blocks m1) (h2 : IsMinWithZero f blocks m2) : m1 = m2 := by
  obtain ⟨a1, b1, c1⟩ := h1
  obtain ⟨a2, b2, c2⟩ := h2
  rcases c1 with c1 | ⟨x, hx, c1⟩ <;> rcases c2 with c2 | ⟨y, hy, c2⟩
  · omega
  · have := b1 y hy; omega
  · have := b2 x hx; omega
  · have := b1 y hy; have := b2 x hx; omega

theorem isMaxWithZero_unique (f : Block → Int) (blocks : List Block) (m1 m2 : Int)
    (h1 : IsMaxWithZero f blocks m1) (h2 : IsMaxWithZero f blocks m2) : m1 = m2 := by
  obtain ⟨a1, b1, c1⟩ := h1
  obtain ⟨a2, b2, c2⟩ := h2
  rcases c1 with c1 | ⟨x, hx, c1⟩ <;> rcases c2 with c2 | ⟨y, hy, c2⟩
  · omega
  · have := b1 y hy; omega
  · have := b2 x hx; omega
  · have := b1 y hy; have := b2 x hx; omega

/-- The extents loop started from any pair `(lo, hi)`. -/
theorem extents_foldl (coordBits : Nat) (blocks : List Block) :
    ∀ lo hi : Int,
      let r := blocks.foldl (fun ext block =>
        (MinInt32 ext.1 (toInt32 block.Y),
         MaxInt32 ext.2 (toInt32 (toSigned coordBits (block.Y + 32))))) (lo, hi)
      (r.1 ≤ lo ∧ (∀ block ∈ blocks, r.1 ≤ blockTop block) ∧
        (r.1 = lo ∨ ∃ block ∈ blocks, r.1 = blockTop block)) ∧
      (hi ≤ r.2 ∧ (∀ block ∈ blocks, blockBottom coordBits block ≤ r.2) ∧
        (r.2 = hi ∨ ∃ block ∈ blocks, r.2 = blockBottom coordBits block)) := by
  induction blocks with
  | nil =>
    intro lo hi
    simp
  | cons b bs ih =>
    intro lo hi
    simp only [List.foldl_cons]
    have h := ih (MinInt32 lo (toInt32 b.Y))
      (MaxInt32 hi (toInt32 (toSigned coordBits (b.Y + 32))))
    simp only at h
    obtain ⟨⟨h1, h2, h3⟩, h4, h5, h6⟩ := h
    have hmin : MinInt32 lo (toInt32 b.Y) ≤ lo ∧ MinInt32 lo (toInt32 b.Y) ≤ toInt32 b.Y ∧
        (MinInt32 lo (toInt32 b.Y) = lo ∨ MinInt32 lo (toInt32 b.Y) = toInt32 b.Y) := by
      unfold MinInt32
      split <;> omega
    have hmax : hi ≤ MaxInt32 hi (toInt32 (toSigned coordBits (b.Y + 32))) ∧
        toInt32 (toSigned coordBits (b.Y + 32))
          ≤ MaxInt32 hi (toInt32 (toSigned coordBits (b.Y + 32))) ∧
        (MaxInt32 hi (toInt32 (toSigned coordBits (b.Y + 32))) = hi ∨
          MaxInt32 hi (toInt32 (toSigned coordBits (b.Y + 32)))
            = toInt32 (toSigned coordBits (b.Y + 32))) := by
      unfold MaxInt32
      split <;> omega
    refine ⟨⟨by omega, ?_, ?_⟩, by omega, ?_, ?_⟩
    · intro block hb
      rcases List.mem_cons.1 hb with rfl | hb
      · unfold blockTop; omega
      · exact h2 block hb
    · rcases h3 with h3 | ⟨x, hx, h3⟩
      · rcases hmin.2.2 with e | e
        · left; omega
        · right; exact ⟨b, List.mem_cons_self _ _, by unfold blockTop; omega⟩
      · right; exact ⟨x, List.mem_cons_of_mem _ hx, h3⟩
    · intro block hb
      rcases List.mem_cons.1 hb with rfl | hb
      · unfold blockBottom; omega
      · exact h5 block hb
    · rcases h6 with h6 | ⟨x, hx, h6⟩
      · rcases hmax.2.2 with e | e
        · left; omega
        · right; exact ⟨b, List.mem_cons_self _ _, by unfold blockBottom; omega⟩
      · right; exact ⟨x, List.mem_cons_of_mem _ hx, h6⟩

theorem blockExtents_min (coordBits : Nat) (blocks : List Block) :
    IsMinWithZero blockTop blocks (blockExtents coordBits blocks).1 :=
  (extents_foldl coordBits blocks 0 0).1

theorem blockExtents_max (coordBits : Nat) (blocks : List Block) :
    IsMaxWithZero (blockBottom coordBits) blocks (blockExtents coordBits blocks).2 :=
  (extents_foldl coordBits blocks 0 0).2

/-- The minimum loop of `generateFloorCache`. -/
theorem floorMinimum_foldl (blocks : List Block) :
    ∀ lo : Int,
      let r := blocks.foldl (fun m block => MinInt32 m (toInt32 block.Y)) lo
      r ≤ lo ∧ (∀ block ∈ blocks, r ≤ blockTop block) ∧
        (r = lo ∨ ∃ block ∈ blocks, r = blockTop block) := by
  induction blocks with
  | nil => intro lo; simp
  | cons b bs ih =>
    intro lo
    simp only [List.foldl_cons]
    have h := ih (MinInt32 lo (toInt32 b.Y))
    simp only at h
    obtain ⟨h1, h2, h3⟩ := h
    have hmin : MinInt32 lo (toInt32 b.Y) ≤ lo ∧ MinInt32 lo (toInt32 b.Y) ≤ toInt32 b.Y ∧
        (MinInt32 lo (toInt32 b.Y) = lo ∨ MinInt32 lo (toInt32 b.Y) = toInt32 b.Y) := by
      unfold MinInt32
      split <;> omega
    refine ⟨by omega, ?_, ?_⟩
    · intro block hb
      rcases List.mem_cons.1 hb with rfl | hb
      · unfold blockTop; omega
      · exact h2 block hb
    · rcases h3 with h3 | ⟨x, hx, h3⟩
      · rcases hmin.2.2 with e | e
        · left; omega
        · right; exact ⟨b, List.mem_cons_self _ _, by unfold blockTop; omega⟩
      · right; exact ⟨x, List.mem_cons_of_mem _ hx, h3⟩

theorem floorMinimum_min (blocks : List Block) :
    IsMinWithZero blockTop blocks
      (blocks.foldl (fun m block => MinInt32 m (toInt32 block.Y)) 0) :=
  floorMinimum_foldl blocks 0

/-- Values that fit their types are read unchanged. -/
theorem toInt32_of_fits (i : Int) (h0 : -2147483648 ≤ i) (h1 : i < 2147483648) :
    toInt32 i = i := by
  unfold toInt32
  omega

theorem toSigned_of_fits (bits : Nat) (i : Int) (h0 : -2 ^ (bits - 1) ≤ i)
    (h1 : i < 2 ^ (bits - 1)) (hb : 0 < bits) : toSigned bits i = i := by
  unfold toSigned
  have hp : (2 : Int) ^ bits = 2 * 2 ^ (bits - 1) := by
    rw [← pow_succ']
    congr 1
    omega
  rw [hp]
  have hpos : (0 : Int) < 2 ^ (bits - 1) := by positivity
  rw [Int.emod_eq_of_lt (by omega) (by omega)]
  omega

/-! ### Arithmetic at `int32` is arithmetic modulo `2^32` -/

theorem toInt32_modEq (a : Int) : toInt32 a ≡ a [ZMOD 4294967296] := by
  unfold toInt32 Int.ModEq
  omega

theorem toInt32_congr (a b : Int) (h : a ≡ b [ZMOD 4294967296]) : toInt32 a = toInt32 b := by
  unfold Int.ModEq at h
  unfold toInt32
  omega

theorem toInt32_idem (a : Int) : toInt32 (toInt32 a) = toInt32 a :=
  toInt32_congr _ _ (toInt32_modEq a)

theorem toInt32_range (a : Int) : -2147483648 ≤ toInt32 a ∧ toInt32 a < 2147483648 := by
  unfold toInt32
  omega

theorem mulInt32_mulInt32 (a b c : Int) : mulInt32 (mulInt32 a b) c = toInt32 (a * b * c) := by
  unfold mulInt32
  exact toInt32_congr _ _ ((toInt32_modEq (a * b)).mul_right c)

/-- The offset expression of the decoder is the mathematical offset reduced
into `int32`. -/
theorem pixelOffset_eq_toInt32 (blockX blockY x y tileYOffset tileWidth : Int) :
    pixelOffset blockX blockY x y tileYOffset tileWidth
      = toInt32 (4 * ((blockY + y + tileYOffset) * tileWidth + (blockX + x))) := by
  unfold pixelOffset mulInt32 addInt32
  apply toInt32_congr
  apply Int.ModEq.mul_left
  refine (toInt32_modEq _).trans ?_
  apply Int.ModEq.add
  · refine (toInt32_modEq _).trans ?_
    apply Int.ModEq.mul_right
    refine (toInt32_modEq _).trans ?_
    exact (toInt32_modEq _).add_right _
  · exact toInt32_modEq _

/-- When the mathematical offset fits `int32`, for instance when it indexes a
buffer of fewer than `2^31` bytes, it is the offset the decoder computes. -/
theorem pixelOffset_of_fits (blockX blockY x y tileYOffset tileWidth : Int)
    (h0 : -2147483648 ≤ 4 * ((blockY + y + tileYOffset) * tileWidth + (blockX + x)))
    (h1 : 4 * ((blockY + y + tileYOffset) * tileWidth + (blockX + x)) < 2147483648) :
    pixelOffset blockX blockY x y tileYOffset tileWidth
      = 4 * ((blockY + y + tileYOffset) * tileWidth + (blockX + x)) := by
  rw [pixelOffset_eq_toInt32, toInt32_of_fits _ h0 h1]

theorem pixelOffset_dvd (blockX blockY x y tileYOffset tileWidth : Int) :
    ∃ k : Int, pixelOffset blockX blockY x y tileYOffset tileWidth = 4 * k := by
  rw [pixelOffset_eq_toInt32]
  generalize (blockY + y + tileYOffset) * tileWidth + (blockX + x) = m
  refine ⟨toInt32 (4 * m) / 4, ?_⟩
  unfold toInt32
  omega

theorem makeBytes_of_nonneg (n : Int) (h : 0 ≤ n) :
    makeBytes n = .ok (List.replicate n.toNat 0) := by
  unfold makeBytes
  rw [if_neg (by omega)]

/-! ### Shadow geometry (C5) -/

/-- C5: for a shadow tile that is found, `generateShadowCache` is: with `minY`
the minimum of 0 and the `block.Y` and `maxY` the maximum of 0 and the
`block.Y+32` of the tile's blocks, allocate `4 * Width * (maxY - minY)` zero
bytes, decode the tile's blocks into them with vertical offset `-minY` and
destination width `Width`, and return the surface of width `Width` and height
`maxY - minY` with draw offset `(0, minY + 80)`. The first part states it with
the arithmetic of the source (`int32`), the second without reductions when the
values fit, the third is the instance of the spec: minimum -10 and maximum 40
give height 50, decode offset 10 and draw offset 70. -/
theorem generateShadowCache_geometry (coordBits : Nat) (v : Region)
    (tile : FloorShadowRecord) (tileData : Tile)
    (hfound : getTile v (toInt32 tile.MainIndex) (toInt32 tile.SubIndex) 13 = some tileData) :
    (∃ minY maxY : Int,
      IsMinWithZero blockTop tileData.Blocks minY ∧
      IsMaxWithZero (blockBottom coordBits) tileData.Blocks maxY ∧
      generateShadowCache coordBits v tile =
        (makeBytes (mulInt32 (mulInt32 4 tileData.Width) (subInt32 maxY minY))).bind
          (fun zeroed =>
            (decodeTileGfxData v tileData.Blocks zeroed (negInt32 minY) tileData.Width).bind
              (fun pixels => .ok (some
                ⟨⟨tileData.Width, subInt32 maxY minY, pixels⟩, 0, minY + 80⟩)))) ∧
    (∀ minY maxY : Int,
      IsMinWithZero blockTop tileData.Blocks minY →
      IsMaxWithZero (blockBottom coordBits) tileData.Blocks maxY →
      -2147483648 < minY → maxY - minY < 2147483648 → 0 ≤ tileData.Width →
      4 * tileData.Width * (maxY - minY) < 2147483648 →
      generateShadowCache coordBits v tile =
        (decodeTileGfxData v tileData.Blocks
          (List.replicate (4 * tileData.Width * (maxY - minY)).toNat 0) (-minY)
          tileData.Width).bind
            (fun pixels => .ok (some
              ⟨⟨tileData.Width, maxY - minY, pixels⟩, 0, minY + 80⟩))) ∧
    ((∀ block ∈ tileData.Blocks, -10 ≤ blockTop block) →
      (∃ block ∈ tileData.Blocks, blockTop block = -10) →
      (∀ block ∈ tileData.Blocks, blockBottom coordBits block ≤ 40) →
      (∃ block ∈ tileData.Blocks, blockBottom coordBits block = 40) →
      generateShadowCache coordBits v tile =
        (makeBytes (mulInt32 (mulInt32 4 tileData.Width) 50)).bind
          (fun zeroed =>
            (decodeTileGfxData v tileData.Blocks zeroed 10 tileData.Width).bind
              (fun pixels => .ok (some ⟨⟨tileData.Width, 50, pixels⟩, 0, 70⟩)))) := by
  have hgen := generateShadowCache_found coordBits v tile tileData hfound
  rw [show ∀ a b : Int, toInt32 (subInt32 a b) = subInt32 a b from
    fun a b => toInt32_idem (a - b)] at hgen
  have hmin := blockExtents_min coordBits tileData.Blocks
  have hmax := blockExtents_max coordBits tileData.Blocks
  refine ⟨⟨_, _, hmin, hmax, hgen⟩, ?_, ?_⟩
  · intro minY maxY h1 h2 hlo hhi hw hsz
    have e1 := isMinWithZero_unique _ _ _ _ hmin h1
    have e2 := isMaxWithZero_unique _ _ _ _ hmax h2
    rw [e1, e2] at hgen
    have hmin0 := h1.1
    have hmax0 := h2.1
    have hsub : subInt32 maxY minY = maxY - minY := by
      unfold subInt32
      exact toInt32_of_fits _ (by omega) hhi
    have hneg : negInt32 minY = -minY := by
      unfold negInt32
      exact toInt32_of_fits _ (by omega) (by omega)
    have hnn : 0 ≤ 4 * tileData.Width * (maxY - minY) :=
      Int.mul_nonneg (by omega) (by omega)
    have hlen : mulInt32 (mulInt32 4 tileData.Width) (maxY - minY)
        = 4 * tileData.Width * (maxY - minY) := by
      rw [mulInt32_mulInt32]
      exact toInt32_of_fits _ (by omega) hsz
    rw [hsub, hneg, hlen, makeBytes_of_nonneg _ hnn] at hgen
    exact hgen
  · intro a1 a2 a3 a4
    have e1 := isMinWithZero_unique _ _ _ (-10) hmin
      ⟨by omega, a1, Or.inr (by obtain ⟨b, hb, e⟩ := a2; exact ⟨b, hb, e.symm⟩)⟩
    have e2 := isMaxWithZero_unique _ _ _ 40 hmax
      ⟨by omega, a3, Or.inr (by obtain ⟨b, hb, e⟩ := a4; exact ⟨b, hb, e.symm⟩)⟩
    rw [e1, e2] at hgen
    have hsub : subInt32 40 (-10) = 50 := by decide
    have hneg : negInt32 (-10) = 10 := by decide
    have h70 : (-10 : Int) + 80 = 70 := by decide
    rw [hsub, hneg, h70] at hgen
    exact hgen

set_option maxRecDepth 100000 in
/-- Witness of C5: the shadow record (3, 4) of `sampleRegion` resolves to
`sampleShadowTile`, whose blocks have minimum `Y` -10 and maximum `Y+32` 40;
the generated surface is 2 wide and 50 high, has `4 * 2 * 50` bytes, and is
drawn at offset `(0, 70)`. -/
theorem generateShadowCache_geometry_witness :
    (generateShadowCache 16 sampleRegion ⟨3, 4, 0⟩).toOption.join.map
        (fun c => (c.Image.Width, c.Image.Height, c.Image.Pixels.length, c.XOffset, c.YOffset))
      = some (2, 50, 400, 0, 70) := by
  have h := (generateShadowCache_geometry 16 sampleRegion ⟨3, 4, 0⟩ sampleShadowTile
    (by decide)).2.2 (by decide) (by decide) (by decide) (by decide)
  rw [h]
  decide

/-! ### The position of a draw -/

theorem toInt64_of_fits (i : Int) (h0 : -9223372036854775808 ≤ i)
    (h1 : i < 9223372036854775808) : toInt64 i = i := by
  unfold toInt64
  omega

/-- An integer of magnitude at most `2^53` is a `float64` value. -/
theorem toFloat64_of_fits (i : Int) (h0 : -9007199254740992 ≤ i)
    (h1 : i ≤ 9007199254740992) : toFloat64 i = i := by
  by_cases hlt : i.natAbs < 9007199254740992
  · have hnil : (List.range 11).filter (fun k => decide (2 ^ (53 + k) ≤ i.natAbs)) = [] := by
      rw [List.filter_eq_nil_iff]
      intro k _
      have hp : 2 ^ 53 ≤ 2 ^ (53 + k) := Nat.pow_le_pow_right (by decide) (Nat.le_add_right _ _)
      have h53 : (2 : Nat) ^ 53 = 9007199254740992 := by norm_num
      simp only [decide_eq_true_eq]
      omega
    unfold toFloat64
    simp only [hnil, List.length_nil, pow_zero, Nat.div_one, Nat.mod_one, Nat.mul_zero,
      Nat.mul_one]
    rw [if_neg (by omega)]
    exact Int.sign_mul_natAbs i
  · have hcases : i = 9007199254740992 ∨ i = -9007199254740992 := by omega
    rcases hcases with h | h
    · rw [h]; decide
    · rw [h]; decide

/-- A sum of magnitude at most `2^53` is passed to `Translate` as it is. -/
theorem drawPosition_of_fits (a b : Int) (h0 : -9007199254740992 ≤ a + b)
    (h1 : a + b ≤ 9007199254740992) : toFloat64 (addInt a b) = a + b := by
  unfold addInt
  rw [toInt64_of_fits _ (by omega) (by omega), toFloat64_of_fits _ h0 h1]

theorem addInt_zero (a : Int) : addInt a 0 = toInt64 a := by
  unfold addInt
  rw [Int.add_zero]

/-! ### Floor geometry (C9) -/

theorem absInt32_of_fits (a : Int) (h : -2147483648 < a) : AbsInt32 a = |a| := by
  unfold AbsInt32
  split
  · rename_i hneg
    rw [abs_of_neg hneg]
    unfold negInt32
    exact toInt32_of_fits _ (by omega) (by omega)
  · rename_i hpos
    rw [abs_of_nonneg (by omega)]

/-- C9: for a floor tile that is found, `generateFloorCache` is: allocate
`4 * Width * |Height|` zero bytes, decode the tile's blocks into them with
vertical offset `|minY|`, `minY` the minimum of 0 and the `block.Y` of the
tile's blocks, and destination width `Width`, and return the surface of width
`Width` and height `|Height|` with draw offset `(0, 0)`; on a cache miss
`renderFloor` then blits it at `(float64(offsetX), float64(offsetY))`, which is
exactly `(offsetX, offsetY)` whenever both have magnitude at most 2^53. The
first part states the generator with the arithmetic of the source (`int32`),
the second without reductions when the values fit, the third is the blit. -/
theorem generateFloorCache_geometry (v : Region) (tile : FloorShadowRecord) (tileData : Tile)
    (hfound : getTile v (toInt32 tile.MainIndex) (toInt32 tile.SubIndex) 0 = some tileData) :
    (∃ minY : Int,
      IsMinWithZero blockTop tileData.Blocks minY ∧
      generateFloorCache v tile =
        (makeBytes (mulInt32 (mulInt32 4 tileData.Width) (AbsInt32 tileData.Height))).bind
          (fun zeroed =>
            (decodeTileGfxData v tileData.Blocks zeroed (AbsInt32 minY) tileData.Width).bind
              (fun pixels => .ok (some
                ⟨⟨tileData.Width, AbsInt32 tileData.Height, pixels⟩, 0, 0⟩)))) ∧
    (∀ minY : Int,
      IsMinWithZero blockTop tileData.Blocks minY →
      -2147483648 < minY → -2147483648 < tileData.Height → 0 ≤ tileData.Width →
      4 * tileData.Width * |tileData.Height| < 2147483648 →
      generateFloorCache v tile =
        (decodeTileGfxData v tileData.Blocks
          (List.replicate (4 * tileData.Width * |tileData.Height|).toNat 0) |minY|
          tileData.Width).bind
            (fun pixels => .ok (some
              ⟨⟨tileData.Width, |tileData.Height|, pixels⟩, 0, 0⟩))) ∧
    (∀ (offsetX offsetY : Int) (target : Target) (c : TileCacheRecord),
      v.FloorCache (floorCacheIndex tile) = none →
      generateFloorCache v tile = .ok (some c) →
      c.XOffset = 0 ∧ c.YOffset = 0 ∧
        (renderFloor v tile offsetX offsetY target).failure = none ∧
        (renderFloor v tile offsetX offsetY target).target
          = target ++ [⟨c.Image, toFloat64 (toInt64 offsetX), toFloat64 (toInt64 offsetY),
              none⟩] ∧
        (-9007199254740992 ≤ offsetX → offsetX ≤ 9007199254740992 →
          -9007199254740992 ≤ offsetY → offsetY ≤ 9007199254740992 →
          (renderFloor v tile offsetX offsetY target).target
            = target ++ [⟨c.Image, offsetX, offsetY, none⟩])) := by
  have hgen := generateFloorCache_found v tile tileData hfound
  have hmin := floorMinimum_min tileData.Blocks
  refine ⟨⟨_, hmin, hgen⟩, ?_, ?_⟩
  · intro minY h1 hlo hh hw hsz
    have e1 := isMinWithZero_unique _ _ _ _ hmin h1
    rw [e1] at hgen
    have hnn : 0 ≤ 4 * tileData.Width * |tileData.Height| :=
      Int.mul_nonneg (by omega) (abs_nonneg _)
    have hlen : mulInt32 (mulInt32 4 tileData.Width) |tileData.Height|
        = 4 * tileData.Width * |tileData.Height| := by
      rw [mulInt32_mulInt32]
      exact toInt32_of_fits _ (by omega) hsz
    rw [absInt32_of_fits _ hlo, absInt32_of_fits _ hh, hlen, makeBytes_of_nonneg _ hnn] at hgen
    exact hgen
  · intro offsetX offsetY target c hcache hc
    obtain ⟨zeroed, pixels, -, -, hrec⟩ :=
      ((generateFloorCache_pipeline v tile tileData hfound).2.2 c).1 hc
    have hx : c.XOffset = 0 := by rw [hrec]
    have hy : c.YOffset = 0 := by rw [hrec]
    have hdraw : (renderFloor v tile offsetX offsetY target).target
        = target ++ [⟨c.Image, toFloat64 (toInt64 offsetX), toFloat64 (toInt64 offsetY),
            none⟩] := by
      unfold renderFloor
      simp [hcache, hc, TileCache.read, TileCache.write, drawTileCache, hx, hy, addInt_zero]
    refine ⟨hx, hy, ?_, hdraw, fun hx0 hx1 hy0 hy1 => ?_⟩
    · unfold renderFloor
      simp [hcache, hc, TileCache.read, TileCache.write, drawTileCache]
    · rw [hdraw, toInt64_of_fits _ (by omega) (by omega),
        toInt64_of_fits _ (by omega) (by omega), toFloat64_of_fits _ hx0 hx1,
        toFloat64_of_fits _ hy0 hy1]

/-- Witness of C9: the floor record (1, 2) of `sampleRegion` resolves to
`sampleFloorTile`, of width 2 and height -1; the generated surface has
`4 * 2 * 1` bytes and is drawn at the requested position `(5, 7)`. -/
theorem generateFloorCache_geometry_witness :
    (renderFloor sampleRegion ⟨1, 2, 0⟩ 5 7 []).target
      = [⟨⟨2, 1, [9, 9, 9, 255, 0, 0, 0, 0]⟩, 5, 7, none⟩] :=
  ((generateFloorCache_geometry sampleRegion ⟨1, 2, 0⟩ sampleFloorTile (by decide)).2.2
    5 7 [] ⟨⟨2, 1, [9, 9, 9, 255, 0, 0, 0, 0]⟩, 0, 0⟩ (by decide) (by rfl)).2.2.2.2
    (by decide) (by decide) (by decide) (by decide)

/-- Counterexample to C9 as stated: the floor record (1, 2) of `sampleRegion`,
whose tile is found, whose key is not in the floor cache and whose draw offset
is (0, 0), rendered at `offsetX = 2^53 + 1`, is blitted without failure at
x = `2^53`, the `float64` nearest to `offsetX`, and not at `offsetX`. -/
theorem generateFloorCache_blit_is_float64 :
    getTile sampleRegion (toInt32 1) (toInt32 2) 0 = some sampleFloorTile ∧
      sampleRegion.FloorCache (floorCacheIndex ⟨1, 2, 0⟩) = none ∧
      generateFloorCache sampleRegion ⟨1, 2, 0⟩
        = .ok (some ⟨⟨2, 1, [9, 9, 9, 255, 0, 0, 0, 0]⟩, 0, 0⟩) ∧
      (renderFloor sampleRegion ⟨1, 2, 0⟩ 9007199254740993 7 []).failure = none ∧
      (renderFloor sampleRegion ⟨1, 2, 0⟩ 9007199254740993 7 []).target
        = [⟨⟨2, 1, [9, 9, 9, 255, 0, 0, 0, 0]⟩, 9007199254740992, 7, none⟩] ∧
      (9007199254740992 : Int) ≠ 9007199254740993 :=
  ⟨by decide, by rfl, by rfl, by rfl, by rfl, by decide⟩

/-! ### Walls (C6, C7, C8) -/

theorem toInt32_four : toInt32 4 = 4 := by decide

theorem wallPixels_length (v : Region) (tileData : Tile) (newTileData : Option Tile)
    (pixels : List Byte) (tileYOffset : Int) (out : List Byte)
    (h : wallPixels v tileData newTileData pixels tileYOffset = .ok out) :
    out.length = pixels.length := by
  unfold wallPixels at h
  cases h1 : decodeTileGfxData v tileData.Blocks pixels tileYOffset 160 with
  | error e => simp [h1, Except.bind] at h
  | ok p1 =>
    simp only [h1, Except.bind] at h
    rw [← decodeTileGfxData_length _ _ _ _ _ _ h1]
    cases newTileData with
    | none => simp only at h; cases h; rfl
    | some n => exact decodeTileGfxData_length _ _ _ _ _ _ h

theorem makeBytes_length (n : Int) (zeroed : List Byte) (h : makeBytes n = .ok zeroed) :
    zeroed.length = n.toNat := by
  unfold makeBytes at h
  split at h
  · cases h
  · cases h; simp

/-- C6: for a wall record whose primary tile is found, `generateWallCache`
returns a record unless allocation or decoding panics, and the record has
`XOffset` 0 and `YOffset` 80 when the orientation is above 15, the negated
`RoofHeight` of the primary tile when it is 15, and `minY + 80` otherwise,
`minY` being the minimum of 0 and the `block.Y` of the blocks of the tile whose
extents are used. -/
theorem generateWallCache_yOffset (coordBits : Nat) (v : Region) (tile : WallRecord)
    (tileData : Tile)
    (hfound : getTile v (toInt32 tile.MainIndex) (toInt32 tile.SubIndex)
      (toInt32 tile.Orientation) = some tileData) :
    PanicOnly (generateWallCache coordBits v tile) ∧
    generateWallCache coordBits v tile ≠ .ok none ∧
    ∀ c, generateWallCache coordBits v tile = .ok (some c) →
      c.XOffset = 0 ∧
      (tile.Orientation > 15 → c.YOffset = 80) ∧
      (tile.Orientation = 15 → c.YOffset = -tileData.RoofHeight) ∧
      (tile.Orientation < 15 →
        ∃ minY, IsMinWithZero blockTop
            (wallExtentTile tileData (wallSecondTile v tile)).Blocks minY ∧
          c.YOffset = minY + 80) := by
  obtain ⟨h1, h2, h3⟩ := generateWallCache_pipeline coordBits v tile tileData hfound
  refine ⟨h1, h2, fun c hc => ?_⟩
  obtain ⟨zeroed, pixels, -, -, hrec⟩ := (h3 c).1 hc
  rw [hrec]
  refine ⟨rfl, ?_, ?_, ?_⟩
  · intro ho
    simp only [wallYAdjust]
    rw [if_pos ho]
  · intro ho
    simp only [wallYAdjust]
    rw [if_neg (by omega), if_pos ho]
  · intro ho
    refine ⟨_, blockExtents_min coordBits _, ?_⟩
    simp only [wallYAdjust]
    rw [if_neg (by omega), if_neg (by omega)]

set_option maxRecDepth 100000 in
/-- Witness of C6: the wall record (1, 2, 3) of `sampleRegion` resolves to
`sampleWallTile`; a record is returned, with draw offset `(0, 80)`. -/
theorem generateWallCache_yOffset_witness :
    (generateWallCache 16 sampleRegion ⟨1, 2, 3, 0⟩).toOption.join.map
        (fun c => (c.XOffset, c.YOffset)) = some (0, 80) ∧
      generateWallCache 16 sampleRegion ⟨1, 2, 3, 0⟩ ≠ .ok none :=
  ⟨by decide,
    (generateWallCache_yOffset 16 sampleRegion ⟨1, 2, 3, 0⟩ sampleWallTile (by decide)).2.1⟩

/-- C7: for a wall record whose primary tile is found, the extents `minY` and
`maxY` of `generateWallCache` are taken over the blocks of the orientation-4
tile of the same identity when the record's orientation is 3, that tile exists
and its height is strictly smaller than the primary tile's, and over the
blocks of the primary tile in every other case; the returned surface has width
160, height `max(|primary.Height|, maxY - minY)` and `4 * 160 * height` bytes
(at `int32`, and without reductions when the values fit). -/
theorem generateWallCache_extents (coordBits : Nat) (v : Region) (tile : WallRecord)
    (tileData : Tile)
    (hfound : getTile v (toInt32 tile.MainIndex) (toInt32 tile.SubIndex)
      (toInt32 tile.Orientation) = some tileData) :
    (∀ newTile, tile.Orientation = 3 →
      getTile v (toInt32 tile.MainIndex) (toInt32 tile.SubIndex) 4 = some newTile →
      newTile.Height < tileData.Height →
      wallExtentTile tileData (wallSecondTile v tile) = newTile) ∧
    (¬ (tile.Orientation = 3 ∧ ∃ newTile,
        getTile v (toInt32 tile.MainIndex) (toInt32 tile.SubIndex) 4 = some newTile ∧
        newTile.Height < tileData.Height) →
      wallExtentTile tileData (wallSecondTile v tile) = tileData) ∧
    ∃ minY maxY : Int,
      IsMinWithZero blockTop (wallExtentTile tileData (wallSecondTile v tile)).Blocks minY ∧
      IsMaxWithZero (blockBottom coordBits)
        (wallExtentTile tileData (wallSecondTile v tile)).Blocks maxY ∧
      PanicOnly (generateWallCache coordBits v tile) ∧
      generateWallCache coordBits v tile ≠ .ok none ∧
      ∀ c, generateWallCache coordBits v tile = .ok (some c) →
        c.Image.Width = 160 ∧
        c.Image.Height = MaxInt32 (AbsInt32 tileData.Height) (subInt32 maxY minY) ∧
        c.Image.Pixels.length = (mulInt32 (mulInt32 4 160) c.Image.Height).toNat ∧
        (-2147483648 < tileData.Height → maxY - minY < 2147483648 →
          4 * 160 * max |tileData.Height| (maxY - minY) < 2147483648 →
          c.Image.Height = max |tileData.Height| (maxY - minY) ∧
          (c.Image.Pixels.length : Int) = 4 * 160 * max |tileData.Height| (maxY - minY)) := by
  refine ⟨?_, ?_, _, _, blockExtents_min coordBits _, blockExtents_max coordBits _, ?_⟩
  · intro newTile ho hsec hlt
    simp only [wallSecondTile, if_pos ho, toInt32_four, hsec, wallExtentTile, if_pos hlt]
  · intro hno
    unfold wallSecondTile
    by_cases ho : tile.Orientation = 3
    · rw [if_pos ho, toInt32_four]
      cases hsec : getTile v (toInt32 tile.MainIndex) (toInt32 tile.SubIndex) 4 with
      | none => rfl
      | some newTile =>
        simp only [wallExtentTile]
        rw [if_neg]
        intro hlt
        exact hno ⟨ho, newTile, hsec, hlt⟩
    · rw [if_neg ho]
      rfl
  · obtain ⟨h1, h2, h3⟩ := generateWallCache_pipeline coordBits v tile tileData hfound
    refine ⟨h1, h2, fun c hc => ?_⟩
    obtain ⟨zeroed, pixels, hz, hp, hrec⟩ := (h3 c).1 hc
    have hlen : pixels.length = (mulInt32 (mulInt32 4 160)
        (wallRealHeight coordBits tileData (wallSecondTile v tile))).toNat := by
      rw [wallPixels_length _ _ _ _ _ _ hp, makeBytes_length _ _ hz]
    have hnn : 0 ≤ mulInt32 (mulInt32 4 160)
        (wallRealHeight coordBits tileData (wallSecondTile v tile)) := by
      unfold makeBytes at hz
      split at hz
      · cases hz
      · omega
    rw [hrec]
    refine ⟨rfl, rfl, hlen, ?_⟩
    intro hh hsub hsz
    have hmin0 := (blockExtents_min coordBits
      (wallExtentTile tileData (wallSecondTile v tile)).Blocks).1
    have hmax0 := (blockExtents_max coordBits
      (wallExtentTile tileData (wallSecondTile v tile)).Blocks).1
    have hH : wallRealHeight coordBits tileData (wallSecondTile v tile)
        = max |tileData.Height| ((blockExtents coordBits
            (wallExtentTile tileData (wallSecondTile v tile)).Blocks).2
          - (blockExtents coordBits
            (wallExtentTile tileData (wallSecondTile v tile)).Blocks).1) := by
      unfold wallRealHeight
      rw [absInt32_of_fits _ hh]
      have e : subInt32 (blockExtents coordBits
            (wallExtentTile tileData (wallSecondTile v tile)).Blocks).2
          (blockExtents coordBits
            (wallExtentTile tileData (wallSecondTile v tile)).Blocks).1
          = (blockExtents coordBits
            (wallExtentTile tileData (wallSecondTile v tile)).Blocks).2
          - (blockExtents coordBits
            (wallExtentTile tileData (wallSecondTile v tile)).Blocks).1 := by
        unfold subInt32
        exact toInt32_of_fits _ (by omega) hsub
      rw [e]
      unfold MaxInt32
      split
      · rw [max_eq_left (by omega)]
      · rw [max_eq_right (by omega)]
    refine ⟨hH, ?_⟩
    simp only
    rw [hlen, hH, mulInt32_mulInt32]
    have hge : 0 ≤ max |tileData.Height| ((blockExtents coordBits
            (wallExtentTile tileData (wallSecondTile v tile)).Blocks).2
          - (blockExtents coordBits
            (wallExtentTile tileData (wallSecondTile v tile)).Blocks).1) :=
      le_max_of_le_left (abs_nonneg _)
    rw [toInt32_of_fits _ (by omega) hsz, Int.toNat_of_nonneg (by omega)]

set_option maxRecDepth 100000 in
/-- Witness of C7: the wall record (1, 2, 3) of `sampleRegion` resolves to
`sampleWallTile`, of height 1 and without blocks; the orientation-4 tile
`sampleSecondTile` is not lower, so the extents are the primary tile's and the
surface is 160 wide, 1 high and has 640 bytes. -/
theorem generateWallCache_extents_witness :
    wallExtentTile sampleWallTile (wallSecondTile sampleRegion ⟨1, 2, 3, 0⟩) = sampleWallTile ∧
      (generateWallCache 16 sampleRegion ⟨1, 2, 3, 0⟩).toOption.join.map
        (fun c => (c.Image.Width, c.Image.Height, c.Image.Pixels.length))
        = some (160, 1, 640) :=
  ⟨(generateWallCache_extents 16 sampleRegion ⟨1, 2, 3, 0⟩ sampleWallTile (by decide)).2.1
    (by decide), by decide⟩

/-- C8: for a wall record whose primary tile is found, the pixels of the
returned surface are a zero-filled buffer into which the primary tile's blocks
are decoded at vertical offset `-minY` and width 160 and then, exactly when the
record's orientation is 3 and an orientation-4 tile of the same identity
exists, whatever its height, that tile's blocks are decoded on top at the same
offset and width. -/
theorem generateWallCache_composition (coordBits : Nat) (v : Region) (tile : WallRecord)
    (tileData : Tile)
    (hfound : getTile v (toInt32 tile.MainIndex) (toInt32 tile.SubIndex)
      (toInt32 tile.Orientation) = some tileData) :
    ∃ (minY height yAdjust : Int),
      IsMinWithZero blockTop (wallExtentTile tileData (wallSecondTile v tile)).Blocks minY ∧
      generateWallCache coordBits v tile =
        (makeBytes (mulInt32 (mulInt32 4 160) height)).bind (fun zeroed =>
          ((decodeTileGfxData v tileData.Blocks zeroed (negInt32 minY) 160).bind
            (fun pixels =>
              if tile.Orientation = 3 then
                match getTile v (toInt32 tile.MainIndex) (toInt32 tile.SubIndex) 4 with
                | some newTile =>
                  decodeTileGfxData v newTile.Blocks pixels (negInt32 minY) 160
                | none => .ok pixels
              else .ok pixels)).bind
            (fun pixels => .ok (some ⟨⟨160, height, pixels⟩, 0, yAdjust⟩))) ∧
      ∀ zeroed, makeBytes (mulInt32 (mulInt32 4 160) height) = .ok zeroed →
        zeroed = List.replicate (mulInt32 (mulInt32 4 160) height).toNat 0 := by
  refine ⟨_, wallRealHeight coordBits tileData (wallSecondTile v tile),
    wallYAdjust tile tileData (blockExtents coordBits
      (wallExtentTile tileData (wallSecondTile v tile)).Blocks).1,
    blockExtents_min coordBits _, ?_, ?_⟩
  · rw [generateWallCache_found coordBits v tile tileData hfound]
    congr 1
    funext zeroed
    congr 1
    unfold wallPixels
    congr 1
    funext pixels
    unfold wallSecondTile
    by_cases ho : tile.Orientation = 3
    · rw [if_pos ho, if_pos ho, toInt32_four]
    · rw [if_neg ho, if_neg ho]
  · intro zeroed hz
    unfold makeBytes at hz
    split at hz
    · cases hz
    · cases hz; rfl

set_option maxRecDepth 100000 in
/-- Witness of C8: for the wall record (1, 2, 3) of `sampleRegion` the primary
tile `sampleWallTile` has no blocks and the orientation-4 tile
`sampleSecondTile` writes colour 6 at pixel 3 of row 0: bytes 12 to 15 of the
surface are (6, 6, 6, 255), the bytes before them are zero. -/
theorem generateWallCache_composition_witness :
    (generateWallCache 16 sampleRegion ⟨1, 2, 3, 0⟩).toOption.join.map
        (fun c => c.Image.Pixels.take 16)
        = some [0, 0, 0, 0, 0, 0, 0, 0, 0, 0, 0, 0, 6, 6, 6, 255] ∧
      ∃ minY height yAdjust : Int,
        generateWallCache 16 sampleRegion ⟨1, 2, 3, 0⟩ =
          (makeBytes (mulInt32 (mulInt32 4 160) height)).bind (fun zeroed =>
            ((decodeTileGfxData sampleRegion sampleWallTile.Blocks zeroed
                (negInt32 minY) 160).bind
              (fun pixels =>
                if (3 : Int) = 3 then
                  match getTile sampleRegion (toInt32 1) (toInt32 2) 4 with
                  | some newTile =>
                    decodeTileGfxData sampleRegion newTile.Blocks pixels (negInt32 minY) 160
                  | none => .ok pixels
                else .ok pixels)).bind
              (fun pixels => .ok (some ⟨⟨160, height, pixels⟩, 0, yAdjust⟩))) := by
  refine ⟨by decide, ?_⟩
  obtain ⟨minY, height, yAdjust, -, h, -⟩ :=
    generateWallCache_composition 16 sampleRegion ⟨1, 2, 3, 0⟩ sampleWallTile (by decide)
  exact ⟨minY, height, yAdjust, h⟩

/-! ### Pixel stores on a buffer -/

theorem paintPixel_length (pixels : List Byte) (o : Nat) (c : PaletteRGB) :
    (paintPixel pixels o c).length = pixels.length := by
  simp [paintPixel]

theorem paintPixel_getElem?_of_not_covered (pixels : List Byte) (o : Nat) (c : PaletteRGB)
    (j : Nat) (h : ¬ (o ≤ j ∧ j < o + 4)) : (paintPixel pixels o c)[j]? = pixels[j]? := by
  unfold paintPixel
  rw [List.getElem?_set_ne (by omega), List.getElem?_set_ne (by omega),
    List.getElem?_set_ne (by omega), List.getElem?_set_ne (by omega)]

theorem paintPixel_getElem? (pixels : List Byte) (o : Nat) (c : PaletteRGB)
    (h : o + 3 < pixels.length) :
    (paintPixel pixels o c)[o]? = some c.R ∧ (paintPixel pixels o c)[o + 1]? = some c.G ∧
      (paintPixel pixels o c)[o + 2]? = some c.B ∧ (paintPixel pixels o c)[o + 3]? = some 255 := by
  unfold paintPixel
  refine ⟨?_, ?_, ?_, ?_⟩
  · rw [List.getElem?_set_ne (by omega), List.getElem?_set_ne (by omega),
      List.getElem?_set_ne (by omega), List.getElem?_set_self (by omega)]
  · rw [List.getElem?_set_ne (by omega), List.getElem?_set_ne (by omega),
      List.getElem?_set_self (by simp; omega)]
  · rw [List.getElem?_set_ne (by omega), List.getElem?_set_self (by simp; omega)]
  · rw [List.getElem?_set_self (by simp; omega)]

theorem paintAll_length (writes : List (Nat × PaletteRGB)) :
    ∀ pixels : List Byte, (paintAll pixels writes).length = pixels.length := by
  induction writes with
  | nil => intro pixels; rfl
  | cons w ws ih =>
    intro pixels
    simp only [paintAll, List.foldl_cons] at ih ⊢
    rw [ih, paintPixel_length]

theorem paintAll_append (pixels : List Byte) (ws1 ws2 : List (Nat × PaletteRGB)) :
    paintAll pixels (ws1 ++ ws2) = paintAll (paintAll pixels ws1) ws2 := by
  simp [paintAll, List.foldl_append]

/-- A byte outside every stored pixel keeps its value. -/
theorem paintAll_getElem?_of_not_covered (writes : List (Nat × PaletteRGB)) :
    ∀ (pixels : List Byte) (j : Nat),
      (∀ w ∈ writes, ¬ (w.1 ≤ j ∧ j < w.1 + 4)) →
      (paintAll pixels writes)[j]? = pixels[j]? := by
  induction writes with
  | nil => intro pixels j _; rfl
  | cons w ws ih =>
    intro pixels j h
    simp only [paintAll, List.foldl_cons] at ih ⊢
    rw [ih _ _ (fun w1 hw1 => h w1 (List.mem_cons_of_mem _ hw1))]
    exact paintPixel_getElem?_of_not_covered _ _ _ _ (h w (List.mem_cons_self _ _))

/-- When the stores are aligned, in range, and stores at the same offset store
the same colour, every stored pixel holds its colour at the end. -/
theorem paintAll_getElem?_of_mem (writes : List (Nat × PaletteRGB)) :
    ∀ (pixels : List Byte),
      (∀ w ∈ writes, w.1 % 4 = 0 ∧ w.1 + 3 < pixels.length) →
      (∀ w ∈ writes, ∀ w1 ∈ writes, w.1 = w1.1 → w.2 = w1.2) →
      ∀ w ∈ writes,
        (paintAll pixels writes)[w.1]? = some w.2.R ∧
        (paintAll pixels writes)[w.1 + 1]? = some w.2.G ∧
        (paintAll pixels writes)[w.1 + 2]? = some w.2.B ∧
        (paintAll pixels writes)[w.1 + 3]? = some 255 := by
  induction writes with
  | nil => intro pixels _ _ w hw; cases hw
  | cons w0 ws ih =>
    intro pixels hal hsame w hw
    have hstep : paintAll pixels (w0 :: ws) = paintAll (paintPixel pixels w0.1 w0.2) ws := rfl
    rw [hstep]
    by_cases hex : ∃ w1 ∈ ws, w1.1 = w.1
    · obtain ⟨w1, hw1, h1⟩ := hex
      have hc : w1.2 = w.2 :=
        hsame w1 (List.mem_cons_of_mem _ hw1) w hw h1
      have := ih (paintPixel pixels w0.1 w0.2)
        (fun u hu => by
          rw [paintPixel_length]
          exact hal u (List.mem_cons_of_mem _ hu))
        (fun u hu u1 hu1 => hsame u (List.mem_cons_of_mem _ hu) u1 (List.mem_cons_of_mem _ hu1))
        w1 hw1
      rw [h1, hc] at this
      exact this
    · have hw0 : w = w0 := by
        rcases List.mem_cons.1 hw with e | e
        · exact e
        · exact absurd ⟨w, e, rfl⟩ hex
      have hnc : ∀ k, k < 4 → ∀ u ∈ ws, ¬ (u.1 ≤ w.1 + k ∧ w.1 + k < u.1 + 4) := by
        intro k hk u hu hcov
        have hu4 := (hal u (List.mem_cons_of_mem _ hu)).1
        have hw4 := (hal w hw).1
        exact hex ⟨u, hu, by omega⟩
      have hr := (hal w hw).2
      have hp := paintPixel_getElem? pixels w.1 w.2 hr
      rw [← hw0]
      refine ⟨?_, ?_, ?_, ?_⟩
      · have := paintAll_getElem?_of_not_covered ws (paintPixel pixels w.1 w.2) (w.1 + 0)
          (hnc 0 (by omega))
        rw [Nat.add_zero] at this
        rw [this]; exact hp.1
      · rw [paintAll_getElem?_of_not_covered ws _ (w.1 + 1) (hnc 1 (by omega))]; exact hp.2.1
      · rw [paintAll_getElem?_of_not_covered ws _ (w.1 + 2) (hnc 2 (by omega))]; exact hp.2.2.1
      · rw [paintAll_getElem?_of_not_covered ws _ (w.1 + 3) (hnc 3 (by omega))]; exact hp.2.2.2

/-! ### The inner loops as pixel stores -/

theorem indexSlice_natCast {α : Type} (xs : List α) (i : Nat) (a : α) (h : xs[i]? = some a) :
    indexSlice xs (i : Int) = .ok a := by
  unfold indexSlice
  rw [if_pos (by omega), Int.toNat_ofNat, h]

theorem getElem?_getD_of_lt (data : List Byte) (i : Nat) (h : i < data.length) :
    data[i]? = some (data.getD i 0) := by
  rw [List.getD_eq_getElem?_getD, List.getElem?_eq_getElem h]
  rfl

theorem storeByte_of_inRange (pixels : List Byte) (i : Int) (b : Byte)
    (h0 : 0 ≤ i) (h1 : i < pixels.length) :
    storeByte pixels i b = .ok (pixels.set i.toNat b) := by
  unfold storeByte
  rw [if_pos ⟨h0, h1⟩]

theorem storePixel_eq_paintPixel (pixels : List Byte) (offset : Int) (c : PaletteRGB)
    (hdvd : ∃ k : Int, offset = 4 * k) (hhi : offset < 2147483648)
    (hlo : 0 ≤ offset) (h1 : offset + 3 < pixels.length) :
    storePixel pixels offset c = .ok (paintPixel pixels offset.toNat c) := by
  obtain ⟨k, hk⟩ := hdvd
  have e1 : addInt32 offset 1 = offset + 1 := toInt32_of_fits _ (by omega) (by omega)
  have e2 : addInt32 offset 2 = offset + 2 := toInt32_of_fits _ (by omega) (by omega)
  have e3 : addInt32 offset 3 = offset + 3 := toInt32_of_fits _ (by omega) (by omega)
  have t1 : (offset + 1).toNat = offset.toNat + 1 := by omega
  have t2 : (offset + 2).toNat = offset.toNat + 2 := by omega
  have t3 : (offset + 3).toNat = offset.toNat + 3 := by omega
  unfold storePixel paintPixel
  rw [e1, e2, e3]
  rw [storeByte_of_inRange _ _ _ hlo (by omega)]
  simp only [bind, Except.bind]
  rw [storeByte_of_inRange _ _ _ (by omega) (by simp; omega)]
  simp only
  rw [storeByte_of_inRange _ _ _ (by omega) (by simp; omega)]
  simp only
  rw [storeByte_of_inRange _ _ _ (by omega) (by simp; omega), t1, t2, t3]

theorem pixelOffset_toNat_mod (blockX blockY x y tileYOffset tileWidth : Int) :
    (pixelOffset blockX blockY x y tileYOffset tileWidth).toNat % 4 = 0 := by
  obtain ⟨k, hk⟩ := pixelOffset_dvd blockX blockY x y tileYOffset tileWidth
  omega

theorem pixelOffset_lt (blockX blockY x y tileYOffset tileWidth : Int) :
    pixelOffset blockX blockY x y tileYOffset tileWidth < 2147483648 := by
  rw [pixelOffset_eq_toInt32]
  exact (toInt32_range _).2

theorem runWrites_zero (pal : PaletteRec) (data : List Byte)
    (blockX blockY tileYOffset tileWidth y x : Int) (idx : Nat) :
    runWrites pal data blockX blockY tileYOffset tileWidth y 0 x idx = [] := rfl

theorem runWrites_succ (pal : PaletteRec) (data : List Byte)
    (blockX blockY tileYOffset tileWidth y : Int) (n : Nat) (x : Int) (idx : Nat) :
    runWrites pal data blockX blockY tileYOffset tileWidth y (n + 1) x idx =
      (if data.getD idx 0 ≠ 0 then
        [((pixelOffset blockX blockY x y tileYOffset tileWidth).toNat,
          pal.Colors (data.getD idx 0))]
       else [])
      ++ runWrites pal data blockX blockY tileYOffset tileWidth y n (x + 1) (idx + 1) := by
  unfold runWrites
  rw [List.range_succ_eq_map, List.filterMap_cons, List.filterMap_map]
  have hfun : ((fun i : Nat =>
        if data.getD (idx + i) 0 ≠ 0 then
          some ((pixelOffset blockX blockY (x + (i : Int)) y tileYOffset tileWidth).toNat,
            pal.Colors (data.getD (idx + i) 0))
        else none) ∘ Nat.succ)
      = (fun i : Nat =>
        if data.getD (idx + 1 + i) 0 ≠ 0 then
          some ((pixelOffset blockX blockY (x + 1 + (i : Int)) y tileYOffset tileWidth).toNat,
            pal.Colors (data.getD (idx + 1 + i) 0))
        else none) := by
    funext i
    simp only [Function.comp, Nat.succ_eq_add_one]
    have e1 : idx + (i + 1) = idx + 1 + i := by omega
    have e2 : x + ((i + 1 : Nat) : Int) = x + 1 + (i : Int) := by push_cast; omega
    rw [e1, e2]
  rw [hfun]
  simp only [Nat.add_zero, Nat.cast_zero, Int.add_zero]
  by_cases hc : data.getD idx 0 ≠ 0
  · rw [if_pos hc, if_pos hc]
    rfl
  · rw [if_neg hc, if_neg hc]
    rfl

theorem mem_runWrites (pal : PaletteRec) (data : List Byte)
    (blockX blockY tileYOffset tileWidth y : Int) (n : Nat) (x : Int) (idx : Nat)
    (w : Nat × PaletteRGB) :
    w ∈ runWrites pal data blockX blockY tileYOffset tileWidth y n x idx ↔
      ∃ i, i < n ∧ data.getD (idx + i) 0 ≠ 0 ∧
        w = ((pixelOffset blockX blockY (x + i) y tileYOffset tileWidth).toNat,
          pal.Colors (data.getD (idx + i) 0)) := by
  unfold runWrites
  rw [List.mem_filterMap]
  constructor
  · rintro ⟨i, hi, h⟩
    split at h
    · rename_i hc
      exact ⟨i, List.mem_range.1 hi, hc, by cases h; rfl⟩
    · cases h
  · rintro ⟨i, hi, hc, hw⟩
    exact ⟨i, List.mem_range.2 hi, by rw [if_pos hc, hw]⟩

/-- The inner loop of the isometric decoder on a run whose non-zero bytes have
their destination in range: it performs the stores of the run, in order. -/
theorem isoInnerLoop_eq_paintAll (pal : PaletteRec) (data : List Byte)
    (blockX blockY tileYOffset tileWidth y : Int) (n : Nat) :
    ∀ (x : Int) (idx : Nat) (pixels : List Byte),
      idx + n ≤ data.length → -2147483648 ≤ x → x + n < 2147483648 →
      (∀ i, i < n → data.getD (idx + i) 0 ≠ 0 →
        0 ≤ pixelOffset blockX blockY (x + i) y tileYOffset tileWidth ∧
        pixelOffset blockX blockY (x + i) y tileYOffset tileWidth + 3 < pixels.length) →
      isoInnerLoop pal data blockX blockY tileYOffset tileWidth y n x idx pixels
        = .ok (x + n, idx + n,
            paintAll pixels (runWrites pal data blockX blockY tileYOffset tileWidth y n x idx)) := by
  induction n with
  | zero =>
    intro x idx pixels _ _ _ _
    simp [isoInnerLoop, runWrites_zero, paintAll]
  | succ n ih =>
    intro x idx pixels hlen hx0 hx1 hr
    unfold isoInnerLoop
    rw [indexSlice_natCast _ _ _ (getElem?_getD_of_lt data idx (by omega))]
    simp only [bind, Except.bind]
    have hx : addInt32 x 1 = x + 1 := toInt32_of_fits _ (by omega) (by push_cast at hx1; omega)
    have hstep : ∀ p : List Byte, p.length = pixels.length →
        isoInnerLoop pal data blockX blockY tileYOffset tileWidth y n (addInt32 x 1) (idx + 1) p
          = .ok (x + (n + 1 : Nat), idx + (n + 1),
              paintAll p (runWrites pal data blockX blockY tileYOffset tileWidth y n
                (x + 1) (idx + 1))) := by
      intro p hp
      rw [hx, ih (x + 1) (idx + 1) p (by omega) (by omega) (by push_cast at hx1; omega)]
      · have e1 : x + 1 + (n : Int) = x + ((n + 1 : Nat) : Int) := by push_cast; omega
        have e2 : idx + 1 + n = idx + (n + 1) := by omega
        rw [e1, e2]
      · intro i hi hc
        have := hr (i + 1) (by omega) (by rw [show idx + (i + 1) = idx + 1 + i by omega]; exact hc)
        rw [show x + ((i + 1 : Nat) : Int) = x + 1 + (i : Int) by push_cast; omega] at this
        rw [hp]
        exact this
    rw [runWrites_succ]
    unfold plotPixel
    by_cases hc : data.getD idx 0 ≠ 0
    · have h0 := hr 0 (by omega) (by simpa using hc)
      simp only [Nat.cast_zero, Int.add_zero] at h0
      rw [if_pos hc, if_pos hc,
        storePixel_eq_paintPixel _ _ _ (pixelOffset_dvd _ _ _ _ _ _) (pixelOffset_lt _ _ _ _ _ _)
          h0.1 h0.2]
      simp only
      rw [hstep _ (paintPixel_length _ _ _), paintAll_append]
      rfl
    · rw [if_neg hc, if_neg hc]
      simp only
      rw [hstep _ rfl]
      rfl

/-! ### The isometric outer loop -/

/-- The facts about the tables `xjump` and `nbpix` that the loop analysis uses,
row by row. -/
theorem iso_table : ∀ y : Nat, y < 15 →
    (0 : Int) < 256 - (isoRowStart y : Int) ∧
    subInt32 (256 - (isoRowStart y : Int)) (nbpix.getD y 0) = 256 - (isoRowStart (y + 1) : Int) ∧
    isoRowStart y + isoRowLength y = isoRowStart (y + 1) ∧
    isoRowStart (y + 1) ≤ 256 ∧
    0 ≤ isoRowJump y ∧
    isoRowJump y + (isoRowLength y : Int) ≤ 32 ∧
    2 * isoRowJump y + (isoRowLength y : Int) = 32 ∧
    0 < isoRowLength y ∧
    addInt32 (y : Int) 1 = ((y + 1 : Nat) : Int) := by
  intro y hy
  interval_cases y <;> refine ⟨?_, ?_, ?_, ?_, ?_, ?_, ?_, ?_, ?_⟩ <;> decide

theorem isoRowStart_fifteen : isoRowStart 15 = 256 := by decide

theorem xjump_length : xjump.length = 15 := by decide

theorem nbpix_length : nbpix.length = 15 := by decide

theorem getElem?_getD_int (xs : List Int) (i : Nat) (h : i < xs.length) :
    xs[i]? = some (xs.getD i 0) := by
  rw [List.getD_eq_getElem?_getD, List.getElem?_eq_getElem h]
  rfl

theorem mem_isoWritesFrom (pal : PaletteRec) (block : Block) (tileYOffset tileWidth : Int)
    (k : Nat) : ∀ (y : Nat) (w : Nat × PaletteRGB),
      w ∈ isoWritesFrom pal block tileYOffset tileWidth k y ↔
        ∃ y1 i, y ≤ y1 ∧ y1 < y + k ∧ i < isoRowLength y1 ∧ isoColor block y1 i ≠ 0 ∧
          w = ((isoOffset block tileYOffset tileWidth y1 i).toNat,
            pal.Colors (isoColor block y1 i)) := by
  induction k with
  | zero =>
    intro y w
    simp only [isoWritesFrom, List.not_mem_nil, false_iff]
    rintro ⟨y1, i, h1, h2, -⟩
    omega
  | succ k ih =>
    intro y w
    simp only [isoWritesFrom, List.mem_append, mem_runWrites, ih]
    constructor
    · rintro (⟨i, hi, hc, hw⟩ | ⟨y1, i, h1, h2, hi, hc, hw⟩)
      · exact ⟨y, i, le_refl _, by omega, hi, hc, hw⟩
      · exact ⟨y1, i, by omega, by omega, hi, hc, hw⟩
    · rintro ⟨y1, i, h1, h2, hi, hc, hw⟩
      by_cases hy : y1 = y
      · subst hy
        exact Or.inl ⟨i, hi, hc, hw⟩
      · exact Or.inr ⟨y1, i, by omega, by omega, hi, hc, hw⟩

/-- One iteration of the outer loop of the isometric decoder. -/
theorem isoOuterLoop_step (pal : PaletteRec) (data : List Byte)
    (blockX blockY tileYOffset tileWidth : Int) (fuel : Nat) (s : DecodeState)
    (hpos : s.length > 0) (x n : Int) (r : Int × Nat × List Byte)
    (hx : indexSlice xjump s.y = .ok x) (hn : indexSlice nbpix s.y = .ok n)
    (hr : isoInnerLoop pal data blockX blockY tileYOffset tileWidth s.y n.toNat x s.idx s.pixels
      = .ok r) :
    isoOuterLoop pal data blockX blockY tileYOffset tileWidth (fuel + 1) s
      = isoOuterLoop pal data blockX blockY tileYOffset tileWidth fuel
          ⟨subInt32 s.length n, r.1, addInt32 s.y 1, r.2.1, r.2.2⟩ := by
  rw [isoOuterLoop, if_pos hpos, hx, hn]
  dsimp only [bind, Except.bind]
  rw [hr]

/-- The outer loop of the isometric decoder stops when `length` is not positive. -/
theorem isoOuterLoop_stop (pal : PaletteRec) (data : List Byte)
    (blockX blockY tileYOffset tileWidth : Int) (fuel : Nat) (s : DecodeState)
    (hstop : ¬ s.length > 0) :
    isoOuterLoop pal data blockX blockY tileYOffset tileWidth fuel s = .ok s := by
  cases fuel with
  | zero => rw [isoOuterLoop, if_neg hstop]
  | succ f => rw [isoOuterLoop, if_neg hstop]

/-- From row `y` on, the outer loop of the isometric decoder performs the
stores of the remaining rows and stops after row 14 with `length` 0, `y` 15
and `idx` 256. -/
theorem isoOuterLoop_eq_paintAll (pal : PaletteRec) (block : Block)
    (tileYOffset tileWidth : Int) (len : Nat) (hdata : 256 ≤ block.EncodedData.length)
    (k : Nat) : ∀ (y fuel : Nat) (x : Int) (p : List Byte),
      y + k = 15 → k ≤ fuel → p.length = len →
      (∀ y1 i, y ≤ y1 → y1 < 15 → i < isoRowLength y1 → isoColor block y1 i ≠ 0 →
        0 ≤ isoOffset block tileYOffset tileWidth y1 i ∧
        isoOffset block tileYOffset tileWidth y1 i + 3 < len) →
      ∃ xend,
        isoOuterLoop pal block.EncodedData (toInt32 block.X) (toInt32 block.Y) tileYOffset
            tileWidth fuel ⟨256 - (isoRowStart y : Int), x, (y : Int), isoRowStart y, p⟩
          = .ok ⟨0, xend, 15, 256, paintAll p (isoWritesFrom pal block tileYOffset tileWidth k y)⟩ := by
  induction k with
  | zero =>
    intro y fuel x p hy _ _ _
    have hy15 : y = 15 := by omega
    subst hy15
    refine ⟨x, ?_⟩
    have hstop : ¬ ((256 : Int) - ((256 : Nat) : Int) > 0) := by decide
    rw [isoRowStart_fifteen, isoOuterLoop_stop _ _ _ _ _ _ _ _ hstop]
    rfl
  | succ k ih =>
    intro y fuel x p hy hfuel hp hr
    have hy15 : y < 15 := by omega
    obtain ⟨t1, -, t3, t4, t5, t6, -, -, -⟩ := iso_table y hy15
    obtain ⟨fuel, rfl⟩ : ∃ f, fuel = f + 1 := ⟨fuel - 1, by omega⟩
    have hinner := isoInnerLoop_eq_paintAll pal block.EncodedData (toInt32 block.X)
      (toInt32 block.Y) tileYOffset tileWidth (y : Int) (isoRowLength y) (isoRowJump y)
      (isoRowStart y) p (by omega) (by omega) (by omega)
      (fun i hi hc => by
        have := hr y i (le_refl _) hy15 hi hc
        rw [hp]
        exact this)
    obtain ⟨xend, hrest⟩ := ih (y + 1) fuel (isoRowJump y + (isoRowLength y : Int))
      (paintAll p (runWrites pal block.EncodedData (toInt32 block.X) (toInt32 block.Y)
        tileYOffset tileWidth (y : Int) (isoRowLength y) (isoRowJump y) (isoRowStart y)))
      (by omega) (by omega) (by rw [paintAll_length]; exact hp)
      (fun y1 i h1 h2 hi hc => hr y1 i (by omega) h2 hi hc)
    refine ⟨xend, ?_⟩
    have hxl : y < xjump.length := by rw [xjump_length]; exact hy15
    have hnl : y < nbpix.length := by rw [nbpix_length]; exact hy15
    rw [isoOuterLoop_step pal block.EncodedData (toInt32 block.X) (toInt32 block.Y) tileYOffset
      tileWidth fuel _ t1 (isoRowJump y) (nbpix.getD y 0) _
      (indexSlice_natCast xjump y _ (getElem?_getD_int xjump y hxl))
      (indexSlice_natCast nbpix y _ (getElem?_getD_int nbpix y hnl)) hinner]
    dsimp only
    rw [(iso_table y hy15).2.1, (iso_table y hy15).2.2.2.2.2.2.2.2, t3, hrest]
    have hw : isoWritesFrom pal block tileYOffset tileWidth (k + 1) y
        = runWrites pal block.EncodedData (toInt32 block.X) (toInt32 block.Y) tileYOffset
            tileWidth (y : Int) (isoRowLength y) (isoRowJump y) (isoRowStart y)
          ++ isoWritesFrom pal block tileYOffset tileWidth k (y + 1) := rfl
    rw [hw, paintAll_append]

/-! ### Isometric decode (C1) -/

/-- An isometric block with at least 256 encoded bytes whose non-zero pixels
have their destination in range is decoded as the stores of its 15 rows, in
order; the loops stop with `length` 0, `y` 15 and `idx` 256. -/
theorem decodeBlock_isometric (pal : PaletteRec) (block : Block) (pixels : List Byte)
    (tileYOffset tileWidth : Int)
    (hformat : block.Format = .BlockFormatIsometric)
    (hdata : 256 ≤ block.EncodedData.length)
    (hrange : ∀ y i, y < 15 → i < isoRowLength y → isoColor block y i ≠ 0 →
      0 ≤ isoOffset block tileYOffset tileWidth y i ∧
      isoOffset block tileYOffset tileWidth y i + 3 < pixels.length) :
    ∃ xend, decodeBlock pal block pixels tileYOffset tileWidth
      = .ok ⟨0, xend, 15, 256,
          paintAll pixels (isoWritesFrom pal block tileYOffset tileWidth 15 0)⟩ := by
  obtain ⟨xend, h⟩ := isoOuterLoop_eq_paintAll pal block tileYOffset tileWidth pixels.length
    hdata 15 0 256 0 pixels rfl (by omega) rfl (fun y i _ hy hi hc => hrange y i hy hi hc)
  refine ⟨xend, ?_⟩
  unfold decodeBlock
  rw [if_pos hformat]
  exact h

theorem decodeTileGfxData_single (v : Region) (block : Block) (pixels : List Byte)
    (tileYOffset tileWidth : Int) (s : DecodeState)
    (h : decodeBlock v.Palette block pixels tileYOffset tileWidth = .ok s) :
    decodeTileGfxData v [block] pixels tileYOffset tileWidth = .ok s.pixels := by
  simp only [decodeTileGfxData, h, bind, Except.bind]

theorem mem_isoWrites (pal : PaletteRec) (block : Block) (tileYOffset tileWidth : Int)
    (w : Nat × PaletteRGB) :
    w ∈ isoWritesFrom pal block tileYOffset tileWidth 15 0 ↔
      ∃ y i, y < 15 ∧ i < isoRowLength y ∧ isoColor block y i ≠ 0 ∧
        w = ((isoOffset block tileYOffset tileWidth y i).toNat,
          pal.Colors (isoColor block y i)) := by
  rw [mem_isoWritesFrom]
  constructor
  · rintro ⟨y, i, -, h2, hi, hc, hw⟩
    exact ⟨y, i, by omega, hi, hc, hw⟩
  · rintro ⟨y, i, h2, hi, hc, hw⟩
    exact ⟨y, i, by omega, by omega, hi, hc, hw⟩

theorem isoOffset_toNat_mod (block : Block) (tileYOffset tileWidth : Int) (y i : Nat) :
    (isoOffset block tileYOffset tileWidth y i).toNat % 4 = 0 :=
  pixelOffset_toNat_mod _ _ _ _ _ _

/-- The buffer after the stores of an isometric block whose destinations are
in range and pairwise distinct. -/
theorem paintAll_isoWrites (pal : PaletteRec) (block : Block) (pixels : List Byte)
    (tileYOffset tileWidth : Int)
    (hrange : ∀ y i, y < 15 → i < isoRowLength y →
      0 ≤ isoOffset block tileYOffset tileWidth y i ∧
      isoOffset block tileYOffset tileWidth y i + 3 < pixels.length)
    (hinj : ∀ y i y1 i1, y < 15 → i < isoRowLength y → y1 < 15 → i1 < isoRowLength y1 →
      isoOffset block tileYOffset tileWidth y i = isoOffset block tileYOffset tileWidth y1 i1 →
      y = y1 ∧ i = i1) :
    (∀ y i, y < 15 → i < isoRowLength y →
      (isoColor block y i ≠ 0 →
        (paintAll pixels (isoWritesFrom pal block tileYOffset tileWidth 15 0))[
            (isoOffset block tileYOffset tileWidth y i).toNat]?
          = some (pal.Colors (isoColor block y i)).R ∧
        (paintAll pixels (isoWritesFrom pal block tileYOffset tileWidth 15 0))[
            (isoOffset block tileYOffset tileWidth y i).toNat + 1]?
          = some (pal.Colors (isoColor block y i)).G ∧
        (paintAll pixels (isoWritesFrom pal block tileYOffset tileWidth 15 0))[
            (isoOffset block tileYOffset tileWidth y i).toNat + 2]?
          = some (pal.Colors (isoColor block y i)).B ∧
        (paintAll pixels (isoWritesFrom pal block tileYOffset tileWidth 15 0))[
            (isoOffset block tileYOffset tileWidth y i).toNat + 3]? = some 255) ∧
      (isoColor block y i = 0 → ∀ j, j < 4 →
        (paintAll pixels (isoWritesFrom pal block tileYOffset tileWidth 15 0))[
            (isoOffset block tileYOffset tileWidth y i).toNat + j]?
          = pixels[(isoOffset block tileYOffset tileWidth y i).toNat + j]?)) ∧
    (∀ j, (∀ y i, y < 15 → i < isoRowLength y →
        ¬ ((isoOffset block tileYOffset tileWidth y i).toNat ≤ j ∧
          j < (isoOffset block tileYOffset tileWidth y i).toNat + 4)) →
      (paintAll pixels (isoWritesFrom pal block tileYOffset tileWidth 15 0))[j]? = pixels[j]?) := by
  have hal : ∀ w ∈ isoWritesFrom pal block tileYOffset tileWidth 15 0,
      w.1 % 4 = 0 ∧ w.1 + 3 < pixels.length := by
    intro w hw
    obtain ⟨y, i, hy, hi, -, rfl⟩ := (mem_isoWrites _ _ _ _ _).1 hw
    have := hrange y i hy hi
    exact ⟨isoOffset_toNat_mod _ _ _ _ _, by simp only; omega⟩
  have hsame : ∀ w ∈ isoWritesFrom pal block tileYOffset tileWidth 15 0,
      ∀ w1 ∈ isoWritesFrom pal block tileYOffset tileWidth 15 0, w.1 = w1.1 → w.2 = w1.2 := by
    intro w hw w1 hw1 he
    obtain ⟨y, i, hy, hi, -, rfl⟩ := (mem_isoWrites _ _ _ _ _).1 hw
    obtain ⟨y1, i1, hy1, hi1, -, rfl⟩ := (mem_isoWrites _ _ _ _ _).1 hw1
    have h1 := hrange y i hy hi
    have h2 := hrange y1 i1 hy1 hi1
    simp only at he
    obtain ⟨rfl, rfl⟩ := hinj y i y1 i1 hy hi hy1 hi1 (by omega)
    rfl
  refine ⟨fun y i hy hi => ⟨fun hc => ?_, fun hc j hj => ?_⟩, fun j hj => ?_⟩
  · exact paintAll_getElem?_of_mem _ pixels hal hsame
      ((isoOffset block tileYOffset tileWidth y i).toNat, pal.Colors (isoColor block y i))
      ((mem_isoWrites _ _ _ _ _).2 ⟨y, i, hy, hi, hc, rfl⟩)
  · apply paintAll_getElem?_of_not_covered
    intro w hw hcov
    obtain ⟨y1, i1, hy1, hi1, hc1, rfl⟩ := (mem_isoWrites _ _ _ _ _).1 hw
    have m1 := isoOffset_toNat_mod block tileYOffset tileWidth y i
    have m2 := isoOffset_toNat_mod block tileYOffset tileWidth y1 i1
    have h1 := hrange y i hy hi
    have h2 := hrange y1 i1 hy1 hi1
    simp only at hcov
    obtain ⟨rfl, rfl⟩ := hinj y i y1 i1 hy hi hy1 hi1 (by omega)
    exact hc1 hc
  · apply paintAll_getElem?_of_not_covered
    intro w hw hcov
    obtain ⟨y1, i1, hy1, hi1, -, rfl⟩ := (mem_isoWrites _ _ _ _ _).1 hw
    exact hj y1 i1 hy1 hi1 hcov

set_option maxRecDepth 1000000 in
theorem isoDiamond_card : isoDiamond.card = 256 := by decide

theorem mem_isoDiamond (q : Nat × Nat) :
    q ∈ isoDiamond ↔ q.1 < 15 ∧ q.2 < isoRowLength q.1 := by
  unfold isoDiamond
  rw [Finset.mem_filter, Finset.mem_product, Finset.mem_range, Finset.mem_range]
  constructor
  · rintro ⟨⟨h1, -⟩, h3⟩
    exact ⟨h1, h3⟩
  · rintro ⟨h1, h3⟩
    obtain ⟨-, -, -, -, t5, t6, -, -, -⟩ := iso_table q.1 h1
    exact ⟨⟨h1, by omega⟩, h3⟩

/-- Counting the opaque pixels of a buffer that is zero except on the pixels of
an injectively placed diamond, all of which are opaque. -/
theorem iso_opaque_count (offset : Nat → Nat → Nat) (out : List Byte) (n : Nat)
    (hmod : ∀ y i, offset y i % 4 = 0)
    (hrange : ∀ y i, y < 15 → i < isoRowLength y → offset y i + 3 < n)
    (hinj : ∀ y i y1 i1, y < 15 → i < isoRowLength y → y1 < 15 → i1 < isoRowLength y1 →
      offset y i = offset y1 i1 → y = y1 ∧ i = i1)
    (hin : ∀ y i, y < 15 → i < isoRowLength y → out[offset y i + 3]? = some 255)
    (hout : ∀ j, (∀ y i, y < 15 → i < isoRowLength y →
        ¬ (offset y i ≤ j ∧ j < offset y i + 4)) → out[j]? = (List.replicate n (0 : Byte))[j]?) :
    ((Finset.range (n / 4)).filter (fun q => out[4 * q + 3]? = some 255)).card = 256 ∧
      ∀ q, out[4 * q + 3]? = some 255 →
        ∃ y i, y < 15 ∧ i < isoRowLength y ∧ offset y i = 4 * q := by
  have hcover : ∀ q, out[4 * q + 3]? = some 255 →
      ∃ y i, y < 15 ∧ i < isoRowLength y ∧ offset y i = 4 * q := by
    intro q hq
    by_contra hno
    have h := hout (4 * q + 3) (by
      intro y i hy hi hcov
      have := hmod y i
      exact hno ⟨y, i, hy, hi, by omega⟩)
    rw [hq, List.getElem?_replicate] at h
    split at h
    · have h255 := Option.some.inj h
      exact absurd h255 (by decide)
    · cases h
  refine ⟨?_, hcover⟩
  have himg : (Finset.range (n / 4)).filter (fun q => out[4 * q + 3]? = some 255)
      = isoDiamond.image (fun q => offset q.1 q.2 / 4) := by
    ext q
    rw [Finset.mem_filter, Finset.mem_range, Finset.mem_image]
    constructor
    · rintro ⟨-, hq⟩
      obtain ⟨y, i, hy, hi, ho⟩ := hcover q hq
      exact ⟨(y, i), (mem_isoDiamond _).2 ⟨hy, hi⟩, by simp only; omega⟩
    · rintro ⟨⟨y, i⟩, hm, hq⟩
      obtain ⟨hy, hi⟩ := (mem_isoDiamond _).1 hm
      have h1 := hmod y i
      have h2 := hrange y i hy hi
      have h3 := hin y i hy hi
      simp only at hq
      have e : 4 * q + 3 = offset y i + 3 := by omega
      exact ⟨by omega, by rw [e]; exact h3⟩
  rw [himg, Finset.card_image_of_injOn, isoDiamond_card]
  rintro ⟨y, i⟩ hm ⟨y1, i1⟩ hm1 he
  obtain ⟨hy, hi⟩ := (mem_isoDiamond _).1 hm
  obtain ⟨hy1, hi1⟩ := (mem_isoDiamond _).1 hm1
  have h1 := hmod y i
  have h2 := hmod y1 i1
  simp only at he
  obtain ⟨rfl, rfl⟩ := hinj y i y1 i1 hy hi hy1 hi1 (by omega)
  rfl

/-- A block placed inside the destination (`0 ≤ block.X`, `block.X + 32 ≤
tileWidth`, first row not above the buffer, last row inside `int32` range):
the offsets of the diamond are the mathematical offsets, they lie inside the
15 destination rows, and distinct pixels have distinct offsets. -/
theorem isoOffset_of_fits (block : Block) (tileYOffset tileWidth : Int)
    (hx0 : 0 ≤ toInt32 block.X) (hx1 : toInt32 block.X + 32 ≤ tileWidth)
    (hy0 : 0 ≤ toInt32 block.Y + tileYOffset)
    (hfit : 4 * ((toInt32 block.Y + tileYOffset + 15) * tileWidth) ≤ 2147483648) :
    (∀ y i, y < 15 → i < isoRowLength y →
      isoOffset block tileYOffset tileWidth y i
        = 4 * ((toInt32 block.Y + y + tileYOffset) * tileWidth
            + (toInt32 block.X + (isoRowJump y + i))) ∧
      0 ≤ isoOffset block tileYOffset tileWidth y i ∧
      isoOffset block tileYOffset tileWidth y i + 3
        < 4 * ((toInt32 block.Y + tileYOffset + 15) * tileWidth)) ∧
    (∀ y i y1 i1, y < 15 → i < isoRowLength y → y1 < 15 → i1 < isoRowLength y1 →
      isoOffset block tileYOffset tileWidth y i = isoOffset block tileYOffset tileWidth y1 i1 →
      y = y1 ∧ i = i1) := by
  have hw : 0 ≤ tileWidth := by omega
  have key : ∀ y i, y < 15 → i < isoRowLength y →
      0 ≤ toInt32 block.X + (isoRowJump y + i) ∧
      toInt32 block.X + (isoRowJump y + i) < tileWidth ∧
      0 ≤ (toInt32 block.Y + y + tileYOffset) * tileWidth ∧
      (toInt32 block.Y + y + tileYOffset) * tileWidth + tileWidth
        ≤ (toInt32 block.Y + tileYOffset + 15) * tileWidth := by
    intro y i hy hi
    obtain ⟨-, -, -, -, t5, t6, -, -, -⟩ := iso_table y hy
    refine ⟨by omega, by omega, Int.mul_nonneg (by omega) hw, ?_⟩
    have h1 : (toInt32 block.Y + y + tileYOffset) * tileWidth + tileWidth
        = (toInt32 block.Y + y + tileYOffset + 1) * tileWidth := by ring
    rw [h1]
    exact Int.mul_le_mul_of_nonneg_right (by omega) hw
  have heq : ∀ y i, y < 15 → i < isoRowLength y →
      isoOffset block tileYOffset tileWidth y i
        = 4 * ((toInt32 block.Y + y + tileYOffset) * tileWidth
            + (toInt32 block.X + (isoRowJump y + i))) := by
    intro y i hy hi
    obtain ⟨k1, k2, k3, k4⟩ := key y i hy hi
    unfold isoOffset
    exact pixelOffset_of_fits _ _ _ _ _ _ (by omega) (by omega)
  refine ⟨fun y i hy hi => ?_, fun y i y1 i1 hy hi hy1 hi1 he => ?_⟩
  · obtain ⟨k1, k2, k3, k4⟩ := key y i hy hi
    refine ⟨heq y i hy hi, ?_, ?_⟩
    · rw [heq y i hy hi]; omega
    · rw [heq y i hy hi]; omega
  · rw [heq y i hy hi, heq y1 i1 hy1 hi1] at he
    obtain ⟨k1, k2, k3, k4⟩ := key y i hy hi
    obtain ⟨j1, j2, j3, j4⟩ := key y1 i1 hy1 hi1
    have hrow : y = y1 := by
      rcases Nat.lt_trichotomy y y1 with hlt | heq1 | hgt
      · exfalso
        have hmono : (toInt32 block.Y + y + tileYOffset) * tileWidth + tileWidth
            ≤ (toInt32 block.Y + y1 + tileYOffset) * tileWidth := by
          have h1 : (toInt32 block.Y + y + tileYOffset) * tileWidth + tileWidth
              = (toInt32 block.Y + y + tileYOffset + 1) * tileWidth := by ring
          rw [h1]
          exact Int.mul_le_mul_of_nonneg_right (by omega) hw
        omega
      · exact heq1
      · exfalso
        have hmono : (toInt32 block.Y + y1 + tileYOffset) * tileWidth + tileWidth
            ≤ (toInt32 block.Y + y + tileYOffset) * tileWidth := by
          have h1 : (toInt32 block.Y + y1 + tileYOffset) * tileWidth + tileWidth
              = (toInt32 block.Y + y1 + tileYOffset + 1) * tileWidth := by ring
          rw [h1]
          exact Int.mul_le_mul_of_nonneg_right (by omega) hw
        omega
    subst hrow
    exact ⟨rfl, by omega⟩

/-- C1: decoding a single isometric block with at least 256 encoded bytes, when
all destination offsets of the diamond are in range and distinct pixels have
distinct offsets, succeeds and leaves the buffer as follows: for pixel `i` of
row `y`, with colour index `c = EncodedData[nbpix[0]+...+nbpix[y-1]+i]`, the
four bytes at the pixel's offset are `(palette[c].R, palette[c].G,
palette[c].B, 255)` when `c ≠ 0` and unchanged when `c = 0`; every other byte
is unchanged. The offset is the source's `int32` expression; it is
`4 * ((block.Y + y + tileYOffset) * tileWidth + (block.X + xjump[y] + i))`
whenever that value fits `int32`. In particular, when all 256 colour indices
are 1, `palette[1]` is (10, 20, 30) and the buffer is zeroed, exactly 256
pixels are opaque, each equal to (10, 20, 30, 255). -/
theorem decodeTileGfxData_isometric (v : Region) (block : Block) (pixels : List Byte)
    (tileYOffset tileWidth : Int)
    (hformat : block.Format = .BlockFormatIsometric)
    (hdata : 256 ≤ block.EncodedData.length)
    (hrange : ∀ y i, y < 15 → i < isoRowLength y →
      0 ≤ isoOffset block tileYOffset tileWidth y i ∧
      isoOffset block tileYOffset tileWidth y i + 3 < pixels.length)
    (hinj : ∀ y i y1 i1, y < 15 → i < isoRowLength y → y1 < 15 → i1 < isoRowLength y1 →
      isoOffset block tileYOffset tileWidth y i = isoOffset block tileYOffset tileWidth y1 i1 →
      y = y1 ∧ i = i1) :
    ∃ out, decodeTileGfxData v [block] pixels tileYOffset tileWidth = .ok out ∧
      out.length = pixels.length ∧
      (∀ y i, y < 15 → i < isoRowLength y →
        (isoColor block y i ≠ 0 →
          out[(isoOffset block tileYOffset tileWidth y i).toNat]?
            = some (v.Palette.Colors (isoColor block y i)).R ∧
          out[(isoOffset block tileYOffset tileWidth y i).toNat + 1]?
            = some (v.Palette.Colors (isoColor block y i)).G ∧
          out[(isoOffset block tileYOffset tileWidth y i).toNat + 2]?
            = some (v.Palette.Colors (isoColor block y i)).B ∧
          out[(isoOffset block tileYOffset tileWidth y i).toNat + 3]? = some 255) ∧
        (isoColor block y i = 0 → ∀ j, j < 4 →
          out[(isoOffset block tileYOffset tileWidth y i).toNat + j]?
            = pixels[(isoOffset block tileYOffset tileWidth y i).toNat + j]?)) ∧
      (∀ j, (∀ y i, y < 15 → i < isoRowLength y →
          ¬ ((isoOffset block tileYOffset tileWidth y i).toNat ≤ j ∧
            j < (isoOffset block tileYOffset tileWidth y i).toNat + 4)) →
        out[j]? = pixels[j]?) ∧
      (∀ y i : Nat,
        -2147483648 ≤ 4 * ((toInt32 block.Y + y + tileYOffset) * tileWidth
            + (toInt32 block.X + (isoRowJump y + i))) →
        4 * ((toInt32 block.Y + y + tileYOffset) * tileWidth
            + (toInt32 block.X + (isoRowJump y + i))) < 2147483648 →
        isoOffset block tileYOffset tileWidth y i
          = 4 * ((toInt32 block.Y + y + tileYOffset) * tileWidth
              + (toInt32 block.X + (isoRowJump y + i)))) ∧
      (∀ n, pixels = List.replicate n 0 →
        (∀ y i, y < 15 → i < isoRowLength y → isoColor block y i = 1) →
        v.Palette.Colors 1 = ⟨10, 20, 30⟩ →
        ((Finset.range (n / 4)).filter (fun q => out[4 * q + 3]? = some 255)).card = 256 ∧
        ∀ q, out[4 * q + 3]? = some 255 →
          out[4 * q]? = some 10 ∧ out[4 * q + 1]? = some 20 ∧ out[4 * q + 2]? = some 30) := by
  obtain ⟨xend, hblock⟩ := decodeBlock_isometric v.Palette block pixels tileYOffset tileWidth
    hformat hdata (fun y i hy hi _ => hrange y i hy hi)
  have hdec := decodeTileGfxData_single v block pixels tileYOffset tileWidth _ hblock
  obtain ⟨hpix, hrest⟩ := paintAll_isoWrites v.Palette block pixels tileYOffset tileWidth
    hrange hinj
  refine ⟨_, hdec, paintAll_length _ _, hpix, hrest, ?_, ?_⟩
  · intro y i h0 h1
    unfold isoOffset
    exact pixelOffset_of_fits _ _ _ _ _ _ h0 h1
  · intro n hn hones hpal
    have hlen : pixels.length = n := by rw [hn]; simp
    have hcount := iso_opaque_count
      (fun y i => (isoOffset block tileYOffset tileWidth y i).toNat)
      (paintAll pixels (isoWritesFrom v.Palette block tileYOffset tileWidth 15 0)) n
      (fun y i => isoOffset_toNat_mod _ _ _ _ _)
      (fun y i hy hi => by
        have := hrange y i hy hi
        simp only
        omega)
      (fun y i y1 i1 hy hi hy1 hi1 he => by
        have h1 := hrange y i hy hi
        have h2 := hrange y1 i1 hy1 hi1
        simp only at he
        exact hinj y i y1 i1 hy hi hy1 hi1 (by omega))
      (fun y i hy hi =>
        ((hpix y i hy hi).1 (by rw [hones y i hy hi]; decide)).2.2.2)
      (fun j hj => by
        rw [← hn]
        exact hrest j hj)
    refine ⟨hcount.1, fun q hq => ?_⟩
    obtain ⟨y, i, hy, hi, ho⟩ := hcount.2 q hq
    have hc := (hpix y i hy hi).1 (by rw [hones y i hy hi]; decide)
    simp only at ho
    rw [ho, hones y i hy hi, hpal] at hc
    exact ⟨hc.1, hc.2.1, hc.2.2.1⟩

/-- Witness of C1: the block `onesBlock` at (0, 0), decoded with the palette of
`onesRegion` into a zeroed buffer of 15 rows of 32 pixels, gives a buffer with
exactly 256 opaque pixels. -/
theorem decodeTileGfxData_isometric_witness :
    ∃ out, decodeTileGfxData onesRegion [onesBlock] (List.replicate 1920 0) 0 32 = .ok out ∧
      ((Finset.range 480).filter (fun q => out[4 * q + 3]? = some 255)).card = 256 := by
  have hfits := isoOffset_of_fits onesBlock 0 32 (by decide) (by decide) (by decide)
    (by decide)
  obtain ⟨out, hdec, -, -, -, -, hones⟩ :=
    decodeTileGfxData_isometric onesRegion onesBlock (List.replicate 1920 0) 0 32 rfl
      (by
        show 256 ≤ (List.replicate 256 (1 : Byte)).length
        rw [List.length_replicate])
      (fun y i hy hi => by
        obtain ⟨-, h0, h1⟩ := hfits.1 y i hy hi
        refine ⟨h0, lt_of_lt_of_le h1 ?_⟩
        rw [List.length_replicate]
        decide)
      hfits.2
  refine ⟨out, hdec, ?_⟩
  have h := (hones 1920 rfl (fun y i hy hi => by
    unfold isoColor onesBlock
    obtain ⟨-, -, t3, t4, -, -, -, -, -⟩ := iso_table y hy
    have hk : isoIndex y i < 256 := by unfold isoIndex; omega
    simp only [List.getD_eq_getElem?_getD, List.getElem?_replicate, if_pos hk]
    rfl) rfl).1
  exact h

/-! ### Run-length decode (C2) -/

theorem lor_eq_zero_iff (a b : Nat) : a ||| b = 0 ↔ a = 0 ∧ b = 0 := by
  constructor
  · intro h
    have hbit : ∀ i, (a.testBit i || b.testBit i) = false := by
      intro i
      rw [← Nat.testBit_or, h, Nat.zero_testBit]
    constructor
    · apply Nat.eq_of_testBit_eq
      intro i
      have := hbit i
      rw [Nat.zero_testBit]
      cases ha : a.testBit i
      · rfl
      · rw [ha] at this; simp at this
    · apply Nat.eq_of_testBit_eq
      intro i
      have := hbit i
      rw [Nat.zero_testBit]
      cases hb : b.testBit i
      · rfl
      · rw [hb] at this; simp at this
  · rintro ⟨rfl, rfl⟩
    rfl

theorem byte_lor_eq_zero_iff (b1 b2 : Byte) :
    (b1.val ||| b2.val) = 0 ↔ b1 = 0 ∧ b2 = 0 := by
  rw [lor_eq_zero_iff]
  constructor
  · rintro ⟨h1, h2⟩
    exact ⟨Fin.ext h1, Fin.ext h2⟩
  · rintro ⟨rfl, rfl⟩
    exact ⟨rfl, rfl⟩

theorem drop_cons_getElem? (data : List Byte) (idx : Nat) (c : Byte) (tail : List Byte)
    (h : data.drop idx = c :: tail) :
    data[idx]? = some c ∧ data.drop (idx + 1) = tail := by
  constructor
  · have := List.getElem?_drop data idx 0
    rw [h] at this
    simpa using this.symm
  · rw [← List.drop_drop, h]
    rfl

/-- The inner loop of the run-length decoder on a payload found at `idx`. -/
theorem rleInnerLoop_eq_plotPayload (pal : PaletteRec) (data : List Byte)
    (blockX blockY tileYOffset tileWidth y : Int) (payload : List Byte) :
    ∀ (tail : List Byte) (x : Int) (idx : Nat) (pixels : List Byte),
      data.drop idx = payload ++ tail →
      rleInnerLoop pal data blockX blockY tileYOffset tileWidth y payload.length x idx pixels
        = (plotPayload pal blockX blockY tileYOffset tileWidth y payload x pixels).map
            (fun r => (r.1, idx + payload.length, r.2)) := by
  induction payload with
  | nil =>
    intro tail x idx pixels _
    rfl
  | cons c cs ih =>
    intro tail x idx pixels hdrop
    obtain ⟨hc, hrest⟩ := drop_cons_getElem? data idx c (cs ++ tail) hdrop
    simp only [List.length_cons]
    unfold rleInnerLoop plotPayload
    rw [indexSlice_natCast data idx c hc]
    dsimp only [bind, Except.bind]
    cases hp : plotPixel pal pixels c blockX blockY x y tileYOffset tileWidth with
    | error e => rfl
    | ok p =>
      dsimp only
      rw [ih tail (addInt32 x 1) (idx + 1) p hrest]
      have e : idx + 1 + cs.length = idx + (cs.length + 1) := by omega
      rw [e]

/-- The outer loop of the run-length decoder stops when `length` is not positive. -/
theorem rleOuterLoop_stop (pal : PaletteRec) (data : List Byte)
    (blockX blockY tileYOffset tileWidth : Int) (fuel : Nat) (s : DecodeState)
    (hstop : ¬ s.length > 0) :
    rleOuterLoop pal data blockX blockY tileYOffset tileWidth fuel s = .ok s := by
  cases fuel with
  | zero => rw [rleOuterLoop, if_neg hstop]
  | succ f => rw [rleOuterLoop, if_neg hstop]

/-- One iteration of the run-length outer loop on a pair `(0, 0)`. -/
theorem rleOuterLoop_step_row (pal : PaletteRec) (data : List Byte)
    (blockX blockY tileYOffset tileWidth : Int) (fuel : Nat) (s : DecodeState)
    (hpos : s.length > 0) (b1 b2 : Byte)
    (h1 : indexSlice data s.idx = .ok b1) (h2 : indexSlice data (s.idx + 1) = .ok b2)
    (hzero : (b1.val ||| b2.val) = 0) :
    rleOuterLoop pal data blockX blockY tileYOffset tileWidth (fuel + 1) s
      = rleOuterLoop pal data blockX blockY tileYOffset tileWidth fuel
          ⟨subInt32 s.length 2, 0, addInt32 s.y 1, s.idx + 2, s.pixels⟩ := by
  rw [rleOuterLoop, if_pos hpos, h1, h2]
  dsimp only [bind, Except.bind]
  rw [if_pos hzero]

/-- One iteration of the run-length outer loop on a pair other than `(0, 0)`. -/
theorem rleOuterLoop_step_run (pal : PaletteRec) (data : List Byte)
    (blockX blockY tileYOffset tileWidth : Int) (fuel : Nat) (s : DecodeState)
    (hpos : s.length > 0) (b1 b2 : Byte)
    (h1 : indexSlice data s.idx = .ok b1) (h2 : indexSlice data (s.idx + 1) = .ok b2)
    (hnz : ¬ (b1.val ||| b2.val) = 0) :
    rleOuterLoop pal data blockX blockY tileYOffset tileWidth (fuel + 1) s
      = (rleInnerLoop pal data blockX blockY tileYOffset tileWidth s.y b2.val
          (addInt32 s.x b1.val) (s.idx + 2) s.pixels).bind (fun r =>
        rleOuterLoop pal data blockX blockY tileYOffset tileWidth fuel
          ⟨subInt32 (subInt32 s.length 2) b2.val, r.1, s.y, r.2.1, r.2.2⟩) := by
  rw [rleOuterLoop, if_pos hpos, h1, h2]
  dsimp only [bind, Except.bind]
  rw [if_neg hnz]

theorem encodePairs_cons_length (p : RLEPair) (ps : List RLEPair) :
    (encodePairs (p :: ps)).length = (encodePairs ps).length + p.payload.length + 2 := by
  simp only [encodePairs, List.length_cons, List.length_append]
  omega

/-- The run-length outer loop on a stream of complete pairs found at `idx`,
with `length` the size of the stream: it processes the pairs in order and stops
with `length` 0 and `idx` past the stream. -/
theorem rleOuterLoop_eq_runPairs (pal : PaletteRec) (data : List Byte)
    (blockX blockY tileYOffset tileWidth : Int) (ps : List RLEPair) :
    ∀ (rest : List Byte) (fuel : Nat) (x y : Int) (idx : Nat) (pixels : List Byte),
      (∀ p ∈ ps, p.payload.length = p.countB.val) →
      data.drop idx = encodePairs ps ++ rest →
      ((encodePairs ps).length : Int) < 2147483648 →
      (encodePairs ps).length ≤ fuel →
      rleOuterLoop pal data blockX blockY tileYOffset tileWidth fuel
          ⟨((encodePairs ps).length : Int), x, y, idx, pixels⟩
        = (runPairs pal blockX blockY tileYOffset tileWidth ps ⟨x, y, pixels⟩).map
            (fun c => ⟨0, c.x, c.y, idx + (encodePairs ps).length, c.pixels⟩) := by
  induction ps with
  | nil =>
    intro rest fuel x y idx pixels _ _ _ _
    rw [rleOuterLoop_stop _ _ _ _ _ _ _ _ (by simp [encodePairs])]
    rfl
  | cons p ps ih =>
    intro rest fuel x y idx pixels hcomplete hdrop hint hfuel
    have hlen := encodePairs_cons_length p ps
    have hpay := hcomplete p (List.mem_cons_self _ _)
    have hcomplete1 : ∀ q ∈ ps, q.payload.length = q.countB.val :=
      fun q hq => hcomplete q (List.mem_cons_of_mem _ hq)
    obtain ⟨f, rfl⟩ : ∃ f, fuel = f + 1 := ⟨fuel - 1, by omega⟩
    have hd0 : data.drop idx = p.countA :: (p.countB :: (p.payload ++ encodePairs ps ++ rest)) := by
      rw [hdrop]
      simp [encodePairs]
    obtain ⟨ha, hd1⟩ := drop_cons_getElem? data idx _ _ hd0
    obtain ⟨hb, hd2⟩ := drop_cons_getElem? data (idx + 1) _ _ hd1
    have hpos : ((encodePairs (p :: ps)).length : Int) > 0 := by omega
    have hsub : subInt32 ((encodePairs (p :: ps)).length : Int) 2
        = ((encodePairs ps).length : Int) + (p.payload.length : Int) := by
      unfold subInt32
      rw [toInt32_of_fits _ (by omega) (by omega)]
      omega
    have hidx1 : indexSlice data ((idx : Nat) : Int) = .ok p.countA :=
      indexSlice_natCast data idx _ ha
    have hidx2 : indexSlice data ((idx : Int) + 1) = .ok p.countB := by
      have := indexSlice_natCast data (idx + 1) _ hb
      rw [Nat.cast_add, Nat.cast_one] at this
      exact this
    by_cases hz : (p.countA.val ||| p.countB.val) = 0
    · have hz1 := (byte_lor_eq_zero_iff _ _).1 hz
      have hnil : p.payload = [] := by
        apply List.eq_nil_of_length_eq_zero
        rw [hpay, hz1.2]
        rfl
      rw [rleOuterLoop_step_row pal data blockX blockY tileYOffset tileWidth f _ hpos
        p.countA p.countB hidx1 hidx2 hz]
      dsimp only
      have hlen0 : p.payload.length = 0 := by rw [hnil]; rfl
      have hsub0 : subInt32 ((encodePairs (p :: ps)).length : Int) 2
          = ((encodePairs ps).length : Int) := by
        rw [hsub]
        omega
      have hd3 : data.drop (idx + 2) = encodePairs ps ++ rest := by
        rw [hd2, hnil]
        rfl
      rw [hsub0, ih rest f 0 (addInt32 y 1) (idx + 2) pixels hcomplete1 hd3 (by omega) (by omega)]
      have hrun : runPairs pal blockX blockY tileYOffset tileWidth (p :: ps) ⟨x, y, pixels⟩
          = runPairs pal blockX blockY tileYOffset tileWidth ps ⟨0, addInt32 y 1, pixels⟩ := by
        rw [runPairs, if_pos hz1]
      rw [hrun, hlen, hlen0]
      have e : idx + 2 + (encodePairs ps).length = idx + ((encodePairs ps).length + 0 + 2) := by
        omega
      rw [e]
    · have hz1 : ¬ (p.countA = 0 ∧ p.countB = 0) := fun h => hz ((byte_lor_eq_zero_iff _ _).2 h)
      rw [rleOuterLoop_step_run pal data blockX blockY tileYOffset tileWidth f _ hpos
        p.countA p.countB hidx1 hidx2 hz]
      dsimp only
      have hsub2 : subInt32 (subInt32 ((encodePairs (p :: ps)).length : Int) 2) p.countB.val
          = ((encodePairs ps).length : Int) := by
        rw [hsub]
        unfold subInt32
        rw [toInt32_of_fits _ (by omega) (by omega)]
        omega
      rw [hsub2, ← hpay,
        rleInnerLoop_eq_plotPayload pal data blockX blockY tileYOffset tileWidth y p.payload
          (encodePairs ps ++ rest) _ (idx + 2) pixels (by rw [hd2, List.append_assoc])]
      have hrun : runPairs pal blockX blockY tileYOffset tileWidth (p :: ps) ⟨x, y, pixels⟩
          = (plotPayload pal blockX blockY tileYOffset tileWidth y p.payload
              (addInt32 x p.countA.val) pixels).bind (fun r =>
            runPairs pal blockX blockY tileYOffset tileWidth ps ⟨r.1, y, r.2⟩) := by
        rw [runPairs, if_neg hz1]
        rfl
      rw [hrun]
      cases hplot : plotPayload pal blockX blockY tileYOffset tileWidth y p.payload
          (addInt32 x p.countA.val) pixels with
      | error e => rfl
      | ok r =>
        dsimp only [Except.map, Except.bind]
        have hd3 : data.drop (idx + 2 + p.payload.length) = encodePairs ps ++ rest := by
          rw [← List.drop_drop, hd2, List.append_assoc, List.drop_left]
        rw [ih rest f r.1 y (idx + 2 + p.payload.length) r.2 hcomplete1 hd3 (by omega)
          (by omega), hlen]
        have e : idx + 2 + p.payload.length + (encodePairs ps).length
            = idx + ((encodePairs ps).length + p.payload.length + 2) := by omega
        rw [e]
        rfl

/-- A payload whose destinations are in range is plotted without failure. -/
theorem plotPayload_of_inRange (pal : PaletteRec)
    (blockX blockY tileYOffset tileWidth y : Int) (payload : List Byte) :
    ∀ (x : Int) (pixels : List Byte),
      (∀ o ∈ payloadOffsets blockX blockY tileYOffset tileWidth y payload x,
        0 ≤ o ∧ o + 3 < pixels.length) →
      ∃ out, plotPayload pal blockX blockY tileYOffset tileWidth y payload x pixels
          = .ok (payloadEnd payload x, out) ∧ out.length = pixels.length := by
  induction payload with
  | nil =>
    intro x pixels _
    exact ⟨pixels, rfl, rfl⟩
  | cons c cs ih =>
    intro x pixels hr
    have hplot : ∃ p, plotPixel pal pixels c blockX blockY x y tileYOffset tileWidth = .ok p ∧
        p.length = pixels.length := by
      unfold plotPixel
      by_cases hc : c ≠ 0
      · have h0 := hr (pixelOffset blockX blockY x y tileYOffset tileWidth) (by
          simp only [payloadOffsets, if_pos hc, List.mem_append, List.mem_singleton, true_or])
        rw [if_pos hc, storePixel_eq_paintPixel _ _ _ (pixelOffset_dvd _ _ _ _ _ _)
          (pixelOffset_lt _ _ _ _ _ _) h0.1 h0.2]
        exact ⟨_, rfl, paintPixel_length _ _ _⟩
      · rw [if_neg hc]
        exact ⟨_, rfl, rfl⟩
    obtain ⟨p, hp, hpl⟩ := hplot
    obtain ⟨out, hout, hol⟩ := ih (addInt32 x 1) p (fun o ho => by
      rw [hpl]
      exact hr o (by
        simp only [payloadOffsets, List.mem_append]
        exact Or.inr ho))
    refine ⟨out, ?_, by rw [hol, hpl]⟩
    unfold plotPayload
    rw [hp]
    dsimp only [bind, Except.bind]
    rw [hout]
    rfl

/-- Pairs whose destinations are in range are processed without failure. -/
theorem runPairs_of_inRange (pal : PaletteRec) (blockX blockY tileYOffset tileWidth : Int)
    (ps : List RLEPair) :
    ∀ (x y : Int) (pixels : List Byte),
      (∀ o ∈ pairsOffsets blockX blockY tileYOffset tileWidth ps x y,
        0 ≤ o ∧ o + 3 < pixels.length) →
      ∃ c, runPairs pal blockX blockY tileYOffset tileWidth ps ⟨x, y, pixels⟩ = .ok c ∧
        c.pixels.length = pixels.length := by
  induction ps with
  | nil =>
    intro x y pixels _
    exact ⟨_, rfl, rfl⟩
  | cons p ps ih =>
    intro x y pixels hr
    by_cases hz : p.countA = 0 ∧ p.countB = 0
    · obtain ⟨c, hc, hl⟩ := ih 0 (addInt32 y 1) pixels (fun o ho => hr o (by
        rw [pairsOffsets, if_pos hz]
        exact ho))
      refine ⟨c, ?_, hl⟩
      rw [runPairs, if_pos hz]
      exact hc
    · obtain ⟨out, hout, hol⟩ := plotPayload_of_inRange pal blockX blockY tileYOffset tileWidth
        y p.payload (addInt32 x p.countA.val) pixels (fun o ho => hr o (by
          rw [pairsOffsets, if_neg hz]
          exact List.mem_append.2 (Or.inl ho)))
      obtain ⟨c, hc, hl⟩ := ih (payloadEnd p.payload (addInt32 x p.countA.val)) y out
        (fun o ho => by
          rw [hol]
          exact hr o (by
            rw [pairsOffsets, if_neg hz]
            exact List.mem_append.2 (Or.inr ho)))
      refine ⟨c, ?_, by rw [hl, hol]⟩
      rw [runPairs, if_neg hz]
      dsimp only [bind, Except.bind]
      rw [hout]
      exact hc

/-- C2: a run-length block whose encoded stream starts with a sequence of
complete `(countA, countB)` pairs, each followed by its `countB` payload bytes,
and whose `Length` is the size of that sequence, is decoded as the pair-by-pair
process `runPairs` started with the cursor at `(0, 0)`: the decoder returns
exactly what the process returns (the same buffer and the same final cursor,
with `length` 0 and `idx = Length`), and the process succeeds when all
destination offsets are in range. In particular the stream
`[2,3, 5,6,7, 0,0]` with `Length` 7 at (0, 0) stores the palette entries 5, 6, 7
at the pixels `x = 2, 3, 4` of row 0, nothing else, and ends with the cursor at
`x = 0` on row 1. -/
theorem decodeTileGfxData_runLength (v : Region) :
    (∀ (block : Block) (pairs : List RLEPair) (rest pixels : List Byte)
        (tileYOffset tileWidth : Int),
      block.Format ≠ .BlockFormatIsometric →
      (∀ p ∈ pairs, p.payload.length = p.countB.val) →
      block.EncodedData = encodePairs pairs ++ rest →
      block.Length = (encodePairs pairs).length →
      block.Length < 2147483648 →
      decodeBlock v.Palette block pixels tileYOffset tileWidth
        = (runPairs v.Palette (toInt32 block.X) (toInt32 block.Y) tileYOffset tileWidth pairs
            ⟨0, 0, pixels⟩).map
            (fun c => ⟨0, c.x, c.y, (encodePairs pairs).length, c.pixels⟩) ∧
      decodeTileGfxData v [block] pixels tileYOffset tileWidth
        = (runPairs v.Palette (toInt32 block.X) (toInt32 block.Y) tileYOffset tileWidth pairs
            ⟨0, 0, pixels⟩).map (fun c => c.pixels) ∧
      ((∀ o ∈ pairsOffsets (toInt32 block.X) (toInt32 block.Y) tileYOffset tileWidth pairs 0 0,
          0 ≤ o ∧ o + 3 < pixels.length) →
        ∃ c, runPairs v.Palette (toInt32 block.X) (toInt32 block.Y) tileYOffset tileWidth pairs
            ⟨0, 0, pixels⟩ = .ok c ∧ c.pixels.length = pixels.length)) ∧
    (∀ (pixels : List Byte) (tileYOffset tileWidth : Int),
      decodeBlock v.Palette sampleRLEBlock pixels tileYOffset tileWidth
        = ((storePixel pixels (pixelOffset 0 0 2 0 tileYOffset tileWidth)
              (v.Palette.Colors 5)).bind (fun p =>
            (storePixel p (pixelOffset 0 0 3 0 tileYOffset tileWidth)
              (v.Palette.Colors 6)).bind (fun p =>
            storePixel p (pixelOffset 0 0 4 0 tileYOffset tileWidth)
              (v.Palette.Colors 7)))).map
          (fun p => ⟨0, 0, 1, 7, p⟩)) := by
  have hgeneral : ∀ (block : Block) (pairs : List RLEPair) (rest pixels : List Byte)
      (tileYOffset tileWidth : Int),
      block.Format ≠ .BlockFormatIsometric →
      (∀ p ∈ pairs, p.payload.length = p.countB.val) →
      block.EncodedData = encodePairs pairs ++ rest →
      block.Length = (encodePairs pairs).length →
      block.Length < 2147483648 →
      decodeBlock v.Palette block pixels tileYOffset tileWidth
        = (runPairs v.Palette (toInt32 block.X) (toInt32 block.Y) tileYOffset tileWidth pairs
            ⟨0, 0, pixels⟩).map
            (fun c => ⟨0, c.x, c.y, (encodePairs pairs).length, c.pixels⟩) := by
    intro block pairs rest pixels tileYOffset tileWidth hformat hcomplete hdata hlength hint
    unfold decodeBlock
    rw [if_neg hformat, hlength]
    have h := rleOuterLoop_eq_runPairs v.Palette block.EncodedData (toInt32 block.X)
      (toInt32 block.Y) tileYOffset tileWidth pairs rest (encodePairs pairs).length 0 0 0 pixels
      hcomplete (by rw [hdata]; rfl) (by rw [← hlength]; exact hint) (le_refl _)
    rw [Int.toNat_ofNat, h, Nat.zero_add]
  refine ⟨fun block pairs rest pixels tileYOffset tileWidth hformat hcomplete hdata hlength hint =>
    ?_, fun pixels tileYOffset tileWidth => ?_⟩
  · have hb := hgeneral block pairs rest pixels tileYOffset tileWidth hformat hcomplete hdata
      hlength hint
    refine ⟨hb, ?_, fun hr => runPairs_of_inRange _ _ _ _ _ _ _ _ _ hr⟩
    unfold decodeTileGfxData
    rw [hb]
    cases runPairs v.Palette (toInt32 block.X) (toInt32 block.Y) tileYOffset tileWidth pairs
        ⟨0, 0, pixels⟩ with
    | error e => rfl
    | ok c => rfl
  · rw [hgeneral sampleRLEBlock sampleRLEPairs [] pixels tileYOffset tileWidth (by decide)
      (by decide) rfl rfl (by decide)]
    have hx : toInt32 sampleRLEBlock.X = 0 := by decide
    have hy : toInt32 sampleRLEBlock.Y = 0 := by decide
    rw [hx, hy]
    have h2 : addInt32 0 ((2 : Byte).val : Int) = 2 := by decide
    have h3 : addInt32 2 1 = 3 := by decide
    have h4 : addInt32 3 1 = 4 := by decide
    have h5 : addInt32 4 1 = 5 := by decide
    have h1 : addInt32 0 1 = 1 := by decide
    simp only [sampleRLEPairs, runPairs, plotPayload, plotPixel, h2, h3, h4, h5, h1]
    cases hs1 : storePixel pixels (pixelOffset 0 0 2 0 tileYOffset tileWidth)
        (v.Palette.Colors 5) with
    | error e => simp [hs1, bind, Except.bind, Except.map]
    | ok p1 =>
      cases hs2 : storePixel p1 (pixelOffset 0 0 3 0 tileYOffset tileWidth)
          (v.Palette.Colors 6) with
      | error e => simp [hs1, hs2, bind, Except.bind, Except.map]
      | ok p2 =>
        cases hs3 : storePixel p2 (pixelOffset 0 0 4 0 tileYOffset tileWidth)
            (v.Palette.Colors 7) with
        | error e => simp [hs1, hs2, hs3, bind, Except.bind, Except.map]
        | ok p3 =>
          simp [hs1, hs2, hs3, bind, Except.bind, Except.map, encodePairs]

/-- Witness of C2: `sampleRLEBlock` decoded with the grey palette of
`sampleRegion` into a zeroed row of 8 pixels stores the pixels 2, 3 and 4. -/
theorem decodeTileGfxData_runLength_witness :
    decodeTileGfxData sampleRegion [sampleRLEBlock] (List.replicate 32 0) 0 8
      = .ok [0, 0, 0, 0, 0, 0, 0, 0, 5, 5, 5, 255, 6, 6, 6, 255, 7, 7, 7, 255,
          0, 0, 0, 0, 0, 0, 0, 0, 0, 0, 0, 0] :=
  ((decodeTileGfxData_runLength sampleRegion).1 sampleRLEBlock sampleRLEPairs []
    (List.replicate 32 0) 0 8 (by decide) (by decide) rfl rfl (by decide)).2.1.trans (by rfl)

/-! ### Cache hits and write-once caches (C11, C12) -/

/-- What `renderFloor` can do to the region: nothing, or, when the key had no
entry, one write under the key. -/
theorem renderFloor_region (v : Region) (tile : FloorShadowRecord) (offsetX offsetY : Int)
    (target : Target) :
    (renderFloor v tile offsetX offsetY target).region = v ∨
      (v.FloorCache (floorCacheIndex tile) = none ∧
        ∃ generated, (renderFloor v tile offsetX offsetY target).region
          = { v with FloorCache := v.FloorCache.write (floorCacheIndex tile) generated }) := by
  unfold renderFloor
  dsimp only
  cases hc : v.FloorCache (floorCacheIndex tile) with
  | some e =>
    left
    cases e <;> rfl
  | none =>
    dsimp only
    cases hg : generateFloorCache v tile with
    | error e => left; rfl
    | ok g =>
      right
      refine ⟨rfl, g, ?_⟩
      dsimp only
      split
      · rfl
      · cases hr : (v.FloorCache.write (floorCacheIndex tile) g).read (floorCacheIndex tile) <;> rfl

/-- What `renderWall` can do to the region. -/
theorem renderWall_region (coordBits : Nat) (v : Region) (tile : WallRecord)
    (offsetX offsetY : Int) (target : Target) :
    (renderWall coordBits v tile offsetX offsetY target).region = v ∨
      (v.WallCache (wallCacheIndex tile) = none ∧
        ∃ generated, (renderWall coordBits v tile offsetX offsetY target).region
          = { v with WallCache := v.WallCache.write (wallCacheIndex tile) generated }) := by
  unfold renderWall
  dsimp only
  cases hc : v.WallCache (wallCacheIndex tile) with
  | some e =>
    left
    cases e <;> rfl
  | none =>
    dsimp only
    cases hg : generateWallCache coordBits v tile with
    | error e => left; rfl
    | ok g =>
      right
      refine ⟨rfl, g, ?_⟩
      dsimp only
      split
      · rfl
      · cases hr : (v.WallCache.write (wallCacheIndex tile) g).read (wallCacheIndex tile) <;> rfl

/-- What `renderShadow` can do to the region. -/
theorem renderShadow_region (coordBits : Nat) (v : Region) (tile : FloorShadowRecord)
    (offsetX offsetY : Int) (target : Target) :
    (renderShadow coordBits v tile offsetX offsetY target).region = v ∨
      (v.ShadowCache (shadowCacheIndex tile) = none ∧
        ∃ generated, (renderShadow coordBits v tile offsetX offsetY target).region
          = { v with ShadowCache := v.ShadowCache.write (shadowCacheIndex tile) generated }) := by
  unfold renderShadow
  dsimp only
  cases hc : v.ShadowCache (shadowCacheIndex tile) with
  | some e =>
    left
    cases e <;> rfl
  | none =>
    dsimp only
    cases hg : generateShadowCache coordBits v tile with
    | error e => left; rfl
    | ok g =>
      right
      refine ⟨rfl, g, ?_⟩
      dsimp only
      split
      · rfl
      · cases hr : (v.ShadowCache.write (shadowCacheIndex tile) g).read (shadowCacheIndex tile)
          <;> rfl

theorem write_of_ne (m : TileCache) (k j : Nat) (p : Option TileCacheRecord) (h : j ≠ k) :
    m.write k p j = m j := by
  unfold TileCache.write
  rw [if_neg h]

theorem write_self (m : TileCache) (k : Nat) (p : Option TileCacheRecord) :
    m.write k p k = some p := by
  unfold TileCache.write
  rw [if_pos rfl]

theorem write_keeps_entries (m : TileCache) (k : Nat) (p : Option TileCacheRecord)
    (hk : m k = none) (j : Nat) (e : Option TileCacheRecord) (hj : m j = some e) :
    m.write k p j = some e := by
  have hne : j ≠ k := by
    rintro rfl
    rw [hk] at hj
    cases hj
  rw [write_of_ne _ _ _ _ hne, hj]

/-- A floor render whose key has a non-empty entry draws the stored record. -/
theorem renderFloor_hit (v : Region) (tile : FloorShadowRecord) (offsetX offsetY : Int)
    (target : Target) (record : TileCacheRecord)
    (h : v.FloorCache (floorCacheIndex tile) = some (some record)) :
    renderFloor v tile offsetX offsetY target
      = ⟨none, v, target ++
          [⟨record.Image, toFloat64 (addInt offsetX record.XOffset),
            toFloat64 (addInt offsetY record.YOffset), none⟩]⟩ := by
  unfold renderFloor
  dsimp only
  rw [h]
  rfl

/-- A wall render whose key has a non-empty entry draws the stored record. -/
theorem renderWall_hit (coordBits : Nat) (v : Region) (tile : WallRecord)
    (offsetX offsetY : Int) (target : Target) (record : TileCacheRecord)
    (h : v.WallCache (wallCacheIndex tile) = some (some record)) :
    renderWall coordBits v tile offsetX offsetY target
      = ⟨none, v, target ++
          [⟨record.Image, toFloat64 (addInt offsetX record.XOffset),
            toFloat64 (addInt offsetY record.YOffset), none⟩]⟩ := by
  unfold renderWall
  dsimp only
  rw [h]
  rfl

/-- A shadow render whose key has a non-empty entry draws the stored record with
the shadow tint. -/
theorem renderShadow_hit (coordBits : Nat) (v : Region) (tile : FloorShadowRecord)
    (offsetX offsetY : Int) (target : Target) (record : TileCacheRecord)
    (h : v.ShadowCache (shadowCacheIndex tile) = some (some record)) :
    renderShadow coordBits v tile offsetX offsetY target
      = ⟨none, v, target ++ [⟨record.Image, toFloat64 (addInt offsetX record.XOffset),
          toFloat64 (addInt offsetY record.YOffset), some ⟨255, 255, 255, 160⟩⟩]⟩ := by
  unfold renderShadow
  dsimp only
  rw [h]
  rfl

/-- After a floor render without failure the key holds a record, and that record
is the one drawn. -/
theorem renderFloor_success (v : Region) (tile : FloorShadowRecord) (offsetX offsetY : Int)
    (target : Target) (h : (renderFloor v tile offsetX offsetY target).failure = none) :
    ∃ record, (renderFloor v tile offsetX offsetY target).region.FloorCache
        (floorCacheIndex tile) = some (some record) ∧
      (renderFloor v tile offsetX offsetY target).target = target ++
        [⟨record.Image, toFloat64 (addInt offsetX record.XOffset),
            toFloat64 (addInt offsetY record.YOffset), none⟩] := by
  cases hc : v.FloorCache (floorCacheIndex tile) with
  | some e =>
    cases e with
    | none =>
      have hr : renderFloor v tile offsetX offsetY target
          = ⟨some (.panic .nilDereference), v, target⟩ := by
        unfold renderFloor
        dsimp only
        rw [hc]
        rfl
      rw [hr] at h
      cases h
    | some record =>
      rw [renderFloor_hit v tile offsetX offsetY target record hc]
      exact ⟨record, hc, rfl⟩
  | none =>
    cases hg : generateFloorCache v tile with
    | error e =>
      have hr : renderFloor v tile offsetX offsetY target = ⟨some e, v, target⟩ := by
        unfold renderFloor
        dsimp only
        rw [hc]
        dsimp only
        rw [hg]
      rw [hr] at h
      cases h
    | ok g =>
      cases g with
      | none =>
        have hr : renderFloor v tile offsetX offsetY target
            = ⟨some (.fatal .loadFloorTile),
                { v with FloorCache := v.FloorCache.write (floorCacheIndex tile) none },
                target⟩ := by
          unfold renderFloor
          dsimp only
          rw [hc]
          dsimp only
          rw [hg]
          dsimp only
          rw [if_pos (by unfold TileCache.read; rw [write_self]; rfl)]
        rw [hr] at h
        cases h
      | some record =>
        have hr : renderFloor v tile offsetX offsetY target
            = ⟨none,
                { v with FloorCache := v.FloorCache.write (floorCacheIndex tile) (some record) },
                target ++ [⟨record.Image, toFloat64 (addInt offsetX record.XOffset),
                  toFloat64 (addInt offsetY record.YOffset), none⟩]⟩ := by
          unfold renderFloor
          dsimp only
          rw [hc]
          dsimp only
          rw [hg]
          dsimp only
          have hread : (v.FloorCache.write (floorCacheIndex tile) (some record)).read
              (floorCacheIndex tile) = some record := by
            unfold TileCache.read
            rw [write_self]
            rfl
          rw [hread, if_neg (by simp)]
          rfl
        rw [hr]
        exact ⟨record, write_self _ _ _, rfl⟩

/-- After a wall render without failure the key holds a record, and that record
is the one drawn. -/
theorem renderWall_success (coordBits : Nat) (v : Region) (tile : WallRecord)
    (offsetX offsetY : Int) (target : Target) (h : (renderWall coordBits v tile offsetX offsetY target).failure = none) :
    ∃ record, (renderWall coordBits v tile offsetX offsetY target).region.WallCache
        (wallCacheIndex tile) = some (some record) ∧
      (renderWall coordBits v tile offsetX offsetY target).target = target ++
        [⟨record.Image, toFloat64 (addInt offsetX record.XOffset),
            toFloat64 (addInt offsetY record.YOffset), none⟩] := by
  cases hc : v.WallCache (wallCacheIndex tile) with
  | some e =>
    cases e with
    | none =>
      have hr : renderWall coordBits v tile offsetX offsetY target
          = ⟨some (.panic .nilDereference), v, target⟩ := by
        unfold renderWall
        dsimp only
        rw [hc]
        rfl
      rw [hr] at h
      cases h
    | some record =>
      rw [renderWall_hit coordBits v tile offsetX offsetY target record hc]
      exact ⟨record, hc, rfl⟩
  | none =>
    cases hg : generateWallCache coordBits v tile with
    | error e =>
      have hr : renderWall coordBits v tile offsetX offsetY target = ⟨some e, v, target⟩ := by
        unfold renderWall
        dsimp only
        rw [hc]
        dsimp only
        rw [hg]
      rw [hr] at h
      cases h
    | ok g =>
      cases g with
      | none =>
        have hr : renderWall coordBits v tile offsetX offsetY target
            = ⟨some (.fatal .generateWall),
                { v with WallCache := v.WallCache.write (wallCacheIndex tile) none },
                target⟩ := by
          unfold renderWall
          dsimp only
          rw [hc]
          dsimp only
          rw [hg]
          dsimp only
          rw [if_pos (by unfold TileCache.read; rw [write_self]; rfl)]
        rw [hr] at h
        cases h
      | some record =>
        have hr : renderWall coordBits v tile offsetX offsetY target
            = ⟨none,
                { v with WallCache := v.WallCache.write (wallCacheIndex tile) (some record) },
                target ++ [⟨record.Image, toFloat64 (addInt offsetX record.XOffset),
                  toFloat64 (addInt offsetY record.YOffset), none⟩]⟩ := by
          unfold renderWall
          dsimp only
          rw [hc]
          dsimp only
          rw [hg]
          dsimp only
          have hread : (v.WallCache.write (wallCacheIndex tile) (some record)).read
              (wallCacheIndex tile) = some record := by
            unfold TileCache.read
            rw [write_self]
            rfl
          rw [hread, if_neg (by simp)]
          rfl
        rw [hr]
        exact ⟨record, write_self _ _ _, rfl⟩

/-- After a shadow render without failure the key holds a record, and that record
is the one drawn. -/
theorem renderShadow_success (coordBits : Nat) (v : Region) (tile : FloorShadowRecord)
    (offsetX offsetY : Int) (target : Target) (h : (renderShadow coordBits v tile offsetX offsetY target).failure = none) :
    ∃ record, (renderShadow coordBits v tile offsetX offsetY target).region.ShadowCache
        (shadowCacheIndex tile) = some (some record) ∧
      (renderShadow coordBits v tile offsetX offsetY target).target = target ++
        [⟨record.Image, toFloat64 (addInt offsetX record.XOffset),
            toFloat64 (addInt offsetY record.YOffset), some ⟨255, 255, 255, 160⟩⟩] := by
  cases hc : v.ShadowCache (shadowCacheIndex tile) with
  | some e =>
    cases e with
    | none =>
      have hr : renderShadow coordBits v tile offsetX offsetY target
          = ⟨some (.panic .nilDereference), v, target⟩ := by
        unfold renderShadow
        dsimp only
        rw [hc]
        rfl
      rw [hr] at h
      cases h
    | some record =>
      rw [renderShadow_hit coordBits v tile offsetX offsetY target record hc]
      exact ⟨record, hc, rfl⟩
  | none =>
    cases hg : generateShadowCache coordBits v tile with
    | error e =>
      have hr : renderShadow coordBits v tile offsetX offsetY target = ⟨some e, v, target⟩ := by
        unfold renderShadow
        dsimp only
        rw [hc]
        dsimp only
        rw [hg]
      rw [hr] at h
      cases h
    | ok g =>
      cases g with
      | none =>
        have hr : renderShadow coordBits v tile offsetX offsetY target
            = ⟨some (.fatal .loadShadowTile),
                { v with ShadowCache := v.ShadowCache.write (shadowCacheIndex tile) none },
                target⟩ := by
          unfold renderShadow
          dsimp only
          rw [hc]
          dsimp only
          rw [hg]
          dsimp only
          rw [if_pos (by unfold TileCache.read; rw [write_self]; rfl)]
        rw [hr] at h
        cases h
      | some record =>
        have hr : renderShadow coordBits v tile offsetX offsetY target
            = ⟨none,
                { v with ShadowCache := v.ShadowCache.write (shadowCacheIndex tile) (some record) },
                target ++ [⟨record.Image, toFloat64 (addInt offsetX record.XOffset),
                  toFloat64 (addInt offsetY record.YOffset), some ⟨255, 255, 255, 160⟩⟩]⟩ := by
          unfold renderShadow
          dsimp only
          rw [hc]
          dsimp only
          rw [hg]
          dsimp only
          have hread : (v.ShadowCache.write (shadowCacheIndex tile) (some record)).read
              (shadowCacheIndex tile) = some record := by
            unfold TileCache.read
            rw [write_self]
            rfl
          rw [hread, if_neg (by simp)]
          rfl
        rw [hr]
        exact ⟨record, write_self _ _ _, rfl⟩

/-- C11: cache hit. When the key of the rendered record has a non-empty entry in
the cache of its layer, `renderFloor`, `renderWall` and `renderShadow` return
without failure, leave the region (all three caches) as it was, and append one
draw of the stored record's surface, tinted for shadows, at the position
(float64(offsetX + XOffset), float64(offsetY + YOffset)), the sums being taken
at type `int`; that position is exactly (offsetX + XOffset, offsetY + YOffset)
whenever both sums have magnitude at most 2^53. The outcome is the same
whatever the tile list and the palette are, the only inputs of the generators
and of the decoder. Consequently a render that ends without failure leaves a
record under the key, draws that record, and every later render of a record
with the same main index, sub index (and orientation, for walls) draws the same
record and changes nothing. -/
theorem render_cache_hit (coordBits : Nat) (v : Region) (offsetX offsetY : Int)
    (target : Target) :
    (∀ (tile : FloorShadowRecord) (record : TileCacheRecord),
      v.FloorCache (floorCacheIndex tile) = some (some record) →
        renderFloor v tile offsetX offsetY target
          = ⟨none, v, target ++ [⟨record.Image, toFloat64 (addInt offsetX record.XOffset),
              toFloat64 (addInt offsetY record.YOffset), none⟩]⟩ ∧
        (-9007199254740992 ≤ offsetX + record.XOffset →
          offsetX + record.XOffset ≤ 9007199254740992 →
          -9007199254740992 ≤ offsetY + record.YOffset →
          offsetY + record.YOffset ≤ 9007199254740992 →
          renderFloor v tile offsetX offsetY target
            = ⟨none, v, target ++
                [⟨record.Image, offsetX + record.XOffset, offsetY + record.YOffset, none⟩]⟩) ∧
        ∀ (tiles : List Tile) (palette : PaletteRec),
          (renderFloor { v with Tiles := tiles, Palette := palette } tile offsetX offsetY
              target).failure = none ∧
          (renderFloor { v with Tiles := tiles, Palette := palette } tile offsetX offsetY
              target).target = (renderFloor v tile offsetX offsetY target).target) ∧
    (∀ (tile : WallRecord) (record : TileCacheRecord),
      v.WallCache (wallCacheIndex tile) = some (some record) →
        renderWall coordBits v tile offsetX offsetY target
          = ⟨none, v, target ++ [⟨record.Image, toFloat64 (addInt offsetX record.XOffset),
              toFloat64 (addInt offsetY record.YOffset), none⟩]⟩ ∧
        (-9007199254740992 ≤ offsetX + record.XOffset →
          offsetX + record.XOffset ≤ 9007199254740992 →
          -9007199254740992 ≤ offsetY + record.YOffset →
          offsetY + record.YOffset ≤ 9007199254740992 →
          renderWall coordBits v tile offsetX offsetY target
            = ⟨none, v, target ++
                [⟨record.Image, offsetX + record.XOffset, offsetY + record.YOffset, none⟩]⟩) ∧
        ∀ (tiles : List Tile) (palette : PaletteRec),
          (renderWall coordBits { v with Tiles := tiles, Palette := palette } tile offsetX
              offsetY target).failure = none ∧
          (renderWall coordBits { v with Tiles := tiles, Palette := palette } tile offsetX
              offsetY target).target
            = (renderWall coordBits v tile offsetX offsetY target).target) ∧
    (∀ (tile : FloorShadowRecord) (record : TileCacheRecord),
      v.ShadowCache (shadowCacheIndex tile) = some (some record) →
        renderShadow coordBits v tile offsetX offsetY target
          = ⟨none, v, target ++ [⟨record.Image, toFloat64 (addInt offsetX record.XOffset),
              toFloat64 (addInt offsetY record.YOffset), some ⟨255, 255, 255, 160⟩⟩]⟩ ∧
        (-9007199254740992 ≤ offsetX + record.XOffset →
          offsetX + record.XOffset ≤ 9007199254740992 →
          -9007199254740992 ≤ offsetY + record.YOffset →
          offsetY + record.YOffset ≤ 9007199254740992 →
          renderShadow coordBits v tile offsetX offsetY target
            = ⟨none, v, target ++ [⟨record.Image, offsetX + record.XOffset,
                offsetY + record.YOffset, some ⟨255, 255, 255, 160⟩⟩]⟩) ∧
        ∀ (tiles : List Tile) (palette : PaletteRec),
          (renderShadow coordBits { v with Tiles := tiles, Palette := palette } tile offsetX
              offsetY target).failure = none ∧
          (renderShadow coordBits { v with Tiles := tiles, Palette := palette } tile offsetX
              offsetY target).target
            = (renderShadow coordBits v tile offsetX offsetY target).target) ∧
    (∀ tile : FloorShadowRecord,
      (renderFloor v tile offsetX offsetY target).failure = none →
        ∃ record : TileCacheRecord,
          (renderFloor v tile offsetX offsetY target).region.FloorCache (floorCacheIndex tile)
            = some (some record) ∧
          (renderFloor v tile offsetX offsetY target).target = target ++
            [⟨record.Image, toFloat64 (addInt offsetX record.XOffset),
            toFloat64 (addInt offsetY record.YOffset), none⟩] ∧
          ∀ (later : FloorShadowRecord) (laterX laterY : Int) (laterTarget : Target),
            later.MainIndex = tile.MainIndex → later.SubIndex = tile.SubIndex →
            renderFloor (renderFloor v tile offsetX offsetY target).region later laterX laterY
                laterTarget
              = ⟨none, (renderFloor v tile offsetX offsetY target).region, laterTarget ++
                  [⟨record.Image, toFloat64 (addInt laterX record.XOffset),
                    toFloat64 (addInt laterY record.YOffset), none⟩]⟩) ∧
    (∀ tile : WallRecord,
      (renderWall coordBits v tile offsetX offsetY target).failure = none →
        ∃ record : TileCacheRecord,
          (renderWall coordBits v tile offsetX offsetY target).region.WallCache
            (wallCacheIndex tile) = some (some record) ∧
          (renderWall coordBits v tile offsetX offsetY target).target = target ++
            [⟨record.Image, toFloat64 (addInt offsetX record.XOffset),
            toFloat64 (addInt offsetY record.YOffset), none⟩] ∧
          ∀ (later : WallRecord) (laterX laterY : Int) (laterTarget : Target),
            later.MainIndex = tile.MainIndex → later.SubIndex = tile.SubIndex →
            later.Orientation = tile.Orientation →
            renderWall coordBits (renderWall coordBits v tile offsetX offsetY target).region
                later laterX laterY laterTarget
              = ⟨none, (renderWall coordBits v tile offsetX offsetY target).region,
                  laterTarget ++
                  [⟨record.Image, toFloat64 (addInt laterX record.XOffset),
                    toFloat64 (addInt laterY record.YOffset), none⟩]⟩) ∧
    (∀ tile : FloorShadowRecord,
      (renderShadow coordBits v tile offsetX offsetY target).failure = none →
        ∃ record : TileCacheRecord,
          (renderShadow coordBits v tile offsetX offsetY target).region.ShadowCache
            (shadowCacheIndex tile) = some (some record) ∧
          (renderShadow coordBits v tile offsetX offsetY target).target = target ++
            [⟨record.Image, toFloat64 (addInt offsetX record.XOffset),
              toFloat64 (addInt offsetY record.YOffset), some ⟨255, 255, 255, 160⟩⟩] ∧
          ∀ (later : FloorShadowRecord) (laterX laterY : Int) (laterTarget : Target),
            later.MainIndex = tile.MainIndex → later.SubIndex = tile.SubIndex →
            renderShadow coordBits (renderShadow coordBits v tile offsetX offsetY target).region
                later laterX laterY laterTarget
              = ⟨none, (renderShadow coordBits v tile offsetX offsetY target).region,
                  laterTarget ++ [⟨record.Image, toFloat64 (addInt laterX record.XOffset),
                    toFloat64 (addInt laterY record.YOffset), some ⟨255, 255, 255, 160⟩⟩]⟩) := by
  refine ⟨?_, ?_, ?_, ?_, ?_, ?_⟩
  · intro tile record h
    refine ⟨renderFloor_hit v tile offsetX offsetY target record h,
      fun hx0 hx1 hy0 hy1 => ?_, fun tiles palette => ?_⟩
    · rw [renderFloor_hit v tile offsetX offsetY target record h,
        drawPosition_of_fits _ _ hx0 hx1, drawPosition_of_fits _ _ hy0 hy1]
    · rw [renderFloor_hit v tile offsetX offsetY target record h,
        renderFloor_hit { v with Tiles := tiles, Palette := palette } tile offsetX offsetY
          target record h]
      exact ⟨rfl, rfl⟩
  · intro tile record h
    refine ⟨renderWall_hit coordBits v tile offsetX offsetY target record h,
      fun hx0 hx1 hy0 hy1 => ?_, fun tiles palette => ?_⟩
    · rw [renderWall_hit coordBits v tile offsetX offsetY target record h,
        drawPosition_of_fits _ _ hx0 hx1, drawPosition_of_fits _ _ hy0 hy1]
    · rw [renderWall_hit coordBits v tile offsetX offsetY target record h,
        renderWall_hit coordBits { v with Tiles := tiles, Palette := palette } tile offsetX
          offsetY target record h]
      exact ⟨rfl, rfl⟩
  · intro tile record h
    refine ⟨renderShadow_hit coordBits v tile offsetX offsetY target record h,
      fun hx0 hx1 hy0 hy1 => ?_, fun tiles palette => ?_⟩
    · rw [renderShadow_hit coordBits v tile offsetX offsetY target record h,
        drawPosition_of_fits _ _ hx0 hx1, drawPosition_of_fits _ _ hy0 hy1]
    · rw [renderShadow_hit coordBits v tile offsetX offsetY target record h,
        renderShadow_hit coordBits { v with Tiles := tiles, Palette := palette } tile offsetX
          offsetY target record h]
      exact ⟨rfl, rfl⟩
  · intro tile h
    obtain ⟨record, hkey, hdraw⟩ := renderFloor_success v tile offsetX offsetY target h
    refine ⟨record, hkey, hdraw, fun later laterX laterY laterTarget hm hs => ?_⟩
    apply renderFloor_hit
    rw [← hkey]
    unfold floorCacheIndex
    rw [hm, hs]
  · intro tile h
    obtain ⟨record, hkey, hdraw⟩ := renderWall_success coordBits v tile offsetX offsetY target h
    refine ⟨record, hkey, hdraw, fun later laterX laterY laterTarget hm hs ho => ?_⟩
    apply renderWall_hit
    rw [← hkey]
    unfold wallCacheIndex
    rw [hm, hs, ho]
  · intro tile h
    obtain ⟨record, hkey, hdraw⟩ :=
      renderShadow_success coordBits v tile offsetX offsetY target h
    refine ⟨record, hkey, hdraw, fun later laterX laterY laterTarget hm hs => ?_⟩
    apply renderShadow_hit
    rw [← hkey]
    unfold shadowCacheIndex
    rw [hm, hs]

/-- Witness of C11 on `cachedRegion`: the floor record (1, 2), the wall record
(1, 2, 3) and the shadow record (3, 4) are drawn from the cache at (10, 27). -/
theorem render_cache_hit_witness :
    renderFloor cachedRegion ⟨1, 2, 0⟩ 10 20 []
        = ⟨none, cachedRegion, [⟨sampleRecord.Image, 10, 27, none⟩]⟩ ∧
      renderWall 16 cachedRegion ⟨1, 2, 3, 0⟩ 10 20 []
        = ⟨none, cachedRegion, [⟨sampleRecord.Image, 10, 27, none⟩]⟩ ∧
      renderShadow 16 cachedRegion ⟨3, 4, 0⟩ 10 20 []
        = ⟨none, cachedRegion, [⟨sampleRecord.Image, 10, 27, some ⟨255, 255, 255, 160⟩⟩]⟩ :=
  have h := render_cache_hit 16 cachedRegion 10 20 []
  ⟨(h.1 ⟨1, 2, 0⟩ sampleRecord (by decide)).2.1 (by decide) (by decide) (by decide)
      (by decide),
    (h.2.1 ⟨1, 2, 3, 0⟩ sampleRecord (by decide)).2.1 (by decide) (by decide) (by decide)
      (by decide),
    (h.2.2.1 ⟨3, 4, 0⟩ sampleRecord (by decide)).2.1 (by decide) (by decide) (by decide)
      (by decide)⟩

/-- Counterexample to C11 as stated: on `cachedRegion` the floor record (1, 2)
has the entry `sampleRecord`, of draw offset (0, 7). Rendered at
`offsetX = 2^53 + 1` it is drawn at x = `2^53`, the `float64` nearest to
`offsetX + XOffset = 2^53 + 1`; rendered at `offsetY = 2^63 - 1` it is drawn at
y = `-2^63`, the sum `offsetY + YOffset` having wrapped at type `int`. -/
theorem render_cache_hit_position_is_float64 :
    cachedRegion.FloorCache (floorCacheIndex ⟨1, 2, 0⟩) = some (some sampleRecord) ∧
      sampleRecord.XOffset = 0 ∧ sampleRecord.YOffset = 7 ∧
      renderFloor cachedRegion ⟨1, 2, 0⟩ 9007199254740993 20 []
        = ⟨none, cachedRegion, [⟨sampleRecord.Image, 9007199254740992, 27, none⟩]⟩ ∧
      renderFloor cachedRegion ⟨1, 2, 0⟩ 10 9223372036854775807 []
        = ⟨none, cachedRegion, [⟨sampleRecord.Image, 10, -9223372036854775808, none⟩]⟩ :=
  ⟨by decide, rfl, rfl, by rfl, by rfl⟩

/-- C12: write-once caches. For every region and every call of `renderFloor`,
`renderWall` or `renderShadow`, whatever its outcome: the two caches of the other
layers are unchanged, the cache of the rendered layer is unchanged at every key
other than the key of the rendered record, and every key that had an entry in
that cache before the call has the same entry after it. -/
theorem render_write_once (coordBits : Nat) (v : Region) (offsetX offsetY : Int)
    (target : Target) :
    (∀ tile : FloorShadowRecord,
      (renderFloor v tile offsetX offsetY target).region.WallCache = v.WallCache ∧
      (renderFloor v tile offsetX offsetY target).region.ShadowCache = v.ShadowCache ∧
      (∀ key, key ≠ floorCacheIndex tile →
        (renderFloor v tile offsetX offsetY target).region.FloorCache key = v.FloorCache key) ∧
      (∀ key entry, v.FloorCache key = some entry →
        (renderFloor v tile offsetX offsetY target).region.FloorCache key = some entry)) ∧
    (∀ tile : WallRecord,
      (renderWall coordBits v tile offsetX offsetY target).region.FloorCache = v.FloorCache ∧
      (renderWall coordBits v tile offsetX offsetY target).region.ShadowCache
        = v.ShadowCache ∧
      (∀ key, key ≠ wallCacheIndex tile →
        (renderWall coordBits v tile offsetX offsetY target).region.WallCache key
          = v.WallCache key) ∧
      (∀ key entry, v.WallCache key = some entry →
        (renderWall coordBits v tile offsetX offsetY target).region.WallCache key
          = some entry)) ∧
    (∀ tile : FloorShadowRecord,
      (renderShadow coordBits v tile offsetX offsetY target).region.FloorCache
        = v.FloorCache ∧
      (renderShadow coordBits v tile offsetX offsetY target).region.WallCache = v.WallCache ∧
      (∀ key, key ≠ shadowCacheIndex tile →
        (renderShadow coordBits v tile offsetX offsetY target).region.ShadowCache key
          = v.ShadowCache key) ∧
      (∀ key entry, v.ShadowCache key = some entry →
        (renderShadow coordBits v tile offsetX offsetY target).region.ShadowCache key
          = some entry)) := by
  refine ⟨fun tile => ?_, fun tile => ?_, fun tile => ?_⟩
  · rcases renderFloor_region v tile offsetX offsetY target with h | ⟨hnone, g, h⟩
    · rw [h]
      exact ⟨rfl, rfl, fun _ _ => rfl, fun _ _ he => he⟩
    · rw [h]
      exact ⟨rfl, rfl, fun key hk => write_of_ne _ _ _ _ hk,
        fun key entry he => write_keeps_entries _ _ _ hnone key entry he⟩
  · rcases renderWall_region coordBits v tile offsetX offsetY target with h | ⟨hnone, g, h⟩
    · rw [h]
      exact ⟨rfl, rfl, fun _ _ => rfl, fun _ _ he => he⟩
    · rw [h]
      exact ⟨rfl, rfl, fun key hk => write_of_ne _ _ _ _ hk,
        fun key entry he => write_keeps_entries _ _ _ hnone key entry he⟩
  · rcases renderShadow_region coordBits v tile offsetX offsetY target with h | ⟨hnone, g, h⟩
    · rw [h]
      exact ⟨rfl, rfl, fun _ _ => rfl, fun _ _ he => he⟩
    · rw [h]
      exact ⟨rfl, rfl, fun key hk => write_of_ne _ _ _ _ hk,
        fun key entry he => write_keeps_entries _ _ _ hnone key entry he⟩

/-! ### Tile lookup (C14) -/

/-- The first element satisfying `p`: `find?` returns the element at the smallest
position where `p` holds. -/
theorem find?_eq_some_first {α : Type} (p : α → Bool) (l : List α) (b : α) :
    l.find? p = some b ↔
      ∃ i : Nat, l[i]? = some b ∧ p b = true ∧
        ∀ j : Nat, j < i → ∀ t : α, l[j]? = some t → p t = false := by
  induction l with
  | nil =>
    constructor
    · intro h
      cases h
    · rintro ⟨i, hi, -⟩
      cases hi
  | cons a l ih =>
    by_cases hp : p a = true
    · rw [List.find?_cons_of_pos _ hp]
      constructor
      · intro h
        cases h
        exact ⟨0, List.getElem?_cons_zero, hp, fun j hj => absurd hj (Nat.not_lt_zero j)⟩
      · rintro ⟨i, hi, -, hmin⟩
        cases i with
        | zero =>
          rw [List.getElem?_cons_zero] at hi
          exact hi
        | succ i =>
          have := hmin 0 (Nat.succ_pos i) a List.getElem?_cons_zero
          rw [hp] at this
          cases this
    · rw [List.find?_cons_of_neg _ hp, ih]
      constructor
      · rintro ⟨i, hi, hb, hmin⟩
        refine ⟨i + 1, by rw [List.getElem?_cons_succ]; exact hi, hb, fun j hj t ht => ?_⟩
        cases j with
        | zero =>
          rw [List.getElem?_cons_zero] at ht
          cases ht
          exact Bool.eq_false_iff.mpr hp
        | succ j =>
          rw [List.getElem?_cons_succ] at ht
          exact hmin j (Nat.lt_of_succ_lt_succ hj) t ht
      · rintro ⟨i, hi, hb, hmin⟩
        cases i with
        | zero =>
          rw [List.getElem?_cons_zero] at hi
          cases hi
          exact absurd hb hp
        | succ i =>
          rw [List.getElem?_cons_succ] at hi
          refine ⟨i, hi, hb, fun j hj t ht => hmin (j + 1) (Nat.succ_lt_succ hj) t ?_⟩
          rw [List.getElem?_cons_succ]
          exact ht

/-- The test of `getTile` holds exactly for the tiles with the queried identity. -/
theorem getTile_test (tile : Tile) (mainIndex subIndex orientation : Int) :
    (!(decide (tile.MainIndex ≠ mainIndex) || decide (tile.SubIndex ≠ subIndex)
        || decide (tile.Orientation ≠ orientation))) = true ↔
      (tile.MainIndex = mainIndex ∧ tile.SubIndex = subIndex
        ∧ tile.Orientation = orientation) := by
  simp [and_assoc]

/-- C14: tile lookup. `getTile` returns a tile exactly when that tile stands at
the smallest position of the tile list whose MainIndex, SubIndex and Orientation
all equal the arguments; it returns nil exactly when no tile of the list matches;
on an empty tile list it returns nil; and a matching tile is found also when its
block list is empty (the first such tile is the one returned). -/
theorem getTile_first_match (v : Region) (mainIndex subIndex orientation : Int) :
    (∀ tile : Tile, getTile v mainIndex subIndex orientation = some tile ↔
      ∃ i : Nat, v.Tiles[i]? = some tile ∧
        (tile.MainIndex = mainIndex ∧ tile.SubIndex = subIndex
          ∧ tile.Orientation = orientation) ∧
        ∀ j : Nat, j < i → ∀ t : Tile, v.Tiles[j]? = some t →
          ¬ (t.MainIndex = mainIndex ∧ t.SubIndex = subIndex
            ∧ t.Orientation = orientation)) ∧
    (getTile v mainIndex subIndex orientation = none ↔
      ∀ t ∈ v.Tiles, ¬ (t.MainIndex = mainIndex ∧ t.SubIndex = subIndex
        ∧ t.Orientation = orientation)) ∧
    (v.Tiles = [] → getTile v mainIndex subIndex orientation = none) ∧
    (∀ t ∈ v.Tiles, t.MainIndex = mainIndex → t.SubIndex = subIndex →
      t.Orientation = orientation → t.Blocks = [] →
      ∃ found, getTile v mainIndex subIndex orientation = some found) ∧
    (∀ (t : Tile) (rest : List Tile), v.Tiles = t :: rest → t.MainIndex = mainIndex →
      t.SubIndex = subIndex → t.Orientation = orientation → t.Blocks = [] →
      getTile v mainIndex subIndex orientation = some t) := by
  have hfirst : ∀ tile : Tile, getTile v mainIndex subIndex orientation = some tile ↔
      ∃ i : Nat, v.Tiles[i]? = some tile ∧
        (tile.MainIndex = mainIndex ∧ tile.SubIndex = subIndex
          ∧ tile.Orientation = orientation) ∧
        ∀ j : Nat, j < i → ∀ t : Tile, v.Tiles[j]? = some t →
          ¬ (t.MainIndex = mainIndex ∧ t.SubIndex = subIndex
            ∧ t.Orientation = orientation) := by
    intro tile
    unfold getTile
    rw [find?_eq_some_first]
    constructor
    · rintro ⟨i, hi, hb, hmin⟩
      refine ⟨i, hi, (getTile_test _ _ _ _).mp hb, fun j hj t ht hm => ?_⟩
      have h1 := hmin j hj t ht
      rw [(getTile_test _ _ _ _).mpr hm] at h1
      cases h1
    · rintro ⟨i, hi, hb, hmin⟩
      refine ⟨i, hi, (getTile_test _ _ _ _).mpr hb, fun j hj t ht => ?_⟩
      apply Bool.eq_false_iff.mpr
      intro hp
      exact hmin j hj t ht ((getTile_test _ _ _ _).mp hp)
  have hnone := getTile_eq_none_iff v mainIndex subIndex orientation
  refine ⟨hfirst, hnone, ?_, ?_, ?_⟩
  · intro hempty
    rw [hnone, hempty]
    intro t ht
    cases ht
  · intro t ht hm hs ho _
    cases hg : getTile v mainIndex subIndex orientation with
    | some found => exact ⟨found, rfl⟩
    | none => exact absurd ⟨hm, hs, ho⟩ (hnone.mp hg t ht)
  · intro t rest hl hm hs ho _
    rw [hfirst]
    refine ⟨0, ?_, ⟨hm, hs, ho⟩, fun j hj => absurd hj (Nat.not_lt_zero j)⟩
    rw [hl, List.getElem?_cons_zero]

/-- Witness of C14 on `sampleRegion`: the query (1, 2, 3) returns the wall tile
`sampleWallTile`, which stands at position 1 and has no blocks. -/
theorem getTile_first_match_witness :
    getTile sampleRegion 1 2 3 = some sampleWallTile ∧ sampleWallTile.Blocks = [] ∧
      getTile { sampleRegion with Tiles := [] } 1 2 3 = none :=
  ⟨((getTile_first_match sampleRegion 1 2 3).1 sampleWallTile).mpr
      ⟨1, by decide, by decide, by decide⟩,
    by decide,
    (getTile_first_match { sampleRegion with Tiles := [] } 1 2 3).2.2.1 rfl⟩

/-- Witness of C12 on `cachedRegion`: rendering the wall record (1, 2, 4), which
has no cache entry, keeps the entry of the wall record (1, 2, 3). -/
theorem render_write_once_witness :
    (renderWall 16 cachedRegion ⟨1, 2, 4, 0⟩ 0 0 []).region.WallCache
        (wallCacheIndex ⟨1, 2, 3, 0⟩) = some (some sampleRecord) ∧
      (renderWall 16 cachedRegion ⟨1, 2, 4, 0⟩ 0 0 []).region.FloorCache
        = cachedRegion.FloorCache :=
  have h := (render_write_once 16 cachedRegion 0 0 []).2.1 ⟨1, 2, 4, 0⟩
  ⟨h.2.2.2 (wallCacheIndex ⟨1, 2, 3, 0⟩) (some sampleRecord) (by decide), h.1⟩

/-! ### The logged decoder computes what the decoder computes -/

theorem isoInnerLog_result (pal : PaletteRec) (data : List Byte)
    (blockX blockY tileYOffset tileWidth y : Int) (n : Nat) :
    ∀ (x : Int) (idx : Nat) (pixels : List Byte),
      (isoInnerLog pal data blockX blockY tileYOffset tileWidth y n x idx pixels).2
        = isoInnerLoop pal data blockX blockY tileYOffset tileWidth y n x idx pixels := by
  induction n with
  | zero => intro x idx pixels; rfl
  | succ n ih =>
    intro x idx pixels
    rw [isoInnerLog, isoInnerLoop]
    cases h1 : indexSlice data idx with
    | error e => rfl
    | ok c =>
      dsimp only [bind, Except.bind]
      cases h2 : plotPixel pal pixels c blockX blockY x y tileYOffset tileWidth with
      | error e => rfl
      | ok p =>
        dsimp only
        exact ih _ _ _

theorem rleInnerLog_eq_isoInnerLog (pal : PaletteRec) (data : List Byte)
    (blockX blockY tileYOffset tileWidth y : Int) (n : Nat) :
    ∀ (x : Int) (idx : Nat) (pixels : List Byte),
      rleInnerLog pal data blockX blockY tileYOffset tileWidth y n x idx pixels
        = isoInnerLog pal data blockX blockY tileYOffset tileWidth y n x idx pixels := by
  induction n with
  | zero => intro x idx pixels; rfl
  | succ n ih =>
    intro x idx pixels
    rw [rleInnerLog, isoInnerLog]
    cases h1 : indexSlice data idx with
    | error e => rfl
    | ok c =>
      dsimp only
      cases h2 : plotPixel pal pixels c blockX blockY x y tileYOffset tileWidth with
      | error e => rfl
      | ok p =>
        dsimp only
        rw [ih]

theorem rleInnerLog_result (pal : PaletteRec) (data : List Byte)
    (blockX blockY tileYOffset tileWidth y : Int) (n : Nat) (x : Int) (idx : Nat)
    (pixels : List Byte) :
    (rleInnerLog pal data blockX blockY tileYOffset tileWidth y n x idx pixels).2
      = rleInnerLoop pal data blockX blockY tileYOffset tileWidth y n x idx pixels := by
  rw [rleInnerLog_eq_isoInnerLog, isoInnerLog_result, rleInnerLoop_eq_isoInnerLoop]

theorem isoOuterLog_result (pal : PaletteRec) (data : List Byte)
    (blockX blockY tileYOffset tileWidth : Int) (fuel : Nat) :
    ∀ s : DecodeState,
      (isoOuterLog pal data blockX blockY tileYOffset tileWidth fuel s).2
        = isoOuterLoop pal data blockX blockY tileYOffset tileWidth fuel s := by
  induction fuel with
  | zero =>
    intro s
    rw [isoOuterLog, isoOuterLoop]
    by_cases h : s.length > 0
    · rw [if_pos h, if_pos h]
    · rw [if_neg h, if_neg h]
  | succ fuel ih =>
    intro s
    rw [isoOuterLog, isoOuterLoop]
    by_cases h : s.length > 0
    · rw [if_pos h, if_pos h]
      cases hx : indexSlice xjump s.y with
      | error e => rfl
      | ok x =>
        dsimp only [bind, Except.bind]
        cases hn : indexSlice nbpix s.y with
        | error e => rfl
        | ok n =>
          dsimp only
          rw [← isoInnerLog_result]
          cases hr : (isoInnerLog pal data blockX blockY tileYOffset tileWidth s.y n.toNat x
              s.idx s.pixels).2 with
          | error e => rfl
          | ok r =>
            dsimp only
            exact ih _
    · rw [if_neg h, if_neg h]

theorem rleOuterLog_result (pal : PaletteRec) (data : List Byte)
    (blockX blockY tileYOffset tileWidth : Int) (fuel : Nat) :
    ∀ s : DecodeState,
      (rleOuterLog pal data blockX blockY tileYOffset tileWidth fuel s).2
        = rleOuterLoop pal data blockX blockY tileYOffset tileWidth fuel s := by
  induction fuel with
  | zero =>
    intro s
    rw [rleOuterLog, rleOuterLoop]
    by_cases h : s.length > 0
    · rw [if_pos h, if_pos h]
    · rw [if_neg h, if_neg h]
  | succ fuel ih =>
    intro s
    rw [rleOuterLog, rleOuterLoop]
    by_cases h : s.length > 0
    · rw [if_pos h, if_pos h]
      cases h1 : indexSlice data s.idx with
      | error e => rfl
      | ok b1 =>
        dsimp only [bind, Except.bind]
        cases h2 : indexSlice data (s.idx + 1) with
        | error e => rfl
        | ok b2 =>
          dsimp only
          by_cases hz : (b1.val ||| b2.val) = 0
          · rw [if_pos hz, if_pos hz]
            exact ih _
          · rw [if_neg hz, if_neg hz]
            rw [← rleInnerLog_result]
            cases hr : (rleInnerLog pal data blockX blockY tileYOffset tileWidth s.y b2.val
                (addInt32 s.x b1.val) (s.idx + 2) s.pixels).2 with
            | error e => rfl
            | ok r =>
              dsimp only
              exact ih _
    · rw [if_neg h, if_neg h]

/-- The logged decoding of a block returns what `decodeBlock` returns. -/
theorem decodeBlockLog_result (pal : PaletteRec) (block : Block) (pixels : List Byte)
    (tileYOffset tileWidth : Int) :
    (decodeBlockLog pal block pixels tileYOffset tileWidth).2
      = decodeBlock pal block pixels tileYOffset tileWidth := by
  unfold decodeBlockLog decodeBlock
  by_cases h : block.Format = .BlockFormatIsometric
  · rw [if_pos h, if_pos h]
    exact isoOuterLog_result _ _ _ _ _ _ _ _
  · rw [if_neg h, if_neg h]
    exact rleOuterLog_result _ _ _ _ _ _ _ _

/-! ### The steps of the isometric decoder -/

theorem isPrefix_cons {α : Type} (a : α) (l1 l2 : List α) (h : l1 <+: l2) :
    a :: l1 <+: a :: l2 := by
  obtain ⟨t, rfl⟩ := h
  exact ⟨t, rfl⟩

theorem isPrefix_append_left {α : Type} (l l1 l2 : List α) (h : l1 <+: l2) :
    l ++ l1 <+: l ++ l2 := by
  obtain ⟨t, rfl⟩ := h
  exact ⟨t, List.append_assoc _ _ _⟩

theorem isPrefix_append_right {α : Type} (l1 l2 l3 : List α) (h : l1 <+: l2) :
    l1 <+: l2 ++ l3 := by
  obtain ⟨t, rfl⟩ := h
  exact ⟨t ++ l3, (List.append_assoc _ _ _).symm⟩

theorem skeleton_append (l1 l2 : List DecodeEvent) :
    skeleton (l1 ++ l2) = skeleton l1 ++ skeleton l2 := by
  unfold skeleton
  rw [List.filter_append]

theorem skeleton_plotEvents (pal : PaletteRec) (c : Byte)
    (blockX blockY x y tileYOffset tileWidth : Int) :
    skeleton (plotEvents pal c blockX blockY x y tileYOffset tileWidth) = [] := by
  unfold plotEvents
  split <;> rfl

theorem skeleton_read_visit (idx : Nat) (x y : Int) (l : List DecodeEvent) :
    skeleton (.read idx :: .visit x y :: l) = .read idx :: .visit x y :: skeleton l := rfl

theorem skeleton_row_header (idx : Nat) (length t : Int) (l : List DecodeEvent) :
    skeleton (.iteration idx length :: .table t :: .table t :: l)
      = .iteration idx length :: .table t :: .table t :: skeleton l := rfl

/-- The steps of the inner loop, without the stores: a beginning of the steps of
`n` iterations, and all of them when the loop ends without panic, which then
leaves `idx` increased by `n`. -/
theorem isoInnerLog_skeleton (pal : PaletteRec) (data : List Byte)
    (blockX blockY tileYOffset tileWidth y : Int) (n : Nat) :
    ∀ (x : Int) (idx : Nat) (pixels : List Byte),
      skeleton (isoInnerLog pal data blockX blockY tileYOffset tileWidth y n x idx pixels).1
          <+: innerSkeleton y n x idx ∧
        ∀ r, (isoInnerLog pal data blockX blockY tileYOffset tileWidth y n x idx pixels).2
            = .ok r →
          skeleton (isoInnerLog pal data blockX blockY tileYOffset tileWidth y n x idx pixels).1
            = innerSkeleton y n x idx ∧ r.2.1 = idx + n := by
  induction n with
  | zero =>
    intro x idx pixels
    refine ⟨⟨[], rfl⟩, fun r hr => ⟨rfl, ?_⟩⟩
    have h0 : (isoInnerLog pal data blockX blockY tileYOffset tileWidth y 0 x idx pixels).2
        = .ok (x, idx, pixels) := rfl
    rw [h0] at hr
    cases hr
    rfl
  | succ n ih =>
    intro x idx pixels
    rw [isoInnerLog]
    cases h1 : indexSlice data idx with
    | error e =>
      dsimp only
      refine ⟨⟨.visit x y :: innerSkeleton y n (addInt32 x 1) (idx + 1), rfl⟩, fun r hr => ?_⟩
      cases hr
    | ok c =>
      dsimp only
      cases h2 : plotPixel pal pixels c blockX blockY x y tileYOffset tileWidth with
      | error e =>
        dsimp only
        rw [skeleton_read_visit, skeleton_plotEvents]
        refine ⟨⟨innerSkeleton y n (addInt32 x 1) (idx + 1), rfl⟩, fun r hr => ?_⟩
        cases hr
      | ok p =>
        dsimp only
        rw [skeleton_read_visit, skeleton_append, skeleton_plotEvents, List.nil_append]
        obtain ⟨hpre, hok⟩ := ih (addInt32 x 1) (idx + 1) p
        refine ⟨isPrefix_cons _ _ _ (isPrefix_cons _ _ _ hpre), fun r hr => ?_⟩
        obtain ⟨heq, hidx⟩ := hok r hr
        refine ⟨?_, by omega⟩
        rw [heq]
        rfl

theorem isoOuterLog_stop (pal : PaletteRec) (data : List Byte)
    (blockX blockY tileYOffset tileWidth : Int) (fuel : Nat) (s : DecodeState)
    (hstop : ¬ s.length > 0) :
    isoOuterLog pal data blockX blockY tileYOffset tileWidth fuel s
      = ([.exit s.idx s.length], .ok s) := by
  cases fuel with
  | zero => rw [isoOuterLog, if_neg hstop]
  | succ f => rw [isoOuterLog, if_neg hstop]

theorem isoOuterLog_step_error (pal : PaletteRec) (data : List Byte)
    (blockX blockY tileYOffset tileWidth : Int) (fuel : Nat) (s : DecodeState)
    (hpos : s.length > 0) (x n : Int) (e : Failure)
    (hx : indexSlice xjump s.y = .ok x) (hn : indexSlice nbpix s.y = .ok n)
    (hr : (isoInnerLog pal data blockX blockY tileYOffset tileWidth s.y n.toNat x s.idx
      s.pixels).2 = .error e) :
    isoOuterLog pal data blockX blockY tileYOffset tileWidth (fuel + 1) s
      = (.iteration s.idx s.length :: .table s.y :: .table s.y ::
          (isoInnerLog pal data blockX blockY tileYOffset tileWidth s.y n.toNat x s.idx
            s.pixels).1, .error e) := by
  rw [isoOuterLog, if_pos hpos, hx]
  dsimp only
  rw [hn]
  dsimp only
  rw [hr]

theorem isoOuterLog_step_ok (pal : PaletteRec) (data : List Byte)
    (blockX blockY tileYOffset tileWidth : Int) (fuel : Nat) (s : DecodeState)
    (hpos : s.length > 0) (x n : Int) (r : Int × Nat × List Byte)
    (hx : indexSlice xjump s.y = .ok x) (hn : indexSlice nbpix s.y = .ok n)
    (hr : (isoInnerLog pal data blockX blockY tileYOffset tileWidth s.y n.toNat x s.idx
      s.pixels).2 = .ok r) :
    isoOuterLog pal data blockX blockY tileYOffset tileWidth (fuel + 1) s
      = (.iteration s.idx s.length :: .table s.y :: .table s.y ::
          ((isoInnerLog pal data blockX blockY tileYOffset tileWidth s.y n.toNat x s.idx
              s.pixels).1
            ++ (isoOuterLog pal data blockX blockY tileYOffset tileWidth fuel
                  ⟨subInt32 s.length n, r.1, addInt32 s.y 1, r.2.1, r.2.2⟩).1),
          (isoOuterLog pal data blockX blockY tileYOffset tileWidth fuel
            ⟨subInt32 s.length n, r.1, addInt32 s.y 1, r.2.1, r.2.2⟩).2) := by
  rw [isoOuterLog, if_pos hpos, hx]
  dsimp only
  rw [hn]
  dsimp only
  rw [hr]

/-- From row `y` on, the steps of the outer loop of the isometric decoder,
without the stores, are a beginning of the steps of the remaining rows, and all
of them when the loop ends without panic, which then leaves `length` 0, `y` 15
and `idx` 256. -/
theorem isoOuterLog_skeleton (pal : PaletteRec) (data : List Byte)
    (blockX blockY tileYOffset tileWidth : Int) (k : Nat) :
    ∀ (y fuel : Nat) (x : Int) (p : List Byte), y + k = 15 → k ≤ fuel →
      skeleton (isoOuterLog pal data blockX blockY tileYOffset tileWidth fuel
          ⟨256 - (isoRowStart y : Int), x, (y : Int), isoRowStart y, p⟩).1
        <+: isoSkeletonFrom k y ∧
      ∀ s, (isoOuterLog pal data blockX blockY tileYOffset tileWidth fuel
          ⟨256 - (isoRowStart y : Int), x, (y : Int), isoRowStart y, p⟩).2 = .ok s →
        skeleton (isoOuterLog pal data blockX blockY tileYOffset tileWidth fuel
            ⟨256 - (isoRowStart y : Int), x, (y : Int), isoRowStart y, p⟩).1
          = isoSkeletonFrom k y ∧ s.length = 0 ∧ s.y = 15 ∧ s.idx = 256 := by
  induction k with
  | zero =>
    intro y fuel x p hy _
    have hy15 : y = 15 := by omega
    subst hy15
    have hstop : ¬ ((256 : Int) - ((256 : Nat) : Int) > 0) := by decide
    rw [isoRowStart_fifteen, isoOuterLog_stop _ _ _ _ _ _ _ _ hstop]
    refine ⟨⟨[], rfl⟩, fun s hs => ?_⟩
    cases hs
    exact ⟨rfl, rfl, rfl, rfl⟩
  | succ k ih =>
    intro y fuel x p hy hfuel
    have hy15 : y < 15 := by omega
    obtain ⟨t1, -, t3, -, -, -, -, -, -⟩ := iso_table y hy15
    obtain ⟨fuel, rfl⟩ : ∃ f, fuel = f + 1 := ⟨fuel - 1, by omega⟩
    have hxl : y < xjump.length := by rw [xjump_length]; exact hy15
    have hnl : y < nbpix.length := by rw [nbpix_length]; exact hy15
    have hx := indexSlice_natCast xjump y _ (getElem?_getD_int xjump y hxl)
    have hn := indexSlice_natCast nbpix y _ (getElem?_getD_int nbpix y hnl)
    obtain ⟨hpre, hok⟩ := isoInnerLog_skeleton pal data blockX blockY tileYOffset tileWidth
      (y : Int) (isoRowLength y) (isoRowJump y) (isoRowStart y) p
    have hskel : isoSkeletonFrom (k + 1) y
        = .iteration (isoRowStart y) (256 - (isoRowStart y : Int)) :: .table y :: .table y ::
            (innerSkeleton y (isoRowLength y) (isoRowJump y) (isoRowStart y)
              ++ isoSkeletonFrom k (y + 1)) := rfl
    cases hr : (isoInnerLog pal data blockX blockY tileYOffset tileWidth (y : Int)
        (isoRowLength y) (isoRowJump y) (isoRowStart y) p).2 with
    | error e =>
      rw [isoOuterLog_step_error pal data blockX blockY tileYOffset tileWidth fuel _ t1
        (isoRowJump y) (nbpix.getD y 0) e hx hn hr]
      dsimp only
      rw [skeleton_row_header, hskel]
      refine ⟨?_, fun s hs => ?_⟩
      · exact isPrefix_cons _ _ _ (isPrefix_cons _ _ _
          (isPrefix_cons _ _ _ (isPrefix_append_right _ _ _ hpre)))
      · cases hs
    | ok r =>
      obtain ⟨heq, hidx⟩ := hok r hr
      rw [isoOuterLog_step_ok pal data blockX blockY tileYOffset tileWidth fuel _ t1
        (isoRowJump y) (nbpix.getD y 0) r hx hn hr]
      dsimp only
      rw [(iso_table y hy15).2.1, (iso_table y hy15).2.2.2.2.2.2.2.2, hidx, t3,
        skeleton_row_header, skeleton_append, hskel]
      obtain ⟨hpre2, hok2⟩ := ih (y + 1) fuel r.1 r.2.2 (by omega) (by omega)
      refine ⟨?_, fun s hs => ?_⟩
      · have heq2 : skeleton (isoInnerLog pal data blockX blockY tileYOffset tileWidth (y : Int)
            (nbpix.getD y 0).toNat (isoRowJump y) (isoRowStart y) p).1
            = innerSkeleton y (isoRowLength y) (isoRowJump y) (isoRowStart y) := heq
        rw [heq2]
        exact isPrefix_cons _ _ _ (isPrefix_cons _ _ _
          (isPrefix_cons _ _ _ (isPrefix_append_left _ _ _ hpre2)))
      · obtain ⟨h1, h2, h3, h4⟩ := hok2 s hs
        have heq2 : skeleton (isoInnerLog pal data blockX blockY tileYOffset tileWidth (y : Int)
            (nbpix.getD y 0).toNat (isoRowJump y) (isoRowStart y) p).1
            = innerSkeleton y (isoRowLength y) (isoRowJump y) (isoRowStart y) := heq
        rw [heq2, h1]
        exact ⟨rfl, h2, h3, h4⟩

theorem isPrefix_filterMap {α β : Type} (f : α → Option β) (l1 l2 : List α) (h : l1 <+: l2) :
    l1.filterMap f <+: l2.filterMap f := by
  obtain ⟨t, rfl⟩ := h
  rw [List.filterMap_append]
  exact ⟨_, rfl⟩

theorem isPrefix_length_le {α : Type} (l1 l2 : List α) (h : l1 <+: l2) :
    l1.length ≤ l2.length := by
  obtain ⟨t, rfl⟩ := h
  rw [List.length_append]
  exact Nat.le_add_right _ _

theorem isPrefix_mem {α : Type} (l1 l2 : List α) (h : l1 <+: l2) (a : α) (ha : a ∈ l1) :
    a ∈ l2 := by
  obtain ⟨t, rfl⟩ := h
  exact List.mem_append_left _ ha

/-- A projection that ignores the store events sees the same in a log and in
its skeleton. -/
theorem filterMap_skeleton {β : Type} (f : DecodeEvent → Option β)
    (hf : ∀ offset color, f (.store offset color) = none) (log : List DecodeEvent) :
    (skeleton log).filterMap f = log.filterMap f := by
  induction log with
  | nil => rfl
  | cons e l ih =>
    cases e with
    | store offset color =>
      have h1 : skeleton (.store offset color :: l) = skeleton l := rfl
      rw [h1, ih, List.filterMap_cons, hf]
    | iteration idx length =>
      have h1 : skeleton (.iteration idx length :: l) = .iteration idx length :: skeleton l := rfl
      rw [h1, List.filterMap_cons, List.filterMap_cons, ih]
    | table index =>
      have h1 : skeleton (.table index :: l) = .table index :: skeleton l := rfl
      rw [h1, List.filterMap_cons, List.filterMap_cons, ih]
    | read index =>
      have h1 : skeleton (.read index :: l) = .read index :: skeleton l := rfl
      rw [h1, List.filterMap_cons, List.filterMap_cons, ih]
    | visit x y =>
      have h1 : skeleton (.visit x y :: l) = .visit x y :: skeleton l := rfl
      rw [h1, List.filterMap_cons, List.filterMap_cons, ih]
    | exit idx length =>
      have h1 : skeleton (.exit idx length :: l) = .exit idx length :: skeleton l := rfl
      rw [h1, List.filterMap_cons, List.filterMap_cons, ih]

theorem iterations_skeleton (log : List DecodeEvent) :
    iterations (skeleton log) = iterations log :=
  filterMap_skeleton _ (fun _ _ => rfl) log

theorem tableIndices_skeleton (log : List DecodeEvent) :
    tableIndices (skeleton log) = tableIndices log :=
  filterMap_skeleton _ (fun _ _ => rfl) log

theorem dataReads_skeleton (log : List DecodeEvent) :
    dataReads (skeleton log) = dataReads log :=
  filterMap_skeleton _ (fun _ _ => rfl) log

theorem visits_skeleton (log : List DecodeEvent) :
    visits (skeleton log) = visits log :=
  filterMap_skeleton _ (fun _ _ => rfl) log

theorem exits_skeleton (log : List DecodeEvent) :
    exits (skeleton log) = exits log :=
  filterMap_skeleton _ (fun _ _ => rfl) log

set_option maxRecDepth 1000000 in
theorem isoSkeleton_iterations :
    iterations isoSkeleton = [(0, 256), (4, 252), (12, 244), (24, 232), (40, 216), (60, 196),
      (84, 172), (112, 144), (144, 112), (172, 84), (196, 60), (216, 40), (232, 24), (244, 12),
      (252, 4)] := by
  decide

set_option maxRecDepth 1000000 in
theorem isoSkeleton_tableIndices :
    tableIndices isoSkeleton
      = (List.range 15).flatMap (fun (y : Nat) => [(y : Int), (y : Int)]) := by
  decide

set_option maxRecDepth 1000000 in
theorem isoSkeleton_dataReads : dataReads isoSkeleton = List.range 256 := by
  decide

set_option maxRecDepth 1000000 in
theorem isoSkeleton_exits : exits isoSkeleton = [(256, 0)] := by
  decide

/-- The steps of the decoder on an isometric block, without the stores: a
beginning of `isoSkeleton`, and all of it when the block is decoded to the end. -/
theorem decodeBlockLog_isometric (pal : PaletteRec) (block : Block) (pixels : List Byte)
    (tileYOffset tileWidth : Int) (hformat : block.Format = .BlockFormatIsometric) :
    skeleton (decodeBlockLog pal block pixels tileYOffset tileWidth).1 <+: isoSkeleton ∧
      ∀ s, (decodeBlockLog pal block pixels tileYOffset tileWidth).2 = .ok s →
        skeleton (decodeBlockLog pal block pixels tileYOffset tileWidth).1 = isoSkeleton ∧
        s.length = 0 ∧ s.y = 15 ∧ s.idx = 256 := by
  unfold decodeBlockLog
  rw [if_pos hformat]
  exact isoOuterLog_skeleton pal block.EncodedData (toInt32 block.X) (toInt32 block.Y)
    tileYOffset tileWidth 15 0 256 0 pixels rfl (by omega)

/-! ### Isometric consumption and index safety (C16) -/

/-- C16: isometric consumption and index safety. For every isometric block,
every palette, offset, width and buffer, whatever the byte values and
`Block.Length`: the loop never evaluates `xjump` or `nbpix` outside 0..14, the
indices at which it reads the encoded bytes are 0, 1, 2, ... in increasing order
without repetition and below 256, and it starts at most 15 row iterations. When
the block is decoded to the end, which is the case whenever it has at least 256
encoded bytes and every non-zero byte has its destination in range, the loop
runs exactly the 15 row iterations (row y starting with nbpix[0]+...+nbpix[y-1]
bytes consumed), evaluates each of the two tables once at each y of 0..14, reads the encoded bytes at
exactly the indices 0..255, once each and in increasing order, and ends with
remaining length 0, `y` 15 and `idx` 256. -/
theorem isometric_consumption (pal : PaletteRec) (block : Block) (pixels : List Byte)
    (tileYOffset tileWidth : Int) (hformat : block.Format = .BlockFormatIsometric) :
    (decodeBlockLog pal block pixels tileYOffset tileWidth).2
        = decodeBlock pal block pixels tileYOffset tileWidth ∧
    (∀ i ∈ tableIndices (decodeBlockLog pal block pixels tileYOffset tileWidth).1,
      0 ≤ i ∧ i ≤ 14) ∧
    dataReads (decodeBlockLog pal block pixels tileYOffset tileWidth).1 <+: List.range 256 ∧
    (iterations (decodeBlockLog pal block pixels tileYOffset tileWidth).1).length ≤ 15 ∧
    (∀ s, decodeBlock pal block pixels tileYOffset tileWidth = .ok s →
      iterations (decodeBlockLog pal block pixels tileYOffset tileWidth).1
        = [(0, 256), (4, 252), (12, 244), (24, 232), (40, 216), (60, 196), (84, 172),
            (112, 144), (144, 112), (172, 84), (196, 60), (216, 40), (232, 24), (244, 12),
            (252, 4)] ∧
      tableIndices (decodeBlockLog pal block pixels tileYOffset tileWidth).1
        = (List.range 15).flatMap (fun (y : Nat) => [(y : Int), (y : Int)]) ∧
      dataReads (decodeBlockLog pal block pixels tileYOffset tileWidth).1 = List.range 256 ∧
      exits (decodeBlockLog pal block pixels tileYOffset tileWidth).1 = [(256, 0)] ∧
      s.length = 0 ∧ s.y = 15 ∧ s.idx = 256) ∧
    (256 ≤ block.EncodedData.length →
      (∀ y i, y < 15 → i < isoRowLength y → isoColor block y i ≠ 0 →
        0 ≤ isoOffset block tileYOffset tileWidth y i ∧
        isoOffset block tileYOffset tileWidth y i + 3 < pixels.length) →
      ∃ s, decodeBlock pal block pixels tileYOffset tileWidth = .ok s) := by
  obtain ⟨hpre, hok⟩ := decodeBlockLog_isometric pal block pixels tileYOffset tileWidth hformat
  have hres := decodeBlockLog_result pal block pixels tileYOffset tileWidth
  refine ⟨hres, ?_, ?_, ?_, ?_, ?_⟩
  · intro i hi
    rw [← tableIndices_skeleton] at hi
    have hmem := isPrefix_mem _ _ (isPrefix_filterMap _ _ _ hpre) i hi
    have hall : ∀ j ∈ tableIndices isoSkeleton, 0 ≤ j ∧ j ≤ 14 := by
      rw [isoSkeleton_tableIndices]
      decide
    exact hall i hmem
  · rw [← dataReads_skeleton, ← isoSkeleton_dataReads]
    exact isPrefix_filterMap _ _ _ hpre
  · rw [← iterations_skeleton]
    have hle := isPrefix_length_le _ _ (isPrefix_filterMap (fun e => match e with
      | .iteration idx length => some (idx, length)
      | _ => none) _ _ hpre)
    have h15 : (iterations isoSkeleton).length = 15 := by
      rw [isoSkeleton_iterations]
      rfl
    exact le_trans hle (le_of_eq h15)
  · intro s hs
    rw [← hres] at hs
    obtain ⟨heq, h1, h2, h3⟩ := hok s hs
    rw [← iterations_skeleton, ← tableIndices_skeleton, ← dataReads_skeleton, ← exits_skeleton,
      heq]
    exact ⟨isoSkeleton_iterations, isoSkeleton_tableIndices, isoSkeleton_dataReads,
      isoSkeleton_exits, h1, h2, h3⟩
  · intro hdata hrange
    obtain ⟨xend, h⟩ := decodeBlock_isometric pal block pixels tileYOffset tileWidth hformat
      hdata hrange
    exact ⟨_, h⟩

/-- Witness of C16: the block `onesBlock`, decoded into a zeroed buffer of 15
rows of 32 pixels, is read at the indices 0..255 and the loop ends with
remaining length 0. -/
theorem isometric_consumption_witness :
    dataReads (decodeBlockLog onesRegion.Palette onesBlock (List.replicate 1920 0) 0 32).1
        = List.range 256 ∧
      exits (decodeBlockLog onesRegion.Palette onesBlock (List.replicate 1920 0) 0 32).1
        = [(256, 0)] := by
  have h := isometric_consumption onesRegion.Palette onesBlock (List.replicate 1920 0) 0 32 rfl
  have hfits := isoOffset_of_fits onesBlock 0 32 (by decide) (by decide) (by decide)
    (by decide)
  obtain ⟨s, hs⟩ := h.2.2.2.2.2
    (by
      show 256 ≤ (List.replicate 256 (1 : Byte)).length
      rw [List.length_replicate])
    (fun y i hy hi _ => by
      obtain ⟨-, h0, h1⟩ := hfits.1 y i hy hi
      refine ⟨h0, lt_of_lt_of_le h1 ?_⟩
      rw [List.length_replicate]
      decide)
  have hall := h.2.2.2.2.1 s hs
  exact ⟨hall.2.2.1, hall.2.2.2.1⟩

set_option maxRecDepth 100000 in
/-- Counterexample to C16 as stated: the isometric block `onesBlock` has 256
encoded bytes, but decoded into an empty buffer the loop stops in its first
row iteration, at the first store, with an index-out-of-range panic: it has read
the encoded byte at index 0 only and has not ended with remaining length 0. -/
theorem isometric_consumption_needs_stores_in_range :
    onesBlock.Format = .BlockFormatIsometric ∧ onesBlock.EncodedData.length = 256 ∧
      decodeBlock onesRegion.Palette onesBlock [] 0 32 = .error (.panic .indexOutOfRange) ∧
      iterations (decodeBlockLog onesRegion.Palette onesBlock [] 0 32).1 = [(0, 256)] ∧
      dataReads (decodeBlockLog onesRegion.Palette onesBlock [] 0 32).1 = [0] ∧
      exits (decodeBlockLog onesRegion.Palette onesBlock [] 0 32).1 = [] := by
  refine ⟨rfl, ?_, ?_, ?_, ?_, ?_⟩
  · show (List.replicate 256 (1 : Byte)).length = 256
    rw [List.length_replicate]
  · rfl
  · rfl
  · rfl
  · rfl

/-! ### The diamond of an isometric block (C19) -/

theorem stores_append (l1 l2 : List DecodeEvent) : stores (l1 ++ l2) = stores l1 ++ stores l2 := by
  unfold stores
  rw [List.filterMap_append]

theorem visits_append (l1 l2 : List DecodeEvent) : visits (l1 ++ l2) = visits l1 ++ visits l2 := by
  unfold visits
  rw [List.filterMap_append]

/-- Every store of the inner loop is at the offset of a position that the loop
handles. -/
theorem isoInnerLog_stores (pal : PaletteRec) (data : List Byte)
    (blockX blockY tileYOffset tileWidth y : Int) (n : Nat) :
    ∀ (x : Int) (idx : Nat) (pixels : List Byte),
      ∀ o ∈ stores (isoInnerLog pal data blockX blockY tileYOffset tileWidth y n x idx pixels).1,
        ∃ p ∈ visits (isoInnerLog pal data blockX blockY tileYOffset tileWidth y n x idx
            pixels).1,
          o = pixelOffset blockX blockY p.1 p.2 tileYOffset tileWidth := by
  induction n with
  | zero =>
    intro x idx pixels o ho
    cases ho
  | succ n ih =>
    intro x idx pixels o
    have hplot : ∀ c, o ∈ stores (plotEvents pal c blockX blockY x y tileYOffset tileWidth) →
        o = pixelOffset blockX blockY x y tileYOffset tileWidth := by
      intro c hc
      unfold plotEvents at hc
      split at hc
      · exact List.mem_singleton.mp hc
      · cases hc
    rw [isoInnerLog]
    cases h1 : indexSlice data idx with
    | error e =>
      intro ho
      cases ho
    | ok c =>
      dsimp only
      cases h2 : plotPixel pal pixels c blockX blockY x y tileYOffset tileWidth with
      | error e =>
        dsimp only
        intro ho
        have ho2 : o ∈ stores (plotEvents pal c blockX blockY x y tileYOffset tileWidth) := ho
        exact ⟨(x, y), List.mem_cons_self _ _, hplot c ho2⟩
      | ok p =>
        dsimp only
        intro ho
        have ho2 : o ∈ stores (plotEvents pal c blockX blockY x y tileYOffset tileWidth
            ++ (isoInnerLog pal data blockX blockY tileYOffset tileWidth y n (addInt32 x 1)
                (idx + 1) p).1) := ho
        have hv : ∀ l : List DecodeEvent,
            visits (.read idx :: .visit x y ::
              (plotEvents pal c blockX blockY x y tileYOffset tileWidth ++ l))
              = (x, y) :: (visits (plotEvents pal c blockX blockY x y tileYOffset tileWidth)
                  ++ visits l) := by
          intro l
          rw [← visits_append]
          rfl
        rw [hv]
        rw [stores_append, List.mem_append] at ho2
        rcases ho2 with ho3 | ho3
        · exact ⟨(x, y), List.mem_cons_self _ _, hplot c ho3⟩
        · obtain ⟨q, hq, hoq⟩ := ih _ _ _ o ho3
          exact ⟨q, List.mem_cons_of_mem _ (List.mem_append_right _ hq), hoq⟩

/-- Every store of the isometric decoder is at the offset of a position that
the decoder handles. -/
theorem isoOuterLog_stores (pal : PaletteRec) (data : List Byte)
    (blockX blockY tileYOffset tileWidth : Int) (fuel : Nat) :
    ∀ s : DecodeState,
      ∀ o ∈ stores (isoOuterLog pal data blockX blockY tileYOffset tileWidth fuel s).1,
        ∃ p ∈ visits (isoOuterLog pal data blockX blockY tileYOffset tileWidth fuel s).1,
          o = pixelOffset blockX blockY p.1 p.2 tileYOffset tileWidth := by
  induction fuel with
  | zero =>
    intro s o
    rw [isoOuterLog]
    split
    · intro ho
      cases ho
    · intro ho
      cases ho
  | succ fuel ih =>
    intro s o
    by_cases hpos : s.length > 0
    · cases hx : indexSlice xjump s.y with
      | error e =>
        rw [isoOuterLog, if_pos hpos, hx]
        intro ho
        cases ho
      | ok x =>
        cases hn : indexSlice nbpix s.y with
        | error e =>
          rw [isoOuterLog, if_pos hpos, hx]
          dsimp only
          rw [hn]
          intro ho
          cases ho
        | ok n =>
          have hinner := isoInnerLog_stores pal data blockX blockY tileYOffset tileWidth s.y
            n.toNat x s.idx s.pixels o
          cases hr : (isoInnerLog pal data blockX blockY tileYOffset tileWidth s.y n.toNat x
              s.idx s.pixels).2 with
          | error e =>
            rw [isoOuterLog_step_error pal data blockX blockY tileYOffset tileWidth fuel s hpos
              x n e hx hn hr]
            exact hinner
          | ok r =>
            rw [isoOuterLog_step_ok pal data blockX blockY tileYOffset tileWidth fuel s hpos
              x n r hx hn hr]
            dsimp only
            intro ho
            have ho2 : o ∈ stores ((isoInnerLog pal data blockX blockY tileYOffset tileWidth
                s.y n.toNat x s.idx s.pixels).1
                ++ (isoOuterLog pal data blockX blockY tileYOffset tileWidth fuel
                      ⟨subInt32 s.length n, r.1, addInt32 s.y 1, r.2.1, r.2.2⟩).1) := ho
            have hv : ∀ l : List DecodeEvent,
                visits (.iteration s.idx s.length :: .table s.y :: .table s.y :: l)
                  = visits l := fun _ => rfl
            rw [hv, visits_append]
            rw [stores_append, List.mem_append] at ho2
            rcases ho2 with ho3 | ho3
            · obtain ⟨q, hq, hoq⟩ := hinner ho3
              exact ⟨q, List.mem_append_left _ hq, hoq⟩
            · obtain ⟨q, hq, hoq⟩ := ih _ o ho3
              exact ⟨q, List.mem_append_right _ hq, hoq⟩
    · rw [isoOuterLog_stop _ _ _ _ _ _ _ _ hpos]
      intro ho
      cases ho

set_option maxRecDepth 1000000 in
theorem isoSkeleton_visits :
    visits isoSkeleton = (List.range 15).flatMap (fun (y : Nat) =>
      (List.range (isoRowLength y)).map (fun (i : Nat) => (isoRowJump y + (i : Int), (y : Int)))) := by
  decide

theorem xjump_symmetric : ∀ y : Nat, y < 15 →
    xjump.getD (14 - y) 0 = xjump.getD y 0 ∧ nbpix.getD (14 - y) 0 = nbpix.getD y 0 ∧
    0 ≤ xjump.getD y 0 ∧ 2 * xjump.getD y 0 + nbpix.getD y 0 = 32 ∧
    0 ≤ nbpix.getD y 0 := by
  decide

/-- The positions that a completely decoded isometric block handles: rows 0 to
14, and in row `y` the columns from `xjump[y]` to `31 - xjump[y]`. -/
theorem mem_visits_isoSkeleton (x y : Int) :
    (x, y) ∈ visits isoSkeleton ↔
      0 ≤ y ∧ y < 15 ∧ xjump.getD y.toNat 0 ≤ x ∧ x < 32 - xjump.getD y.toNat 0 := by
  rw [isoSkeleton_visits, List.mem_flatMap]
  constructor
  · rintro ⟨r, hr, hm⟩
    rw [List.mem_range] at hr
    rw [List.mem_map] at hm
    obtain ⟨i, hi, hp⟩ := hm
    rw [List.mem_range] at hi
    obtain ⟨-, -, hj, hsum, hn⟩ := xjump_symmetric r hr
    unfold isoRowLength at hi
    unfold isoRowJump at hp
    have hx : xjump.getD r 0 + (i : Int) = x := congrArg Prod.fst hp
    have hy : (r : Int) = y := congrArg Prod.snd hp
    have hyn : y.toNat = r := by omega
    rw [hyn]
    generalize xjump.getD r 0 = J at hx hj hsum
    generalize nbpix.getD r 0 = N at hi hsum hn
    omega
  · rintro ⟨h0, h1, h2, h3⟩
    obtain ⟨-, -, hj, hsum, hn⟩ := xjump_symmetric y.toNat (by omega)
    refine ⟨y.toNat, List.mem_range.mpr (by omega), ?_⟩
    rw [List.mem_map]
    refine ⟨(x - xjump.getD y.toNat 0).toNat, ?_, ?_⟩
    · rw [List.mem_range]
      unfold isoRowLength
      generalize xjump.getD y.toNat 0 = J at h2 h3 hj hsum
      generalize nbpix.getD y.toNat 0 = N at hsum hn
      omega
    · unfold isoRowJump
      have hy : ((y.toNat : Nat) : Int) = y := Int.toNat_of_nonneg h0
      have hx : xjump.getD y.toNat 0 + (((x - xjump.getD y.toNat 0).toNat : Nat) : Int) = x := by
        generalize xjump.getD y.toNat 0 = J at h2
        omega
      rw [hx, hy]

/-! ### Vertical fit of the blocks of the extents tile (C20) -/

/-- The offset of a pixel is computed from its destination row. -/
theorem pixelOffset_eq_destRow (block : Block) (x y tileYOffset tileWidth : Int) :
    pixelOffset (toInt32 block.X) (toInt32 block.Y) x y tileYOffset tileWidth
      = mulInt32 4 (addInt32 (mulInt32 (destRow block y tileYOffset) tileWidth)
          (addInt32 (toInt32 block.X) x)) := rfl

/-- The values of a signed integer type of at most `k + 1` bits. -/
theorem toSigned_range (bits k : Nat) (i : Int) (h : bits ≤ k + 1) :
    -2 ^ k ≤ toSigned bits i ∧ toSigned bits i < 2 ^ k := by
  unfold toSigned
  have hP : (2 : Int) ^ (bits - 1) ≤ 2 ^ k := pow_le_pow_right₀ (by norm_num) (by omega)
  have hpos : (0 : Int) < 2 ^ bits := by positivity
  have h2 : (2 : Int) ^ bits ≤ 2 * 2 ^ (bits - 1) := by
    cases bits with
    | zero => norm_num
    | succ n =>
      rw [pow_succ]
      simp only [Nat.add_sub_cancel]
      omega
  have hm0 := Int.emod_nonneg (i + 2 ^ (bits - 1)) (ne_of_gt hpos)
  have hm1 := Int.emod_lt_of_pos (i + 2 ^ (bits - 1)) hpos
  constructor
  · linarith
  · linarith

theorem maxInt32_ge_right (a b : Int) : b ≤ MaxInt32 a b := by
  unfold MaxInt32
  split <;> omega

/-- The extents of a block list are `int32` values. -/
theorem blockExtents_range (coordBits : Nat) (blocks : List Block) :
    -2147483648 ≤ (blockExtents coordBits blocks).1 ∧
      (blockExtents coordBits blocks).2 < 2147483648 := by
  obtain ⟨-, -, h3⟩ := blockExtents_min coordBits blocks
  obtain ⟨-, -, h6⟩ := blockExtents_max coordBits blocks
  constructor
  · rcases h3 with h | ⟨b, -, h⟩
    · rw [h]; decide
    · rw [h]; exact (toInt32_range _).1
  · rcases h6 with h | ⟨b, -, h⟩
    · rw [h]; decide
    · rw [h]; exact (toInt32_range _).2

/-- With a coordinate type of at most 31 bits the height `maxY - minY` fits
`int32`. -/
theorem blockExtents_height_fits (coordBits : Nat) (blocks : List Block)
    (hbits : coordBits ≤ 31) (htyped : ∀ b ∈ blocks, toSigned coordBits b.Y = b.Y) :
    (blockExtents coordBits blocks).2 - (blockExtents coordBits blocks).1 < 2147483648 := by
  obtain ⟨h1, -, h3⟩ := blockExtents_min coordBits blocks
  obtain ⟨h4, -, h6⟩ := blockExtents_max coordBits blocks
  have hlo : -1073741824 ≤ (blockExtents coordBits blocks).1 := by
    rcases h3 with h | ⟨b, hb, h⟩
    · rw [h]; decide
    · rw [h]
      unfold blockTop
      have hr := (toSigned_range coordBits 30 b.Y (by omega)).1
      rw [htyped b hb] at hr
      norm_num at hr
      rw [toInt32_of_fits _ (by omega) (by
        have hr2 := (toSigned_range coordBits 30 b.Y (by omega)).2
        rw [htyped b hb] at hr2
        norm_num at hr2
        omega)]
      exact hr
  have hhi : (blockExtents coordBits blocks).2 < 1073741824 := by
    rcases h6 with h | ⟨b, hb, h⟩
    · rw [h]; decide
    · rw [h]
      unfold blockBottom
      have hr := toSigned_range coordBits 30 (b.Y + 32) (by omega)
      norm_num at hr
      rw [toInt32_of_fits _ (by omega) (by omega)]
      exact hr.2
  omega

/-- The rows of a block of the extents lie between 0 and `maxY - minY`. -/
theorem destRow_fit (coordBits : Nat) (blocks : List Block) (hbits : coordBits ≤ 32)
    (b : Block) (hb : b ∈ blocks) (htyped : toSigned coordBits b.Y = b.Y)
    (hsum : toSigned coordBits (b.Y + 32) = b.Y + 32)
    (hheight : (blockExtents coordBits blocks).2 - (blockExtents coordBits blocks).1
      < 2147483648)
    (y : Int) (hy0 : 0 ≤ y) (hy1 : y < 15) :
    destRow b y (negInt32 (blockExtents coordBits blocks).1)
        = b.Y + y - (blockExtents coordBits blocks).1 ∧
      0 ≤ destRow b y (negInt32 (blockExtents coordBits blocks).1) ∧
      destRow b y (negInt32 (blockExtents coordBits blocks).1)
        < subInt32 (blockExtents coordBits blocks).2 (blockExtents coordBits blocks).1 ∧
      subInt32 (blockExtents coordBits blocks).2 (blockExtents coordBits blocks).1
        = (blockExtents coordBits blocks).2 - (blockExtents coordBits blocks).1 := by
  obtain ⟨h1, h2, -⟩ := blockExtents_min coordBits blocks
  obtain ⟨h4, h5, -⟩ := blockExtents_max coordBits blocks
  obtain ⟨hlo, hhi⟩ := blockExtents_range coordBits blocks
  have hm := h2 b hb
  have hM := h5 b hb
  unfold blockTop at hm
  unfold blockBottom at hM
  rw [hsum] at hM
  have hr := toSigned_range coordBits 31 b.Y (by omega)
  rw [htyped] at hr
  have hr2 := toSigned_range coordBits 31 (b.Y + 32) (by omega)
  rw [hsum] at hr2
  norm_num at hr hr2
  rw [toInt32_of_fits _ hr.1 hr.2] at hm
  rw [toInt32_of_fits _ hr2.1 hr2.2] at hM
  generalize (blockExtents coordBits blocks).1 = m at *
  generalize (blockExtents coordBits blocks).2 = M at *
  have hY : toInt32 b.Y = b.Y := toInt32_of_fits _ hr.1 hr.2
  unfold destRow
  rw [hY]
  unfold addInt32 negInt32 subInt32 toInt32
  omega

/-- C20: vertical fit. Let the coordinate type of `Block.Y` have at most 32
bits. In `generateShadowCache`, for the shadow tile, and in `generateWallCache`,
for the tile whose blocks give `minY` and `maxY`: the blocks are decoded with
vertical offset `-minY` into a surface of height `maxY - minY` (shadow) or
`max(|Height|, maxY - minY)` (wall), and for every block of that tile whose
`Y` is a value of the coordinate type and whose `Y + 32` does not overflow it,
and every row y of 0..14, the destination row `block.Y + y + tileYOffset` that
the decoder computes equals `block.Y + y - minY` and satisfies
0 <= row < surface height, provided the height `maxY - minY` fits `int32`; it
does whenever the coordinate type has at most 31 bits. -/
theorem isometric_vertical_fit (coordBits : Nat) (v : Region) (hbits : coordBits ≤ 32) :
    (∀ (tile : FloorShadowRecord) (tileData : Tile),
      getTile v (toInt32 tile.MainIndex) (toInt32 tile.SubIndex) 13 = some tileData →
      generateShadowCache coordBits v tile =
        (makeBytes (mulInt32 (mulInt32 4 tileData.Width)
            (toInt32 (subInt32 (blockExtents coordBits tileData.Blocks).2
              (blockExtents coordBits tileData.Blocks).1)))).bind
          (fun zeroed =>
            (decodeTileGfxData v tileData.Blocks zeroed
              (negInt32 (blockExtents coordBits tileData.Blocks).1) tileData.Width).bind
            (fun pixels => .ok (some
              ⟨⟨tileData.Width, subInt32 (blockExtents coordBits tileData.Blocks).2
                  (blockExtents coordBits tileData.Blocks).1, pixels⟩,
                0, (blockExtents coordBits tileData.Blocks).1 + 80⟩))) ∧
      (coordBits ≤ 31 → (∀ b ∈ tileData.Blocks, toSigned coordBits b.Y = b.Y) →
        (blockExtents coordBits tileData.Blocks).2 - (blockExtents coordBits tileData.Blocks).1
          < 2147483648) ∧
      ∀ b ∈ tileData.Blocks, toSigned coordBits b.Y = b.Y →
        toSigned coordBits (b.Y + 32) = b.Y + 32 →
        (blockExtents coordBits tileData.Blocks).2 - (blockExtents coordBits tileData.Blocks).1
          < 2147483648 →
        ∀ y : Int, 0 ≤ y → y < 15 →
          destRow b y (negInt32 (blockExtents coordBits tileData.Blocks).1)
            = b.Y + y - (blockExtents coordBits tileData.Blocks).1 ∧
          0 ≤ destRow b y (negInt32 (blockExtents coordBits tileData.Blocks).1) ∧
          destRow b y (negInt32 (blockExtents coordBits tileData.Blocks).1)
            < subInt32 (blockExtents coordBits tileData.Blocks).2
                (blockExtents coordBits tileData.Blocks).1) ∧
    (∀ (tile : WallRecord) (tileData : Tile),
      getTile v (toInt32 tile.MainIndex) (toInt32 tile.SubIndex) (toInt32 tile.Orientation)
        = some tileData →
      generateWallCache coordBits v tile =
        (makeBytes (mulInt32 (mulInt32 4 160)
            (wallRealHeight coordBits tileData (wallSecondTile v tile)))).bind
          (fun zeroed =>
            (wallPixels v tileData (wallSecondTile v tile) zeroed
              (negInt32 (blockExtents coordBits
                (wallExtentTile tileData (wallSecondTile v tile)).Blocks).1)).bind
            (fun pixels => .ok (some
              ⟨⟨160, wallRealHeight coordBits tileData (wallSecondTile v tile), pixels⟩, 0,
                wallYAdjust tile tileData (blockExtents coordBits
                  (wallExtentTile tileData (wallSecondTile v tile)).Blocks).1⟩))) ∧
      (coordBits ≤ 31 →
        (∀ b ∈ (wallExtentTile tileData (wallSecondTile v tile)).Blocks,
          toSigned coordBits b.Y = b.Y) →
        (blockExtents coordBits (wallExtentTile tileData (wallSecondTile v tile)).Blocks).2
          - (blockExtents coordBits (wallExtentTile tileData (wallSecondTile v tile)).Blocks).1
          < 2147483648) ∧
      ∀ b ∈ (wallExtentTile tileData (wallSecondTile v tile)).Blocks,
        toSigned coordBits b.Y = b.Y → toSigned coordBits (b.Y + 32) = b.Y + 32 →
        (blockExtents coordBits (wallExtentTile tileData (wallSecondTile v tile)).Blocks).2
          - (blockExtents coordBits (wallExtentTile tileData (wallSecondTile v tile)).Blocks).1
          < 2147483648 →
        ∀ y : Int, 0 ≤ y → y < 15 →
          destRow b y (negInt32 (blockExtents coordBits
              (wallExtentTile tileData (wallSecondTile v tile)).Blocks).1)
            = b.Y + y - (blockExtents coordBits
                (wallExtentTile tileData (wallSecondTile v tile)).Blocks).1 ∧
          0 ≤ destRow b y (negInt32 (blockExtents coordBits
              (wallExtentTile tileData (wallSecondTile v tile)).Blocks).1) ∧
          destRow b y (negInt32 (blockExtents coordBits
              (wallExtentTile tileData (wallSecondTile v tile)).Blocks).1)
            < wallRealHeight coordBits tileData (wallSecondTile v tile)) := by
  constructor
  · intro tile tileData hfound
    refine ⟨generateShadowCache_found coordBits v tile tileData hfound,
      fun h31 htyped => blockExtents_height_fits coordBits _ h31 htyped, ?_⟩
    intro b hb htyped hsum hheight y hy0 hy1
    obtain ⟨e1, e2, e3, -⟩ := destRow_fit coordBits tileData.Blocks hbits b hb htyped hsum
      hheight y hy0 hy1
    exact ⟨e1, e2, e3⟩
  · intro tile tileData hfound
    refine ⟨generateWallCache_found coordBits v tile tileData hfound,
      fun h31 htyped => blockExtents_height_fits coordBits _ h31 htyped, ?_⟩
    intro b hb htyped hsum hheight y hy0 hy1
    obtain ⟨e1, e2, e3, -⟩ := destRow_fit coordBits
      (wallExtentTile tileData (wallSecondTile v tile)).Blocks hbits b hb htyped hsum
      hheight y hy0 hy1
    refine ⟨e1, e2, lt_of_lt_of_le e3 ?_⟩
    unfold wallRealHeight
    exact maxInt32_ge_right _ _

/-- Witness of C20 on `sampleRegion` with a 16-bit coordinate type: row 14 of the
block at `Y = -10` of the shadow tile (minimum -10, maximum 40) is decoded to
row 14 of a surface of height 50. -/
theorem isometric_vertical_fit_witness :
    destRow (dotBlock 0 (-10) 5) 14 (negInt32 (blockExtents 16 sampleShadowTile.Blocks).1) = 14 ∧
      subInt32 (blockExtents 16 sampleShadowTile.Blocks).2
        (blockExtents 16 sampleShadowTile.Blocks).1 = 50 ∧
      0 ≤ destRow (dotBlock 0 (-10) 5) 14 (negInt32 (blockExtents 16 sampleShadowTile.Blocks).1) ∧
      destRow (dotBlock 0 (-10) 5) 14 (negInt32 (blockExtents 16 sampleShadowTile.Blocks).1)
        < subInt32 (blockExtents 16 sampleShadowTile.Blocks).2
            (blockExtents 16 sampleShadowTile.Blocks).1 :=
  have h := ((isometric_vertical_fit 16 sampleRegion (by decide)).1 ⟨3, 4, 0⟩ sampleShadowTile
    (by decide)).2.2 (dotBlock 0 (-10) 5) (by decide) (by decide) (by decide) (by decide) 14
    (by decide) (by decide)
  ⟨by decide, by decide, h.2.1, h.2.2⟩

/-! ### The steps of the run-length decoder -/

theorem innerSkeleton_iterations (y : Int) (n : Nat) :
    ∀ (x : Int) (idx : Nat), iterations (innerSkeleton y n x idx) = [] ∧
      exits (innerSkeleton y n x idx) = [] ∧
      dataReads (innerSkeleton y n x idx) = List.range' idx n ∧
      (visits (innerSkeleton y n x idx)).length = n := by
  induction n with
  | zero => intro x idx; exact ⟨rfl, rfl, rfl, rfl⟩
  | succ n ih =>
    intro x idx
    obtain ⟨h1, h2, h3, h4⟩ := ih (addInt32 x 1) (idx + 1)
    refine ⟨h1, h2, ?_, ?_⟩
    · have e : dataReads (innerSkeleton y (n + 1) x idx)
          = idx :: dataReads (innerSkeleton y n (addInt32 x 1) (idx + 1)) := rfl
      rw [e, h3]
      rfl
    · have e : visits (innerSkeleton y (n + 1) x idx)
          = (x, y) :: visits (innerSkeleton y n (addInt32 x 1) (idx + 1)) := rfl
      rw [e, List.length_cons, h4]

theorem isPrefix_nil {α : Type} (l : List α) (h : l <+: []) : l = [] := by
  obtain ⟨t, ht⟩ := h
  exact (List.append_eq_nil.mp ht).1

/-- The inner loop of the run-length decoder starts and ends no outer
iteration, reads a beginning of the `n` indices from `idx` on, all of them when
it ends without panic, and handles at most `n` pixels, exactly `n` when it ends
without panic. -/
theorem rleInnerLog_events (pal : PaletteRec) (data : List Byte)
    (blockX blockY tileYOffset tileWidth y : Int) (n : Nat) (x : Int) (idx : Nat)
    (pixels : List Byte) :
    iterations (rleInnerLog pal data blockX blockY tileYOffset tileWidth y n x idx pixels).1
        = [] ∧
      exits (rleInnerLog pal data blockX blockY tileYOffset tileWidth y n x idx pixels).1
        = [] ∧
      dataReads (rleInnerLog pal data blockX blockY tileYOffset tileWidth y n x idx pixels).1
        <+: List.range' idx n ∧
      (visits (rleInnerLog pal data blockX blockY tileYOffset tileWidth y n x idx
        pixels).1).length ≤ n ∧
      ∀ r, (rleInnerLog pal data blockX blockY tileYOffset tileWidth y n x idx pixels).2
          = .ok r →
        dataReads (rleInnerLog pal data blockX blockY tileYOffset tileWidth y n x idx pixels).1
          = List.range' idx n ∧
        (visits (rleInnerLog pal data blockX blockY tileYOffset tileWidth y n x idx
          pixels).1).length = n ∧
        r.2.1 = idx + n := by
  rw [rleInnerLog_eq_isoInnerLog]
  obtain ⟨hpre, hok⟩ := isoInnerLog_skeleton pal data blockX blockY tileYOffset tileWidth y n x
    idx pixels
  obtain ⟨h1, h2, h3, h4⟩ := innerSkeleton_iterations y n x idx
  refine ⟨?_, ?_, ?_, ?_, ?_⟩
  · have h := isPrefix_filterMap (fun e => match e with
      | .iteration idx length => some (idx, length)
      | _ => none) _ _ hpre
    rw [← iterations_skeleton]
    apply isPrefix_nil
    rw [← h1]
    exact h
  · have h := isPrefix_filterMap (fun e => match e with
      | .exit idx length => some (idx, length)
      | _ => none) _ _ hpre
    rw [← exits_skeleton]
    apply isPrefix_nil
    rw [← h2]
    exact h
  · rw [← dataReads_skeleton, ← h3]
    exact isPrefix_filterMap _ _ _ hpre
  · rw [← visits_skeleton]
    have h := isPrefix_length_le _ _ (isPrefix_filterMap (fun e => match e with
      | .visit x y => some (x, y)
      | _ => none) _ _ hpre)
    exact le_trans h (le_of_eq h4)
  · intro r hr
    obtain ⟨heq, hidx⟩ := hok r hr
    rw [← dataReads_skeleton, ← visits_skeleton, heq]
    exact ⟨h3, h4, hidx⟩

theorem rleOuterLog_stop (pal : PaletteRec) (data : List Byte)
    (blockX blockY tileYOffset tileWidth : Int) (fuel : Nat) (s : DecodeState)
    (hstop : ¬ s.length > 0) :
    rleOuterLog pal data blockX blockY tileYOffset tileWidth fuel s
      = ([.exit s.idx s.length], .ok s) := by
  cases fuel with
  | zero => rw [rleOuterLog, if_neg hstop]
  | succ f => rw [rleOuterLog, if_neg hstop]

theorem rleOuterLog_step_row (pal : PaletteRec) (data : List Byte)
    (blockX blockY tileYOffset tileWidth : Int) (fuel : Nat) (s : DecodeState)
    (hpos : s.length > 0) (b1 b2 : Byte)
    (h1 : indexSlice data s.idx = .ok b1) (h2 : indexSlice data (s.idx + 1) = .ok b2)
    (hzero : (b1.val ||| b2.val) = 0) :
    rleOuterLog pal data blockX blockY tileYOffset tileWidth (fuel + 1) s
      = (.iteration s.idx s.length :: .read s.idx :: .read (s.idx + 1) ::
          (rleOuterLog pal data blockX blockY tileYOffset tileWidth fuel
            ⟨subInt32 s.length 2, 0, addInt32 s.y 1, s.idx + 2, s.pixels⟩).1,
          (rleOuterLog pal data blockX blockY tileYOffset tileWidth fuel
            ⟨subInt32 s.length 2, 0, addInt32 s.y 1, s.idx + 2, s.pixels⟩).2) := by
  rw [rleOuterLog, if_pos hpos, h1]
  dsimp only
  rw [h2]
  dsimp only
  rw [if_pos hzero]

theorem rleOuterLog_step_error (pal : PaletteRec) (data : List Byte)
    (blockX blockY tileYOffset tileWidth : Int) (fuel : Nat) (s : DecodeState)
    (hpos : s.length > 0) (b1 b2 : Byte) (e : Failure)
    (h1 : indexSlice data s.idx = .ok b1) (h2 : indexSlice data (s.idx + 1) = .ok b2)
    (hnz : ¬ (b1.val ||| b2.val) = 0)
    (hr : (rleInnerLog pal data blockX blockY tileYOffset tileWidth s.y b2.val
      (addInt32 s.x b1.val) (s.idx + 2) s.pixels).2 = .error e) :
    rleOuterLog pal data blockX blockY tileYOffset tileWidth (fuel + 1) s
      = (.iteration s.idx s.length :: .read s.idx :: .read (s.idx + 1) ::
          (rleInnerLog pal data blockX blockY tileYOffset tileWidth s.y b2.val
            (addInt32 s.x b1.val) (s.idx + 2) s.pixels).1, .error e) := by
  rw [rleOuterLog, if_pos hpos, h1]
  dsimp only
  rw [h2]
  dsimp only
  rw [if_neg hnz, hr]

theorem rleOuterLog_step_ok (pal : PaletteRec) (data : List Byte)
    (blockX blockY tileYOffset tileWidth : Int) (fuel : Nat) (s : DecodeState)
    (hpos : s.length > 0) (b1 b2 : Byte) (r : Int × Nat × List Byte)
    (h1 : indexSlice data s.idx = .ok b1) (h2 : indexSlice data (s.idx + 1) = .ok b2)
    (hnz : ¬ (b1.val ||| b2.val) = 0)
    (hr : (rleInnerLog pal data blockX blockY tileYOffset tileWidth s.y b2.val
      (addInt32 s.x b1.val) (s.idx + 2) s.pixels).2 = .ok r) :
    rleOuterLog pal data blockX blockY tileYOffset tileWidth (fuel + 1) s
      = (.iteration s.idx s.length :: .read s.idx :: .read (s.idx + 1) ::
          ((rleInnerLog pal data blockX blockY tileYOffset tileWidth s.y b2.val
              (addInt32 s.x b1.val) (s.idx + 2) s.pixels).1
            ++ (rleOuterLog pal data blockX blockY tileYOffset tileWidth fuel
                  ⟨subInt32 (subInt32 s.length 2) b2.val, r.1, s.y, r.2.1, r.2.2⟩).1),
          (rleOuterLog pal data blockX blockY tileYOffset tileWidth fuel
            ⟨subInt32 (subInt32 s.length 2) b2.val, r.1, s.y, r.2.1, r.2.2⟩).2) := by
  rw [rleOuterLog, if_pos hpos, h1]
  dsimp only
  rw [h2]
  dsimp only
  rw [if_neg hnz, hr]

theorem iterations_append (l1 l2 : List DecodeEvent) :
    iterations (l1 ++ l2) = iterations l1 ++ iterations l2 := by
  unfold iterations
  rw [List.filterMap_append]

theorem exits_append (l1 l2 : List DecodeEvent) :
    exits (l1 ++ l2) = exits l1 ++ exits l2 := by
  unfold exits
  rw [List.filterMap_append]

theorem dataReads_append (l1 l2 : List DecodeEvent) :
    dataReads (l1 ++ l2) = dataReads l1 ++ dataReads l2 := by
  unfold dataReads
  rw [List.filterMap_append]

/-- One started iteration of the run-length outer loop: either it panics, or
the loop goes on from a state whose `length` is smaller by 2 and by the second
byte of the pair and whose `idx` is greater by as much. -/
theorem rleOuterLog_step (pal : PaletteRec) (data : List Byte)
    (blockX blockY tileYOffset tileWidth : Int) (fuel : Nat) (s : DecodeState)
    (hpos : s.length > 0) :
    (∃ mid e, rleOuterLog pal data blockX blockY tileYOffset tileWidth (fuel + 1) s
        = (.iteration s.idx s.length :: mid, .error e) ∧
      iterations mid = [] ∧ exits mid = []) ∨
    (∃ mid s1, rleOuterLog pal data blockX blockY tileYOffset tileWidth (fuel + 1) s
        = (.iteration s.idx s.length ::
            (mid ++ (rleOuterLog pal data blockX blockY tileYOffset tileWidth fuel s1).1),
            (rleOuterLog pal data blockX blockY tileYOffset tileWidth fuel s1).2) ∧
      iterations mid = [] ∧ exits mid = [] ∧
      ∃ b2 : Byte, s1.length = subInt32 (subInt32 s.length 2) b2.val ∧
        s1.idx = s.idx + 2 + b2.val) := by
  cases h1 : indexSlice data s.idx with
  | error e =>
    left
    refine ⟨[.read s.idx], e, ?_, rfl, rfl⟩
    rw [rleOuterLog, if_pos hpos, h1]
  | ok b1 =>
    cases h2 : indexSlice data (s.idx + 1) with
    | error e =>
      left
      refine ⟨[.read s.idx, .read (s.idx + 1)], e, ?_, rfl, rfl⟩
      rw [rleOuterLog, if_pos hpos, h1]
      dsimp only
      rw [h2]
    | ok b2 =>
      by_cases hz : (b1.val ||| b2.val) = 0
      · right
        refine ⟨[.read s.idx, .read (s.idx + 1)],
          ⟨subInt32 s.length 2, 0, addInt32 s.y 1, s.idx + 2, s.pixels⟩, ?_, rfl, rfl, b2, ?_, ?_⟩
        · rw [rleOuterLog_step_row pal data blockX blockY tileYOffset tileWidth fuel s hpos b1 b2
            h1 h2 hz]
          rfl
        · have hb : b2.val = 0 := ((lor_eq_zero_iff _ _).mp hz).2
          rw [hb]
          dsimp only
          unfold subInt32
          rw [Nat.cast_zero, Int.sub_zero, toInt32_idem]
        · have hb : b2.val = 0 := ((lor_eq_zero_iff _ _).mp hz).2
          rw [hb]
      · obtain ⟨i1, i2, -, -, i5⟩ := rleInnerLog_events pal data blockX blockY tileYOffset
          tileWidth s.y b2.val (addInt32 s.x b1.val) (s.idx + 2) s.pixels
        cases hr : (rleInnerLog pal data blockX blockY tileYOffset tileWidth s.y b2.val
            (addInt32 s.x b1.val) (s.idx + 2) s.pixels).2 with
        | error e =>
          left
          refine ⟨.read s.idx :: .read (s.idx + 1) ::
            (rleInnerLog pal data blockX blockY tileYOffset tileWidth s.y b2.val
              (addInt32 s.x b1.val) (s.idx + 2) s.pixels).1, e, ?_, i1, i2⟩
          rw [rleOuterLog_step_error pal data blockX blockY tileYOffset tileWidth fuel s hpos
            b1 b2 e h1 h2 hz hr]
        | ok r =>
          right
          refine ⟨.read s.idx :: .read (s.idx + 1) ::
            (rleInnerLog pal data blockX blockY tileYOffset tileWidth s.y b2.val
              (addInt32 s.x b1.val) (s.idx + 2) s.pixels).1,
            ⟨subInt32 (subInt32 s.length 2) b2.val, r.1, s.y, r.2.1, r.2.2⟩, ?_, i1, i2, b2,
            rfl, (i5 r hr).2.2⟩
          rw [rleOuterLog_step_ok pal data blockX blockY tileYOffset tileWidth fuel s hpos
            b1 b2 r h1 h2 hz hr]
          rfl

theorem iterations_cons_iteration (idx : Nat) (length : Int) (l : List DecodeEvent) :
    iterations (.iteration idx length :: l) = (idx, length) :: iterations l := rfl

theorem exits_cons_iteration (idx : Nat) (length : Int) (l : List DecodeEvent) :
    exits (.iteration idx length :: l) = exits l := rfl

/-- At the start of every iteration of the run-length outer loop, and at its
end, `idx + length` has the value it had at the start of the loop. -/
theorem rleOuterLog_invariant (pal : PaletteRec) (data : List Byte)
    (blockX blockY tileYOffset tileWidth : Int) (total : Int) (fuel : Nat) :
    ∀ s : DecodeState, (s.idx : Int) + s.length = total → s.length < 2147483648 →
      (∀ it ∈ iterations (rleOuterLog pal data blockX blockY tileYOffset tileWidth fuel s).1,
        (it.1 : Int) + it.2 = total) ∧
      (∀ it ∈ exits (rleOuterLog pal data blockX blockY tileYOffset tileWidth fuel s).1,
        (it.1 : Int) + it.2 = total) := by
  induction fuel with
  | zero =>
    intro s hs _
    by_cases hpos : s.length > 0
    · rw [rleOuterLog, if_pos hpos]
      exact ⟨(fun it h => by cases h), (fun it h => by cases h)⟩
    · rw [rleOuterLog_stop _ _ _ _ _ _ _ _ hpos]
      refine ⟨(fun it h => by cases h), fun it h => ?_⟩
      have h2 : it ∈ [(s.idx, s.length)] := h
      rw [List.mem_singleton] at h2
      rw [h2]
      exact hs
  | succ fuel ih =>
    intro s hs hlt
    by_cases hpos : s.length > 0
    · rcases rleOuterLog_step pal data blockX blockY tileYOffset tileWidth fuel s hpos with
        ⟨mid, e, hlog, hm1, hm2⟩ | ⟨mid, s1, hlog, hm1, hm2, b2, hl, hi⟩
      · rw [hlog]
        dsimp only
        rw [iterations_cons_iteration, exits_cons_iteration, hm1, hm2]
        refine ⟨fun it h => ?_, (fun it h => by cases h)⟩
        rw [List.mem_singleton] at h
        rw [h]
        exact hs
      · rw [hlog]
        dsimp only
        rw [iterations_cons_iteration, exits_cons_iteration, iterations_append, exits_append,
          hm1, hm2, List.nil_append, List.nil_append]
        have hb := b2.isLt
        have hl1 : s1.length = s.length - 2 - (b2.val : Int) := by
          rw [hl]
          unfold subInt32 toInt32
          omega
        obtain ⟨g1, g2⟩ := ih s1 (by rw [hl1, hi]; push_cast; omega) (by omega)
        refine ⟨fun it h => ?_, g2⟩
        rcases List.mem_cons.mp h with h | h
        · rw [h]
          exact hs
        · exact g1 it h
    · rw [rleOuterLog_stop _ _ _ _ _ _ _ _ hpos]
      refine ⟨(fun it h => by cases h), fun it h => ?_⟩
      have h2 : it ∈ [(s.idx, s.length)] := h
      rw [List.mem_singleton] at h2
      rw [h2]
      exact hs

/-- From one started iteration of the run-length outer loop to the next,
`length` decreases by at least 2; the loop starts at most `(length + 1) / 2`
iterations. -/
theorem rleOuterLog_decrease (pal : PaletteRec) (data : List Byte)
    (blockX blockY tileYOffset tileWidth : Int) (fuel : Nat) :
    ∀ s : DecodeState,
      List.Chain' (fun a b : Nat × Int => b.2 ≤ a.2 - 2)
        (iterations (rleOuterLog pal data blockX blockY tileYOffset tileWidth fuel s).1) ∧
      (∀ it ∈ (iterations (rleOuterLog pal data blockX blockY tileYOffset tileWidth fuel
          s).1).head?, it.2 = s.length) ∧
      (iterations (rleOuterLog pal data blockX blockY tileYOffset tileWidth fuel s).1).length
        ≤ (s.length.toNat + 1) / 2 := by
  induction fuel with
  | zero =>
    intro s
    have hnil : iterations (rleOuterLog pal data blockX blockY tileYOffset tileWidth 0 s).1
        = [] := by
      rw [rleOuterLog]
      split <;> rfl
    rw [hnil]
    exact ⟨List.chain'_nil, (fun it h => by cases h), Nat.zero_le _⟩
  | succ fuel ih =>
    intro s
    by_cases hpos : s.length > 0
    · rcases rleOuterLog_step pal data blockX blockY tileYOffset tileWidth fuel s hpos with
        ⟨mid, e, hlog, hm1, hm2⟩ | ⟨mid, s1, hlog, hm1, hm2, b2, hl, hi⟩
      · rw [hlog]
        dsimp only
        rw [iterations_cons_iteration, hm1]
        refine ⟨List.chain'_singleton _, fun it h => ?_, ?_⟩
        · cases h
          rfl
        · rw [List.length_singleton]
          omega
      · rw [hlog]
        dsimp only
        rw [iterations_cons_iteration, iterations_append, hm1, List.nil_append]
        have hb := b2.isLt
        have hle : s1.length ≤ s.length - 2 := by
          rw [hl]
          unfold subInt32 toInt32
          omega
        obtain ⟨g1, g2, g3⟩ := ih s1
        refine ⟨List.Chain'.cons' g1 (fun it h => ?_), fun it h => ?_, ?_⟩
        · show it.2 ≤ s.length - 2
          rw [g2 it h]
          exact hle
        · cases h
          rfl
        · rw [List.length_cons]
          omega
    · rw [rleOuterLog_stop _ _ _ _ _ _ _ _ hpos]
      exact ⟨List.chain'_nil, (fun it h => by cases h), Nat.zero_le _⟩

theorem dataReads_cons_header (idx : Nat) (length : Int) (l : List DecodeEvent) :
    dataReads (.iteration idx length :: .read idx :: .read (idx + 1) :: l)
      = idx :: (idx + 1) :: dataReads l := rfl

theorem iterations_cons_header (idx : Nat) (length : Int) (l : List DecodeEvent) :
    iterations (.iteration idx length :: .read idx :: .read (idx + 1) :: l)
      = (idx, length) :: iterations l := rfl

theorem exits_cons_header (idx : Nat) (length : Int) (l : List DecodeEvent) :
    exits (.iteration idx length :: .read idx :: .read (idx + 1) :: l) = exits l := rfl

theorem range'_header (idx n : Nat) :
    List.range' idx (n + 2) = idx :: (idx + 1) :: List.range' (idx + 2) n := rfl

/-- The steps of the run-length outer loop on a stream of complete pairs found
at `idx`, with `length` the size of the stream: the indices read are a beginning
of `idx`, `idx + 1`, ..., one iteration is started for each pair handled, and
when the loop ends without panic all indices of the stream have been read, in
order, every pair has had its iteration, and the loop has ended with `length` 0. -/
theorem rleOuterLog_pairs (pal : PaletteRec) (data : List Byte)
    (blockX blockY tileYOffset tileWidth : Int) (ps : List RLEPair) :
    ∀ (rest : List Byte) (fuel : Nat) (x y : Int) (idx : Nat) (pixels : List Byte),
      (∀ p ∈ ps, p.payload.length = p.countB.val) →
      data.drop idx = encodePairs ps ++ rest →
      ((encodePairs ps).length : Int) < 2147483648 →
      (encodePairs ps).length ≤ fuel →
      dataReads (rleOuterLog pal data blockX blockY tileYOffset tileWidth fuel
          ⟨((encodePairs ps).length : Int), x, y, idx, pixels⟩).1
        <+: List.range' idx (encodePairs ps).length ∧
      (iterations (rleOuterLog pal data blockX blockY tileYOffset tileWidth fuel
          ⟨((encodePairs ps).length : Int), x, y, idx, pixels⟩).1).length ≤ ps.length ∧
      ∀ s, (rleOuterLog pal data blockX blockY tileYOffset tileWidth fuel
          ⟨((encodePairs ps).length : Int), x, y, idx, pixels⟩).2 = .ok s →
        dataReads (rleOuterLog pal data blockX blockY tileYOffset tileWidth fuel
            ⟨((encodePairs ps).length : Int), x, y, idx, pixels⟩).1
          = List.range' idx (encodePairs ps).length ∧
        (iterations (rleOuterLog pal data blockX blockY tileYOffset tileWidth fuel
            ⟨((encodePairs ps).length : Int), x, y, idx, pixels⟩).1).length = ps.length ∧
        exits (rleOuterLog pal data blockX blockY tileYOffset tileWidth fuel
            ⟨((encodePairs ps).length : Int), x, y, idx, pixels⟩).1
          = [(idx + (encodePairs ps).length, 0)] := by
  induction ps with
  | nil =>
    intro rest fuel x y idx pixels _ _ _ _
    rw [rleOuterLog_stop _ _ _ _ _ _ _ _ (by simp [encodePairs])]
    refine ⟨⟨[], rfl⟩, Nat.le_refl _, fun s _ => ⟨rfl, rfl, rfl⟩⟩
  | cons p ps ih =>
    intro rest fuel x y idx pixels hcomplete hdrop hint hfuel
    have hlen := encodePairs_cons_length p ps
    have hpay := hcomplete p (List.mem_cons_self _ _)
    have hcomplete1 : ∀ q ∈ ps, q.payload.length = q.countB.val :=
      fun q hq => hcomplete q (List.mem_cons_of_mem _ hq)
    obtain ⟨f, rfl⟩ : ∃ f, fuel = f + 1 := ⟨fuel - 1, by omega⟩
    have hd0 : data.drop idx = p.countA :: (p.countB :: (p.payload ++ encodePairs ps ++ rest)) := by
      rw [hdrop]
      simp [encodePairs]
    obtain ⟨ha, hd1⟩ := drop_cons_getElem? data idx _ _ hd0
    obtain ⟨hb, hd2⟩ := drop_cons_getElem? data (idx + 1) _ _ hd1
    have hpos : ((encodePairs (p :: ps)).length : Int) > 0 := by omega
    have hsub : subInt32 ((encodePairs (p :: ps)).length : Int) 2
        = ((encodePairs ps).length : Int) + (p.payload.length : Int) := by
      unfold subInt32
      rw [toInt32_of_fits _ (by omega) (by omega)]
      omega
    have hidx1 : indexSlice data ((idx : Nat) : Int) = .ok p.countA :=
      indexSlice_natCast data idx _ ha
    have hidx2 : indexSlice data ((idx : Int) + 1) = .ok p.countB := by
      have := indexSlice_natCast data (idx + 1) _ hb
      rw [Nat.cast_add, Nat.cast_one] at this
      exact this
    have hrange : List.range' idx (encodePairs (p :: ps)).length
        = idx :: (idx + 1) :: (List.range' (idx + 2) p.payload.length
            ++ List.range' (idx + 2 + p.payload.length) (encodePairs ps).length) := by
      rw [hlen, range'_header, List.range'_append_1]
    by_cases hz : (p.countA.val ||| p.countB.val) = 0
    · have hz1 := (byte_lor_eq_zero_iff _ _).1 hz
      have hnil : p.payload = [] := by
        apply List.eq_nil_of_length_eq_zero
        rw [hpay, hz1.2]
        rfl
      have hlen0 : p.payload.length = 0 := by rw [hnil]; rfl
      rw [rleOuterLog_step_row pal data blockX blockY tileYOffset tileWidth f _ hpos
        p.countA p.countB hidx1 hidx2 hz]
      dsimp only
      have hsub0 : subInt32 ((encodePairs (p :: ps)).length : Int) 2
          = ((encodePairs ps).length : Int) := by
        rw [hsub]
        omega
      have hd3 : data.drop (idx + 2) = encodePairs ps ++ rest := by
        rw [hd2, hnil]
        rfl
      rw [hsub0, dataReads_cons_header, iterations_cons_header, exits_cons_header, hrange,
        hlen0, List.range'_zero, List.nil_append]
      obtain ⟨g1, g2, g3⟩ := ih rest f 0 (addInt32 y 1) (idx + 2) pixels hcomplete1 hd3
        (by omega) (by omega)
      refine ⟨isPrefix_cons _ _ _ (isPrefix_cons _ _ _ g1), ?_, fun s hs => ?_⟩
      · rw [List.length_cons, List.length_cons]
        omega
      · obtain ⟨k1, k2, k3⟩ := g3 s hs
        rw [k1, k3, List.length_cons, List.length_cons, k2, hlen, hlen0]
        refine ⟨rfl, rfl, ?_⟩
        have e : idx + 2 + (encodePairs ps).length = idx + ((encodePairs ps).length + 0 + 2) := by
          omega
        rw [e]
    · obtain ⟨-, -, i3, -, i5⟩ := rleInnerLog_events pal data blockX blockY tileYOffset
        tileWidth y p.countB.val (addInt32 x p.countA.val) (idx + 2) pixels
      have hsub2 : subInt32 (subInt32 ((encodePairs (p :: ps)).length : Int) 2) p.countB.val
          = ((encodePairs ps).length : Int) := by
        rw [hsub]
        unfold subInt32
        rw [toInt32_of_fits _ (by omega) (by omega)]
        omega
      cases hr : (rleInnerLog pal data blockX blockY tileYOffset tileWidth y p.countB.val
          (addInt32 x p.countA.val) (idx + 2) pixels).2 with
      | error e =>
        rw [rleOuterLog_step_error pal data blockX blockY tileYOffset tileWidth f _ hpos
          p.countA p.countB e hidx1 hidx2 hz hr]
        dsimp only
        rw [dataReads_cons_header, iterations_cons_header, hrange, hpay]
        refine ⟨isPrefix_cons _ _ _ (isPrefix_cons _ _ _ (isPrefix_append_right _ _ _ i3)), ?_,
          fun s hs => by cases hs⟩
        rw [List.length_cons, List.length_cons,
          (rleInnerLog_events pal data blockX blockY tileYOffset tileWidth y p.countB.val
            (addInt32 x p.countA.val) (idx + 2) pixels).1]
        exact Nat.succ_le_succ (Nat.zero_le _)
      | ok r =>
        obtain ⟨j1, -, j3⟩ := i5 r hr
        rw [rleOuterLog_step_ok pal data blockX blockY tileYOffset tileWidth f _ hpos
          p.countA p.countB r hidx1 hidx2 hz hr]
        dsimp only
        have hd3 : data.drop (idx + 2 + p.countB.val) = encodePairs ps ++ rest := by
          rw [← List.drop_drop, hd2, ← hpay, List.append_assoc, List.drop_left]
        rw [hsub2, j3, dataReads_cons_header, iterations_cons_header, exits_cons_header,
          dataReads_append, iterations_append, exits_append, j1, hrange, hpay,
          (rleInnerLog_events pal data blockX blockY tileYOffset tileWidth y p.countB.val
            (addInt32 x p.countA.val) (idx + 2) pixels).1,
          (rleInnerLog_events pal data blockX blockY tileYOffset tileWidth y p.countB.val
            (addInt32 x p.countA.val) (idx + 2) pixels).2.1, List.nil_append, List.nil_append]
        obtain ⟨g1, g2, g3⟩ := ih rest f r.1 y (idx + 2 + p.countB.val) r.2.2 hcomplete1 hd3
          (by omega) (by omega)
        refine ⟨isPrefix_cons _ _ _ (isPrefix_cons _ _ _ (isPrefix_append_left _ _ _ g1)), ?_,
          fun s hs => ?_⟩
        · rw [List.length_cons, List.length_cons]
          omega
        · obtain ⟨k1, k2, k3⟩ := g3 s hs
          rw [k1, k3, List.length_cons, List.length_cons, k2, hlen, hpay]
          refine ⟨rfl, rfl, ?_⟩
          have e : idx + 2 + p.countB.val + (encodePairs ps).length
              = idx + ((encodePairs ps).length + p.countB.val + 2) := by
            omega
          rw [e]

/-! ### Run-length consumption (C17) -/

/-- C17: run-length consumption. For every non-isometric block (`Length` an
`int32`), palette, offset, width and buffer: at the start of every iteration of
the outer loop, and when the loop ends, `idx + length = Block.Length`. When the
encoded stream starts with a sequence of complete pairs with their payloads and
`Length` is the size of that sequence: the decoder reads a beginning of the
indices 0, 1, ..., Length-1, in order and once each, never an index >= Length,
and starts at most one iteration per pair; when the block is decoded to the end,
which is the case whenever every non-zero payload byte has its destination in
range, it reads exactly the indices 0..Length-1, has started one iteration for
each pair, and ends with remaining length 0 and `idx = Length`. A block with
`Length <= 0` starts no iteration, reads and stores nothing and leaves the
buffer as it is. -/
theorem runLength_consumption (pal : PaletteRec) (block : Block) (pixels : List Byte)
    (tileYOffset tileWidth : Int) (hformat : block.Format ≠ .BlockFormatIsometric)
    (hint : block.Length < 2147483648) :
    (decodeBlockLog pal block pixels tileYOffset tileWidth).2
        = decodeBlock pal block pixels tileYOffset tileWidth ∧
    (∀ it ∈ iterations (decodeBlockLog pal block pixels tileYOffset tileWidth).1,
      (it.1 : Int) + it.2 = block.Length) ∧
    (∀ it ∈ exits (decodeBlockLog pal block pixels tileYOffset tileWidth).1,
      (it.1 : Int) + it.2 = block.Length) ∧
    (∀ (pairs : List RLEPair) (rest : List Byte),
      (∀ p ∈ pairs, p.payload.length = p.countB.val) →
      block.EncodedData = encodePairs pairs ++ rest →
      block.Length = (encodePairs pairs).length →
      dataReads (decodeBlockLog pal block pixels tileYOffset tileWidth).1
        <+: List.range block.Length.toNat ∧
      (∀ i ∈ dataReads (decodeBlockLog pal block pixels tileYOffset tileWidth).1,
        (i : Int) < block.Length) ∧
      (iterations (decodeBlockLog pal block pixels tileYOffset tileWidth).1).length
        ≤ pairs.length ∧
      (∀ s, decodeBlock pal block pixels tileYOffset tileWidth = .ok s →
        dataReads (decodeBlockLog pal block pixels tileYOffset tileWidth).1
          = List.range block.Length.toNat ∧
        (iterations (decodeBlockLog pal block pixels tileYOffset tileWidth).1).length
          = pairs.length ∧
        exits (decodeBlockLog pal block pixels tileYOffset tileWidth).1
          = [(block.Length.toNat, 0)] ∧
        s.length = 0 ∧ s.idx = block.Length.toNat) ∧
      ((∀ o ∈ pairsOffsets (toInt32 block.X) (toInt32 block.Y) tileYOffset tileWidth pairs 0 0,
          0 ≤ o ∧ o + 3 < pixels.length) →
        ∃ s, decodeBlock pal block pixels tileYOffset tileWidth = .ok s)) ∧
    (block.Length ≤ 0 →
      decodeBlockLog pal block pixels tileYOffset tileWidth
        = ([.exit 0 block.Length], .ok ⟨block.Length, 0, 0, 0, pixels⟩)) := by
  have hres := decodeBlockLog_result pal block pixels tileYOffset tileWidth
  have hlog : decodeBlockLog pal block pixels tileYOffset tileWidth
      = rleOuterLog pal block.EncodedData (toInt32 block.X) (toInt32 block.Y) tileYOffset
          tileWidth block.Length.toNat ⟨block.Length, 0, 0, 0, pixels⟩ := by
    unfold decodeBlockLog
    rw [if_neg hformat]
  obtain ⟨hinv1, hinv2⟩ := rleOuterLog_invariant pal block.EncodedData (toInt32 block.X)
    (toInt32 block.Y) tileYOffset tileWidth block.Length block.Length.toNat
    ⟨block.Length, 0, 0, 0, pixels⟩ (by simp) hint
  refine ⟨hres, by rw [hlog]; exact hinv1, by rw [hlog]; exact hinv2, ?_, ?_⟩
  · intro pairs rest hcomplete hdata hlength
    have hdec : decodeBlock pal block pixels tileYOffset tileWidth
        = (runPairs pal (toInt32 block.X) (toInt32 block.Y) tileYOffset tileWidth pairs
            ⟨0, 0, pixels⟩).map
            (fun c => ⟨0, c.x, c.y, (encodePairs pairs).length, c.pixels⟩) := by
      unfold decodeBlock
      rw [if_neg hformat, hlength]
      have h := rleOuterLoop_eq_runPairs pal block.EncodedData (toInt32 block.X)
        (toInt32 block.Y) tileYOffset tileWidth pairs rest (encodePairs pairs).length 0 0 0
        pixels hcomplete (by rw [hdata]; rfl) (by rw [← hlength]; exact hint) (le_refl _)
      rw [Int.toNat_ofNat, h, Nat.zero_add]
    have hto : block.Length.toNat = (encodePairs pairs).length := by
      rw [hlength, Int.toNat_ofNat]
    obtain ⟨g1, g2, g3⟩ := rleOuterLog_pairs pal block.EncodedData (toInt32 block.X)
      (toInt32 block.Y) tileYOffset tileWidth pairs rest (encodePairs pairs).length 0 0 0 pixels
      hcomplete (by rw [hdata]; rfl) (by rw [← hlength]; exact hint) (le_refl _)
    rw [hlog, hto, hlength, List.range_eq_range']
    refine ⟨g1, fun i hi => ?_, g2, fun s hs => ?_, fun hr => ?_⟩
    · have hmem := isPrefix_mem _ _ g1 i hi
      rw [List.mem_range'_1] at hmem
      omega
    · have hs2 := hs
      rw [← hres, hlog, hto, hlength] at hs2
      obtain ⟨k1, k2, k3⟩ := g3 s hs2
      rw [Nat.zero_add] at k3
      refine ⟨k1, k2, k3, ?_⟩
      rw [hdec] at hs
      cases hrun : runPairs pal (toInt32 block.X) (toInt32 block.Y) tileYOffset tileWidth pairs
          ⟨0, 0, pixels⟩ with
      | error e =>
        rw [hrun] at hs
        cases hs
      | ok c =>
        rw [hrun] at hs
        cases hs
        exact ⟨rfl, rfl⟩
    · obtain ⟨c, hc, -⟩ := runPairs_of_inRange pal (toInt32 block.X) (toInt32 block.Y)
        tileYOffset tileWidth pairs 0 0 pixels hr
      rw [hdec, hc]
      exact ⟨_, rfl⟩
  · intro hle
    rw [hlog, rleOuterLog_stop _ _ _ _ _ _ _ _ (by simp; exact hle)]

/-- Witness of C17: `sampleRLEBlock` (stream `[2,3, 5,6,7, 0,0]`, `Length` 7),
decoded into a zeroed row of 8 pixels, is read at the indices 0..6 and the loop
ends with `idx` 7 and remaining length 0. -/
theorem runLength_consumption_witness :
    dataReads (decodeBlockLog greyPalette sampleRLEBlock (List.replicate 32 0) 0 8).1
        = List.range 7 ∧
      exits (decodeBlockLog greyPalette sampleRLEBlock (List.replicate 32 0) 0 8).1
        = [(7, 0)] := by
  have h := (runLength_consumption greyPalette sampleRLEBlock (List.replicate 32 0) 0 8
    (by decide) (by decide)).2.2.2.1 sampleRLEPairs [] (by decide) rfl rfl
  obtain ⟨s, hs⟩ := h.2.2.2.2 (by decide)
  have hall := h.2.2.2.1 s hs
  exact ⟨hall.1, hall.2.2.1⟩

/-- Counterexample to C17 as stated: the stream of `twoDotsBlock` is a sequence
of two complete pairs with their payloads and `Length` is its size, 6; decoded
into an empty buffer the decoder stops at the first store with an
index-out-of-range panic, having started one iteration and read the indices 0,
1 and 2 only, without reaching remaining length 0. -/
theorem runLength_consumption_needs_stores_in_range :
    twoDotsBlock.Format ≠ .BlockFormatIsometric ∧
      twoDotsBlock.EncodedData = encodePairs twoDotsPairs ∧
      (∀ p ∈ twoDotsPairs, p.payload.length = p.countB.val) ∧
      twoDotsBlock.Length = 6 ∧
      decodeBlock greyPalette twoDotsBlock [] 0 8 = .error (.panic .indexOutOfRange) ∧
      iterations (decodeBlockLog greyPalette twoDotsBlock [] 0 8).1 = [(0, 6)] ∧
      dataReads (decodeBlockLog greyPalette twoDotsBlock [] 0 8).1 = [0, 1, 2] ∧
      exits (decodeBlockLog greyPalette twoDotsBlock [] 0 8).1 = [] := by
  refine ⟨by decide, rfl, by decide, rfl, ?_, ?_, ?_, ?_⟩
  · rfl
  · rfl
  · rfl
  · rfl

/-! ### Termination of the decoder (C18) -/

set_option maxRecDepth 1000000 in
theorem isoSkeleton_visits_length : (visits isoSkeleton).length = 256 := by
  decide

/-- C18: decode termination. `decodeTileGfxData` and the decoding of each block
return for every input: a buffer, or the run-time panic of an out-of-range read
or write, never the exhaustion of the fuel of the embedding, malformed
run-length blocks included. For a run-length block of declared length L the
outer loop starts at most ceil(L / 2) iterations (none when L <= 0), and from
one started iteration to the next the remaining length decreases by at least 2;
the inner loop of a pair with second byte countB <= 255 handles at most countB
pixels, exactly countB when it ends without panic. For an isometric block the
outer loop starts at most 15 iterations and the inner loop handles at most 256
pixels in all. -/
theorem decode_terminates (v : Region) (pixels : List Byte) (tileYOffset tileWidth : Int) :
    (∀ blocks : List Block,
      (∃ out, decodeTileGfxData v blocks pixels tileYOffset tileWidth = .ok out) ∨
      (∃ kind, decodeTileGfxData v blocks pixels tileYOffset tileWidth
        = .error (.panic kind))) ∧
    (∀ block : Block,
      (decodeBlockLog v.Palette block pixels tileYOffset tileWidth).2
        = decodeBlock v.Palette block pixels tileYOffset tileWidth ∧
      ((∃ s, decodeBlock v.Palette block pixels tileYOffset tileWidth = .ok s) ∨
        (∃ kind, decodeBlock v.Palette block pixels tileYOffset tileWidth
          = .error (.panic kind))) ∧
      (block.Format ≠ .BlockFormatIsometric →
        (iterations (decodeBlockLog v.Palette block pixels tileYOffset tileWidth).1).length
          ≤ (block.Length.toNat + 1) / 2 ∧
        List.Chain' (fun a b : Nat × Int => b.2 ≤ a.2 - 2)
          (iterations (decodeBlockLog v.Palette block pixels tileYOffset tileWidth).1)) ∧
      (block.Format = .BlockFormatIsometric →
        (iterations (decodeBlockLog v.Palette block pixels tileYOffset tileWidth).1).length
          ≤ 15 ∧
        (visits (decodeBlockLog v.Palette block pixels tileYOffset tileWidth).1).length
          ≤ 256)) ∧
    (∀ (data : List Byte) (blockX blockY y x : Int) (idx : Nat) (countB : Byte),
      countB.val ≤ 255 ∧
      (visits (rleInnerLog v.Palette data blockX blockY tileYOffset tileWidth y countB.val x idx
        pixels).1).length ≤ countB.val ∧
      ∀ r, rleInnerLoop v.Palette data blockX blockY tileYOffset tileWidth y countB.val x idx
          pixels = .ok r →
        (visits (rleInnerLog v.Palette data blockX blockY tileYOffset tileWidth y countB.val x
          idx pixels).1).length = countB.val) := by
  have hcases : ∀ {α : Type} (x : Except Failure α), PanicOnly x →
      (∃ a, x = .ok a) ∨ (∃ kind, x = .error (.panic kind)) := by
    intro α x hx
    cases h : x with
    | ok a => exact Or.inl ⟨a, rfl⟩
    | error e =>
      obtain ⟨kind, hk⟩ := hx e h
      exact Or.inr ⟨kind, by rw [hk]⟩
  refine ⟨fun blocks => hcases _ (panicOnly_decodeTileGfxData v blocks pixels _ _),
    fun block => ⟨decodeBlockLog_result _ _ _ _ _,
      hcases _ (panicOnly_decodeBlock _ _ _ _ _), fun hformat => ?_, fun hformat => ?_⟩, ?_⟩
  · have hlog : decodeBlockLog v.Palette block pixels tileYOffset tileWidth
        = rleOuterLog v.Palette block.EncodedData (toInt32 block.X) (toInt32 block.Y)
            tileYOffset tileWidth block.Length.toNat ⟨block.Length, 0, 0, 0, pixels⟩ := by
      unfold decodeBlockLog
      rw [if_neg hformat]
    obtain ⟨g1, -, g3⟩ := rleOuterLog_decrease v.Palette block.EncodedData (toInt32 block.X)
      (toInt32 block.Y) tileYOffset tileWidth block.Length.toNat
      ⟨block.Length, 0, 0, 0, pixels⟩
    rw [hlog]
    exact ⟨g3, g1⟩
  · obtain ⟨hpre, -⟩ := decodeBlockLog_isometric v.Palette block pixels tileYOffset tileWidth
      hformat
    constructor
    · rw [← iterations_skeleton]
      have hle := isPrefix_length_le _ _ (isPrefix_filterMap (fun e => match e with
        | .iteration idx length => some (idx, length)
        | _ => none) _ _ hpre)
      have h15 : (iterations isoSkeleton).length = 15 := by
        rw [isoSkeleton_iterations]
        rfl
      exact le_trans hle (le_of_eq h15)
    · rw [← visits_skeleton]
      have hle := isPrefix_length_le _ _ (isPrefix_filterMap (fun e => match e with
        | .visit x y => some (x, y)
        | _ => none) _ _ hpre)
      exact le_trans hle (le_of_eq isoSkeleton_visits_length)
  · intro data blockX blockY y x idx countB
    obtain ⟨-, -, -, i4, i5⟩ := rleInnerLog_events v.Palette data blockX blockY tileYOffset
      tileWidth y countB.val x idx pixels
    refine ⟨Nat.le_of_lt_succ countB.isLt, i4, fun r hr => ?_⟩
    rw [← rleInnerLog_result] at hr
    exact (i5 r hr).2.1

/-- Witness of C18: the malformed run-length block with stream `[0, 200]` and
declared length 9 is decoded to a panic, after one started iteration (at most
ceil(9 / 2) = 5). -/
theorem decode_terminates_witness :
    decodeTileGfxData sampleRegion [⟨0, 0, .BlockFormatRLE, [0, 200], 9⟩] [] 0 8
        = .error (.panic .indexOutOfRange) ∧
      (iterations (decodeBlockLog sampleRegion.Palette ⟨0, 0, .BlockFormatRLE, [0, 200], 9⟩ []
        0 8).1).length ≤ (9 + 1) / 2 :=
  ⟨by rfl,
    (((decode_terminates sampleRegion [] 0 8).2.1 ⟨0, 0, .BlockFormatRLE, [0, 200], 9⟩).2.2.1
      (by decide)).1⟩

/-! ### The steps of the decoder do not depend on the contents of the buffer -/

theorem decodeTileLog_result (v : Region) (blocks : List Block) :
    ∀ (pixels : List Byte) (tileYOffset tileWidth : Int),
      (decodeTileLog v blocks pixels tileYOffset tileWidth).2
        = decodeTileGfxData v blocks pixels tileYOffset tileWidth := by
  induction blocks with
  | nil => intro pixels _ _; rfl
  | cons b bs ih =>
    intro pixels tileYOffset tileWidth
    rw [decodeTileLog, decodeTileGfxData, ← decodeBlockLog_result]
    cases h : (decodeBlockLog v.Palette b pixels tileYOffset tileWidth).2 with
    | error e => rfl
    | ok s =>
      dsimp only [bind, Except.bind]
      exact ih _ _ _

theorem logWrites_append (l1 l2 : List DecodeEvent) :
    logWrites (l1 ++ l2) = logWrites l1 ++ logWrites l2 := by
  unfold logWrites
  rw [List.filterMap_append]

theorem storeByte_ok (q : List Byte) (i : Int) (b : Byte) (q1 : List Byte)
    (h : storeByte q i b = .ok q1) : 0 ≤ i ∧ i < q.length ∧ q1.length = q.length := by
  unfold storeByte at h
  split at h
  · rename_i hr
    cases h
    exact ⟨hr.1, hr.2, List.length_set _ _ _⟩
  · cases h

theorem storeByte_error (q : List Byte) (i : Int) (b : Byte) (e : Failure)
    (h : storeByte q i b = .error e) : e = .panic .indexOutOfRange := by
  unfold storeByte at h
  split at h
  · cases h
  · cases h
    rfl

/-- A pixel store at an offset of the decoder that is not wholly inside the
buffer panics. -/
theorem storePixel_of_not_inRange (pixels : List Byte) (offset : Int) (c : PaletteRGB)
    (hdvd : ∃ k : Int, offset = 4 * k) (hhi : offset < 2147483648)
    (hout : ¬ (0 ≤ offset ∧ offset + 3 < pixels.length)) :
    storePixel pixels offset c = .error (.panic .indexOutOfRange) := by
  obtain ⟨k, hk⟩ := hdvd
  unfold storePixel
  cases h1 : storeByte pixels offset c.R with
  | error e => rw [storeByte_error _ _ _ _ h1]; rfl
  | ok q1 =>
    obtain ⟨a1, a2, a3⟩ := storeByte_ok _ _ _ _ h1
    dsimp only [bind, Except.bind]
    cases h2 : storeByte q1 (addInt32 offset 1) c.G with
    | error e => rw [storeByte_error _ _ _ _ h2]
    | ok q2 =>
      obtain ⟨b1, b2, b3⟩ := storeByte_ok _ _ _ _ h2
      dsimp only
      cases h3 : storeByte q2 (addInt32 offset 2) c.B with
      | error e => rw [storeByte_error _ _ _ _ h3]
      | ok q3 =>
        obtain ⟨c1, c2, c3⟩ := storeByte_ok _ _ _ _ h3
        dsimp only
        cases h4 : storeByte q3 (addInt32 offset 3) 255 with
        | error e => rw [storeByte_error _ _ _ _ h4]
        | ok q4 =>
          obtain ⟨d1, d2, d3⟩ := storeByte_ok _ _ _ _ h4
          exfalso
          apply hout
          have e3 : addInt32 offset 3 = offset + 3 := toInt32_of_fits _ (by omega) (by omega)
          rw [e3] at d2
          exact ⟨a1, by omega⟩

/-- The body `if colorIndex != 0 { ... }` on the buffers of `len` bytes: it
panics on all of them, or it performs on each the stores of its log, which lie
inside the buffer. -/
theorem plotPixel_uniform (pal : PaletteRec) (c : Byte)
    (blockX blockY x y tileYOffset tileWidth : Int) (len : Nat) :
    (∀ p : List Byte, p.length = len →
      plotPixel pal p c blockX blockY x y tileYOffset tileWidth
        = .error (.panic .indexOutOfRange)) ∨
    ((∀ p : List Byte, p.length = len →
      plotPixel pal p c blockX blockY x y tileYOffset tileWidth
        = .ok (paintAll p
            (logWrites (plotEvents pal c blockX blockY x y tileYOffset tileWidth)))) ∧
      ∀ wr ∈ logWrites (plotEvents pal c blockX blockY x y tileYOffset tileWidth),
        wr.1 % 4 = 0 ∧ wr.1 + 3 < len) := by
  by_cases hc : c ≠ 0
  · have hev : logWrites (plotEvents pal c blockX blockY x y tileYOffset tileWidth)
        = [((pixelOffset blockX blockY x y tileYOffset tileWidth).toNat, pal.Colors c)] := by
      unfold plotEvents
      rw [if_pos hc]
      rfl
    by_cases hr : 0 ≤ pixelOffset blockX blockY x y tileYOffset tileWidth ∧
        pixelOffset blockX blockY x y tileYOffset tileWidth + 3 < len
    · right
      rw [hev]
      refine ⟨fun p hp => ?_, fun wr hwr => ?_⟩
      · unfold plotPixel
        rw [if_pos hc, storePixel_eq_paintPixel _ _ _ (pixelOffset_dvd _ _ _ _ _ _)
          (pixelOffset_lt _ _ _ _ _ _) hr.1 (by rw [hp]; exact hr.2)]
        rfl
      · rw [List.mem_singleton] at hwr
        rw [hwr]
        refine ⟨pixelOffset_toNat_mod _ _ _ _ _ _, ?_⟩
        dsimp only
        omega
    · left
      intro p hp
      unfold plotPixel
      rw [if_pos hc, storePixel_of_not_inRange _ _ _ (pixelOffset_dvd _ _ _ _ _ _)
        (pixelOffset_lt _ _ _ _ _ _) (by rw [hp]; exact hr)]
  · right
    have hev : logWrites (plotEvents pal c blockX blockY x y tileYOffset tileWidth) = [] := by
      unfold plotEvents
      rw [if_neg hc]
      rfl
    rw [hev]
    refine ⟨fun p _ => ?_, fun wr hwr => by cases hwr⟩
    unfold plotPixel
    rw [if_neg hc]
    rfl

/-- The inner loop on the buffers of `len` bytes: its log is the same for all of
them, and either it panics on all of them, or it returns the same `x` and `idx`
for all and performs on each the stores of its log, which lie inside the
buffer. -/
theorem isoInnerLog_uniform (pal : PaletteRec) (data : List Byte)
    (blockX blockY tileYOffset tileWidth y : Int) (len : Nat) (n : Nat) :
    ∀ (x : Int) (idx : Nat),
      ∃ log : List DecodeEvent,
        (∃ e, ∀ p : List Byte, p.length = len →
          isoInnerLog pal data blockX blockY tileYOffset tileWidth y n x idx p
            = (log, .error e)) ∨
        (∃ (x1 : Int) (idx1 : Nat),
          (∀ p : List Byte, p.length = len →
            isoInnerLog pal data blockX blockY tileYOffset tileWidth y n x idx p
              = (log, .ok (x1, idx1, paintAll p (logWrites log)))) ∧
          ∀ wr ∈ logWrites log, wr.1 % 4 = 0 ∧ wr.1 + 3 < len) := by
  induction n with
  | zero =>
    intro x idx
    exact ⟨[], Or.inr ⟨x, idx, fun p _ => rfl, fun wr hwr => by cases hwr⟩⟩
  | succ n ih =>
    intro x idx
    cases h1 : indexSlice data idx with
    | error e =>
      refine ⟨[.read idx], Or.inl ⟨e, fun p _ => ?_⟩⟩
      rw [isoInnerLog, h1]
    | ok c =>
      rcases plotPixel_uniform pal c blockX blockY x y tileYOffset tileWidth len with
        hfail | ⟨hplot, hin⟩
      · refine ⟨.read idx :: .visit x y ::
          plotEvents pal c blockX blockY x y tileYOffset tileWidth,
          Or.inl ⟨.panic .indexOutOfRange, fun p hp => ?_⟩⟩
        rw [isoInnerLog, h1]
        dsimp only
        rw [hfail p hp]
      · obtain ⟨log1, hrest⟩ := ih (addInt32 x 1) (idx + 1)
        have hlw : logWrites (.read idx :: .visit x y ::
            (plotEvents pal c blockX blockY x y tileYOffset tileWidth ++ log1))
            = logWrites (plotEvents pal c blockX blockY x y tileYOffset tileWidth)
              ++ logWrites log1 := by
          rw [← logWrites_append]
          rfl
        refine ⟨.read idx :: .visit x y ::
          (plotEvents pal c blockX blockY x y tileYOffset tileWidth ++ log1), ?_⟩
        rcases hrest with ⟨e, he⟩ | ⟨x1, idx1, hok, hin1⟩
        · refine Or.inl ⟨e, fun p hp => ?_⟩
          rw [isoInnerLog, h1]
          dsimp only
          rw [hplot p hp]
          dsimp only
          rw [he _ (by rw [paintAll_length]; exact hp)]
        · refine Or.inr ⟨x1, idx1, fun p hp => ?_, fun wr hwr => ?_⟩
          · rw [isoInnerLog, h1]
            dsimp only
            rw [hplot p hp]
            dsimp only
            rw [hok _ (by rw [paintAll_length]; exact hp), hlw, paintAll_append]
          · rw [hlw, List.mem_append] at hwr
            rcases hwr with h | h
            · exact hin wr h
            · exact hin1 wr h

theorem logWrites_row_header (idx : Nat) (length t : Int) (l : List DecodeEvent) :
    logWrites (.iteration idx length :: .table t :: .table t :: l) = logWrites l := rfl

theorem logWrites_pair_header (idx : Nat) (length : Int) (l : List DecodeEvent) :
    logWrites (.iteration idx length :: .read idx :: .read (idx + 1) :: l) = logWrites l := rfl

/-- The outer loop of the isometric decoder on the buffers of `len` bytes: its
log is the same for all of them, and either it fails on all of them, or it
returns the same loop variables for all and performs on each the stores of its
log, which lie inside the buffer. -/
theorem isoOuterLog_uniform (pal : PaletteRec) (data : List Byte)
    (blockX blockY tileYOffset tileWidth : Int) (len : Nat) (fuel : Nat) :
    ∀ (l x y : Int) (idx : Nat),
      ∃ log : List DecodeEvent,
        (∃ e, ∀ p : List Byte, p.length = len →
          isoOuterLog pal data blockX blockY tileYOffset tileWidth fuel ⟨l, x, y, idx, p⟩
            = (log, .error e)) ∨
        (∃ (l1 x1 y1 : Int) (idx1 : Nat),
          (∀ p : List Byte, p.length = len →
            isoOuterLog pal data blockX blockY tileYOffset tileWidth fuel ⟨l, x, y, idx, p⟩
              = (log, .ok ⟨l1, x1, y1, idx1, paintAll p (logWrites log)⟩)) ∧
          ∀ wr ∈ logWrites log, wr.1 % 4 = 0 ∧ wr.1 + 3 < len) := by
  induction fuel with
  | zero =>
    intro l x y idx
    by_cases hpos : l > 0
    · refine ⟨[], Or.inl ⟨.fuel, fun p _ => ?_⟩⟩
      rw [isoOuterLog, if_pos hpos]
    · refine ⟨[.exit idx l], Or.inr ⟨l, x, y, idx, fun p _ => ?_, fun wr hwr => by cases hwr⟩⟩
      rw [isoOuterLog, if_neg hpos]
      rfl
  | succ fuel ih =>
    intro l x y idx
    by_cases hpos : l > 0
    · cases hx : indexSlice xjump y with
      | error e =>
        refine ⟨[.iteration idx l, .table y], Or.inl ⟨e, fun p _ => ?_⟩⟩
        rw [isoOuterLog, if_pos hpos]
        dsimp only
        rw [hx]
      | ok xj =>
        cases hn : indexSlice nbpix y with
        | error e =>
          refine ⟨[.iteration idx l, .table y, .table y], Or.inl ⟨e, fun p _ => ?_⟩⟩
          rw [isoOuterLog, if_pos hpos]
          dsimp only
          rw [hx]
          dsimp only
          rw [hn]
        | ok nn =>
          obtain ⟨log1, hinner⟩ := isoInnerLog_uniform pal data blockX blockY tileYOffset
            tileWidth y len nn.toNat xj idx
          rcases hinner with ⟨e, he⟩ | ⟨x1, idx1, hok, hin1⟩
          · refine ⟨.iteration idx l :: .table y :: .table y :: log1,
              Or.inl ⟨e, fun p hp => ?_⟩⟩
            have h := he p hp
            rw [isoOuterLog_step_error pal data blockX blockY tileYOffset tileWidth fuel
              ⟨l, x, y, idx, p⟩ hpos xj nn e hx hn (by rw [h])]
            dsimp only
            rw [h]
          · obtain ⟨log2, hrest⟩ := ih (subInt32 l nn) x1 (addInt32 y 1) idx1
            refine ⟨.iteration idx l :: .table y :: .table y :: (log1 ++ log2), ?_⟩
            rcases hrest with ⟨e, he⟩ | ⟨l2, x2, y2, idx2, hok2, hin2⟩
            · refine Or.inl ⟨e, fun p hp => ?_⟩
              have h := hok p hp
              rw [isoOuterLog_step_ok pal data blockX blockY tileYOffset tileWidth fuel
                ⟨l, x, y, idx, p⟩ hpos xj nn (x1, idx1, paintAll p (logWrites log1)) hx hn
                (by rw [h])]
              dsimp only
              rw [h, he _ (by rw [paintAll_length]; exact hp)]
            · refine Or.inr ⟨l2, x2, y2, idx2, fun p hp => ?_, fun wr hwr => ?_⟩
              · have h := hok p hp
                rw [isoOuterLog_step_ok pal data blockX blockY tileYOffset tileWidth fuel
                  ⟨l, x, y, idx, p⟩ hpos xj nn (x1, idx1, paintAll p (logWrites log1)) hx hn
                  (by rw [h])]
                dsimp only
                rw [h, hok2 _ (by rw [paintAll_length]; exact hp), logWrites_row_header,
                  logWrites_append, paintAll_append]
              · rw [logWrites_row_header, logWrites_append, List.mem_append] at hwr
                rcases hwr with h | h
                · exact hin1 wr h
                · exact hin2 wr h
    · refine ⟨[.exit idx l], Or.inr ⟨l, x, y, idx, fun p _ => ?_, fun wr hwr => by cases hwr⟩⟩
      rw [isoOuterLog_stop _ _ _ _ _ _ _ _ hpos]
      rfl

/-- The outer loop of the run-length decoder on the buffers of `len` bytes: its
log is the same for all of them, and either it fails on all of them, or it
returns the same loop variables for all and performs on each the stores of its
log, which lie inside the buffer. -/
theorem rleOuterLog_uniform (pal : PaletteRec) (data : List Byte)
    (blockX blockY tileYOffset tileWidth : Int) (len : Nat) (fuel : Nat) :
    ∀ (l x y : Int) (idx : Nat),
      ∃ log : List DecodeEvent,
        (∃ e, ∀ p : List Byte, p.length = len →
          rleOuterLog pal data blockX blockY tileYOffset tileWidth fuel ⟨l, x, y, idx, p⟩
            = (log, .error e)) ∨
        (∃ (l1 x1 y1 : Int) (idx1 : Nat),
          (∀ p : List Byte, p.length = len →
            rleOuterLog pal data blockX blockY tileYOffset tileWidth fuel ⟨l, x, y, idx, p⟩
              = (log, .ok ⟨l1, x1, y1, idx1, paintAll p (logWrites log)⟩)) ∧
          ∀ wr ∈ logWrites log, wr.1 % 4 = 0 ∧ wr.1 + 3 < len) := by
  induction fuel with
  | zero =>
    intro l x y idx
    by_cases hpos : l > 0
    · refine ⟨[], Or.inl ⟨.fuel, fun p _ => ?_⟩⟩
      rw [rleOuterLog, if_pos hpos]
    · refine ⟨[.exit idx l], Or.inr ⟨l, x, y, idx, fun p _ => ?_, fun wr hwr => by cases hwr⟩⟩
      rw [rleOuterLog, if_neg hpos]
      rfl
  | succ fuel ih =>
    intro l x y idx
    by_cases hpos : l > 0
    · cases h1 : indexSlice data idx with
      | error e =>
        refine ⟨[.iteration idx l, .read idx], Or.inl ⟨e, fun p _ => ?_⟩⟩
        rw [rleOuterLog, if_pos hpos]
        dsimp only
        rw [h1]
      | ok b1 =>
        cases h2 : indexSlice data ((idx : Int) + 1) with
        | error e =>
          refine ⟨[.iteration idx l, .read idx, .read (idx + 1)], Or.inl ⟨e, fun p _ => ?_⟩⟩
          rw [rleOuterLog, if_pos hpos]
          dsimp only
          rw [h1]
          dsimp only
          rw [h2]
        | ok b2 =>
          by_cases hz : (b1.val ||| b2.val) = 0
          · obtain ⟨log2, hrest⟩ := ih (subInt32 l 2) 0 (addInt32 y 1) (idx + 2)
            refine ⟨.iteration idx l :: .read idx :: .read (idx + 1) :: log2, ?_⟩
            rcases hrest with ⟨e, he⟩ | ⟨l2, x2, y2, idx2, hok2, hin2⟩
            · refine Or.inl ⟨e, fun p hp => ?_⟩
              rw [rleOuterLog_step_row pal data blockX blockY tileYOffset tileWidth fuel
                ⟨l, x, y, idx, p⟩ hpos b1 b2 h1 h2 hz]
              dsimp only
              rw [he p hp]
            · refine Or.inr ⟨l2, x2, y2, idx2, fun p hp => ?_, fun wr hwr => hin2 wr hwr⟩
              rw [rleOuterLog_step_row pal data blockX blockY tileYOffset tileWidth fuel
                ⟨l, x, y, idx, p⟩ hpos b1 b2 h1 h2 hz]
              dsimp only
              rw [hok2 p hp, logWrites_pair_header]
          · obtain ⟨log1, hinner⟩ := isoInnerLog_uniform pal data blockX blockY tileYOffset
              tileWidth y len b2.val (addInt32 x b1.val) (idx + 2)
            rcases hinner with ⟨e, he⟩ | ⟨x1, idx1, hok, hin1⟩
            · refine ⟨.iteration idx l :: .read idx :: .read (idx + 1) :: log1,
                Or.inl ⟨e, fun p hp => ?_⟩⟩
              have h := he p hp
              rw [← rleInnerLog_eq_isoInnerLog] at h
              rw [rleOuterLog_step_error pal data blockX blockY tileYOffset tileWidth fuel
                ⟨l, x, y, idx, p⟩ hpos b1 b2 e h1 h2 hz (by rw [h])]
              dsimp only
              rw [h]
            · obtain ⟨log2, hrest⟩ := ih (subInt32 (subInt32 l 2) b2.val) x1 y idx1
              refine ⟨.iteration idx l :: .read idx :: .read (idx + 1) :: (log1 ++ log2), ?_⟩
              rcases hrest with ⟨e, he⟩ | ⟨l2, x2, y2, idx2, hok2, hin2⟩
              · refine Or.inl ⟨e, fun p hp => ?_⟩
                have h := hok p hp
                rw [← rleInnerLog_eq_isoInnerLog] at h
                rw [rleOuterLog_step_ok pal data blockX blockY tileYOffset tileWidth fuel
                  ⟨l, x, y, idx, p⟩ hpos b1 b2 (x1, idx1, paintAll p (logWrites log1)) h1 h2 hz
                  (by rw [h])]
                dsimp only
                rw [h, he _ (by rw [paintAll_length]; exact hp)]
              · refine Or.inr ⟨l2, x2, y2, idx2, fun p hp => ?_, fun wr hwr => ?_⟩
                · have h := hok p hp
                  rw [← rleInnerLog_eq_isoInnerLog] at h
                  rw [rleOuterLog_step_ok pal data blockX blockY tileYOffset tileWidth fuel
                    ⟨l, x, y, idx, p⟩ hpos b1 b2 (x1, idx1, paintAll p (logWrites log1)) h1 h2
                    hz (by rw [h])]
                  dsimp only
                  rw [h, hok2 _ (by rw [paintAll_length]; exact hp), logWrites_pair_header,
                    logWrites_append, paintAll_append]
                · rw [logWrites_pair_header, logWrites_append, List.mem_append] at hwr
                  rcases hwr with h | h
                  · exact hin1 wr h
                  · exact hin2 wr h
    · refine ⟨[.exit idx l], Or.inr ⟨l, x, y, idx, fun p _ => ?_, fun wr hwr => by cases hwr⟩⟩
      rw [rleOuterLog_stop _ _ _ _ _ _ _ _ hpos]
      rfl

/-- The decoding of a block list on the buffers of `len` bytes: the log is the
same for all of them, and either the decoding fails on all of them, or it
performs on each the stores of the log, which lie inside the buffer. -/
theorem decodeTileLog_uniform (v : Region) (tileYOffset tileWidth : Int) (len : Nat)
    (blocks : List Block) :
    ∃ log : List DecodeEvent,
      (∃ e, ∀ p : List Byte, p.length = len →
        decodeTileLog v blocks p tileYOffset tileWidth = (log, .error e)) ∨
      ((∀ p : List Byte, p.length = len →
        decodeTileLog v blocks p tileYOffset tileWidth
          = (log, .ok (paintAll p (logWrites log)))) ∧
        ∀ wr ∈ logWrites log, wr.1 % 4 = 0 ∧ wr.1 + 3 < len) := by
  induction blocks with
  | nil =>
    exact ⟨[], Or.inr ⟨fun p _ => rfl, fun wr hwr => by cases hwr⟩⟩
  | cons b bs ih =>
    have hblock : ∃ log : List DecodeEvent,
        (∃ e, ∀ p : List Byte, p.length = len →
          decodeBlockLog v.Palette b p tileYOffset tileWidth = (log, .error e)) ∨
        (∃ (l1 x1 y1 : Int) (idx1 : Nat),
          (∀ p : List Byte, p.length = len →
            decodeBlockLog v.Palette b p tileYOffset tileWidth
              = (log, .ok ⟨l1, x1, y1, idx1, paintAll p (logWrites log)⟩)) ∧
          ∀ wr ∈ logWrites log, wr.1 % 4 = 0 ∧ wr.1 + 3 < len) := by
      unfold decodeBlockLog
      by_cases hf : b.Format = .BlockFormatIsometric
      · simp only [if_pos hf]
        exact isoOuterLog_uniform _ _ _ _ _ _ _ _ _ _ _ _
      · simp only [if_neg hf]
        exact rleOuterLog_uniform _ _ _ _ _ _ _ _ _ _ _ _
    obtain ⟨log1, h1⟩ := hblock
    rcases h1 with ⟨e, he⟩ | ⟨l1, x1, y1, idx1, hok, hin1⟩
    · refine ⟨log1, Or.inl ⟨e, fun p hp => ?_⟩⟩
      rw [decodeTileLog, he p hp]
    · obtain ⟨log2, h2⟩ := ih
      refine ⟨log1 ++ log2, ?_⟩
      rcases h2 with ⟨e, he⟩ | ⟨hok2, hin2⟩
      · refine Or.inl ⟨e, fun p hp => ?_⟩
        rw [decodeTileLog, hok p hp]
        dsimp only
        rw [he _ (by rw [paintAll_length]; exact hp)]
      · refine Or.inr ⟨fun p hp => ?_, fun wr hwr => ?_⟩
        · rw [decodeTileLog, hok p hp]
          dsimp only
          rw [hok2 _ (by rw [paintAll_length]; exact hp), logWrites_append, paintAll_append]
        · rw [logWrites_append, List.mem_append] at hwr
          rcases hwr with h | h
          · exact hin1 wr h
          · exact hin2 wr h

/-! ### Stores of constants: repetition and order -/

theorem applySets_append (p : List Byte) (ops1 ops2 : List (Nat × Byte)) :
    applySets p (ops1 ++ ops2) = applySets (applySets p ops1) ops2 := by
  unfold applySets
  rw [List.foldl_append]

theorem applySets_cons (p : List Byte) (op : Nat × Byte) (ops : List (Nat × Byte)) :
    applySets p (op :: ops) = applySets (p.set op.1 op.2) ops := rfl

theorem paintAll_cons (p : List Byte) (w : Nat × PaletteRGB) (ws : List (Nat × PaletteRGB)) :
    paintAll p (w :: ws) = paintAll (paintPixel p w.1 w.2) ws := rfl

theorem paintAll_eq_applySets (ws : List (Nat × PaletteRGB)) :
    ∀ p : List Byte, paintAll p ws = applySets p (ws.flatMap pixelBytes) := by
  induction ws with
  | nil => intro p; rfl
  | cons w ws ih =>
    intro p
    rw [paintAll_cons, List.flatMap_cons, applySets_append, ih]
    rfl

/-- A store absorbs an earlier store at the same index. -/
theorem applySets_set_absorb (i : Nat) (b : Byte) (ops : List (Nat × Byte)) :
    ∀ l : List Byte, (applySets (l.set i b) ops).set i b = (applySets l ops).set i b := by
  induction ops with
  | nil =>
    intro l
    exact List.set_set _ _ _ _
  | cons op ops ih =>
    intro l
    rw [applySets_cons, applySets_cons]
    by_cases h : op.1 = i
    · rw [h, List.set_set]
    · rw [← List.set_comm _ _ _ h, ih]

/-- Repeating a sequence of stores changes nothing. -/
theorem applySets_idem (ops : List (Nat × Byte)) :
    ∀ p : List Byte, applySets (applySets p ops) ops = applySets p ops := by
  induction ops using List.reverseRecOn with
  | nil => intro p; rfl
  | append_singleton ops op ih =>
    intro p
    have h1 : ∀ q : List Byte, applySets q (ops ++ [op]) = (applySets q ops).set op.1 op.2 :=
      fun q => by rw [applySets_append]; rfl
    rw [h1 p, h1, applySets_set_absorb, ih]

/-- A store moves before a sequence of stores at other indices. -/
theorem applySets_set_comm (i : Nat) (b : Byte) (ops : List (Nat × Byte))
    (h : ∀ op ∈ ops, op.1 ≠ i) :
    ∀ l : List Byte, (applySets l ops).set i b = applySets (l.set i b) ops := by
  induction ops with
  | nil => intro l; rfl
  | cons op ops ih =>
    intro l
    rw [applySets_cons, applySets_cons,
      ih (fun q hq => h q (List.mem_cons_of_mem _ hq)),
      List.set_comm _ _ _ (h op (List.mem_cons_self _ _))]

/-- Two sequences of stores at disjoint indices can be exchanged. -/
theorem applySets_comm (ops1 ops2 : List (Nat × Byte))
    (h : ∀ a ∈ ops1, ∀ b ∈ ops2, a.1 ≠ b.1) :
    ∀ p : List Byte, applySets (applySets p ops1) ops2 = applySets (applySets p ops2) ops1 := by
  induction ops2 with
  | nil => intro p; rfl
  | cons op ops ih =>
    intro p
    rw [applySets_cons, applySets_cons,
      applySets_set_comm _ _ ops1 (fun a ha => h a ha op (List.mem_cons_self _ _)),
      ih (fun a ha b hb => h a ha b (List.mem_cons_of_mem _ hb))]

theorem paintAll_idem (ws : List (Nat × PaletteRGB)) (p : List Byte) :
    paintAll (paintAll p ws) ws = paintAll p ws := by
  rw [paintAll_eq_applySets, paintAll_eq_applySets, applySets_idem]

theorem mem_pixelBytes (w : Nat × PaletteRGB) (op : Nat × Byte) (h : op ∈ pixelBytes w) :
    w.1 ≤ op.1 ∧ op.1 < w.1 + 4 := by
  unfold pixelBytes at h
  simp only [List.mem_cons, List.mem_singleton, List.not_mem_nil, or_false] at h
  rcases h with h | h | h | h <;> rw [h] <;> dsimp only <;> omega

/-- Pixel stores at distinct pixels can be exchanged. -/
theorem paintAll_comm (ws1 ws2 : List (Nat × PaletteRGB))
    (h1 : ∀ w ∈ ws1, w.1 % 4 = 0) (h2 : ∀ w ∈ ws2, w.1 % 4 = 0)
    (hd : ∀ a ∈ ws1, ∀ b ∈ ws2, a.1 ≠ b.1) (p : List Byte) :
    paintAll (paintAll p ws1) ws2 = paintAll (paintAll p ws2) ws1 := by
  rw [paintAll_eq_applySets, paintAll_eq_applySets, paintAll_eq_applySets,
    paintAll_eq_applySets]
  apply applySets_comm
  intro a ha b hb
  rw [List.mem_flatMap] at ha hb
  obtain ⟨wa, hwa, hma⟩ := ha
  obtain ⟨wb, hwb, hmb⟩ := hb
  have ra := mem_pixelBytes wa a hma
  have rb := mem_pixelBytes wb b hmb
  have a4 := h1 wa hwa
  have b4 := h2 wb hwb
  have hne := hd wa hwa wb hwb
  omega

/-- A decoding that succeeds on one buffer succeeds on every buffer of the same
length, with the same log, and performs on each the stores of that log, which
are aligned on pixels and lie inside the buffer. -/
theorem decodeTileLog_of_ok (v : Region) (blocks : List Block) (pixels out : List Byte)
    (tileYOffset tileWidth : Int)
    (h : decodeTileGfxData v blocks pixels tileYOffset tileWidth = .ok out) :
    (∀ p : List Byte, p.length = pixels.length →
      decodeTileLog v blocks p tileYOffset tileWidth
        = ((decodeTileLog v blocks pixels tileYOffset tileWidth).1,
            .ok (paintAll p
              (logWrites (decodeTileLog v blocks pixels tileYOffset tileWidth).1)))) ∧
      (∀ wr ∈ logWrites (decodeTileLog v blocks pixels tileYOffset tileWidth).1,
        wr.1 % 4 = 0 ∧ wr.1 + 3 < pixels.length) := by
  obtain ⟨log, hu⟩ := decodeTileLog_uniform v tileYOffset tileWidth pixels.length blocks
  rcases hu with ⟨e, he⟩ | ⟨hok, hin⟩
  · have h1 := he pixels rfl
    rw [← decodeTileLog_result, h1] at h
    cases h
  · have h1 : (decodeTileLog v blocks pixels tileYOffset tileWidth).1 = log := by
      rw [hok pixels rfl]
    rw [h1]
    exact ⟨hok, hin⟩

theorem decodeTileGfxData_of_ok (v : Region) (blocks : List Block) (pixels out : List Byte)
    (tileYOffset tileWidth : Int)
    (h : decodeTileGfxData v blocks pixels tileYOffset tileWidth = .ok out) :
    ∀ p : List Byte, p.length = pixels.length →
      decodeTileGfxData v blocks p tileYOffset tileWidth
        = .ok (paintAll p (logWrites (decodeTileLog v blocks pixels tileYOffset tileWidth).1)) := by
  intro p hp
  rw [← decodeTileLog_result,
    (decodeTileLog_of_ok v blocks pixels out tileYOffset tileWidth h).1 p hp]

/-! ### Decode idempotence (C13) -/

/-- C13: decode idempotence. For every block list, palette, vertical offset,
destination width and destination buffer on which `decodeTileGfxData` succeeds
(all reads and writes in range): decoding the decoded buffer again with the
same arguments succeeds and returns it unchanged; the decoded buffer is the
initial buffer with the pixel stores of the log applied in order, and so is the
result on every initial buffer of the same length; and two decodes of the same
blocks, palette, offset and width into equal initial buffers have equal
results. -/
theorem decode_idempotent (v : Region) (blocks : List Block) (tileYOffset tileWidth : Int) :
    (∀ pixels out : List Byte,
      decodeTileGfxData v blocks pixels tileYOffset tileWidth = .ok out →
      decodeTileGfxData v blocks out tileYOffset tileWidth = .ok out ∧
      out = paintAll pixels (logWrites (decodeTileLog v blocks pixels tileYOffset tileWidth).1) ∧
      ∀ p : List Byte, p.length = pixels.length →
        decodeTileGfxData v blocks p tileYOffset tileWidth
          = .ok (paintAll p
              (logWrites (decodeTileLog v blocks pixels tileYOffset tileWidth).1))) ∧
    (∀ p1 p2 : List Byte, p1 = p2 →
      decodeTileGfxData v blocks p1 tileYOffset tileWidth
        = decodeTileGfxData v blocks p2 tileYOffset tileWidth) := by
  refine ⟨fun pixels out h => ?_, fun p1 p2 h12 => by rw [h12]⟩
  have hall := decodeTileGfxData_of_ok v blocks pixels out tileYOffset tileWidth h
  have hout : out = paintAll pixels
      (logWrites (decodeTileLog v blocks pixels tileYOffset tileWidth).1) := by
    have h1 := hall pixels rfl
    rw [h] at h1
    cases h1
    rfl
  refine ⟨?_, hout, hall⟩
  have h2 := hall out (by rw [hout, paintAll_length])
  rw [h2]
  conv => rhs; rw [hout]
  rw [hout, paintAll_idem]

/-- Witness of C13: `sampleRLEBlock` decoded into the buffer it was already
decoded into leaves that buffer unchanged. -/
theorem decode_idempotent_witness :
    decodeTileGfxData sampleRegion [sampleRLEBlock]
        [0, 0, 0, 0, 0, 0, 0, 0, 5, 5, 5, 255, 6, 6, 6, 255, 7, 7, 7, 255,
          0, 0, 0, 0, 0, 0, 0, 0, 0, 0, 0, 0] 0 8
      = .ok [0, 0, 0, 0, 0, 0, 0, 0, 5, 5, 5, 255, 6, 6, 6, 255, 7, 7, 7, 255,
          0, 0, 0, 0, 0, 0, 0, 0, 0, 0, 0, 0] :=
  ((decode_idempotent sampleRegion [sampleRLEBlock] 0 8).1 (List.replicate 32 0) _
    (by rfl)).1

/-! ### Order independence of composition (C15) -/

theorem decodeTileGfxData_append (v : Region) (blocksA blocksB : List Block)
    (tileYOffset tileWidth : Int) :
    ∀ pixels : List Byte,
      decodeTileGfxData v (blocksA ++ blocksB) pixels tileYOffset tileWidth
        = (decodeTileGfxData v blocksA pixels tileYOffset tileWidth).bind
            (fun p => decodeTileGfxData v blocksB p tileYOffset tileWidth) := by
  induction blocksA with
  | nil => intro pixels; rfl
  | cons b bs ih =>
    intro pixels
    rw [List.cons_append, decodeTileGfxData, decodeTileGfxData]
    cases h : decodeBlock v.Palette b pixels tileYOffset tileWidth with
    | error e => rfl
    | ok s =>
      dsimp only [bind, Except.bind]
      exact ih _

/-- C15: order independence of composition. Decoding the concatenated list
A ++ B is decoding A and then decoding B into the result. When decoding A and
then B into a buffer succeeds (all accesses in range) and no destination pixel,
identified by its byte offset in the buffer, receives a store (a non-zero
colour index) from both A and B, then decoding B and then A into the same
buffer succeeds too and yields the same buffer, which is also the result of
decoding A ++ B and of decoding B ++ A. -/
theorem decode_order_independent (v : Region) (blocksA blocksB : List Block)
    (pixels : List Byte) (tileYOffset tileWidth : Int) :
    decodeTileGfxData v (blocksA ++ blocksB) pixels tileYOffset tileWidth
        = (decodeTileGfxData v blocksA pixels tileYOffset tileWidth).bind
            (fun p => decodeTileGfxData v blocksB p tileYOffset tileWidth) ∧
    (∀ a out : List Byte,
      decodeTileGfxData v blocksA pixels tileYOffset tileWidth = .ok a →
      decodeTileGfxData v blocksB a tileYOffset tileWidth = .ok out →
      (∀ wa ∈ logWrites (decodeTileLog v blocksA pixels tileYOffset tileWidth).1,
        ∀ wb ∈ logWrites (decodeTileLog v blocksB a tileYOffset tileWidth).1,
          wa.1 ≠ wb.1) →
      ∃ b : List Byte,
        decodeTileGfxData v blocksB pixels tileYOffset tileWidth = .ok b ∧
        decodeTileGfxData v blocksA b tileYOffset tileWidth = .ok out ∧
        decodeTileGfxData v (blocksA ++ blocksB) pixels tileYOffset tileWidth = .ok out ∧
        decodeTileGfxData v (blocksB ++ blocksA) pixels tileYOffset tileWidth = .ok out) := by
  refine ⟨decodeTileGfxData_append v blocksA blocksB tileYOffset tileWidth pixels,
    fun a out hA hB hd => ?_⟩
  obtain ⟨-, hinA⟩ := decodeTileLog_of_ok v blocksA pixels a tileYOffset tileWidth hA
  obtain ⟨-, hinB⟩ := decodeTileLog_of_ok v blocksB a out tileYOffset tileWidth hB
  have hallA := decodeTileGfxData_of_ok v blocksA pixels a tileYOffset tileWidth hA
  have hallB := decodeTileGfxData_of_ok v blocksB a out tileYOffset tileWidth hB
  generalize logWrites (decodeTileLog v blocksB a tileYOffset tileWidth).1 = writesB
    at hinB hallB hd
  generalize logWrites (decodeTileLog v blocksA pixels tileYOffset tileWidth).1 = writesA
    at hinA hallA hd
  have ha : a = paintAll pixels writesA := by
    have h1 := hallA pixels rfl
    rw [hA] at h1
    cases h1
    rfl
  have hout : out = paintAll a writesB := by
    have h1 := hallB a rfl
    rw [hB] at h1
    cases h1
    rfl
  have hlen : a.length = pixels.length := by
    rw [ha, paintAll_length]
  have hb := hallB pixels hlen.symm
  have hba := hallA (paintAll pixels writesB) (by rw [paintAll_length])
  have hcomm : paintAll (paintAll pixels writesB) writesA = out := by
    rw [hout, ha]
    exact (paintAll_comm _ _ (fun w hw => (hinA w hw).1) (fun w hw => (hinB w hw).1) hd
      pixels).symm
  rw [hcomm] at hba
  refine ⟨_, hb, hba, ?_, ?_⟩
  · rw [decodeTileGfxData_append, hA]
    exact hB
  · rw [decodeTileGfxData_append, hb]
    exact hba

/-- Witness of C15: `sampleRLEBlock` (pixels 2, 3, 4 of row 0) and the block
`dotBlock 0 0 9` (pixel 0 of row 0), decoded into a zeroed row of 8 pixels in
either order, give the same buffer. -/
theorem decode_order_independent_witness :
    ∃ b : List Byte,
      decodeTileGfxData sampleRegion [dotBlock 0 0 9] (List.replicate 32 0) 0 8 = .ok b ∧
      decodeTileGfxData sampleRegion [sampleRLEBlock] b 0 8
        = .ok [9, 9, 9, 255, 0, 0, 0, 0, 5, 5, 5, 255, 6, 6, 6, 255, 7, 7, 7, 255,
            0, 0, 0, 0, 0, 0, 0, 0, 0, 0, 0, 0] :=
  have h := (decode_order_independent sampleRegion [sampleRLEBlock] [dotBlock 0 0 9]
    (List.replicate 32 0) 0 8).2 _ _ (by rfl) (by rfl) (by decide)
  h.imp (fun _ hb => ⟨hb.1, hb.2.1⟩)

/-! ### Diamond confinement (C19) -/

/-- The buffer of a decoded block is the initial buffer with the pixel stores
of the log applied in order. -/
theorem decodeBlock_of_ok (pal : PaletteRec) (block : Block) (pixels : List Byte)
    (tileYOffset tileWidth : Int) (s : DecodeState)
    (h : decodeBlock pal block pixels tileYOffset tileWidth = .ok s) :
    s.pixels
      = paintAll pixels (logWrites (decodeBlockLog pal block pixels tileYOffset tileWidth).1) := by
  have h1 := decodeTileGfxData_single ⟨[], ⟨[]⟩, pal, emptyCache, emptyCache, emptyCache⟩ block
    pixels tileYOffset tileWidth s h
  have h2 := decodeTileGfxData_of_ok ⟨[], ⟨[]⟩, pal, emptyCache, emptyCache, emptyCache⟩ [block]
    pixels s.pixels tileYOffset tileWidth h1 pixels rfl
  rw [h1] at h2
  have hres : (decodeBlockLog pal block pixels tileYOffset tileWidth).2 = .ok s := by
    rw [decodeBlockLog_result]
    exact h
  have hlog : (decodeTileLog ⟨[], ⟨[]⟩, pal, emptyCache, emptyCache, emptyCache⟩ [block] pixels
      tileYOffset tileWidth).1 = (decodeBlockLog pal block pixels tileYOffset tileWidth).1 := by
    rw [decodeTileLog]
    dsimp only
    rw [hres]
    dsimp only
    rw [decodeTileLog]
    exact List.append_nil _
  rw [hlog] at h2
  injection h2

/-- Every pixel store of a log is at the offset of one of its stores. -/
theorem logWrites_mem_stores (log : List DecodeEvent) (w : Nat × PaletteRGB)
    (h : w ∈ logWrites log) : ∃ o ∈ stores log, w.1 = o.toNat := by
  unfold logWrites at h
  rw [List.mem_filterMap] at h
  obtain ⟨e, he, hw⟩ := h
  cases e with
  | store offset color =>
    refine ⟨offset, ?_, ?_⟩
    · unfold stores
      rw [List.mem_filterMap]
      exact ⟨.store offset color, he, rfl⟩
    · have hw1 : (offset.toNat, color) = w := Option.some.inj hw
      rw [← hw1]
  | iteration a b => cases hw
  | table a => cases hw
  | read a => cases hw
  | visit a b => cases hw
  | exit a b => cases hw

/-- C19: diamond confinement. For every row y of 0..14, 2*xjump[y] + nbpix[y] =
32. For every isometric block, palette, offset, width and buffer: every position
that the decoder handles (reads a byte for) has local coordinates with
0 <= y < 15 and xjump[y] <= x < 32 - xjump[y]; every store is at the offset, at
`int32`, of a destination pixel (col, row) of the rectangle 32 wide and 15 high
with top-left corner (block.X, block.Y + tileYOffset) whose local position was
handled. When that rectangle lies inside the destination (0 <= block.X,
block.X + 32 <= tileWidth, 0 <= block.Y + tileYOffset, and the offsets of its
15 rows fit `int32`), every store offset is exactly 4*(row*tileWidth + col) for
a pixel (col, row) of the rectangle, and that pixel is the buffer pixel of the
offset: column (offset/4) mod tileWidth of row (offset/4) div tileWidth; and
after a decoding without panic every byte of a buffer pixel outside the
rectangle is unchanged. Without that condition the buffer pixel of a store can
lie outside the rectangle. When the block is decoded to the end every byte of
the buffer outside the pixels of the non-zero bytes is unchanged. The positions
of a completely decoded block, the diamond, are exactly those with 0 <= y < 15
and xjump[y] <= x < 32 - xjump[y]; the diamond is symmetric under x -> 31 - x
(about the vertical centre line) and under y -> 14 - y (about row 7). -/
theorem isometric_diamond (pal : PaletteRec) (block : Block) (pixels : List Byte)
    (tileYOffset tileWidth : Int) (hformat : block.Format = .BlockFormatIsometric) :
    (∀ y : Nat, y < 15 → 2 * xjump.getD y 0 + nbpix.getD y 0 = 32) ∧
    (∀ p ∈ visits (decodeBlockLog pal block pixels tileYOffset tileWidth).1,
      0 ≤ p.2 ∧ p.2 < 15 ∧ xjump.getD p.2.toNat 0 ≤ p.1 ∧
        p.1 < 32 - xjump.getD p.2.toNat 0) ∧
    (∀ o ∈ stores (decodeBlockLog pal block pixels tileYOffset tileWidth).1,
      ∃ col row : Int,
        toInt32 block.X ≤ col ∧ col < toInt32 block.X + 32 ∧
        toInt32 block.Y + tileYOffset ≤ row ∧ row < toInt32 block.Y + tileYOffset + 15 ∧
        (col - toInt32 block.X, row - (toInt32 block.Y + tileYOffset))
          ∈ visits (decodeBlockLog pal block pixels tileYOffset tileWidth).1 ∧
        o = toInt32 (4 * (row * tileWidth + col))) ∧
    (0 ≤ toInt32 block.X → toInt32 block.X + 32 ≤ tileWidth →
      0 ≤ toInt32 block.Y + tileYOffset →
      4 * ((toInt32 block.Y + tileYOffset + 15) * tileWidth) ≤ 2147483648 →
      (∀ o ∈ stores (decodeBlockLog pal block pixels tileYOffset tileWidth).1,
        ∃ col row : Int,
          toInt32 block.X ≤ col ∧ col < toInt32 block.X + 32 ∧
          toInt32 block.Y + tileYOffset ≤ row ∧ row < toInt32 block.Y + tileYOffset + 15 ∧
          (col - toInt32 block.X, row - (toInt32 block.Y + tileYOffset))
            ∈ visits (decodeBlockLog pal block pixels tileYOffset tileWidth).1 ∧
          o = 4 * (row * tileWidth + col) ∧
          o / 4 % tileWidth = col ∧ o / 4 / tileWidth = row) ∧
      (∀ s, decodeBlock pal block pixels tileYOffset tileWidth = .ok s →
        ∀ j : Nat,
          ¬ (toInt32 block.X ≤ ((j / 4 : Nat) : Int) % tileWidth ∧
              ((j / 4 : Nat) : Int) % tileWidth < toInt32 block.X + 32 ∧
              toInt32 block.Y + tileYOffset ≤ ((j / 4 : Nat) : Int) / tileWidth ∧
              ((j / 4 : Nat) : Int) / tileWidth < toInt32 block.Y + tileYOffset + 15) →
          s.pixels[j]? = pixels[j]?)) ∧
    (∀ s, decodeBlock pal block pixels tileYOffset tileWidth = .ok s →
      visits (decodeBlockLog pal block pixels tileYOffset tileWidth).1 = visits isoSkeleton) ∧
    (256 ≤ block.EncodedData.length →
      (∀ y i, y < 15 → i < isoRowLength y → isoColor block y i ≠ 0 →
        0 ≤ isoOffset block tileYOffset tileWidth y i ∧
        isoOffset block tileYOffset tileWidth y i + 3 < pixels.length) →
      ∃ s, decodeBlock pal block pixels tileYOffset tileWidth = .ok s ∧
        ∀ j : Nat, (∀ y i, y < 15 → i < isoRowLength y → isoColor block y i ≠ 0 →
            ¬ ((isoOffset block tileYOffset tileWidth y i).toNat ≤ j ∧
              j < (isoOffset block tileYOffset tileWidth y i).toNat + 4)) →
          s.pixels[j]? = pixels[j]?) ∧
    (∀ x y : Int,
      ((x, y) ∈ visits isoSkeleton ↔
        0 ≤ y ∧ y < 15 ∧ xjump.getD y.toNat 0 ≤ x ∧ x < 32 - xjump.getD y.toNat 0) ∧
      ((x, y) ∈ visits isoSkeleton ↔ (31 - x, y) ∈ visits isoSkeleton) ∧
      ((x, y) ∈ visits isoSkeleton ↔ (x, 14 - y) ∈ visits isoSkeleton)) := by
  obtain ⟨hpre, hok⟩ := decodeBlockLog_isometric pal block pixels tileYOffset tileWidth hformat
  have hres := decodeBlockLog_result pal block pixels tileYOffset tileWidth
  have hbounds : ∀ p ∈ visits (decodeBlockLog pal block pixels tileYOffset tileWidth).1,
      0 ≤ p.2 ∧ p.2 < 15 ∧ xjump.getD p.2.toNat 0 ≤ p.1 ∧
        p.1 < 32 - xjump.getD p.2.toNat 0 := by
    intro p hp
    rw [← visits_skeleton] at hp
    have hmem := isPrefix_mem _ _ (isPrefix_filterMap _ _ _ hpre) p hp
    exact (mem_visits_isoSkeleton p.1 p.2).mp hmem
  have hst : ∀ o ∈ stores (decodeBlockLog pal block pixels tileYOffset tileWidth).1,
      ∃ p ∈ visits (decodeBlockLog pal block pixels tileYOffset tileWidth).1,
        o = pixelOffset (toInt32 block.X) (toInt32 block.Y) p.1 p.2 tileYOffset
          tileWidth := by
    unfold decodeBlockLog
    rw [if_pos hformat]
    exact isoOuterLog_stores _ _ _ _ _ _ _ _
  refine ⟨fun y hy => (xjump_symmetric y hy).2.2.2.1, hbounds, ?_, ?_, ?_, ?_, ?_⟩
  · intro o ho
    obtain ⟨p, hp, hop⟩ := hst o ho
    obtain ⟨b0, b1, b2, b3⟩ := hbounds p hp
    have hJ := (xjump_symmetric p.2.toNat (by omega)).2.2.1
    generalize xjump.getD p.2.toNat 0 = J at b2 b3 hJ
    refine ⟨toInt32 block.X + p.1, toInt32 block.Y + p.2 + tileYOffset, by omega, by omega,
      by omega, by omega, ?_, ?_⟩
    · have hpe : (toInt32 block.X + p.1 - toInt32 block.X,
          toInt32 block.Y + p.2 + tileYOffset - (toInt32 block.Y + tileYOffset)) = p :=
        Prod.ext (by dsimp only; omega) (by dsimp only; omega)
      rw [hpe]
      exact hp
    · rw [hop, pixelOffset_eq_toInt32]
  · intro hx0 hx1 hy0 hfit
    have hfits := isoOffset_of_fits block tileYOffset tileWidth hx0 hx1 hy0 hfit
    have hinside : ∀ o ∈ stores (decodeBlockLog pal block pixels tileYOffset tileWidth).1,
        ∃ col row : Int,
          toInt32 block.X ≤ col ∧ col < toInt32 block.X + 32 ∧
          toInt32 block.Y + tileYOffset ≤ row ∧ row < toInt32 block.Y + tileYOffset + 15 ∧
          (col - toInt32 block.X, row - (toInt32 block.Y + tileYOffset))
            ∈ visits (decodeBlockLog pal block pixels tileYOffset tileWidth).1 ∧
          o = 4 * (row * tileWidth + col) ∧
          o / 4 % tileWidth = col ∧ o / 4 / tileWidth = row := by
      intro o ho
      obtain ⟨p, hp, hop⟩ := hst o ho
      obtain ⟨b0, b1, b2, b3⟩ := hbounds p hp
      obtain ⟨-, -, hJ, hsum, hN⟩ := xjump_symmetric p.2.toNat (by omega)
      have hlen : (p.1 - xjump.getD p.2.toNat 0).toNat < isoRowLength p.2.toNat := by
        unfold isoRowLength
        generalize xjump.getD p.2.toNat 0 = J at b2 b3 hJ hsum
        generalize nbpix.getD p.2.toNat 0 = N at hsum hN
        omega
      have hcol : isoRowJump p.2.toNat
          + (((p.1 - xjump.getD p.2.toNat 0).toNat : Nat) : Int) = p.1 := by
        unfold isoRowJump
        generalize xjump.getD p.2.toNat 0 = J at b2
        omega
      have hrow : ((p.2.toNat : Nat) : Int) = p.2 := Int.toNat_of_nonneg b0
      have hoff := (hfits.1 p.2.toNat (p.1 - xjump.getD p.2.toNat 0).toNat (by omega) hlen).1
      unfold isoOffset at hoff
      rw [hcol, hrow] at hoff
      have hp1 : 0 ≤ p.1 ∧ p.1 < 32 := by
        generalize xjump.getD p.2.toNat 0 = J at b2 b3 hJ
        omega
      have hw : tileWidth ≠ 0 := by omega
      have hpe : (toInt32 block.X + p.1 - toInt32 block.X,
          toInt32 block.Y + p.2 + tileYOffset - (toInt32 block.Y + tileYOffset)) = p :=
        Prod.ext (by dsimp only; omega) (by dsimp only; omega)
      refine ⟨toInt32 block.X + p.1, toInt32 block.Y + p.2 + tileYOffset, by omega, by omega,
        by omega, by omega, ?_, ?_, ?_, ?_⟩
      · rw [hpe]
        exact hp
      · rw [hop]
        exact hoff
      · rw [hop, hoff, Int.mul_ediv_cancel_left _ (by norm_num : (4 : Int) ≠ 0), Int.add_comm,
          Int.add_mul_emod_self]
        exact Int.emod_eq_of_lt (by omega) (by omega)
      · rw [hop, hoff, Int.mul_ediv_cancel_left _ (by norm_num : (4 : Int) ≠ 0), Int.add_comm,
          Int.add_mul_ediv_right _ _ hw, Int.ediv_eq_zero_of_lt (by omega) (by omega)]
        omega
    refine ⟨hinside, fun s hs j hj => ?_⟩
    rw [decodeBlock_of_ok pal block pixels tileYOffset tileWidth s hs]
    apply paintAll_getElem?_of_not_covered
    intro w hw hcov
    obtain ⟨o, ho, hwo⟩ := logWrites_mem_stores _ w hw
    obtain ⟨col, row, c0, c1, r0, r1, -, hoeq, hcol, hrow⟩ := hinside o ho
    apply hj
    have hmul : 0 ≤ row * tileWidth := Int.mul_nonneg (by omega) (by omega)
    rw [hoeq, Int.mul_ediv_cancel_left _ (by norm_num : (4 : Int) ≠ 0)] at hcol hrow
    have hj4 : ((j / 4 : Nat) : Int) = row * tileWidth + col := by
      rw [hwo, hoeq] at hcov
      generalize row * tileWidth = K at hcov hmul
      omega
    rw [hj4, hcol, hrow]
    exact ⟨c0, c1, r0, r1⟩
  · intro s hs
    rw [← hres] at hs
    rw [← visits_skeleton, (hok s hs).1]
  · intro hdata hrange
    obtain ⟨xend, h⟩ := decodeBlock_isometric pal block pixels tileYOffset tileWidth hformat
      hdata hrange
    refine ⟨_, h, fun j hj => ?_⟩
    apply paintAll_getElem?_of_not_covered
    intro w hw
    rw [mem_isoWrites] at hw
    obtain ⟨y, i, hy, hi, hc, rfl⟩ := hw
    exact hj y i hy hi hc
  · intro x y
    refine ⟨mem_visits_isoSkeleton x y, ?_, ?_⟩
    · rw [mem_visits_isoSkeleton, mem_visits_isoSkeleton]
      generalize xjump.getD y.toNat 0 = J
      constructor
      · rintro ⟨h0, h1, h2, h3⟩
        exact ⟨h0, h1, by omega, by omega⟩
      · rintro ⟨h0, h1, h2, h3⟩
        exact ⟨h0, h1, by omega, by omega⟩
    · rw [mem_visits_isoSkeleton, mem_visits_isoSkeleton]
      constructor
      · rintro ⟨h0, h1, h2, h3⟩
        have hsym := (xjump_symmetric y.toNat (by omega)).1
        have hn : (14 - y).toNat = 14 - y.toNat := by omega
        rw [hn, hsym]
        exact ⟨by omega, by omega, h2, h3⟩
      · rintro ⟨h0, h1, h2, h3⟩
        have hsym := (xjump_symmetric y.toNat (by omega)).1
        have hn : (14 - y).toNat = 14 - y.toNat := by omega
        rw [hn, hsym] at h2 h3
        exact ⟨by omega, by omega, h2, h3⟩

/-- Witness of C19: the block `onesBlock` is decoded to the end into a zeroed
buffer of 15 rows of 32 pixels, the positions handled are those of the
diamond, and every store is at a buffer pixel of rows 0 to 14 and columns 0 to
31. -/
theorem isometric_diamond_witness :
    (∃ s, decodeBlock onesRegion.Palette onesBlock (List.replicate 1920 0) 0 32 = .ok s) ∧
      visits (decodeBlockLog onesRegion.Palette onesBlock (List.replicate 1920 0) 0 32).1
        = visits isoSkeleton ∧
      ∀ o ∈ stores (decodeBlockLog onesRegion.Palette onesBlock (List.replicate 1920 0) 0 32).1,
        0 ≤ o / 4 % 32 ∧ o / 4 % 32 < 32 ∧ 0 ≤ o / 4 / 32 ∧ o / 4 / 32 < 15 := by
  have h := isometric_diamond onesRegion.Palette onesBlock (List.replicate 1920 0) 0 32 rfl
  have hfits := isoOffset_of_fits onesBlock 0 32 (by decide) (by decide) (by decide)
    (by decide)
  have hin := (h.2.2.2.1 (by decide) (by decide) (by decide) (by decide)).1
  obtain ⟨s, hs, -⟩ := h.2.2.2.2.2.1
    (by
      show 256 ≤ (List.replicate 256 (1 : Byte)).length
      rw [List.length_replicate])
    (fun y i hy hi _ => by
      obtain ⟨-, h0, h1⟩ := hfits.1 y i hy hi
      refine ⟨h0, lt_of_lt_of_le h1 ?_⟩
      rw [List.length_replicate]
      decide)
  refine ⟨⟨s, hs⟩, h.2.2.2.2.1 s hs, fun o ho => ?_⟩
  obtain ⟨col, row, c0, c1, r0, r1, -, -, hc, hr⟩ := hin o ho
  have hx : toInt32 onesBlock.X = 0 := by decide
  have hy : toInt32 onesBlock.Y = 0 := by decide
  rw [hx] at c0 c1
  rw [hy] at r0 r1
  rw [hc, hr]
  omega

set_option maxHeartbeats 4000000 in
set_option maxRecDepth 1000000 in
/-- Counterexample to C19 as stated: the isometric block `lastRowBlock` at
(0, 0), decoded with destination width 16 into a zeroed buffer of 16 rows of 16
pixels, is decoded without panic and its one store is at byte offset 960, that
is at buffer pixel 240, column 0 of row 15: a destination pixel outside the
rectangle 32 wide and 15 high at (0, 0), whose rows are 0 to 14. The store is
that of the local position (16, 14), whose offset `4 * (14 * 16 + 16)` is also
the offset of column 0 of row 15; the alpha byte of that pixel changes from 0
to 255. -/
theorem isometric_diamond_needs_block_inside_width :
    lastRowBlock.Format = .BlockFormatIsometric ∧
      toInt32 lastRowBlock.X = 0 ∧ toInt32 lastRowBlock.Y = 0 ∧
      stores (decodeBlockLog onesRegion.Palette lastRowBlock (List.replicate 1024 0) 0 16).1
        = [960] ∧
      pixelOffset 0 0 16 14 0 16 = 960 ∧ (960 / 4 : Int) % 16 = 0 ∧ (960 / 4 : Int) / 16 = 15 ∧
      (List.replicate 1024 (0 : Byte))[963]? = some 0 ∧
      (decodeBlock onesRegion.Palette lastRowBlock (List.replicate 1024 0) 0 16).toOption.map
        (fun s => s.pixels[963]?) = some (some 255) := by
  refine ⟨rfl, by decide, by decide, ?_, by decide, by decide, by decide, ?_, ?_⟩
  · decide
  · simp
  · decide

end OpenDiablo2
